import Mathlib

/-!
# A shallow embedding of the MicroPerl Z80 toolchain

This file embeds, in Lean 4, the parts of the MicroPerl compiler pipeline
(`src/token.rs`, `src/lexer.rs`, `src/ast.rs`, `src/parser.rs`,
`src/bytecode.rs`, `src/compiler.rs`, and the two bytecode-image
serialisers in `src/main.rs` and `src/z80.rs`) that its specification's
claims are about, and proves those claims or exhibits where they fail.

Modelling conventions, used throughout:

* Rust `u8`/`u16` values are `Nat` with the truncating casts written as
  `% 256` / `% 65536` exactly where the source casts.
* Rust `i32` is `Int`.
* Rust `Vec<T>` is `List T`; `push` is append on the right.  Two stacks
  (`Compiler.locals` and `Compiler.loop_stack`) are kept head-first
  (the Lean list head is the Rust `last()` element), which only reverses
  the Vec and is noted at the definition.
* Rust `HashMap<K,V>` is an insertion-ordered association list whose
  `insert` replaces an existing key in place and otherwise appends, so
  `len()` (number of distinct keys) is the list length.  The one place
  the source iterates a `HashMap` (copying `subs` into the module) has
  unspecified order in Rust; the embedding iterates in insertion order,
  and no claim depends on that order.
* Indexing a `Vec` out of bounds panics in Rust; the corresponding
  `List.set` in the embedding is a no-op and `patch_addr` is total.  All
  patch positions reached in the proofs are shown to be in bounds, where
  the two semantics agree.
* Recursive drivers (the lexer's scanning loops, the parser, and the
  compiler) take an explicit fuel argument so that every definition is
  a computable structural recursion; fuel exhaustion is an error value,
  and universally quantified theorems quantify over the fuel.
* Rust `String` is Lean `String` (a sequence of `Char`s, as in Rust);
  `str::as_bytes` is the UTF-8 encoding `strBytes` defined below, and
  `str::len` is its length.
-/

namespace MicroPerl

/-- UTF-8 encoding of one scalar value, the byte sequence Rust's `String`
stores for one `char`. -/
def utf8Bytes (c : Char) : List Nat :=
  let n := c.toNat
  if n < 0x80 then [n]
  else if n < 0x800 then [0xC0 + n / 64, 0x80 + n % 64]
  else if n < 0x10000 then
    [0xE0 + n / 4096, 0x80 + n / 64 % 64, 0x80 + n % 64]
  else
    [0xF0 + n / 262144, 0x80 + n / 4096 % 64, 0x80 + n / 64 % 64, 0x80 + n % 64]

/-- The bytes of a string: Rust `s.as_bytes()`.  `(strBytes s).length` is
Rust `s.len()`. -/
def strBytes (s : String) : List Nat :=
  s.data.foldr (fun c acc => utf8Bytes c ++ acc) []

/-! ## `src/bytecode.rs`: the instruction set -/

/-- Bytecode opcodes (`enum Op` in `src/bytecode.rs`). -/
inductive Op where
  | Nop | Push | PushByte | Pop | Dup | Swap | Over
  | LoadLocal | StoreLocal | LoadGlobal | StoreGlobal
  | PushStr | StrLen | StrCat | StrIdx | StrCmp | Substr
  | NewArray | ArrLen | ArrGet | ArrSet | ArrPush | ArrPop
  | NewHash | HashGet | HashSet | HashDel | HashKeys
  | Add | Sub | Mul | Div | Mod | Neg | Inc | Dec
  | BitAnd | BitOr | BitXor | BitNot | Shl | Shr
  | CmpEq | CmpNe | CmpLt | CmpGt | CmpLe | CmpGe | Cmp
  | StrEq | StrNe | StrLt | StrGt | StrLe | StrGe
  | Not | And | Or
  | Jump | JumpIf | JumpIfNot | JumpIfDef
  | Call | CallNative | Return | ReturnVal
  | EnterFrame | LeaveFrame
  | Print | PrintStr | PrintNum | PrintChar | PrintLn | Input | InputChar
  | ToNum | ToStr | TypeOf | IsDef
  | Match | Subst
  | Halt | Debug | Invalid
  deriving DecidableEq, Repr

/-- The `#[repr(u8)]` discriminant of each opcode (`Op::X as u8`). -/
def opByte : Op → Nat
  | .Nop => 0x00 | .Push => 0x01 | .PushByte => 0x02 | .Pop => 0x03
  | .Dup => 0x04 | .Swap => 0x05 | .Over => 0x06
  | .LoadLocal => 0x10 | .StoreLocal => 0x11
  | .LoadGlobal => 0x12 | .StoreGlobal => 0x13
  | .PushStr => 0x18 | .StrLen => 0x19 | .StrCat => 0x1A
  | .StrIdx => 0x1B | .StrCmp => 0x1C | .Substr => 0x1D
  | .NewArray => 0x20 | .ArrLen => 0x21 | .ArrGet => 0x22
  | .ArrSet => 0x23 | .ArrPush => 0x24 | .ArrPop => 0x25
  | .NewHash => 0x28 | .HashGet => 0x29 | .HashSet => 0x2A
  | .HashDel => 0x2B | .HashKeys => 0x2C
  | .Add => 0x30 | .Sub => 0x31 | .Mul => 0x32 | .Div => 0x33
  | .Mod => 0x34 | .Neg => 0x35 | .Inc => 0x36 | .Dec => 0x37
  | .BitAnd => 0x38 | .BitOr => 0x39 | .BitXor => 0x3A
  | .BitNot => 0x3B | .Shl => 0x3C | .Shr => 0x3D
  | .CmpEq => 0x40 | .CmpNe => 0x41 | .CmpLt => 0x42
  | .CmpGt => 0x43 | .CmpLe => 0x44 | .CmpGe => 0x45 | .Cmp => 0x46
  | .StrEq => 0x48 | .StrNe => 0x49 | .StrLt => 0x4A
  | .StrGt => 0x4B | .StrLe => 0x4C | .StrGe => 0x4D
  | .Not => 0x50 | .And => 0x51 | .Or => 0x52
  | .Jump => 0x60 | .JumpIf => 0x61 | .JumpIfNot => 0x62 | .JumpIfDef => 0x63
  | .Call => 0x68 | .CallNative => 0x69 | .Return => 0x6A | .ReturnVal => 0x6B
  | .EnterFrame => 0x70 | .LeaveFrame => 0x71
  | .Print => 0x78 | .PrintStr => 0x79 | .PrintNum => 0x7A
  | .PrintChar => 0x7B | .PrintLn => 0x7C | .Input => 0x7D | .InputChar => 0x7E
  | .ToNum => 0x80 | .ToStr => 0x81 | .TypeOf => 0x82 | .IsDef => 0x83
  | .Match => 0x88 | .Subst => 0x89
  | .Halt => 0xF0 | .Debug => 0xFE | .Invalid => 0xFF

/-- `Op::size`: instruction size in bytes, including operands. -/
def Op.size : Op → Nat
  | .Nop | .Pop | .Dup | .Swap | .Over
  | .StrLen | .StrCat | .StrIdx | .StrCmp | .Substr
  | .ArrLen | .ArrGet | .ArrSet | .ArrPush | .ArrPop
  | .NewHash | .HashGet | .HashSet | .HashDel | .HashKeys
  | .Add | .Sub | .Mul | .Div | .Mod | .Neg | .Inc | .Dec
  | .BitAnd | .BitOr | .BitXor | .BitNot | .Shl | .Shr
  | .CmpEq | .CmpNe | .CmpLt | .CmpGt | .CmpLe | .CmpGe | .Cmp
  | .StrEq | .StrNe | .StrLt | .StrGt | .StrLe | .StrGe
  | .Not | .And | .Or
  | .Return | .ReturnVal | .LeaveFrame
  | .Print | .PrintStr | .PrintNum | .PrintChar | .PrintLn
  | .Input | .InputChar
  | .ToNum | .ToStr | .TypeOf | .IsDef
  | .Match | .Subst
  | .Halt | .Debug | .Invalid => 1
  | .PushByte | .LoadLocal | .StoreLocal
  | .NewArray | .CallNative | .EnterFrame => 2
  | .Push | .LoadGlobal | .StoreGlobal | .PushStr
  | .Jump | .JumpIf | .JumpIfNot | .JumpIfDef | .Call => 3

/-- `Op::from_byte`. -/
def Op.fromByte (b : Nat) : Op :=
  match b with
  | 0x00 => .Nop | 0x01 => .Push | 0x02 => .PushByte | 0x03 => .Pop
  | 0x04 => .Dup | 0x05 => .Swap | 0x06 => .Over
  | 0x10 => .LoadLocal | 0x11 => .StoreLocal
  | 0x12 => .LoadGlobal | 0x13 => .StoreGlobal
  | 0x18 => .PushStr | 0x19 => .StrLen | 0x1A => .StrCat
  | 0x1B => .StrIdx | 0x1C => .StrCmp | 0x1D => .Substr
  | 0x20 => .NewArray | 0x21 => .ArrLen | 0x22 => .ArrGet
  | 0x23 => .ArrSet | 0x24 => .ArrPush | 0x25 => .ArrPop
  | 0x28 => .NewHash | 0x29 => .HashGet | 0x2A => .HashSet
  | 0x2B => .HashDel | 0x2C => .HashKeys
  | 0x30 => .Add | 0x31 => .Sub | 0x32 => .Mul | 0x33 => .Div
  | 0x34 => .Mod | 0x35 => .Neg | 0x36 => .Inc | 0x37 => .Dec
  | 0x38 => .BitAnd | 0x39 => .BitOr | 0x3A => .BitXor
  | 0x3B => .BitNot | 0x3C => .Shl | 0x3D => .Shr
  | 0x40 => .CmpEq | 0x41 => .CmpNe | 0x42 => .CmpLt
  | 0x43 => .CmpGt | 0x44 => .CmpLe | 0x45 => .CmpGe | 0x46 => .Cmp
  | 0x48 => .StrEq | 0x49 => .StrNe | 0x4A => .StrLt
  | 0x4B => .StrGt | 0x4C => .StrLe | 0x4D => .StrGe
  | 0x50 => .Not | 0x51 => .And | 0x52 => .Or
  | 0x60 => .Jump | 0x61 => .JumpIf | 0x62 => .JumpIfNot | 0x63 => .JumpIfDef
  | 0x68 => .Call | 0x69 => .CallNative | 0x6A => .Return | 0x6B => .ReturnVal
  | 0x70 => .EnterFrame | 0x71 => .LeaveFrame
  | 0x78 => .Print | 0x79 => .PrintStr | 0x7A => .PrintNum
  | 0x7B => .PrintChar | 0x7C => .PrintLn | 0x7D => .Input | 0x7E => .InputChar
  | 0x80 => .ToNum | 0x81 => .ToStr | 0x82 => .TypeOf | 0x83 => .IsDef
  | 0x88 => .Match | 0x89 => .Subst
  | 0xF0 => .Halt | 0xFE => .Debug
  | _ => .Invalid

/-! ## `src/bytecode.rs`: the compiled module -/

/-- `struct Module`: the compiled bytecode module.  `subs` entries are
`(name, address, num_params)`. -/
structure Module where
  strings : List String
  globals : List String
  subs : List (String × Nat × Nat)
  code : List Nat
  entry : Nat
  deriving DecidableEq, Repr

/-- `Module::new`. -/
def Module.new : Module :=
  { strings := [], globals := [], subs := [], code := [], entry := 0 }

/-- First index of `s` in `l` (`Iterator::position` over string equality). -/
def findPos (s : String) : List String → Option Nat
  | [] => none
  | x :: rest => if x = s then some 0 else (findPos s rest).map (· + 1)

/-- `Module::add_string`: intern a string in the constant pool and return
its index (truncated to `u16` as in the source's `as u16` casts). -/
def Module.add_string (m : Module) (s : String) : Nat × Module :=
  match findPos s m.strings with
  | some idx => (idx % 65536, m)
  | none => (m.strings.length % 65536, { m with strings := m.strings ++ [s] })

/-- `Module::emit`: append a bare opcode byte. -/
def Module.emit (m : Module) (op : Op) : Module :=
  { m with code := m.code ++ [opByte op] }

/-- `Module::emit_byte`: opcode plus one operand byte (the callers all pass
a `u8`, i.e. a value already reduced mod 256; the mod here makes that cast
explicit). -/
def Module.emit_byte (m : Module) (op : Op) (b : Nat) : Module :=
  { m with code := m.code ++ [opByte op, b % 256] }

/-- `Module::emit_word`: opcode plus a little-endian 16-bit operand (the
callers pass a `u16`; the mods are the source's byte casts). -/
def Module.emit_word (m : Module) (op : Op) (w : Nat) : Module :=
  { m with code := m.code ++ [opByte op, w % 256, w / 256 % 256] }

/-- `Module::pos`: current code position, as a `u16`. -/
def Module.pos (m : Module) : Nat :=
  m.code.length % 65536

/-- `Module::patch_addr`: overwrite the two little-endian bytes at
`pos`, `pos + 1` with `addr` (a `u16` in the source). -/
def Module.patch_addr (m : Module) (pos : Nat) (addr : Nat) : Module :=
  { m with code := (m.code.set pos (addr % 256)).set (pos + 1) (addr / 256 % 256) }

/-! ## The bytecode-image serialisers

`generate_binary` lives in `src/main.rs` and `generate_bytecode_image` in
`src/z80.rs`; each lays the module out as header, code, string table. -/

/-- `generate_binary` (`src/main.rs`). -/
def generate_binary (m : Module) : List Nat :=
  let binary : List Nat := [77, 80, 76, 1]
  let string_table_offset := (10 + m.code.length % 65536) % 65536
  let binary := binary ++ [string_table_offset % 256, string_table_offset / 256 % 256]
  let binary := binary ++ [m.code.length % 256, m.code.length / 256 % 256]
  let binary := binary ++ [m.entry % 256, m.entry / 256 % 256]
  let binary := binary ++ m.code
  let binary := binary ++ [m.strings.length % 256]
  m.strings.foldl (fun b s => b ++ ((strBytes s).length % 256 :: strBytes s)) binary

/-- `generate_bytecode_image` (`src/z80.rs`). -/
def generate_bytecode_image (m : Module) : List Nat :=
  let img : List Nat := [77, 80, 76, 1]
  let string_table_offset := (10 + m.code.length % 65536) % 65536
  let img := img ++ [string_table_offset % 256, string_table_offset / 256 % 256]
  let img := img ++ [m.code.length % 256, m.code.length / 256 % 256]
  let img := img ++ [m.entry % 256, m.entry / 256 % 256]
  let img := img ++ m.code
  let img := img ++ [m.strings.length % 256]
  m.strings.foldl (fun b s => b ++ ((strBytes s).length % 256 :: strBytes s)) img

/-! ## `src/token.rs`: tokens -/

/-- Alias used for payload types, so that constructor names such as
`Token.String` cannot shadow the payload's type. -/
abbrev Str := String

/-- `enum Token` (`src/token.rs`).  An integer literal is an `i32`; a float
literal is carried as its source text (a claim never consumes the `f64`
value, and `Expr::Float` is truncated to an integer by the compiler — see
`floatTruncU16`). -/
inductive Token where
  | Integer (n : Int)
  | Float (text : List Char)
  | String (s : Str)
  | Regex (pattern flags : Str)
  | ScalarVar (name : Str)
  | ArrayVar (name : Str)
  | HashVar (name : Str)
  | Ident (name : Str)
  | My | Our | Sub | If | Elsif | Else | Unless | While | Until | For | Foreach
  | Last | Next | Return | Print | Say | Use | Package
  | Plus | Minus | Star | Slash | Percent | DoubleStar | Dot | DotEquals
  | Eq | Ne | Lt | Gt | Le | Ge | Cmp
  | StrEq | StrNe | StrLt | StrGt | StrLe | StrGe | StrCmp
  | Match | NotMatch
  | And | Or | Not | AndWord | OrWord | NotWord
  | BitAnd | BitOr | BitXor | BitNot | ShiftLeft | ShiftRight
  | Assign | PlusEquals | MinusEquals | StarEquals | SlashEquals | PercentEquals
  | AndEquals | OrEquals
  | Increment | Decrement
  | LParen | RParen | LBracket | RBracket | LBrace | RBrace
  | Semicolon | Comma | Arrow | FatArrow | Colon | DoubleColon | Range | Ellipsis
  | Backslash | At | Dollar | Question
  | Eof
  deriving BEq

/-- `Token::is_keyword`. -/
def Token.is_keyword (s : Str) : Option Token :=
  match s with
  | "my" => some .My
  | "our" => some .Our
  | "sub" => some .Sub
  | "if" => some .If
  | "elsif" => some .Elsif
  | "else" => some .Else
  | "unless" => some .Unless
  | "while" => some .While
  | "until" => some .Until
  | "for" => some .For
  | "foreach" => some .Foreach
  | "last" => some .Last
  | "next" => some .Next
  | "return" => some .Return
  | "print" => some .Print
  | "say" => some .Say
  | "use" => some .Use
  | "package" => some .Package
  | "eq" => some .StrEq
  | "ne" => some .StrNe
  | "lt" => some .StrLt
  | "gt" => some .StrGt
  | "le" => some .StrLe
  | "ge" => some .StrGe
  | "cmp" => some .StrCmp
  | "and" => some .AndWord
  | "or" => some .OrWord
  | "not" => some .NotWord
  | _ => none

/-- `struct TokenWithSpan`. -/
structure TokenWithSpan where
  token : Token
  line : Nat
  column : Nat
  deriving BEq

/-! ## `src/lexer.rs` -/

/-- Rust `char::is_whitespace` (the Unicode `White_Space` property),
written out as its character set. -/
def isWhitespaceRust (c : Char) : Bool :=
  let n := c.toNat
  n == 0x09 || n == 0x0A || n == 0x0B || n == 0x0C || n == 0x0D || n == 0x20 ||
  n == 0x85 || n == 0xA0 || n == 0x1680 ||
  n == 0x2000 || n == 0x2001 || n == 0x2002 || n == 0x2003 || n == 0x2004 ||
  n == 0x2005 || n == 0x2006 || n == 0x2007 || n == 0x2008 || n == 0x2009 ||
  n == 0x200A || n == 0x2028 || n == 0x2029 || n == 0x202F || n == 0x205F ||
  n == 0x3000

/-- The ASCII letter-or-underscore pattern `'a'..='z' | 'A'..='Z' | '_'`
that starts an identifier.  (`Char.isAlpha` is exactly the two ASCII
ranges.) -/
def isIdentStart (c : Char) : Bool :=
  c.isAlpha || c == '_'

/-- `matches!(self.last_token, Some(Token::Match) | Some(Token::NotMatch))`:
was the most recently emitted token the regex-match or non-match
operator? -/
def isMatchOp : Option Token → Bool
  | some .Match => true
  | some .NotMatch => true
  | _ => false

/-- `struct Lexer`.  `input` is the `Vec<char>` of the source. -/
structure Lexer where
  input : List Char
  pos : Nat
  line : Nat
  column : Nat
  last_token : Option Token

/-- `Lexer::new`. -/
def Lexer.new (input : Str) : Lexer :=
  { input := input.data, pos := 0, line := 1, column := 1, last_token := none }

/-- `Lexer::current`. -/
def Lexer.current (l : Lexer) : Option Char :=
  l.input.get? l.pos

/-- `Lexer::peek`. -/
def Lexer.peek (l : Lexer) : Option Char :=
  l.input.get? (l.pos + 1)

/-- `Lexer::advance`.  Every caller in the source discards the returned
character, so the embedding keeps only the state effect. -/
def Lexer.advance (l : Lexer) : Lexer :=
  match l.current with
  | some ch =>
    if ch = '\n' then { l with pos := l.pos + 1, line := l.line + 1, column := 1 }
    else { l with pos := l.pos + 1, column := l.column + 1 }
  | none => l

/-- Fuel for a lexer scanning loop: enough for one advance per remaining
character. -/
def Lexer.rem (l : Lexer) : Nat :=
  l.input.length - l.pos

/-- The inner comment loop of `Lexer::skip_whitespace` (skip to, but not
past, the next newline). -/
def skipCommentF : Nat → Lexer → Lexer
  | 0, l => l
  | fuel + 1, l =>
    match l.current with
    | some c => if c = '\n' then l else skipCommentF fuel l.advance
    | none => l

/-- The outer loop of `Lexer::skip_whitespace`. -/
def skipWhitespaceF : Nat → Lexer → Lexer
  | 0, l => l
  | fuel + 1, l =>
    match l.current with
    | some c =>
      if isWhitespaceRust c then skipWhitespaceF fuel l.advance
      else if c = '#' then skipWhitespaceF fuel (skipCommentF l.rem l)
      else l
    | none => l

/-- `Lexer::skip_whitespace`. -/
def Lexer.skip_whitespace (l : Lexer) : Lexer :=
  skipWhitespaceF l.rem l

/-- `i32` parse of a digits-only string: `num_str.parse::<i32>().unwrap_or(0)`
(values above `i32::MAX` fail to parse and fall back to 0). -/
def parseI32 (acc : Str) : Int :=
  let v : Nat := acc.data.foldl (fun n c => n * 10 + (c.toNat - 48)) 0
  if v ≤ 2147483647 then (v : Int) else 0

/-- Close a numeric literal: `Token::Float` keeps the literal text (see
`Token`), `Token::Integer` parses it. -/
def finishNumber (acc : Str) (is_float : Bool) : Token :=
  if is_float then Token.Float acc.data else Token.Integer (parseI32 acc)

/-- The scanning loop of `Lexer::read_number` (digits, an optional single
`.` followed by a digit, and `_` separators which are dropped). -/
def readNumberF : Nat → Lexer → Str → Bool → Token × Lexer
  | 0, l, acc, is_float => (finishNumber acc is_float, l)
  | fuel + 1, l, acc, is_float =>
    match l.current with
    | some c =>
      if c.isDigit then readNumberF fuel l.advance (acc.push c) is_float
      else if c = '.' && !is_float then
        match l.peek with
        | some next =>
          if next.isDigit then readNumberF fuel l.advance (acc.push c) true
          else (finishNumber acc is_float, l)
        | none => (finishNumber acc is_float, l)
      else if c = '_' then readNumberF fuel l.advance acc is_float
      else (finishNumber acc is_float, l)
    | none => (finishNumber acc is_float, l)

/-- `Lexer::read_number`. -/
def Lexer.read_number (l : Lexer) : Token × Lexer :=
  readNumberF l.rem l "" false

/-- The escape table of `Lexer::read_string` (any other escaped character
passes through unchanged). -/
def escapeChar (c : Char) : Char :=
  if c = 'n' then '\n'
  else if c = 't' then '\t'
  else if c = 'r' then '\r'
  else if c = '\\' then '\\'
  else if c = '"' then '"'
  else if c = '\'' then '\''
  else if c = '$' then '$'
  else if c = '@' then '@'
  else if c = '0' then Char.ofNat 0
  else c

/-- The scanning loop of `Lexer::read_string` (the opening quote is
already consumed; the source's unused `interpolate` binding is omitted). -/
def readStringF : Nat → Lexer → Char → Str → Token × Lexer
  | 0, l, _, s => (Token.String s, l)
  | fuel + 1, l, quote, s =>
    match l.current with
    | some c =>
      if c = quote then (Token.String s, l.advance)
      else if c = '\\' then
        let l := l.advance
        match l.current with
        | some escaped => readStringF fuel l.advance quote (s.push (escapeChar escaped))
        | none => readStringF fuel l quote s
      else readStringF fuel l.advance quote (s.push c)
    | none => (Token.String s, l)

/-- `Lexer::read_string` (consumes the opening quote, then scans). -/
def Lexer.read_string (l : Lexer) (quote : Char) : Token × Lexer :=
  let l := l.advance
  readStringF l.rem l quote ""

/-- The pattern loop of `Lexer::read_regex`: characters up to the next
unescaped `/` (a backslash keeps itself and the next character). -/
def readRegexPatF : Nat → Lexer → Str → Str × Lexer
  | 0, l, pat => (pat, l)
  | fuel + 1, l, pat =>
    match l.current with
    | some c =>
      if c = '/' then (pat, l.advance)
      else if c = '\\' then
        let l := l.advance
        match l.current with
        | some escaped => readRegexPatF fuel l.advance ((pat.push c).push escaped)
        | none => readRegexPatF fuel l (pat.push c)
      else readRegexPatF fuel l.advance (pat.push c)
    | none => (pat, l)

/-- The flags loop of `Lexer::read_regex`: a run of alphabetic characters.
Rust's `char::is_alphabetic` is Unicode-Alphabetic; the embedding uses its
ASCII part (`Char.isAlpha`), which the claims stay within. -/
def readFlagsF : Nat → Lexer → Str → Str × Lexer
  | 0, l, flags => (flags, l)
  | fuel + 1, l, flags =>
    match l.current with
    | some c =>
      if c.isAlpha then readFlagsF fuel l.advance (flags.push c)
      else (flags, l)
    | none => (flags, l)

/-- `Lexer::read_regex`: consume the opening `/`, the pattern, then the
flags. -/
def Lexer.read_regex (l : Lexer) : Token × Lexer :=
  let l := l.advance
  let (pattern, l) := readRegexPatF l.rem l ""
  let (flags, l) := readFlagsF l.rem l ""
  (Token.Regex pattern flags, l)

/-- The loop of `Lexer::read_ident` (alphanumeric or `_`; Rust's
`is_alphanumeric` is Unicode, the embedding uses its ASCII part). -/
def readIdentF : Nat → Lexer → Str → Str × Lexer
  | 0, l, ident => (ident, l)
  | fuel + 1, l, ident =>
    match l.current with
    | some c =>
      if c.isAlphanum || c = '_' then readIdentF fuel l.advance (ident.push c)
      else (ident, l)
    | none => (ident, l)

/-- `Lexer::read_ident`. -/
def Lexer.read_ident (l : Lexer) : Str × Lexer :=
  readIdentF l.rem l ""

/-- `Lexer::read_variable`: consume the sigil, read the name.  The
source's `_ => unreachable!()` arm (the sigil is always `$`, `@` or `%`)
is mapped to `ScalarVar`. -/
def Lexer.read_variable (l : Lexer) (sigil : Char) : Token × Lexer :=
  let l := l.advance
  let (name, l) := l.read_ident
  if sigil = '@' then (Token.ArrayVar name, l)
  else if sigil = '%' then (Token.HashVar name, l)
  else (Token.ScalarVar name, l)

/-- The token dispatch of `Lexer::next_token` (everything after the
whitespace skip and span capture). -/
def Lexer.token_dispatch (l : Lexer) : Token × Lexer :=
  match l.current with
  | none => (Token.Eof, l)
  | some c =>
    if c = '$' then l.read_variable '$'
    else if c = '@' then
      match l.peek with
      | some next =>
        if next.isAlpha || next = '_' then l.read_variable '@'
        else (Token.At, l.advance)
      | none => (Token.At, l.advance)
    else if c = '%' then
      match l.peek with
      | some next =>
        if next.isAlpha || next = '_' then l.read_variable '%'
        else if next = '=' then (Token.PercentEquals, l.advance.advance)
        else (Token.Percent, l.advance)
      | none => (Token.Percent, l.advance)
    else if c = '"' || c = '\'' then l.read_string c
    else if c.isDigit then l.read_number
    else if isIdentStart c then
      let (ident, l) := l.read_ident
      ((Token.is_keyword ident).getD (Token.Ident ident), l)
    else if c = '+' then
      let l := l.advance
      match l.current with
      | some '+' => (Token.Increment, l.advance)
      | some '=' => (Token.PlusEquals, l.advance)
      | _ => (Token.Plus, l)
    else if c = '-' then
      let l := l.advance
      match l.current with
      | some '-' => (Token.Decrement, l.advance)
      | some '=' => (Token.MinusEquals, l.advance)
      | some '>' => (Token.Arrow, l.advance)
      | _ => (Token.Minus, l)
    else if c = '*' then
      let l := l.advance
      match l.current with
      | some '*' => (Token.DoubleStar, l.advance)
      | some '=' => (Token.StarEquals, l.advance)
      | _ => (Token.Star, l)
    else if c = '/' then
      if isMatchOp l.last_token then
        l.read_regex
      else
        let l := l.advance
        match l.current with
        | some '=' => (Token.SlashEquals, l.advance)
        | _ => (Token.Slash, l)
    else if c = '.' then
      let l := l.advance
      match l.current with
      | some '.' =>
        let l := l.advance
        match l.current with
        | some '.' => (Token.Ellipsis, l.advance)
        | _ => (Token.Range, l)
      | some '=' => (Token.DotEquals, l.advance)
      | _ => (Token.Dot, l)
    else if c = '=' then
      let l := l.advance
      match l.current with
      | some '=' => (Token.Eq, l.advance)
      | some '~' => (Token.Match, l.advance)
      | some '>' => (Token.FatArrow, l.advance)
      | _ => (Token.Assign, l)
    else if c = '!' then
      let l := l.advance
      match l.current with
      | some '=' => (Token.Ne, l.advance)
      | some '~' => (Token.NotMatch, l.advance)
      | _ => (Token.Not, l)
    else if c = '<' then
      let l := l.advance
      match l.current with
      | some '=' =>
        let l := l.advance
        match l.current with
        | some '>' => (Token.Cmp, l.advance)
        | _ => (Token.Le, l)
      | some '<' => (Token.ShiftLeft, l.advance)
      | _ => (Token.Lt, l)
    else if c = '>' then
      let l := l.advance
      match l.current with
      | some '=' => (Token.Ge, l.advance)
      | some '>' => (Token.ShiftRight, l.advance)
      | _ => (Token.Gt, l)
    else if c = '&' then
      let l := l.advance
      match l.current with
      | some '&' =>
        let l := l.advance
        match l.current with
        | some '=' => (Token.AndEquals, l.advance)
        | _ => (Token.And, l)
      | _ => (Token.BitAnd, l)
    else if c = '|' then
      let l := l.advance
      match l.current with
      | some '|' =>
        let l := l.advance
        match l.current with
        | some '=' => (Token.OrEquals, l.advance)
        | _ => (Token.Or, l)
      | _ => (Token.BitOr, l)
    else if c = '^' then (Token.BitXor, l.advance)
    else if c = '~' then (Token.BitNot, l.advance)
    else if c = '(' then (Token.LParen, l.advance)
    else if c = ')' then (Token.RParen, l.advance)
    else if c = '[' then (Token.LBracket, l.advance)
    else if c = ']' then (Token.RBracket, l.advance)
    else if c = '{' then (Token.LBrace, l.advance)
    else if c = '}' then (Token.RBrace, l.advance)
    else if c = ';' then (Token.Semicolon, l.advance)
    else if c = ',' then (Token.Comma, l.advance)
    else if c = ':' then
      let l := l.advance
      match l.current with
      | some ':' => (Token.DoubleColon, l.advance)
      | _ => (Token.Colon, l)
    else if c = '\\' then (Token.Backslash, l.advance)
    else if c = '?' then (Token.Question, l.advance)
    else (Token.Eof, l.advance)

/-- `Lexer::next_token`. -/
def Lexer.next_token (l : Lexer) : TokenWithSpan × Lexer :=
  let l := l.skip_whitespace
  let line := l.line
  let column := l.column
  let (token, l) := l.token_dispatch
  ({ token := token, line := line, column := column },
   { l with last_token := some token })

/-- The loop of `Lexer::tokenize`. -/
def tokenizeF : Nat → Lexer → List TokenWithSpan
  | 0, _ => []
  | fuel + 1, l =>
    let (tok, l') := l.next_token
    if tok.token == Token.Eof then [tok] else tok :: tokenizeF fuel l'

/-- `Lexer::tokenize`.  The fuel `l.rem + 1` is shown sufficient in the
termination theorem for C10. -/
def Lexer.tokenize (l : Lexer) : List TokenWithSpan :=
  tokenizeF (l.rem + 1) l

/-! ## `src/ast.rs` -/

/-- `enum BinOp`. -/
inductive BinOp where
  | Add | Sub | Mul | Div | Mod | Pow
  | Concat
  | Eq | Ne | Lt | Gt | Le | Ge | Cmp
  | StrEq | StrNe | StrLt | StrGt | StrLe | StrGe | StrCmp
  | And | Or
  | BitAnd | BitOr | BitXor | ShiftLeft | ShiftRight
  deriving DecidableEq, Repr

/-- `enum UnaryOp`. -/
inductive UnaryOp where
  | Neg | Not | BitNot | Ref
  deriving DecidableEq, Repr

/-- `enum Expr`.  A float literal carries its source text, as in `Token`. -/
inductive Expr where
  | Integer (n : Int)
  | Float (text : List Char)
  | String (s : Str)
  | ScalarVar (name : Str)
  | ArrayVar (name : Str)
  | HashVar (name : Str)
  | ArrayIndex (arr idx : Expr)
  | HashIndex (hash key : Expr)
  | BinOp (left : Expr) (op : BinOp) (right : Expr)
  | UnaryOp (op : UnaryOp) (e : Expr)
  | PreIncrement (e : Expr)
  | PreDecrement (e : Expr)
  | PostIncrement (e : Expr)
  | PostDecrement (e : Expr)
  | Assign (target value : Expr)
  | OpAssign (target : Expr) (op : BinOp) (value : Expr)
  | Call (name : Str) (args : List Expr)
  | MethodCall (obj : Expr) (method : Str) (args : List Expr)
  | List (items : List Expr)
  | Hash (pairs : List (Expr × Expr))
  | Range (lo hi : Expr)
  | Ternary (cond thenE elseE : Expr)
  | Match (e : Expr) (pattern flags : Str)
  | NotMatch (e : Expr) (pattern flags : Str)
  | Ref (e : Expr)
  | Deref (e : Expr)

/-- `enum Stmt`. -/
inductive Stmt where
  | Expr (e : Expr)
  | My (vars : List Str) (init : Option Expr)
  | Our (vars : List Str) (init : Option Expr)
  | If (cond : Expr) (then_block : List Stmt)
       (elsif_blocks : List (Expr × List Stmt)) (else_block : Option (List Stmt))
  | Unless (cond : Expr) (then_block : List Stmt) (else_block : Option (List Stmt))
  | While (cond : Expr) (body : List Stmt)
  | Until (cond : Expr) (body : List Stmt)
  | For (init : Option Stmt) (cond : Option Expr) (step : Option Expr) (body : List Stmt)
  | Foreach (var : Str) (list : Expr) (body : List Stmt)
  | Last
  | Next
  | Return (e : Option Expr)
  | Sub (name : Str) (params : List Str) (body : List Stmt)
  | Print (args : List Expr)
  | Say (args : List Expr)
  | Block (stmts : List Stmt)
  | Use (name : Str)
  | Package (name : Str)

/-- `struct Program`. -/
structure Program where
  statements : List Stmt

/-! ## `src/parser.rs`

The parser is used by the claims only on concrete inputs, so its loops
and recursion run on fuel and no lemmas are proved about it.  Parse error
messages name the production instead of reproducing the Rust `{:?}`
format; no claim inspects a parse error string. -/

/-- `struct Parser`. -/
structure Parser where
  tokens : List TokenWithSpan
  pos : Nat

/-- `Parser::new`. -/
def Parser.new (tokens : List TokenWithSpan) : Parser :=
  { tokens := tokens, pos := 0 }

/-- `Parser::current` (out-of-range reads are `Eof`). -/
def Parser.current (p : Parser) : Token :=
  ((p.tokens.get? p.pos).map (·.token)).getD Token.Eof

/-- `Parser::peek`. -/
def Parser.peekTok (p : Parser) : Token :=
  ((p.tokens.get? (p.pos + 1)).map (·.token)).getD Token.Eof

/-- `Parser::advance`. -/
def Parser.advance (p : Parser) : Parser :=
  if p.pos < p.tokens.length then { p with pos := p.pos + 1 } else p

/-- `Parser::at` (`at` is a Lean keyword, hence the name). -/
def Parser.at_tok (p : Parser) (t : Token) : Bool :=
  p.current == t

/-- `Parser::expect`. -/
def Parser.expect (p : Parser) (expected : Token) : Except Str Parser :=
  if p.current == expected then .ok p.advance
  else .error "Expected token mismatch"

/-- Error value for parser fuel exhaustion (never reached from the
concrete inputs the claims use). -/
def fuelErr : Str := "parser fuel exhausted"

mutual

/-- `Parser::parse`: statements until `Eof`. -/
def parse_program : Nat → Parser → Except Str (Program × Parser)
  | 0, _ => .error fuelErr
  | fuel + 1, p => do
    let (stmts, p) ← parse_program_loop fuel [] p
    pure (⟨stmts⟩, p)

def parse_program_loop : Nat → List Stmt → Parser → Except Str (List Stmt × Parser)
  | 0, _, _ => .error fuelErr
  | fuel + 1, acc, p =>
    if p.at_tok Token.Eof then pure (acc, p)
    else do
      let (s, p) ← parse_statement fuel p
      parse_program_loop fuel (acc ++ [s]) p

def parse_statement : Nat → Parser → Except Str (Stmt × Parser)
  | 0, _ => .error fuelErr
  | fuel + 1, p =>
    match p.current with
    | .My => parse_my fuel p
    | .Our => parse_our fuel p
    | .Sub => parse_sub fuel p
    | .If => parse_if fuel p
    | .Unless => parse_unless fuel p
    | .While => parse_while fuel p
    | .Until => parse_until fuel p
    | .For => parse_for fuel p
    | .Foreach => parse_foreach fuel p
    | .Last => do
      let p := p.advance
      let p ← p.expect Token.Semicolon
      pure (Stmt.Last, p)
    | .Next => do
      let p := p.advance
      let p ← p.expect Token.Semicolon
      pure (Stmt.Next, p)
    | .Return => parse_return fuel p
    | .Print => parse_print fuel p
    | .Say => parse_say fuel p
    | .Use => parse_use fuel p
    | .Package => parse_package fuel p
    | .LBrace => parse_block fuel p
    | _ => do
      let (e, p) ← parse_expr fuel p
      let p ← p.expect Token.Semicolon
      pure (Stmt.Expr e, p)

def parse_my : Nat → Parser → Except Str (Stmt × Parser)
  | 0, _ => .error fuelErr
  | fuel + 1, p => do
    let p := p.advance
    let (vars, p) ← parse_var_list fuel p
    let (init, p) ←
      if p.at_tok Token.Assign then do
        let p := p.advance
        let (e, p) ← parse_expr fuel p
        pure (some e, p)
      else pure (none, p)
    let p ← p.expect Token.Semicolon
    pure (Stmt.My vars init, p)

def parse_our : Nat → Parser → Except Str (Stmt × Parser)
  | 0, _ => .error fuelErr
  | fuel + 1, p => do
    let p := p.advance
    let (vars, p) ← parse_var_list fuel p
    let (init, p) ←
      if p.at_tok Token.Assign then do
        let p := p.advance
        let (e, p) ← parse_expr fuel p
        pure (some e, p)
      else pure (none, p)
    let p ← p.expect Token.Semicolon
    pure (Stmt.Our vars init, p)

def parse_var_list : Nat → Parser → Except Str (List Str × Parser)
  | 0, _ => .error fuelErr
  | fuel + 1, p =>
    if p.at_tok Token.LParen then do
      let p := p.advance
      let (vars, p) ← parse_var_list_loop fuel [] p
      let p ← p.expect Token.RParen
      pure (vars, p)
    else
      match p.current with
      | .ScalarVar name => pure ([name], p.advance)
      | .ArrayVar name => pure ([name], p.advance)
      | .HashVar name => pure ([name], p.advance)
      | _ => .error "Expected variable"

def parse_var_list_loop : Nat → List Str → Parser → Except Str (List Str × Parser)
  | 0, _, _ => .error fuelErr
  | fuel + 1, vars, p => do
    let (vars, p) ←
      match p.current with
      | .ScalarVar name => pure (vars ++ [name], p.advance)
      | .ArrayVar name => pure (vars ++ [name], p.advance)
      | .HashVar name => pure (vars ++ [name], p.advance)
      | _ => .error "Expected variable"
    if p.at_tok Token.Comma then parse_var_list_loop fuel vars p.advance
    else pure (vars, p)

def parse_sub : Nat → Parser → Except Str (Stmt × Parser)
  | 0, _ => .error fuelErr
  | fuel + 1, p => do
    let p := p.advance
    let (name, p) ←
      match p.current with
      | .Ident n => pure (n, p.advance)
      | _ => .error "Expected subroutine name"
    let (params, p) ←
      if p.at_tok Token.LParen then do
        let p := p.advance
        let (params, p) ← parse_sub_params fuel [] p
        let p ← p.expect Token.RParen
        pure (params, p)
      else pure ([], p)
    let p ← p.expect Token.LBrace
    let (body, p) ← parse_stmt_list fuel [] p
    let p ← p.expect Token.RBrace
    pure (Stmt.Sub name params body, p)

def parse_sub_params : Nat → List Str → Parser → Except Str (List Str × Parser)
  | 0, _, _ => .error fuelErr
  | fuel + 1, params, p =>
    if p.at_tok Token.RParen then pure (params, p)
    else do
      let (params, p) ←
        match p.current with
        | .ScalarVar name => pure (params ++ [name], p.advance)
        | _ => .error "Expected parameter"
      let p := if p.at_tok Token.Comma then p.advance else p
      parse_sub_params fuel params p

def parse_if : Nat → Parser → Except Str (Stmt × Parser)
  | 0, _ => .error fuelErr
  | fuel + 1, p => do
    let p := p.advance
    let p ← p.expect Token.LParen
    let (cond, p) ← parse_expr fuel p
    let p ← p.expect Token.RParen
    let p ← p.expect Token.LBrace
    let (then_block, p) ← parse_stmt_list fuel [] p
    let p ← p.expect Token.RBrace
    let (elsifs, p) ← parse_elsif_loop fuel [] p
    let (else_block, p) ←
      if p.at_tok Token.Else then do
        let p := p.advance
        let p ← p.expect Token.LBrace
        let (body, p) ← parse_stmt_list fuel [] p
        let p ← p.expect Token.RBrace
        pure (some body, p)
      else pure (none, p)
    pure (Stmt.If cond then_block elsifs else_block, p)

def parse_elsif_loop : Nat → List (Expr × List Stmt) → Parser →
    Except Str (List (Expr × List Stmt) × Parser)
  | 0, _, _ => .error fuelErr
  | fuel + 1, acc, p =>
    if p.at_tok Token.Elsif then do
      let p := p.advance
      let p ← p.expect Token.LParen
      let (cond, p) ← parse_expr fuel p
      let p ← p.expect Token.RParen
      let p ← p.expect Token.LBrace
      let (body, p) ← parse_stmt_list fuel [] p
      let p ← p.expect Token.RBrace
      parse_elsif_loop fuel (acc ++ [(cond, body)]) p
    else pure (acc, p)

def parse_unless : Nat → Parser → Except Str (Stmt × Parser)
  | 0, _ => .error fuelErr
  | fuel + 1, p => do
    let p := p.advance
    let p ← p.expect Token.LParen
    let (cond, p) ← parse_expr fuel p
    let p ← p.expect Token.RParen
    let p ← p.expect Token.LBrace
    let (then_block, p) ← parse_stmt_list fuel [] p
    let p ← p.expect Token.RBrace
    let (else_block, p) ←
      if p.at_tok Token.Else then do
        let p := p.advance
        let p ← p.expect Token.LBrace
        let (body, p) ← parse_stmt_list fuel [] p
        let p ← p.expect Token.RBrace
        pure (some body, p)
      else pure (none, p)
    pure (Stmt.Unless cond then_block else_block, p)

def parse_while : Nat → Parser → Except Str (Stmt × Parser)
  | 0, _ => .error fuelErr
  | fuel + 1, p => do
    let p := p.advance
    let p ← p.expect Token.LParen
    let (cond, p) ← parse_expr fuel p
    let p ← p.expect Token.RParen
    let p ← p.expect Token.LBrace
    let (body, p) ← parse_stmt_list fuel [] p
    let p ← p.expect Token.RBrace
    pure (Stmt.While cond body, p)

def parse_until : Nat → Parser → Except Str (Stmt × Parser)
  | 0, _ => .error fuelErr
  | fuel + 1, p => do
    let p := p.advance
    let p ← p.expect Token.LParen
    let (cond, p) ← parse_expr fuel p
    let p ← p.expect Token.RParen
    let p ← p.expect Token.LBrace
    let (body, p) ← parse_stmt_list fuel [] p
    let p ← p.expect Token.RBrace
    pure (Stmt.Until cond body, p)

def parse_for : Nat → Parser → Except Str (Stmt × Parser)
  | 0, _ => .error fuelErr
  | fuel + 1, p => do
    let p := p.advance
    if p.at_tok Token.My || (match p.current with | .ScalarVar _ => true | _ => false) then
      parse_foreach_style fuel p
    else do
      let p ← p.expect Token.LParen
      let (init, p) ←
        if !(p.at_tok Token.Semicolon) then do
          let (s, p) ← parse_statement fuel p
          pure (some s, p)
        else pure (none, p.advance)
      let (cond, p) ←
        if !(p.at_tok Token.Semicolon) then do
          let (e, p) ← parse_expr fuel p
          pure (some e, p)
        else pure (none, p)
      let p ← p.expect Token.Semicolon
      let (step, p) ←
        if !(p.at_tok Token.RParen) then do
          let (e, p) ← parse_expr fuel p
          pure (some e, p)
        else pure (none, p)
      let p ← p.expect Token.RParen
      let p ← p.expect Token.LBrace
      let (body, p) ← parse_stmt_list fuel [] p
      let p ← p.expect Token.RBrace
      pure (Stmt.For init cond step body, p)

def parse_foreach : Nat → Parser → Except Str (Stmt × Parser)
  | 0, _ => .error fuelErr
  | fuel + 1, p => parse_foreach_style fuel p.advance

def parse_foreach_style : Nat → Parser → Except Str (Stmt × Parser)
  | 0, _ => .error fuelErr
  | fuel + 1, p => do
    let p := if p.at_tok Token.My then p.advance else p
    let (var, p) ←
      match p.current with
      | .ScalarVar name => pure (name, p.advance)
      | _ => .error "Expected variable"
    let p ← p.expect Token.LParen
    let (list, p) ← parse_expr fuel p
    let p ← p.expect Token.RParen
    let p ← p.expect Token.LBrace
    let (body, p) ← parse_stmt_list fuel [] p
    let p ← p.expect Token.RBrace
    pure (Stmt.Foreach var list body, p)

def parse_return : Nat → Parser → Except Str (Stmt × Parser)
  | 0, _ => .error fuelErr
  | fuel + 1, p => do
    let p := p.advance
    let (value, p) ←
      if !(p.at_tok Token.Semicolon) then do
        let (e, p) ← parse_expr fuel p
        pure (some e, p)
      else pure (none, p)
    let p ← p.expect Token.Semicolon
    pure (Stmt.Return value, p)

def parse_print : Nat → Parser → Except Str (Stmt × Parser)
  | 0, _ => .error fuelErr
  | fuel + 1, p => do
    let p := p.advance
    let (args, p) ← parse_expr_list fuel p
    let p ← p.expect Token.Semicolon
    pure (Stmt.Print args, p)

def parse_say : Nat → Parser → Except Str (Stmt × Parser)
  | 0, _ => .error fuelErr
  | fuel + 1, p => do
    let p := p.advance
    let (args, p) ← parse_expr_list fuel p
    let p ← p.expect Token.Semicolon
    pure (Stmt.Say args, p)

def parse_use : Nat → Parser → Except Str (Stmt × Parser)
  | 0, _ => .error fuelErr
  | _ + 1, p => do
    let p := p.advance
    let (name, p) ←
      match p.current with
      | .Ident n => pure (n, p.advance)
      | _ => .error "Expected module name"
    let p ← p.expect Token.Semicolon
    pure (Stmt.Use name, p)

def parse_package : Nat → Parser → Except Str (Stmt × Parser)
  | 0, _ => .error fuelErr
  | _ + 1, p => do
    let p := p.advance
    let (name, p) ←
      match p.current with
      | .Ident n => pure (n, p.advance)
      | _ => .error "Expected package name"
    let p ← p.expect Token.Semicolon
    pure (Stmt.Package name, p)

def parse_block : Nat → Parser → Except Str (Stmt × Parser)
  | 0, _ => .error fuelErr
  | fuel + 1, p => do
    let p ← p.expect Token.LBrace
    let (stmts, p) ← parse_stmt_list fuel [] p
    let p ← p.expect Token.RBrace
    pure (Stmt.Block stmts, p)

def parse_stmt_list : Nat → List Stmt → Parser → Except Str (List Stmt × Parser)
  | 0, _, _ => .error fuelErr
  | fuel + 1, acc, p =>
    if !(p.at_tok Token.RBrace) && !(p.at_tok Token.Eof) then do
      let (s, p) ← parse_statement fuel p
      parse_stmt_list fuel (acc ++ [s]) p
    else pure (acc, p)

def parse_expr_list : Nat → Parser → Except Str (List Expr × Parser)
  | 0, _ => .error fuelErr
  | fuel + 1, p =>
    if !(p.at_tok Token.Semicolon) && !(p.at_tok Token.RParen) then do
      let (e, p) ← parse_expr fuel p
      parse_expr_list_loop fuel [e] p
    else pure ([], p)

def parse_expr_list_loop : Nat → List Expr → Parser → Except Str (List Expr × Parser)
  | 0, _, _ => .error fuelErr
  | fuel + 1, acc, p =>
    if p.at_tok Token.Comma then do
      let p := p.advance
      if !(p.at_tok Token.Semicolon) && !(p.at_tok Token.RParen) then do
        let (e, p) ← parse_expr fuel p
        parse_expr_list_loop fuel (acc ++ [e]) p
      else parse_expr_list_loop fuel acc p
    else pure (acc, p)

def parse_expr : Nat → Parser → Except Str (Expr × Parser)
  | 0, _ => .error fuelErr
  | fuel + 1, p => parse_assignment fuel p

def parse_assignment : Nat → Parser → Except Str (Expr × Parser)
  | 0, _ => .error fuelErr
  | fuel + 1, p => do
    let (left, p) ← parse_ternary fuel p
    match p.current with
    | .Assign => do
      let (right, p) ← parse_assignment fuel p.advance
      pure (Expr.Assign left right, p)
    | .PlusEquals => do
      let (right, p) ← parse_assignment fuel p.advance
      pure (Expr.OpAssign left BinOp.Add right, p)
    | .MinusEquals => do
      let (right, p) ← parse_assignment fuel p.advance
      pure (Expr.OpAssign left BinOp.Sub right, p)
    | .StarEquals => do
      let (right, p) ← parse_assignment fuel p.advance
      pure (Expr.OpAssign left BinOp.Mul right, p)
    | .SlashEquals => do
      let (right, p) ← parse_assignment fuel p.advance
      pure (Expr.OpAssign left BinOp.Div right, p)
    | .DotEquals => do
      let (right, p) ← parse_assignment fuel p.advance
      pure (Expr.OpAssign left BinOp.Concat right, p)
    | _ => pure (left, p)

def parse_ternary : Nat → Parser → Except Str (Expr × Parser)
  | 0, _ => .error fuelErr
  | fuel + 1, p => do
    let (cond, p) ← parse_or fuel p
    if p.at_tok Token.Question then do
      let p := p.advance
      let (then_expr, p) ← parse_expr fuel p
      let p ← p.expect Token.Colon
      let (else_expr, p) ← parse_ternary fuel p
      pure (Expr.Ternary cond then_expr else_expr, p)
    else pure (cond, p)

def parse_or : Nat → Parser → Except Str (Expr × Parser)
  | 0, _ => .error fuelErr
  | fuel + 1, p => do
    let (left, p) ← parse_and fuel p
    parse_or_loop fuel left p

def parse_or_loop : Nat → Expr → Parser → Except Str (Expr × Parser)
  | 0, _, _ => .error fuelErr
  | fuel + 1, left, p =>
    match p.current with
    | .Or | .OrWord => do
      let (right, p) ← parse_and fuel p.advance
      parse_or_loop fuel (Expr.BinOp left BinOp.Or right) p
    | _ => pure (left, p)

def parse_and : Nat → Parser → Except Str (Expr × Parser)
  | 0, _ => .error fuelErr
  | fuel + 1, p => do
    let (left, p) ← parse_comparison fuel p
    parse_and_loop fuel left p

def parse_and_loop : Nat → Expr → Parser → Except Str (Expr × Parser)
  | 0, _, _ => .error fuelErr
  | fuel + 1, left, p =>
    match p.current with
    | .And | .AndWord => do
      let (right, p) ← parse_comparison fuel p.advance
      parse_and_loop fuel (Expr.BinOp left BinOp.And right) p
    | _ => pure (left, p)

def parse_comparison : Nat → Parser → Except Str (Expr × Parser)
  | 0, _ => .error fuelErr
  | fuel + 1, p => do
    let (left, p) ← parse_additive fuel p
    parse_comparison_loop fuel left p

def parse_comparison_loop : Nat → Expr → Parser → Except Str (Expr × Parser)
  | 0, _, _ => .error fuelErr
  | fuel + 1, left, p =>
    match p.current with
    | .Match => do
      let p := p.advance
      match p.current with
      | .Regex pattern flags =>
        parse_comparison_loop fuel (Expr.Match left pattern flags) p.advance
      | _ => .error "Expected regex pattern after =~ or !~"
    | .NotMatch => do
      let p := p.advance
      match p.current with
      | .Regex pattern flags =>
        parse_comparison_loop fuel (Expr.NotMatch left pattern flags) p.advance
      | _ => .error "Expected regex pattern after =~ or !~"
    | t =>
      match
        (match t with
         | .Eq => some BinOp.Eq
         | .Ne => some BinOp.Ne
         | .Lt => some BinOp.Lt
         | .Gt => some BinOp.Gt
         | .Le => some BinOp.Le
         | .Ge => some BinOp.Ge
         | .Cmp => some BinOp.Cmp
         | .StrEq => some BinOp.StrEq
         | .StrNe => some BinOp.StrNe
         | .StrLt => some BinOp.StrLt
         | .StrGt => some BinOp.StrGt
         | .StrLe => some BinOp.StrLe
         | .StrGe => some BinOp.StrGe
         | .StrCmp => some BinOp.StrCmp
         | _ => none) with
      | some op => do
        let (right, p) ← parse_additive fuel p.advance
        parse_comparison_loop fuel (Expr.BinOp left op right) p
      | none => pure (left, p)

def parse_additive : Nat → Parser → Except Str (Expr × Parser)
  | 0, _ => .error fuelErr
  | fuel + 1, p => do
    let (left, p) ← parse_multiplicative fuel p
    parse_additive_loop fuel left p

def parse_additive_loop : Nat → Expr → Parser → Except Str (Expr × Parser)
  | 0, _, _ => .error fuelErr
  | fuel + 1, left, p =>
    match
      (match p.current with
       | .Plus => some BinOp.Add
       | .Minus => some BinOp.Sub
       | .Dot => some BinOp.Concat
       | _ => none) with
    | some op => do
      let (right, p) ← parse_multiplicative fuel p.advance
      parse_additive_loop fuel (Expr.BinOp left op right) p
    | none => pure (left, p)

def parse_multiplicative : Nat → Parser → Except Str (Expr × Parser)
  | 0, _ => .error fuelErr
  | fuel + 1, p => do
    let (left, p) ← parse_unary fuel p
    parse_multiplicative_loop fuel left p

def parse_multiplicative_loop : Nat → Expr → Parser → Except Str (Expr × Parser)
  | 0, _, _ => .error fuelErr
  | fuel + 1, left, p =>
    match
      (match p.current with
       | .Star => some BinOp.Mul
       | .Slash => some BinOp.Div
       | .Percent => some BinOp.Mod
       | _ => none) with
    | some op => do
      let (right, p) ← parse_unary fuel p.advance
      parse_multiplicative_loop fuel (Expr.BinOp left op right) p
    | none => pure (left, p)

def parse_unary : Nat → Parser → Except Str (Expr × Parser)
  | 0, _ => .error fuelErr
  | fuel + 1, p =>
    match p.current with
    | .Not | .NotWord => do
      let (e, p) ← parse_unary fuel p.advance
      pure (Expr.UnaryOp UnaryOp.Not e, p)
    | .Minus => do
      let (e, p) ← parse_unary fuel p.advance
      pure (Expr.UnaryOp UnaryOp.Neg e, p)
    | .BitNot => do
      let (e, p) ← parse_unary fuel p.advance
      pure (Expr.UnaryOp UnaryOp.BitNot e, p)
    | .Backslash => do
      let (e, p) ← parse_unary fuel p.advance
      pure (Expr.Ref e, p)
    | .Increment => do
      let (e, p) ← parse_postfix_expr fuel p.advance
      pure (Expr.PreIncrement e, p)
    | .Decrement => do
      let (e, p) ← parse_postfix_expr fuel p.advance
      pure (Expr.PreDecrement e, p)
    | _ => parse_postfix_expr fuel p

/-- `Parser::parse_postfix` (renamed: the source name is unavailable
here). -/
def parse_postfix_expr : Nat → Parser → Except Str (Expr × Parser)
  | 0, _ => .error fuelErr
  | fuel + 1, p => do
    let (e, p) ← parse_primary fuel p
    parse_postfix_loop fuel e p

def parse_postfix_loop : Nat → Expr → Parser → Except Str (Expr × Parser)
  | 0, _, _ => .error fuelErr
  | fuel + 1, e, p =>
    match p.current with
    | .Increment => parse_postfix_loop fuel (Expr.PostIncrement e) p.advance
    | .Decrement => parse_postfix_loop fuel (Expr.PostDecrement e) p.advance
    | .LBracket => do
      let (index, p) ← parse_expr fuel p.advance
      let p ← p.expect Token.RBracket
      parse_postfix_loop fuel (Expr.ArrayIndex e index) p
    | .LBrace => do
      let (key, p) ← parse_expr fuel p.advance
      let p ← p.expect Token.RBrace
      parse_postfix_loop fuel (Expr.HashIndex e key) p
    | .Arrow => do
      let p := p.advance
      match p.current with
      | .LBracket => do
        let (index, p) ← parse_expr fuel p.advance
        let p ← p.expect Token.RBracket
        parse_postfix_loop fuel (Expr.ArrayIndex (Expr.Deref e) index) p
      | .LBrace => do
        let (key, p) ← parse_expr fuel p.advance
        let p ← p.expect Token.RBrace
        parse_postfix_loop fuel (Expr.HashIndex (Expr.Deref e) key) p
      | .Ident name => do
        let p := p.advance
        let (args, p) ←
          if p.at_tok Token.LParen then do
            let p := p.advance
            let (args, p) ← parse_expr_list fuel p
            let p ← p.expect Token.RParen
            pure (args, p)
          else pure ([], p)
        parse_postfix_loop fuel (Expr.MethodCall e name args) p
      | _ => .error "Expected method or subscript after arrow"
    | _ => pure (e, p)

def parse_primary : Nat → Parser → Except Str (Expr × Parser)
  | 0, _ => .error fuelErr
  | fuel + 1, p =>
    match p.current with
    | .Integer n => pure (Expr.Integer n, p.advance)
    | .Float f => pure (Expr.Float f, p.advance)
    | .String s => pure (Expr.String s, p.advance)
    | .ScalarVar name => pure (Expr.ScalarVar name, p.advance)
    | .ArrayVar name => pure (Expr.ArrayVar name, p.advance)
    | .HashVar name => pure (Expr.HashVar name, p.advance)
    | .Ident name => do
      let p := p.advance
      if p.at_tok Token.LParen then do
        let p := p.advance
        let (args, p) ← parse_expr_list fuel p
        let p ← p.expect Token.RParen
        pure (Expr.Call name args, p)
      else pure (Expr.Call name [], p)
    | .LParen => do
      let (e, p) ← parse_expr fuel p.advance
      let p ← p.expect Token.RParen
      pure (e, p)
    | .LBracket => do
      let (items, p) ← parse_expr_list fuel p.advance
      let p ← p.expect Token.RBracket
      pure (Expr.List items, p)
    | .LBrace => do
      let (pairs, p) ← parse_hash_pairs fuel [] p.advance
      let p ← p.expect Token.RBrace
      pure (Expr.Hash pairs, p)
    | _ => .error "Unexpected token in expression"

def parse_hash_pairs : Nat → List (Expr × Expr) → Parser →
    Except Str (List (Expr × Expr) × Parser)
  | 0, _, _ => .error fuelErr
  | fuel + 1, acc, p =>
    if !(p.at_tok Token.RBrace) then do
      let (key, p) ← parse_expr fuel p
      let p ← p.expect Token.FatArrow
      let (value, p) ← parse_expr fuel p
      let p := if p.at_tok Token.Comma then p.advance else p
      parse_hash_pairs fuel (acc ++ [(key, value)]) p
    else pure (acc, p)

end

/-! ## `src/compiler.rs`

`HashMap`s become insertion-ordered association lists (`alookup` /
`ainsert`); the `locals` and `loop_stack` Vec-stacks are kept head-first
(list head = Rust `last()`).  All compiler drivers take fuel, as the
parser does; fuel exhaustion is an error, and every universally
quantified theorem quantifies over the fuel. -/

/-- First-match lookup in an association list (`HashMap::get`). -/
def alookup {α : Type} : List (Str × α) → Str → Option α
  | [], _ => none
  | (k, v) :: rest, key => if k = key then some v else alookup rest key

/-- `HashMap::insert`: replace the value of an existing key in place,
otherwise append. -/
def ainsert {α : Type} : List (Str × α) → Str → α → List (Str × α)
  | [], key, v => [(key, v)]
  | (k, v') :: rest, key, v =>
    if k = key then (key, v) :: rest else (k, v') :: ainsert rest key v

/-- `struct Compiler`. -/
structure Compiler where
  module : Module
  globals : List (Str × Nat)
  locals : List (List (Str × Nat))
  subs : List (Str × Nat × Nat)
  loop_stack : List (Nat × List Nat)
  forward_refs : List (Str × Nat)

/-- `Compiler::new`. -/
def Compiler.new : Compiler :=
  { module := Module.new, globals := [], locals := [[]], subs := [],
    loop_stack := [], forward_refs := [] }

/-- `self.module.emit(op)`. -/
def Compiler.emit (c : Compiler) (op : Op) : Compiler :=
  { c with module := c.module.emit op }

/-- `self.module.emit_byte(op, b)`. -/
def Compiler.emit_byte (c : Compiler) (op : Op) (b : Nat) : Compiler :=
  { c with module := c.module.emit_byte op b }

/-- `self.module.emit_word(op, w)`. -/
def Compiler.emit_word (c : Compiler) (op : Op) (w : Nat) : Compiler :=
  { c with module := c.module.emit_word op w }

/-- `self.module.pos()`. -/
def Compiler.pos (c : Compiler) : Nat :=
  c.module.pos

/-- `self.module.patch_addr(pos, addr)`. -/
def Compiler.patch_addr (c : Compiler) (pos addr : Nat) : Compiler :=
  { c with module := c.module.patch_addr pos addr }

/-- `self.locals.push(HashMap::new())`. -/
def Compiler.push_scope (c : Compiler) : Compiler :=
  { c with locals := [] :: c.locals }

/-- `self.locals.pop()`. -/
def Compiler.pop_scope (c : Compiler) : Compiler :=
  { c with locals := c.locals.tail }

/-- Insert into the innermost scope (`self.locals.last_mut().unwrap()`;
the scope stack is never empty, Rust would panic otherwise). -/
def Compiler.insert_local (c : Compiler) (name : Str) (idx : Nat) : Compiler :=
  match c.locals with
  | scope :: rest => { c with locals := ainsert scope name idx :: rest }
  | [] => c

/-- The innermost scope (`self.locals.last().unwrap()`). -/
def Compiler.innermost (c : Compiler) : List (Str × Nat) :=
  c.locals.headD []

/-- `Compiler::find_local`: scopes are searched innermost-out (the
source's `iter().rev()`; the embedding's stack is already head-first). -/
def findLocalIn : List (List (Str × Nat)) → Str → Option Nat
  | [], _ => none
  | scope :: rest, name =>
    match alookup scope name with
    | some idx => some idx
    | none => findLocalIn rest name

/-- `Compiler::find_local`. -/
def Compiler.find_local (c : Compiler) (name : Str) : Option Nat :=
  findLocalIn c.locals name

/-- `i32 as u16` (two's-complement truncation). -/
def toU16 (n : Int) : Nat :=
  (n % 65536).toNat

/-- `*f as i32 as u16` for a float literal carried as source text: the
integer part of the decimal literal, saturated at `i32::MAX` (Rust's
float-to-int `as`), then truncated.  This models the `f64` value by the
exact decimal it was parsed from; no claim depends on a float. -/
def floatTruncU16 (text : List Char) : Nat :=
  let ip := (text.takeWhile (· ≠ '.')).foldl (fun n c => n * 10 + (c.toNat - 48)) 0
  (min ip 2147483647) % 65536

/-- The Rust `{:?}` name of a `BinOp` (used in one error message). -/
def binOpDebug : BinOp → Str
  | .Add => "Add" | .Sub => "Sub" | .Mul => "Mul" | .Div => "Div"
  | .Mod => "Mod" | .Pow => "Pow" | .Concat => "Concat"
  | .Eq => "Eq" | .Ne => "Ne" | .Lt => "Lt" | .Gt => "Gt"
  | .Le => "Le" | .Ge => "Ge" | .Cmp => "Cmp"
  | .StrEq => "StrEq" | .StrNe => "StrNe" | .StrLt => "StrLt"
  | .StrGt => "StrGt" | .StrLe => "StrLe" | .StrGe => "StrGe"
  | .StrCmp => "StrCmp" | .And => "And" | .Or => "Or"
  | .BitAnd => "BitAnd" | .BitOr => "BitOr" | .BitXor => "BitXor"
  | .ShiftLeft => "ShiftLeft" | .ShiftRight => "ShiftRight"

/-- The one-to-one `BinOp` → `Op` table of `compile_expr` (the `Pow` arm
errors and is handled at the call site). -/
def binOpOpcode : BinOp → Option Op
  | .Add => some .Add | .Sub => some .Sub | .Mul => some .Mul
  | .Div => some .Div | .Mod => some .Mod | .Concat => some .StrCat
  | .Eq => some .CmpEq | .Ne => some .CmpNe | .Lt => some .CmpLt
  | .Gt => some .CmpGt | .Le => some .CmpLe | .Ge => some .CmpGe
  | .Cmp => some .Cmp
  | .StrEq => some .StrEq | .StrNe => some .StrNe | .StrLt => some .StrLt
  | .StrGt => some .StrGt | .StrLe => some .StrLe | .StrGe => some .StrGe
  | .StrCmp => some .StrCmp
  | .And => some .And | .Or => some .Or
  | .BitAnd => some .BitAnd | .BitOr => some .BitOr | .BitXor => some .BitXor
  | .ShiftLeft => some .Shl | .ShiftRight => some .Shr
  | .Pow => none

/-- The `OpAssign` opcode table (`+= -= *= /= .=` only). -/
def opAssignOpcode : BinOp → Option Op
  | .Add => some .Add | .Sub => some .Sub | .Mul => some .Mul
  | .Div => some .Div | .Concat => some .StrCat
  | _ => none

/-- The `Stmt::My` multi-variable distribution loop: for each variable,
`Dup` (except the last), `Push i`, `ArrGet`, `StoreLocal`.  It emits only
(no recursion into expressions). -/
def emitMyStores (total : Nat) : List Str → Nat → Compiler → Compiler
  | [], _, c => c
  | v :: rest, i, c =>
    let c := if i < total - 1 then c.emit Op.Dup else c
    let c := c.emit_word Op.Push (i % 65536)
    let c := c.emit Op.ArrGet
    let idx := (alookup c.innermost v).getD 0
    let c := c.emit_byte Op.StoreLocal idx
    emitMyStores total rest (i + 1) c

/-- Parameter registration in `Stmt::Sub`: parameters become locals
`0..N-1` in declaration order (`i as u8`). -/
def registerParams : List Str → Nat → Compiler → Compiler
  | [], _, c => c
  | p :: rest, i, c => registerParams rest (i + 1) (c.insert_local p (i % 256))

/-- Error value for compiler fuel exhaustion (an artefact of the
embedding; theorems quantify over the fuel). -/
def cfuelErr : Str := "compiler fuel exhausted"

/-- Error value for a `.unwrap()` on an empty loop stack, which cannot be
reached (every loop case pops the entry it pushed). -/
def unreachableErr : Str := "internal: loop stack underflow"

mutual

def compile_stmts : Nat → List Stmt → Compiler → Except Str Compiler
  | 0, _, _ => .error cfuelErr
  | _ + 1, [], c => .ok c
  | fuel + 1, s :: rest, c => do
    let c ← compile_stmt fuel s c
    compile_stmts fuel rest c

def compile_stmt : Nat → Stmt → Compiler → Except Str Compiler
  | 0, _, _ => .error cfuelErr
  | fuel + 1, stmt, c =>
    match stmt with
    | .Expr e => do
      let c ← compile_expr fuel e c
      .ok (c.emit Op.Pop)
    | .My vars init => do
      let c := vars.foldl (fun c v => c.insert_local v (c.innermost.length % 256)) c
      match init with
      | some init_expr =>
        if vars.length = 1 then do
          let c ← compile_expr fuel init_expr c
          let idx := (alookup c.innermost (vars.headD "")).getD 0
          .ok (c.emit_byte Op.StoreLocal idx)
        else do
          let c ← compile_expr fuel init_expr c
          .ok (emitMyStores vars.length vars 0 c)
      | none => .ok c
    | .Our vars init => do
      let c := vars.foldl (fun c v =>
        { c with
          globals := ainsert c.globals v (c.globals.length % 65536),
          module := { c.module with globals := c.module.globals ++ [v] } }) c
      match init with
      | some init_expr =>
        if vars.length = 1 then do
          let c ← compile_expr fuel init_expr c
          let idx := (alookup c.globals (vars.headD "")).getD 0
          .ok (c.emit_word Op.StoreGlobal idx)
        else .ok c
      | none => .ok c
    | .If cond then_block elsif_blocks else_block => do
      let c ← compile_expr fuel cond c
      let jump_pos := c.pos + 1
      let c := c.emit_word Op.JumpIfNot 0
      let c ← compile_stmts fuel then_block c
      let (end_jumps, c) :=
        if !elsif_blocks.isEmpty || else_block.isSome then
          ([c.pos + 1], c.emit_word Op.Jump 0)
        else ([], c)
      let c := c.patch_addr jump_pos c.pos
      let (end_jumps, c) ← compile_elsifs fuel elsif_blocks end_jumps c
      let c ←
        match else_block with
        | some body => compile_stmts fuel body c
        | none => .ok c
      let end_pos := c.pos
      .ok (end_jumps.foldl (fun c jp => c.patch_addr jp end_pos) c)
    | .Unless cond then_block else_block => do
      let c ← compile_expr fuel cond c
      let jump_pos := c.pos + 1
      let c := c.emit_word Op.JumpIf 0
      let c ← compile_stmts fuel then_block c
      match else_block with
      | some body => do
        let end_jump := c.pos + 1
        let c := c.emit_word Op.Jump 0
        let c := c.patch_addr jump_pos c.pos
        let c ← compile_stmts fuel body c
        .ok (c.patch_addr end_jump c.pos)
      | none => .ok (c.patch_addr jump_pos c.pos)
    | .While cond body => do
      let loop_start := c.pos
      let c := { c with loop_stack := (loop_start, []) :: c.loop_stack }
      let c ← compile_expr fuel cond c
      let exit_jump := c.pos + 1
      let c := c.emit_word Op.JumpIfNot 0
      let c ← compile_stmts fuel body c
      let c := c.emit_word Op.Jump loop_start
      let end_pos := c.pos
      let c := c.patch_addr exit_jump end_pos
      match c.loop_stack with
      | (_, break_jumps) :: rest =>
        let c := { c with loop_stack := rest }
        .ok (break_jumps.foldl (fun c p => c.patch_addr p end_pos) c)
      | [] => .error unreachableErr
    | .Until cond body => do
      let loop_start := c.pos
      let c := { c with loop_stack := (loop_start, []) :: c.loop_stack }
      let c ← compile_expr fuel cond c
      let exit_jump := c.pos + 1
      let c := c.emit_word Op.JumpIf 0
      let c ← compile_stmts fuel body c
      let c := c.emit_word Op.Jump loop_start
      let end_pos := c.pos
      let c := c.patch_addr exit_jump end_pos
      match c.loop_stack with
      | (_, break_jumps) :: rest =>
        let c := { c with loop_stack := rest }
        .ok (break_jumps.foldl (fun c p => c.patch_addr p end_pos) c)
      | [] => .error unreachableErr
    | .For init cond step body => do
      let c := c.push_scope
      let c ←
        match init with
        | some init_stmt => compile_stmt fuel init_stmt c
        | none => .ok c
      let loop_start := c.pos
      let c := { c with loop_stack := (loop_start, []) :: c.loop_stack }
      let (exit_jump, c) ←
        match cond with
        | some cond_expr => do
          let c ← compile_expr fuel cond_expr c
          let pos := c.pos + 1
          .ok (some pos, c.emit_word Op.JumpIfNot 0)
        | none => .ok (none, c)
      let c ← compile_stmts fuel body c
      let c ←
        match step with
        | some step_expr => do
          let c ← compile_expr fuel step_expr c
          .ok (c.emit Op.Pop)
        | none => .ok c
      let c := c.emit_word Op.Jump loop_start
      let end_pos := c.pos
      let c :=
        match exit_jump with
        | some jp => c.patch_addr jp end_pos
        | none => c
      match c.loop_stack with
      | (_, break_jumps) :: rest =>
        let c := { c with loop_stack := rest }
        let c := break_jumps.foldl (fun c p => c.patch_addr p end_pos) c
        .ok c.pop_scope
      | [] => .error unreachableErr
    | .Foreach var list body => do
      let c := c.push_scope
      let var_idx := 0
      let c := c.insert_local var var_idx
      let c ← compile_expr fuel list c
      let c := c.emit_word Op.Push 0
      let loop_start := c.pos
      let c := { c with loop_stack := (loop_start, []) :: c.loop_stack }
      let c := (((c.emit Op.Over).emit Op.ArrLen).emit Op.Over).emit Op.CmpLt
      let exit_jump := c.pos + 1
      let c := c.emit_word Op.JumpIfNot 0
      let c := ((c.emit Op.Over).emit Op.Over).emit Op.ArrGet
      let c := c.emit_byte Op.StoreLocal var_idx
      let c ← compile_stmts fuel body c
      let c := c.emit Op.Inc
      let c := c.emit_word Op.Jump loop_start
      let end_pos := c.pos
      let c := c.patch_addr exit_jump end_pos
      let c := (c.emit Op.Pop).emit Op.Pop
      match c.loop_stack with
      | (_, break_jumps) :: rest =>
        let c := { c with loop_stack := rest }
        let c := break_jumps.foldl (fun c p => c.patch_addr p end_pos) c
        .ok c.pop_scope
      | [] => .error unreachableErr
    | .Last =>
      match c.loop_stack with
      | (cont, break_jumps) :: rest =>
        let c := { c with loop_stack := (cont, break_jumps ++ [c.pos + 1]) :: rest }
        .ok (c.emit_word Op.Jump 0)
      | [] => .error "'last' outside of loop"
    | .Next =>
      match c.loop_stack with
      | (continue_pos, _) :: _ => .ok (c.emit_word Op.Jump continue_pos)
      | [] => .error "'next' outside of loop"
    | .Return e =>
      match e with
      | some expr => do
        let c ← compile_expr fuel expr c
        .ok (c.emit Op.ReturnVal)
      | none => .ok (c.emit Op.Return)
    | .Sub name params body => do
      let skip_jump := c.pos + 1
      let c := c.emit_word Op.Jump 0
      let sub_addr := c.pos
      let c := { c with subs := ainsert c.subs name (sub_addr, params.length % 256) }
      let c := c.push_scope
      let c := c.emit_byte Op.EnterFrame params.length
      let c := registerParams params 0 c
      let c ← compile_stmts fuel body c
      let c := (c.emit Op.LeaveFrame).emit Op.Return
      let c := c.pop_scope
      .ok (c.patch_addr skip_jump c.pos)
    | .Print args => compile_print_args fuel args c
    | .Say args => do
      let c ← compile_print_args fuel args c
      .ok (c.emit Op.PrintLn)
    | .Block stmts => do
      let c := c.push_scope
      let c ← compile_stmts fuel stmts c
      .ok c.pop_scope
    | .Use _ => .ok c
    | .Package _ => .ok c

def compile_elsifs : Nat → List (Expr × List Stmt) → List Nat → Compiler →
    Except Str (List Nat × Compiler)
  | 0, _, _, _ => .error cfuelErr
  | _ + 1, [], end_jumps, c => .ok (end_jumps, c)
  | fuel + 1, (elsif_cond, elsif_body) :: rest, end_jumps, c => do
    let c ← compile_expr fuel elsif_cond c
    let elsif_jump := c.pos + 1
    let c := c.emit_word Op.JumpIfNot 0
    let c ← compile_stmts fuel elsif_body c
    let end_jumps := end_jumps ++ [c.pos + 1]
    let c := c.emit_word Op.Jump 0
    let c := c.patch_addr elsif_jump c.pos
    compile_elsifs fuel rest end_jumps c

def compile_print_args : Nat → List Expr → Compiler → Except Str Compiler
  | 0, _, _ => .error cfuelErr
  | _ + 1, [], c => .ok c
  | fuel + 1, e :: rest, c => do
    let c ← compile_expr fuel e c
    compile_print_args fuel rest (c.emit Op.Print)

def compile_args : Nat → List Expr → Compiler → Except Str Compiler
  | 0, _, _ => .error cfuelErr
  | _ + 1, [], c => .ok c
  | fuel + 1, e :: rest, c => do
    let c ← compile_expr fuel e c
    compile_args fuel rest c

def compile_list_items : Nat → List Expr → Nat → Compiler → Except Str Compiler
  | 0, _, _, _ => .error cfuelErr
  | _ + 1, [], _, c => .ok c
  | fuel + 1, item :: rest, i, c => do
    let c := c.emit Op.Dup
    let c := c.emit_word Op.Push (i % 65536)
    let c ← compile_expr fuel item c
    let c := c.emit Op.ArrSet
    compile_list_items fuel rest (i + 1) c

def compile_hash_items : Nat → List (Expr × Expr) → Compiler → Except Str Compiler
  | 0, _, _ => .error cfuelErr
  | _ + 1, [], c => .ok c
  | fuel + 1, (key, value) :: rest, c => do
    let c := c.emit Op.Dup
    let c ← compile_expr fuel key c
    let c ← compile_expr fuel value c
    let c := c.emit Op.HashSet
    compile_hash_items fuel rest c

def compile_expr : Nat → Expr → Compiler → Except Str Compiler
  | 0, _, _ => .error cfuelErr
  | fuel + 1, expr, c =>
    match expr with
    | .Integer n => .ok (c.emit_word Op.Push (toU16 n))
    | .Float text => .ok (c.emit_word Op.Push (floatTruncU16 text))
    | .String s =>
      let (idx, m) := c.module.add_string s
      .ok (({ c with module := m }).emit_word Op.PushStr idx)
    | .ScalarVar name =>
      match c.find_local name with
      | some idx => .ok (c.emit_byte Op.LoadLocal idx)
      | none =>
        match alookup c.globals name with
        | some idx => .ok (c.emit_word Op.LoadGlobal idx)
        | none => .error ("Undefined variable: $" ++ name)
    | .ArrayVar name =>
      match c.find_local name with
      | some idx => .ok (c.emit_byte Op.LoadLocal idx)
      | none =>
        match alookup c.globals name with
        | some idx => .ok (c.emit_word Op.LoadGlobal idx)
        | none => .error ("Undefined array: @" ++ name)
    | .HashVar name =>
      match c.find_local name with
      | some idx => .ok (c.emit_byte Op.LoadLocal idx)
      | none =>
        match alookup c.globals name with
        | some idx => .ok (c.emit_word Op.LoadGlobal idx)
        | none => .error ("Undefined hash: %" ++ name)
    | .ArrayIndex arr idx => do
      let c ← compile_expr fuel arr c
      let c ← compile_expr fuel idx c
      .ok (c.emit Op.ArrGet)
    | .HashIndex hash key => do
      let c ← compile_expr fuel hash c
      let c ← compile_expr fuel key c
      .ok (c.emit Op.HashGet)
    | .BinOp left op right => do
      let c ← compile_expr fuel left c
      let c ← compile_expr fuel right c
      match binOpOpcode op with
      | some opcode => .ok (c.emit opcode)
      | none => .error "Power operator not yet implemented"
    | .UnaryOp op e => do
      let c ← compile_expr fuel e c
      match op with
      | .Neg => .ok (c.emit Op.Neg)
      | .Not => .ok (c.emit Op.Not)
      | .BitNot => .ok (c.emit Op.BitNot)
      | .Ref => .error "References not yet implemented"
    | .PreIncrement e => do
      let c := c.emit Op.Dup
      let c ← compile_expr fuel e c
      let c := c.emit Op.Inc
      let c := c.emit Op.Dup
      compile_assign_expr fuel e c
    | .PreDecrement e => do
      let c := c.emit Op.Dup
      let c ← compile_expr fuel e c
      let c := c.emit Op.Dec
      let c := c.emit Op.Dup
      compile_assign_expr fuel e c
    | .PostIncrement e => do
      let c ← compile_expr fuel e c
      let c := c.emit Op.Dup
      let c := c.emit Op.Inc
      compile_assign_expr fuel e c
    | .PostDecrement e => do
      let c ← compile_expr fuel e c
      let c := c.emit Op.Dup
      let c := c.emit Op.Dec
      compile_assign_expr fuel e c
    | .Assign target value => do
      let c ← compile_expr fuel value c
      let c := c.emit Op.Dup
      compile_assign_expr fuel target c
    | .OpAssign target op value => do
      let c ← compile_expr fuel target c
      let c ← compile_expr fuel value c
      match opAssignOpcode op with
      | some opcode =>
        let c := c.emit opcode
        let c := c.emit Op.Dup
        compile_assign_expr fuel target c
      | none => .error ("Unsupported op-assign: " ++ binOpDebug op)
    | .Call name args => do
      let c ← compile_args fuel args c
      match alookup c.subs name with
      | some (addr, _) => .ok (c.emit_word Op.Call addr)
      | none =>
        let c := { c with forward_refs := c.forward_refs ++ [(name, c.pos + 1)] }
        .ok (c.emit_word Op.Call 0)
    | .MethodCall obj method args => do
      let c ← compile_expr fuel obj c
      let _ ← compile_args fuel args c
      .error ("Method calls not yet implemented: " ++ method)
    | .List items => do
      let c := c.emit_byte Op.NewArray items.length
      compile_list_items fuel items 0 c
    | .Hash pairs => do
      let c := c.emit Op.NewHash
      compile_hash_items fuel pairs c
    | .Ternary cond then_expr else_expr => do
      let c ← compile_expr fuel cond c
      let else_jump := c.pos + 1
      let c := c.emit_word Op.JumpIfNot 0
      let c ← compile_expr fuel then_expr c
      let end_jump := c.pos + 1
      let c := c.emit_word Op.Jump 0
      let c := c.patch_addr else_jump c.pos
      let c ← compile_expr fuel else_expr c
      .ok (c.patch_addr end_jump c.pos)
    | .Range _ _ => .error "Range expressions not yet implemented"
    | .Match e pattern _flags => do
      let c ← compile_expr fuel e c
      let (idx, m) := c.module.add_string pattern
      let c := ({ c with module := m }).emit_word Op.PushStr idx
      .ok (c.emit Op.Match)
    | .NotMatch e pattern _flags => do
      let c ← compile_expr fuel e c
      let (idx, m) := c.module.add_string pattern
      let c := ({ c with module := m }).emit_word Op.PushStr idx
      let c := c.emit Op.Match
      .ok (c.emit Op.Not)
    | .Ref _ => .error "References not yet implemented"
    | .Deref _ => .error "Dereferences not yet implemented"

def compile_assign_expr : Nat → Expr → Compiler → Except Str Compiler
  | 0, _, _ => .error cfuelErr
  | fuel + 1, target, c =>
    match target with
    | .ScalarVar name =>
      match c.find_local name with
      | some idx => .ok (c.emit_byte Op.StoreLocal idx)
      | none =>
        match alookup c.globals name with
        | some idx => .ok (c.emit_word Op.StoreGlobal idx)
        | none =>
          let idx := c.innermost.length % 256
          let c := c.insert_local name idx
          .ok (c.emit_byte Op.StoreLocal idx)
    | .ArrayIndex arr idx => do
      let c ← compile_expr fuel arr c
      let c ← compile_expr fuel idx c
      .ok (c.emit Op.ArrSet)
    | .HashIndex hash key => do
      let c ← compile_expr fuel hash c
      let c ← compile_expr fuel key c
      .ok (c.emit Op.HashSet)
    | _ => .error "Invalid assignment target"

end

/-- The first pass of `Compiler::compile`: record each top-level
subroutine with placeholder address 0. -/
def pass1 (stmts : List Stmt) (c : Compiler) : Compiler :=
  stmts.foldl (fun c s =>
    match s with
    | Stmt.Sub name params _ => { c with subs := ainsert c.subs name (0, params.length % 256) }
    | _ => c) c

/-- The forward-reference patch loop at the end of `Compiler::compile`. -/
def patch_forward_refs : List (Str × Nat) → Compiler → Except Str Compiler
  | [], c => .ok c
  | (name, patch_pos) :: rest, c =>
    match alookup c.subs name with
    | some (addr, _) => patch_forward_refs rest (c.patch_addr patch_pos addr)
    | none => .error ("Undefined subroutine: " ++ name)

/-- `Compiler::compile`. -/
def compile (fuel : Nat) (program : Program) : Except Str Module := do
  let c := pass1 program.statements Compiler.new
  let c ← compile_stmts fuel program.statements c
  let c := c.emit Op.Halt
  let c ← patch_forward_refs c.forward_refs c
  .ok { c.module with subs := c.module.subs ++ c.subs }

/-- The front half of the pipeline in `main`: tokenize, parse, compile. -/
def compileSource (fuel : Nat) (source : Str) : Except Str Module := do
  let tokens := (Lexer.new source).tokenize
  let (program, _) ← parse_program fuel (Parser.new tokens)
  compile fuel program

/-! ## Instruction-level view of emitted code

The compiler only ever appends whole instructions (`emit`, `emit_byte`,
`emit_word`) and overwrites the two operand bytes of a previously
emitted `Jump`/`JumpIf`/`JumpIfNot`/`Call` (`patch_addr`).  `EInstr` is
the instruction-level image of the code stream; `Good` is the invariant
the verification of C4, C5 and C7 maintains. -/

/-- One emitted instruction: an opcode byte with zero, one or two
operand bytes. -/
inductive EInstr where
  | i1 (b : Nat)
  | i2 (b x : Nat)
  | i3 (b x y : Nat)
  deriving DecidableEq, Repr

/-- The bytes of one instruction. -/
def EInstr.encode : EInstr → List Nat
  | .i1 b => [b]
  | .i2 b x => [b, x]
  | .i3 b x y => [b, x, y]

/-- The byte stream of an instruction list. -/
def encodeList (l : List EInstr) : List Nat :=
  (l.map EInstr.encode).flatten

/-- The instruction's arity agrees with `Op::size` of its opcode byte, so
that a decoding walk from offset 0 stays aligned with the chunks. -/
def EInstr.wf : EInstr → Prop
  | .i1 b => (Op.fromByte b).size = 1
  | .i2 b _ => (Op.fromByte b).size = 2
  | .i3 b _ _ => (Op.fromByte b).size = 3

/-- A `PushStr` instruction's 16-bit operand indexes into a string pool
of `n` entries. -/
def EInstr.okStr (n : Nat) : EInstr → Prop
  | .i3 b x y => Op.fromByte b = Op.PushStr → x + 256 * y < n
  | _ => True

/-- `p` is the operand position of a three-byte instruction whose opcode
byte satisfies `P`. -/
def WordSlot (instrs : List EInstr) (p : Nat) (P : Nat → Prop) : Prop :=
  ∃ l₁ l₂ b x y, instrs = l₁ ++ EInstr.i3 b x y :: l₂ ∧ P b
    ∧ p = (encodeList l₁).length + 1

/-- Operand slot of a `Call`. -/
def CallSlot (instrs : List EInstr) (p : Nat) : Prop :=
  WordSlot instrs p (· = opByte Op.Call)

/-- Operand slot of a `Jump`. -/
def JumpSlot (instrs : List EInstr) (p : Nat) : Prop :=
  WordSlot instrs p (· = opByte Op.Jump)

/-- Operand slot of a `Jump` holding the little-endian bytes of `addr`. -/
def ValSlot (instrs : List EInstr) (p addr : Nat) : Prop :=
  ∃ l₁ l₂, instrs = l₁ ++ EInstr.i3 (opByte Op.Jump) (addr % 256) (addr / 256 % 256) :: l₂
    ∧ p = (encodeList l₁).length + 1

/-- The compilation invariant: the code is a well-formed instruction
stream with in-range `PushStr` operands, every forward reference points
at a `Call` operand slot, and every loop-stack entry's continue address
is within the code with its recorded `last`-patch positions pointing at
`Jump` operand slots past the loop's start. -/
def Good (c : Compiler) (instrs : List EInstr) : Prop :=
  c.module.code = encodeList instrs
  ∧ (∀ i ∈ instrs, i.wf ∧ i.okStr c.module.strings.length)
  ∧ (∀ r ∈ c.forward_refs, CallSlot instrs r.2)
  ∧ (∀ e ∈ c.loop_stack, e.1 ≤ (encodeList instrs).length
      ∧ ∀ p ∈ e.2, JumpSlot instrs p ∧ e.1 + 1 ≤ p)

/-- The unconditional bookkeeping facts of one compiler step: code and
string pool only grow, the loop stack keeps its continue addresses, and
forward-reference positions stay two bytes inside the code. -/
def Inv5 (c : Compiler) : Prop :=
  ∀ r ∈ c.forward_refs, r.2 + 2 ≤ c.module.code.length

def Ext (c c' : Compiler) : Prop :=
  c.module.code.length ≤ c'.module.code.length
  ∧ c.module.strings.length ≤ c'.module.strings.length
  ∧ c'.loop_stack.map Prod.fst = c.loop_stack.map Prod.fst
  ∧ (Inv5 c → Inv5 c')

/-- One compiler step: the bookkeeping facts, plus — when the final code
fits the 16-bit address space, so no `pos()` cast truncates — the
instruction-level invariant is preserved and the input stream survives
as a prefix. -/
def CompStep (c c' : Compiler) : Prop :=
  Ext c c' ∧
  ∀ instrs, Good c instrs → c'.module.code.length < 65536 →
    ∃ δ, Good c' (instrs ++ δ)

/-- The bookkeeping part of `Ext` (no loop-stack condition), for chaining
through the interior of a loop case where an entry is pushed and later
popped. -/
def ExtC (c c' : Compiler) : Prop :=
  c.module.code.length ≤ c'.module.code.length
  ∧ c.module.strings.length ≤ c'.module.strings.length
  ∧ (Inv5 c → Inv5 c')

/-- The step contract of `compile_elsifs`: it additionally threads the
accumulated end-jump positions, each a `Jump` operand slot past the
byte offset `n` fixed by the caller (the position of the enclosing
`if`'s first byte). -/
def CompStepE (ej : List Nat) (c : Compiler) (r : List Nat × Compiler) : Prop :=
  Ext c r.2 ∧
  ∀ instrs n, Good c instrs → n ≤ (encodeList instrs).length →
    (∀ p ∈ ej, JumpSlot instrs p ∧ n + 1 ≤ p) →
    r.2.module.code.length < 65536 →
    ∃ δ, Good r.2 (instrs ++ δ) ∧ ∀ p ∈ r.1, JumpSlot (instrs ++ δ) p ∧ n + 1 ≤ p

/-- The decode walk of C4: scan the code from offset 0 by `Op::size` and
check every `PushStr` operand against the string-pool size (mirrors the
disassembler's and the test helper's walk). -/
def pushStrOk : List Nat → Nat → Bool
  | [], _ => true
  | b :: rest, n =>
    (if Op.fromByte b = Op.PushStr then
      decide (rest.getD 0 0 + 256 * rest.getD 1 0 < n)
    else true)
    && pushStrOk (rest.drop ((Op.fromByte b).size - 1)) n
termination_by l _ => l.length
decreasing_by
  simp only [List.length_cons]
  have := List.length_drop ((Op.fromByte b).size - 1) rest
  omega

/-!
# Verification

Everything below is lemmas and theorems about the definitions above.
The claim theorems are named `c1` … `c10` (with `_witness` /
`_counterexample` companions where required).
-/

/-! ## Serialiser lemmas (C3, C9) -/

theorem foldl_strtab (l : List Str) (b : List Nat) :
    l.foldl (fun b s => b ++ ((strBytes s).length % 256 :: strBytes s)) b
      = b ++ (l.map (fun s => (strBytes s).length % 256 :: strBytes s)).flatten := by
  induction l generalizing b with
  | nil => simp
  | cons s rest ih => simp [ih]

/-- C9: the serialiser in `main.rs` and the one in `z80.rs` are the same
function of the module. -/
theorem c9_serialisers_agree (m : Module) :
    generate_binary m = generate_bytecode_image m := rfl

/-- C3: for a module within the format's capacity (code + header below
64 KiB, fewer than 256 strings each shorter than 256 bytes, a 16-bit
entry point — the bounds the Rust `u16`/`u8` casts presuppose), the
serialised image is exactly: magic `M`,`P`,`L`,1; the string-table offset
`10 + |code|` as little-endian u16; the code length as little-endian u16;
the entry point as little-endian u16; the code bytes; then one byte of
string count followed by, for each string in order, one length byte and
that string's raw bytes — with no padding anywhere. -/
theorem c3_image_format (m : Module)
    (hc : m.code.length + 10 < 65536)
    (hs : m.strings.length < 256)
    (hl : ∀ s ∈ m.strings, (strBytes s).length < 256)
    (he : m.entry < 65536) :
    generate_binary m =
      [77, 80, 76, 1]
      ++ [(10 + m.code.length) % 256, (10 + m.code.length) / 256]
      ++ [m.code.length % 256, m.code.length / 256]
      ++ [m.entry % 256, m.entry / 256]
      ++ m.code
      ++ m.strings.length
         :: (m.strings.map (fun s => (strBytes s).length :: strBytes s)).flatten := by
  have h1 : m.code.length % 65536 = m.code.length := Nat.mod_eq_of_lt (by omega)
  have h2 : (10 + m.code.length) % 65536 = 10 + m.code.length :=
    Nat.mod_eq_of_lt (by omega)
  have h3 : (10 + m.code.length) / 256 % 256 = (10 + m.code.length) / 256 :=
    Nat.mod_eq_of_lt (Nat.div_lt_of_lt_mul (by omega))
  have h4 : m.code.length / 256 % 256 = m.code.length / 256 :=
    Nat.mod_eq_of_lt (Nat.div_lt_of_lt_mul (by omega))
  have h5 : m.entry / 256 % 256 = m.entry / 256 :=
    Nat.mod_eq_of_lt (Nat.div_lt_of_lt_mul (by omega))
  have h6 : m.strings.length % 256 = m.strings.length := Nat.mod_eq_of_lt hs
  have h7 : m.strings.map (fun s => (strBytes s).length % 256 :: strBytes s)
      = m.strings.map (fun s => (strBytes s).length :: strBytes s) := by
    apply List.map_congr_left
    intro s hsm
    rw [Nat.mod_eq_of_lt (hl s hsm)]
  unfold generate_binary
  rw [foldl_strtab]
  simp only [h1, h2, h3, h4, h5, h6, h7]
  simp

/-- Concrete instance discharging C3's capacity hypotheses. -/
theorem c3_witness :
    generate_binary
        { strings := ["AB"], globals := [], subs := [], code := [240], entry := 0 }
      = [77, 80, 76, 1, 11, 0, 1, 0, 0, 0, 240, 1, 2, 65, 66] := by
  rw [c3_image_format _ (by decide) (by decide) (by decide) (by decide)]
  decide

/-! ## Lexer lemmas (C8, C10)

`LexStep l l'` records that `l'` is reachable from `l` by scanning:
same input, the cursor did not move back, and it stays within the
input. -/

def LexStep (a b : Lexer) : Prop :=
  b.input = a.input ∧ a.pos ≤ b.pos ∧
    (a.pos ≤ a.input.length → b.pos ≤ a.input.length)

theorem lexStep_refl (l : Lexer) : LexStep l l :=
  ⟨rfl, le_refl _, fun h => h⟩

theorem lexStep_trans {a b c : Lexer} (h1 : LexStep a b) (h2 : LexStep b c) :
    LexStep a c := by
  obtain ⟨i1, p1, q1⟩ := h1
  obtain ⟨i2, p2, q2⟩ := h2
  exact ⟨i2.trans i1, p1.trans p2, fun h => by
    have := q2 (by rw [i1]; exact q1 h)
    rwa [i1] at this⟩

theorem current_lt {l : Lexer} {c : Char} (h : l.current = some c) :
    l.pos < l.input.length := by
  by_contra hge
  rw [Lexer.current, List.get?_eq_none.mpr (le_of_not_lt hge)] at h
  exact Option.noConfusion h

theorem advance_input (l : Lexer) : l.advance.input = l.input := by
  unfold Lexer.advance
  cases l.current with
  | none => rfl
  | some ch => by_cases hc : ch = '\n' <;> simp [hc]

theorem advance_last (l : Lexer) : l.advance.last_token = l.last_token := by
  unfold Lexer.advance
  cases l.current with
  | none => rfl
  | some ch => by_cases hc : ch = '\n' <;> simp [hc]

theorem advance_pos_some {l : Lexer} {c : Char} (h : l.current = some c) :
    l.advance.pos = l.pos + 1 := by
  unfold Lexer.advance
  rw [h]
  by_cases hc : c = '\n' <;> simp [hc]

theorem advance_pos_none {l : Lexer} (h : l.current = none) : l.advance = l := by
  unfold Lexer.advance
  rw [h]

theorem advance_mono (l : Lexer) : l.pos ≤ l.advance.pos := by
  cases h : l.current with
  | none => rw [advance_pos_none h]
  | some c => rw [advance_pos_some h]; omega

theorem lexStep_advance (l : Lexer) : LexStep l l.advance := by
  refine ⟨advance_input l, advance_mono l, fun _ => ?_⟩
  cases h : l.current with
  | none => rw [advance_pos_none h]; assumption
  | some c => rw [advance_pos_some h]; exact current_lt h

theorem skipCommentF_step : ∀ fuel (l : Lexer), LexStep l (skipCommentF fuel l) := by
  intro fuel
  induction fuel with
  | zero => intro l; exact lexStep_refl l
  | succ n ih =>
    intro l
    unfold skipCommentF
    cases l.current with
    | none => exact lexStep_refl l
    | some c =>
      by_cases hc : c = '\n'
      · simp [hc]; exact lexStep_refl l
      · simp [hc]; exact lexStep_trans (lexStep_advance l) (ih l.advance)

theorem skipWhitespaceF_step : ∀ fuel (l : Lexer), LexStep l (skipWhitespaceF fuel l) := by
  intro fuel
  induction fuel with
  | zero => intro l; exact lexStep_refl l
  | succ n ih =>
    intro l
    unfold skipWhitespaceF
    cases l.current with
    | none => exact lexStep_refl l
    | some c =>
      by_cases hw : isWhitespaceRust c
      · simp [hw]; exact lexStep_trans (lexStep_advance l) (ih l.advance)
      · by_cases hh : c = '#'
        · simp [hw, hh]
          exact lexStep_trans (skipCommentF_step l.rem l) (ih _)
        · simp [hw, hh]; exact lexStep_refl l

theorem skip_whitespace_step (l : Lexer) : LexStep l l.skip_whitespace :=
  skipWhitespaceF_step l.rem l

theorem skipCommentF_last : ∀ fuel (l : Lexer),
    (skipCommentF fuel l).last_token = l.last_token := by
  intro fuel
  induction fuel with
  | zero => intro l; rfl
  | succ n ih =>
    intro l
    unfold skipCommentF
    cases l.current with
    | none => rfl
    | some c =>
      by_cases hc : c = '\n'
      · simp [hc]
      · simp [hc]; rw [ih, advance_last]

theorem skipWhitespaceF_last : ∀ fuel (l : Lexer),
    (skipWhitespaceF fuel l).last_token = l.last_token := by
  intro fuel
  induction fuel with
  | zero => intro l; rfl
  | succ n ih =>
    intro l
    unfold skipWhitespaceF
    cases l.current with
    | none => rfl
    | some c =>
      by_cases hw : isWhitespaceRust c
      · simp [hw]; rw [ih, advance_last]
      · by_cases hh : c = '#'
        · subst hh; simp [hw]; rw [ih, skipCommentF_last]
        · simp [hw, hh]

theorem skip_whitespace_last (l : Lexer) :
    l.skip_whitespace.last_token = l.last_token :=
  skipWhitespaceF_last l.rem l

theorem readNumberF_step : ∀ fuel (l : Lexer) acc fl,
    LexStep l (readNumberF fuel l acc fl).2 := by
  intro fuel
  induction fuel with
  | zero => intro l acc fl; exact lexStep_refl l
  | succ n ih =>
    intro l acc fl
    unfold readNumberF
    cases l.current with
    | none => exact lexStep_refl l
    | some c =>
      by_cases hd : c.isDigit
      · simp [hd]; exact lexStep_trans (lexStep_advance l) (ih _ _ _)
      · by_cases hdot : (c = '.' && !fl)
        · simp [hd, hdot]
          cases l.peek with
          | none => exact lexStep_refl l
          | some next =>
            by_cases hn : next.isDigit
            · simp [hn]; exact lexStep_trans (lexStep_advance l) (ih _ _ _)
            · simp [hn]; exact lexStep_refl l
        · by_cases hu : c = '_'
          · simp [hd, hdot, hu]; exact lexStep_trans (lexStep_advance l) (ih _ _ _)
          · simp [hd, hdot, hu]; exact lexStep_refl l

theorem readStringF_step : ∀ fuel (l : Lexer) q s,
    LexStep l (readStringF fuel l q s).2 := by
  intro fuel
  induction fuel with
  | zero => intro l q s; exact lexStep_refl l
  | succ n ih =>
    intro l q s
    unfold readStringF
    cases l.current with
    | none => exact lexStep_refl l
    | some c =>
      by_cases hq : c = q
      · simp [hq]; exact lexStep_advance l
      · by_cases hb : c = '\\'
        · subst hb
          simp [hq]
          cases (l.advance).current with
          | none => exact lexStep_trans (lexStep_advance l) (ih _ _ _)
          | some esc =>
            exact lexStep_trans (lexStep_advance l)
              (lexStep_trans (lexStep_advance l.advance) (ih _ _ _))
        · simp [hq, hb]; exact lexStep_trans (lexStep_advance l) (ih _ _ _)

theorem readRegexPatF_step : ∀ fuel (l : Lexer) pat,
    LexStep l (readRegexPatF fuel l pat).2 := by
  intro fuel
  induction fuel with
  | zero => intro l pat; exact lexStep_refl l
  | succ n ih =>
    intro l pat
    unfold readRegexPatF
    cases l.current with
    | none => exact lexStep_refl l
    | some c =>
      by_cases hs : c = '/'
      · simp [hs]; exact lexStep_advance l
      · by_cases hb : c = '\\'
        · subst hb
          simp [hs]
          cases (l.advance).current with
          | none => exact lexStep_trans (lexStep_advance l) (ih _ _)
          | some esc =>
            exact lexStep_trans (lexStep_advance l)
              (lexStep_trans (lexStep_advance l.advance) (ih _ _))
        · simp [hs, hb]; exact lexStep_trans (lexStep_advance l) (ih _ _)

theorem readFlagsF_step : ∀ fuel (l : Lexer) fl,
    LexStep l (readFlagsF fuel l fl).2 := by
  intro fuel
  induction fuel with
  | zero => intro l fl; exact lexStep_refl l
  | succ n ih =>
    intro l fl
    unfold readFlagsF
    cases l.current with
    | none => exact lexStep_refl l
    | some c =>
      by_cases ha : c.isAlpha
      · simp [ha]; exact lexStep_trans (lexStep_advance l) (ih _ _)
      · simp [ha]; exact lexStep_refl l

theorem readIdentF_step : ∀ fuel (l : Lexer) acc,
    LexStep l (readIdentF fuel l acc).2 := by
  intro fuel
  induction fuel with
  | zero => intro l acc; exact lexStep_refl l
  | succ n ih =>
    intro l acc
    unfold readIdentF
    cases l.current with
    | none => exact lexStep_refl l
    | some c =>
      by_cases ha : (c.isAlphanum || c = '_')
      · simp [ha]; exact lexStep_trans (lexStep_advance l) (ih _ _)
      · simp [ha]; exact lexStep_refl l

theorem read_ident_step (l : Lexer) : LexStep l l.read_ident.2 :=
  readIdentF_step l.rem l ""

theorem read_variable_step (l : Lexer) (sig : Char) :
    LexStep l (l.read_variable sig).2 := by
  unfold Lexer.read_variable
  cases h : l.advance.read_ident with
  | mk name l2 =>
    have h2 : LexStep l l2 := by
      have hs := read_ident_step l.advance
      rw [h] at hs
      exact lexStep_trans (lexStep_advance l) hs
    by_cases h3 : sig = '@' <;> by_cases h4 : sig = '%' <;>
      simp [h3, h4] <;> (try rw [h]) <;> exact h2

theorem read_string_step (l : Lexer) (q : Char) : LexStep l (l.read_string q).2 := by
  unfold Lexer.read_string
  exact lexStep_trans (lexStep_advance l) (readStringF_step _ _ _ _)

theorem read_regex_step (l : Lexer) : LexStep l l.read_regex.2 := by
  have s1 := readRegexPatF_step l.advance.rem l.advance ""
  rcases h1 : readRegexPatF l.advance.rem l.advance "" with ⟨pat, l1⟩
  rw [h1] at s1
  have s2 := readFlagsF_step l1.rem l1 ""
  rcases h2 : readFlagsF l1.rem l1 "" with ⟨fl, l2⟩
  rw [h2] at s2
  simp only [Lexer.read_regex, h1, h2]
  exact lexStep_trans (lexStep_advance l) (lexStep_trans s1 s2)

theorem read_number_step (l : Lexer) : LexStep l l.read_number.2 :=
  readNumberF_step l.rem l "" false

theorem advance_strict {l : Lexer} {c : Char} (h : l.current = some c) :
    l.pos < l.advance.pos := by
  rw [advance_pos_some h]; omega

theorem read_variable_pos (l : Lexer) (sig : Char) :
    l.advance.pos ≤ (l.read_variable sig).2.pos := by
  unfold Lexer.read_variable
  have hs := read_ident_step l.advance
  cases h : l.advance.read_ident with
  | mk name l2 =>
    rw [h] at hs
    by_cases h3 : sig = '@' <;> by_cases h4 : sig = '%' <;>
      simp [h3, h4] <;> (try rw [h]) <;> exact hs.2.1

theorem read_string_pos (l : Lexer) (q : Char) :
    l.advance.pos ≤ (l.read_string q).2.pos := by
  unfold Lexer.read_string
  exact (readStringF_step _ _ _ _).2.1

theorem read_regex_pos (l : Lexer) : l.advance.pos ≤ l.read_regex.2.pos := by
  have s1 := readRegexPatF_step l.advance.rem l.advance ""
  rcases h1 : readRegexPatF l.advance.rem l.advance "" with ⟨pat, l1⟩
  rw [h1] at s1
  have s2 := readFlagsF_step l1.rem l1 ""
  rcases h2 : readFlagsF l1.rem l1 "" with ⟨fl, l2⟩
  rw [h2] at s2
  simp only [Lexer.read_regex, h1, h2]
  exact le_trans s1.2.1 s2.2.1

theorem readNumberF_progress {l : Lexer} {c : Char} (h : l.current = some c)
    (hd : c.isDigit = true) {fuel : Nat} (hf : 1 ≤ fuel) (acc : Str) (fl : Bool) :
    l.pos < (readNumberF fuel l acc fl).2.pos := by
  obtain ⟨n, rfl⟩ : ∃ n, fuel = n + 1 := ⟨fuel - 1, by omega⟩
  have step := (readNumberF_step n l.advance (acc.push c) fl).2.1
  have hp := advance_pos_some h
  unfold readNumberF
  simp only [h, hd, if_true]
  omega

theorem read_number_strict {l : Lexer} {c : Char} (h : l.current = some c)
    (hd : c.isDigit = true) : l.pos < l.read_number.2.pos := by
  unfold Lexer.read_number
  have := current_lt h
  exact readNumberF_progress h hd (by unfold Lexer.rem; omega) "" false

theorem isIdentStart_alnum {c : Char} (h : isIdentStart c = true) :
    (c.isAlphanum || c = '_') = true := by
  simp only [isIdentStart, Bool.or_eq_true, beq_iff_eq] at h
  rcases h with h | h
  · simp [Char.isAlphanum, h]
  · simp [h]

theorem readIdentF_progress {l : Lexer} {c : Char} (h : l.current = some c)
    (ha : (c.isAlphanum || c = '_') = true) {fuel : Nat} (hf : 1 ≤ fuel) (acc : Str) :
    l.pos < (readIdentF fuel l acc).2.pos := by
  obtain ⟨n, rfl⟩ : ∃ n, fuel = n + 1 := ⟨fuel - 1, by omega⟩
  have step := (readIdentF_step n l.advance (acc.push c)).2.1
  have hp := advance_pos_some h
  unfold readIdentF
  simp only [h, ha, if_true]
  omega

theorem read_ident_strict {l : Lexer} {c : Char} (h : l.current = some c)
    (hi : isIdentStart c = true) : l.pos < l.read_ident.2.pos := by
  unfold Lexer.read_ident
  have := current_lt h
  exact readIdentF_progress h (isIdentStart_alnum hi) (by unfold Lexer.rem; omega) ""

/-- Leaf helpers for the `token_dispatch` case analysis: the state after
one, two or three `advance`s. -/
theorem dleaf1 {l : Lexer} {c : Char} (h : l.current = some c) :
    LexStep l l.advance ∧ l.pos < l.advance.pos :=
  ⟨lexStep_advance l, advance_strict h⟩

theorem dleaf2 {l : Lexer} {c : Char} (h : l.current = some c) :
    LexStep l l.advance.advance ∧ l.pos < l.advance.advance.pos :=
  ⟨lexStep_trans (lexStep_advance l) (lexStep_advance _),
   lt_of_lt_of_le (advance_strict h) (advance_mono _)⟩

theorem dleaf3 {l : Lexer} {c : Char} (h : l.current = some c) :
    LexStep l l.advance.advance.advance ∧ l.pos < l.advance.advance.advance.pos :=
  ⟨lexStep_trans (lexStep_trans (lexStep_advance l) (lexStep_advance _)) (lexStep_advance _),
   lt_of_lt_of_le (advance_strict h) (le_trans (advance_mono _) (advance_mono _))⟩

/-- The dispatch of `next_token` either returns `Eof` or strictly advances
the cursor, and always takes a `LexStep`. -/
theorem token_dispatch_spec (l : Lexer) :
    LexStep l l.token_dispatch.2 ∧
      (l.token_dispatch.1 = Token.Eof ∨ l.pos < l.token_dispatch.2.pos) := by
  unfold Lexer.token_dispatch
  cases h : l.current with
  | none => exact ⟨lexStep_refl l, Or.inl rfl⟩
  | some c =>
    dsimp only
    by_cases h1 : c = '$'
    · simp only [h1, if_pos rfl]
      exact ⟨read_variable_step l '$',
        Or.inr (lt_of_lt_of_le (advance_strict h) (read_variable_pos l '$'))⟩
    rw [if_neg h1]
    by_cases h2 : c = '@'
    · rw [if_pos h2]
      cases hp : l.peek with
      | none =>
        simp only
        exact ⟨(dleaf1 h).1, Or.inr (dleaf1 h).2⟩
      | some next =>
        simp only
        split
        · exact ⟨read_variable_step l '@',
            Or.inr (lt_of_lt_of_le (advance_strict h) (read_variable_pos l '@'))⟩
        · exact ⟨(dleaf1 h).1, Or.inr (dleaf1 h).2⟩
    rw [if_neg h2]
    by_cases h3 : c = '%'
    · rw [if_pos h3]
      cases hp : l.peek with
      | none =>
        simp only
        exact ⟨(dleaf1 h).1, Or.inr (dleaf1 h).2⟩
      | some next =>
        simp only
        split
        · exact ⟨read_variable_step l '%',
            Or.inr (lt_of_lt_of_le (advance_strict h) (read_variable_pos l '%'))⟩
        · split
          · exact ⟨(dleaf2 h).1, Or.inr (dleaf2 h).2⟩
          · exact ⟨(dleaf1 h).1, Or.inr (dleaf1 h).2⟩
    rw [if_neg h3]
    by_cases h4 : (c = '"' || c = '\'') = true
    · rw [if_pos h4]
      exact ⟨read_string_step l c,
        Or.inr (lt_of_lt_of_le (advance_strict h) (read_string_pos l c))⟩
    rw [if_neg h4]
    by_cases h5 : c.isDigit = true
    · rw [if_pos h5]
      exact ⟨read_number_step l, Or.inr (read_number_strict h h5)⟩
    rw [if_neg h5]
    by_cases h6 : isIdentStart c = true
    · rw [if_pos h6]
      have hstep := read_ident_step l
      have hstrict := read_ident_strict h h6
      cases hi : l.read_ident with
      | mk ident l2 =>
        rw [hi] at hstep hstrict
        exact ⟨hstep, Or.inr hstrict⟩
    rw [if_neg h6]
    by_cases h7 : c = '+'
    · rw [if_pos h7]
      split
      · exact ⟨(dleaf2 h).1, Or.inr (dleaf2 h).2⟩
      · exact ⟨(dleaf2 h).1, Or.inr (dleaf2 h).2⟩
      · exact ⟨(dleaf1 h).1, Or.inr (dleaf1 h).2⟩
    rw [if_neg h7]
    by_cases h8 : c = '-'
    · rw [if_pos h8]
      split
      · exact ⟨(dleaf2 h).1, Or.inr (dleaf2 h).2⟩
      · exact ⟨(dleaf2 h).1, Or.inr (dleaf2 h).2⟩
      · exact ⟨(dleaf2 h).1, Or.inr (dleaf2 h).2⟩
      · exact ⟨(dleaf1 h).1, Or.inr (dleaf1 h).2⟩
    rw [if_neg h8]
    by_cases h9 : c = '*'
    · rw [if_pos h9]
      split
      · exact ⟨(dleaf2 h).1, Or.inr (dleaf2 h).2⟩
      · exact ⟨(dleaf2 h).1, Or.inr (dleaf2 h).2⟩
      · exact ⟨(dleaf1 h).1, Or.inr (dleaf1 h).2⟩
    rw [if_neg h9]
    by_cases h10 : c = '/'
    · rw [if_pos h10]
      by_cases hm : isMatchOp l.last_token = true
      · rw [if_pos hm]
        exact ⟨read_regex_step l,
          Or.inr (lt_of_lt_of_le (advance_strict h) (read_regex_pos l))⟩
      · rw [if_neg hm]
        split
        · exact ⟨(dleaf2 h).1, Or.inr (dleaf2 h).2⟩
        · exact ⟨(dleaf1 h).1, Or.inr (dleaf1 h).2⟩
    rw [if_neg h10]
    by_cases h11 : c = '.'
    · rw [if_pos h11]
      split
      · split
        · exact ⟨(dleaf3 h).1, Or.inr (dleaf3 h).2⟩
        · exact ⟨(dleaf2 h).1, Or.inr (dleaf2 h).2⟩
      · exact ⟨(dleaf2 h).1, Or.inr (dleaf2 h).2⟩
      · exact ⟨(dleaf1 h).1, Or.inr (dleaf1 h).2⟩
    rw [if_neg h11]
    by_cases h12 : c = '='
    · rw [if_pos h12]
      split
      · exact ⟨(dleaf2 h).1, Or.inr (dleaf2 h).2⟩
      · exact ⟨(dleaf2 h).1, Or.inr (dleaf2 h).2⟩
      · exact ⟨(dleaf2 h).1, Or.inr (dleaf2 h).2⟩
      · exact ⟨(dleaf1 h).1, Or.inr (dleaf1 h).2⟩
    rw [if_neg h12]
    by_cases h13 : c = '!'
    · rw [if_pos h13]
      split
      · exact ⟨(dleaf2 h).1, Or.inr (dleaf2 h).2⟩
      · exact ⟨(dleaf2 h).1, Or.inr (dleaf2 h).2⟩
      · exact ⟨(dleaf1 h).1, Or.inr (dleaf1 h).2⟩
    rw [if_neg h13]
    by_cases h14 : c = '<'
    · rw [if_pos h14]
      split
      · split
        · exact ⟨(dleaf3 h).1, Or.inr (dleaf3 h).2⟩
        · exact ⟨(dleaf2 h).1, Or.inr (dleaf2 h).2⟩
      · exact ⟨(dleaf2 h).1, Or.inr (dleaf2 h).2⟩
      · exact ⟨(dleaf1 h).1, Or.inr (dleaf1 h).2⟩
    rw [if_neg h14]
    by_cases h15 : c = '>'
    · rw [if_pos h15]
      split
      · exact ⟨(dleaf2 h).1, Or.inr (dleaf2 h).2⟩
      · exact ⟨(dleaf2 h).1, Or.inr (dleaf2 h).2⟩
      · exact ⟨(dleaf1 h).1, Or.inr (dleaf1 h).2⟩
    rw [if_neg h15]
    by_cases h16 : c = '&'
    · rw [if_pos h16]
      split
      · split
        · exact ⟨(dleaf3 h).1, Or.inr (dleaf3 h).2⟩
        · exact ⟨(dleaf2 h).1, Or.inr (dleaf2 h).2⟩
      · exact ⟨(dleaf1 h).1, Or.inr (dleaf1 h).2⟩
    rw [if_neg h16]
    by_cases h17 : c = '|'
    · rw [if_pos h17]
      split
      · split
        · exact ⟨(dleaf3 h).1, Or.inr (dleaf3 h).2⟩
        · exact ⟨(dleaf2 h).1, Or.inr (dleaf2 h).2⟩
      · exact ⟨(dleaf1 h).1, Or.inr (dleaf1 h).2⟩
    rw [if_neg h17]
    by_cases h18 : c = '^'
    · rw [if_pos h18]; exact ⟨(dleaf1 h).1, Or.inr (dleaf1 h).2⟩
    rw [if_neg h18]
    by_cases h19 : c = '~'
    · rw [if_pos h19]; exact ⟨(dleaf1 h).1, Or.inr (dleaf1 h).2⟩
    rw [if_neg h19]
    by_cases h20 : c = '('
    · rw [if_pos h20]; exact ⟨(dleaf1 h).1, Or.inr (dleaf1 h).2⟩
    rw [if_neg h20]
    by_cases h21 : c = ')'
    · rw [if_pos h21]; exact ⟨(dleaf1 h).1, Or.inr (dleaf1 h).2⟩
    rw [if_neg h21]
    by_cases h22 : c = '['
    · rw [if_pos h22]; exact ⟨(dleaf1 h).1, Or.inr (dleaf1 h).2⟩
    rw [if_neg h22]
    by_cases h23 : c = ']'
    · rw [if_pos h23]; exact ⟨(dleaf1 h).1, Or.inr (dleaf1 h).2⟩
    rw [if_neg h23]
    by_cases h24 : c = '{'
    · rw [if_pos h24]; exact ⟨(dleaf1 h).1, Or.inr (dleaf1 h).2⟩
    rw [if_neg h24]
    by_cases h25 : c = '}'
    · rw [if_pos h25]; exact ⟨(dleaf1 h).1, Or.inr (dleaf1 h).2⟩
    rw [if_neg h25]
    by_cases h26 : c = ';'
    · rw [if_pos h26]; exact ⟨(dleaf1 h).1, Or.inr (dleaf1 h).2⟩
    rw [if_neg h26]
    by_cases h27 : c = ','
    · rw [if_pos h27]; exact ⟨(dleaf1 h).1, Or.inr (dleaf1 h).2⟩
    rw [if_neg h27]
    by_cases h28 : c = ':'
    · rw [if_pos h28]
      split
      · exact ⟨(dleaf2 h).1, Or.inr (dleaf2 h).2⟩
      · exact ⟨(dleaf1 h).1, Or.inr (dleaf1 h).2⟩
    rw [if_neg h28]
    by_cases h29 : c = '\\'
    · rw [if_pos h29]; exact ⟨(dleaf1 h).1, Or.inr (dleaf1 h).2⟩
    rw [if_neg h29]
    by_cases h30 : c = '?'
    · rw [if_pos h30]; exact ⟨(dleaf1 h).1, Or.inr (dleaf1 h).2⟩
    rw [if_neg h30]
    exact ⟨(dleaf1 h).1, Or.inl rfl⟩

theorem token_beq_eof (t : Token) : (t == Token.Eof) = true ↔ t = Token.Eof := by
  constructor
  · intro h
    cases t <;> first | rfl | exact Bool.noConfusion h
  · rintro rfl
    rfl

theorem next_token_spec (l : Lexer) :
    l.next_token.2.input = l.input ∧ l.pos ≤ l.next_token.2.pos ∧
      (l.pos ≤ l.input.length → l.next_token.2.pos ≤ l.input.length) ∧
      (l.next_token.1.token = Token.Eof ∨ l.pos < l.next_token.2.pos) := by
  have hw := skip_whitespace_step l
  have hd := token_dispatch_spec l.skip_whitespace
  rcases hc : l.skip_whitespace.token_dispatch with ⟨tok, l2⟩
  rw [hc] at hd
  have step : LexStep l l2 := lexStep_trans hw hd.1
  simp only [Lexer.next_token, hc]
  refine ⟨step.1, step.2.1, step.2.2, ?_⟩
  rcases hd.2 with he | hlt
  · exact Or.inl he
  · exact Or.inr (lt_of_le_of_lt hw.2.1 hlt)

theorem tokenizeF_eof : ∀ fuel (l : Lexer), l.pos ≤ l.input.length →
    l.input.length < l.pos + fuel →
    ∃ ts t, tokenizeF fuel l = ts ++ [t] ∧ t.token = Token.Eof ∧
      ∀ x ∈ ts, x.token ≠ Token.Eof := by
  intro fuel
  induction fuel with
  | zero => intro l hb hf; omega
  | succ n ih =>
    intro l hb hf
    have hs := next_token_spec l
    rcases hn : l.next_token with ⟨tok, l2⟩
    rw [hn] at hs
    obtain ⟨hinp, hmono, hbound, hor⟩ := hs
    by_cases he : tok.token = Token.Eof
    · refine ⟨[], tok, ?_, he, by simp⟩
      simp only [tokenizeF, hn]
      rw [if_pos ((token_beq_eof tok.token).mpr he)]
      rfl
    · have hlt : l.pos < l2.pos := by
        rcases hor with h | h
        · exact absurd h he
        · exact h
      have hb2 : l2.pos ≤ l2.input.length := by
        rw [hinp]; exact hbound hb
      have hf2 : l2.input.length < l2.pos + n := by
        rw [hinp]; omega
      obtain ⟨ts, t, heq, ht, hall⟩ := ih l2 hb2 hf2
      refine ⟨tok :: ts, t, ?_, ht, ?_⟩
      · simp only [tokenizeF, hn]
        rw [if_neg]
        · rw [heq]; rfl
        · intro hcontra
          exact he ((token_beq_eof tok.token).mp hcontra)
      · intro x hx
        rcases List.mem_cons.mp hx with rfl | hx2
        · exact he
        · exact hall x hx2

/-- C10: on every input, `Lexer::tokenize` terminates (the scanning fuel
`rem + 1` is proved sufficient here) and returns a token list in which
`Eof` occurs exactly once, as the final element.  In particular an
unrecognised character, which `next_token` converts into `Eof`, ends the
token stream and nothing after it is tokenized. -/
theorem c10_tokenize_eof (source : Str) :
    ∃ ts t, (Lexer.new source).tokenize = ts ++ [t] ∧ t.token = Token.Eof ∧
      ∀ x ∈ ts, x.token ≠ Token.Eof := by
  unfold Lexer.tokenize
  apply tokenizeF_eof
  · simp [Lexer.new]
  · simp [Lexer.new, Lexer.rem]

theorem read_regex_fst (l : Lexer) : ∃ p f, l.read_regex.1 = Token.Regex p f := by
  rcases h1 : readRegexPatF l.advance.rem l.advance "" with ⟨pat, l1⟩
  rcases h2 : readFlagsF l1.rem l1 "" with ⟨fl, l2⟩
  refine ⟨pat, fl, ?_⟩
  simp only [Lexer.read_regex, h1, h2]

theorem next_token_fst (l : Lexer) :
    l.next_token.1.token = l.skip_whitespace.token_dispatch.1 := by
  rcases h : l.skip_whitespace.token_dispatch with ⟨tok, l2⟩
  simp only [Lexer.next_token, h]

theorem advance_current_peek {l : Lexer} {c : Char} (h : l.current = some c) :
    l.advance.current = l.peek := by
  unfold Lexer.current Lexer.peek
  rw [advance_input, advance_pos_some h]

/-- On a `/`, the dispatch reduces to: regex literal if the previous
token was `=~`/`!~`, otherwise division. -/
theorem token_dispatch_slash {l : Lexer} (h : l.current = some '/') :
    l.token_dispatch =
      if isMatchOp l.last_token = true then l.read_regex
      else
        match l.advance.current with
        | some '=' => (Token.SlashEquals, l.advance.advance)
        | _ => (Token.Slash, l.advance) := by
  unfold Lexer.token_dispatch
  rw [h]
  dsimp only
  rw [if_neg (by decide), if_neg (by decide), if_neg (by decide), if_neg (by decide),
    if_neg (by decide), if_neg (by decide), if_neg (by decide), if_neg (by decide),
    if_neg (by decide), if_pos rfl]

/-- C8: when the lexer's cursor (after whitespace skipping) is on `/`,
`next_token` yields a regex-literal token exactly when the most recently
emitted token was `=~` or `!~` (`isMatchOp`); in that case the token is
the result of `read_regex` (pattern up to the next unescaped `/`, then
alphabetic flags), and in every other context the token is `SlashEquals`
when the next character is `=` and `Slash` otherwise. -/
theorem c8_slash_classification (l : Lexer)
    (h : l.skip_whitespace.current = some '/') :
    ((∃ p f, l.next_token.1.token = Token.Regex p f) ↔ isMatchOp l.last_token = true)
    ∧ (isMatchOp l.last_token = true →
        l.next_token.1.token = l.skip_whitespace.read_regex.1)
    ∧ (isMatchOp l.last_token = false →
        l.next_token.1.token =
          if l.skip_whitespace.peek = some '=' then Token.SlashEquals
          else Token.Slash) := by
  have hfst := next_token_fst l
  have hl : l.skip_whitespace.last_token = l.last_token := skip_whitespace_last l
  rw [token_dispatch_slash h, hl] at hfst
  by_cases hm : isMatchOp l.last_token = true
  · rw [if_pos hm] at hfst
    obtain ⟨p, f, hpf⟩ := read_regex_fst l.skip_whitespace
    refine ⟨⟨fun _ => hm, fun _ => ⟨p, f, by rw [hfst, hpf]⟩⟩, fun _ => hfst, ?_⟩
    intro hfalse
    rw [hm] at hfalse
    exact Bool.noConfusion hfalse
  · rw [if_neg hm] at hfst
    rw [advance_current_peek h] at hfst
    have hdiv : l.next_token.1.token =
        if l.skip_whitespace.peek = some '=' then Token.SlashEquals
        else Token.Slash := by
      rw [hfst]
      by_cases hpe : l.skip_whitespace.peek = some '='
      · rw [hpe, if_pos rfl]
        rfl
      · rw [if_neg hpe]
        rcases hp : l.skip_whitespace.peek with _ | c2
        · rfl
        · have hc2 : ¬c2 = '=' := by
            intro hcontra
            exact hpe (by rw [hp, hcontra])
          split
          · rename_i heq
            injection heq with h'
            exact absurd h' hc2
          · rfl
    refine ⟨⟨?_, ?_⟩, ?_, fun _ => hdiv⟩
    · rintro ⟨p, f, hpf⟩
      rw [hdiv] at hpf
      by_cases hpe : l.skip_whitespace.peek = some '='
      · rw [if_pos hpe] at hpf; exact Token.noConfusion hpf
      · rw [if_neg hpe] at hpf; exact Token.noConfusion hpf
    · intro hcontra
      exact absurd hcontra hm
    · intro hcontra
      exact absurd hcontra hm

/-- C8's hypotheses at concrete states: after `=~` a `/` opens a regex
literal; with no preceding match operator it is division. -/
theorem c8_witness :
    (∃ p f,
      (Lexer.mk ['/', 'a', '/'] 0 1 1 (some Token.Match)).next_token.1.token
        = Token.Regex p f)
    ∧ (Lexer.mk ['/', 'a', '/'] 0 1 1 none).next_token.1.token = Token.Slash := by
  constructor
  · exact (c8_slash_classification _ (by decide)).1.mpr rfl
  · have hd := (c8_slash_classification
      (Lexer.mk ['/', 'a', '/'] 0 1 1 none) (by decide)).2.2 rfl
    rw [hd, if_neg (by decide)]

/-! ## Concrete pipeline theorems (C2, C1) -/

/-- C2: `my $x = 1; print $x + 2;` compiles (through the lexer, parser
and compiler) to a module with an empty string pool whose code is exactly
`Push 0x0001, StoreLocal 0, LoadLocal 0, Push 0x0002, Add, Print,
Halt`. -/
theorem c2_scenario :
    compileSource 1000 "my $x = 1; print $x + 2;"
      = Except.ok
          { strings := [], globals := [], subs := [],
            code := [0x01, 0x01, 0x00, 0x11, 0x00, 0x10, 0x00,
                     0x01, 0x02, 0x00, 0x30, 0x78, 0xF0],
            entry := 0 } := by
  rfl

/-- C1 (the code's behaviour on a forward call): compiling
`foo(); sub foo { }` succeeds and records `foo` at entry address 7 in the
module's `subs` table, but the `Call` instruction at offset 0 keeps the
16-bit operand 0 — pass 1 pre-seeds `subs` with placeholder address 0, so
`Expr::Call` takes the known-subroutine branch, records no forward
reference, and finalisation patches nothing.  The operand does not equal
the recorded entry address. -/
theorem c1_forward_call_bug :
    ∃ m, compileSource 1000 "foo(); sub foo { }" = Except.ok m
      ∧ m.subs = [("foo", 7, 0)]
      ∧ m.code.take 3 = [opByte Op.Call, 0, 0]
      ∧ m.code.getD 1 0 + 256 * m.code.getD 2 0 ≠ 7 := by
  refine ⟨{ strings := [], globals := [], subs := [("foo", 7, 0)],
            code := [0x68, 0x00, 0x00, 0x03, 0x60, 0x0B, 0x00,
                     0x70, 0x00, 0x71, 0x6A, 0xF0],
            entry := 0 }, ?_, rfl, rfl, by decide⟩
  rfl

/-- For contrast with C1: when the callee is not a top-level subroutine
(pass 1 does not see it), the forward-reference list is used and the
`Call` operand is patched to the recorded entry address 7. -/
theorem c1_nested_sub_patched :
    ∃ m, compileSource 1000 "foo(); { sub foo { } }" = Except.ok m
      ∧ m.subs = [("foo", 7, 0)]
      ∧ m.code.take 3 = [opByte Op.Call, 7, 0] := by
  refine ⟨{ strings := [], globals := [], subs := [("foo", 7, 0)],
            code := [0x68, 0x07, 0x00, 0x03, 0x60, 0x0B, 0x00,
                     0x70, 0x00, 0x71, 0x6A, 0xF0],
            entry := 0 }, ?_, rfl, rfl⟩
  rfl

/-! ## C6: auto-vivification on assignment -/

theorem alookup_ainsert_self {α : Type} (l : List (Str × α)) (k : Str) (v : α) :
    alookup (ainsert l k v) k = some v := by
  induction l with
  | nil => simp [ainsert, alookup]
  | cons p rest ih =>
    rcases p with ⟨k', v'⟩
    by_cases hk : k' = k
    · simp [ainsert, hk, alookup]
    · simp [ainsert, hk, alookup, ih]

/-- C6: compiling an assignment whose target scalar is in no local scope
and not a global inserts the name into the innermost scope at the next
slot (`|scope| as u8`) and emits `StoreLocal` with that slot; and from
any state carrying the updated scope stack, a read of the variable
compiles to `LoadLocal` with the same slot. -/
theorem c6_autovivify (fuel : Nat) (c : Compiler) (x : Str)
    (scope : List (Str × Nat)) (rest : List (List (Str × Nat)))
    (hsc : c.locals = scope :: rest)
    (hl : c.find_local x = none)
    (hg : alookup c.globals x = none) :
    compile_assign_expr (fuel + 1) (Expr.ScalarVar x) c
      = Except.ok
          { c with
            locals := ainsert scope x (scope.length % 256) :: rest,
            module := { c.module with
              code := c.module.code
                ++ [opByte Op.StoreLocal, scope.length % 256 % 256] } }
    ∧ ∀ d : Compiler, d.locals = ainsert scope x (scope.length % 256) :: rest →
        compile_expr (fuel + 1) (Expr.ScalarVar x) d
          = Except.ok
              { d with module := { d.module with
                  code := d.module.code
                    ++ [opByte Op.LoadLocal, scope.length % 256 % 256] } } := by
  constructor
  · simp only [compile_assign_expr, hl, hg, Compiler.innermost, hsc, List.headD,
      Compiler.insert_local, Compiler.emit_byte, Module.emit_byte]
  · intro d hd
    have hfl : d.find_local x = some (scope.length % 256) := by
      simp only [Compiler.find_local, hd, findLocalIn, alookup_ainsert_self]
    simp only [compile_expr, hfl, Compiler.emit_byte, Module.emit_byte]

/-- C6's hypotheses discharged at a concrete state (the initial compiler,
variable `v`): the assignment target vivifies into slot 0. -/
theorem c6_witness :
    compile_assign_expr 1 (Expr.ScalarVar "v") Compiler.new
      = Except.ok
          { Compiler.new with
            locals := [[("v", 0)]],
            module := { Module.new with code := [opByte Op.StoreLocal, 0] } }
    ∧ compile_expr 1 (Expr.ScalarVar "v")
          { Compiler.new with locals := [[("v", 0)]] }
        = Except.ok
            { Compiler.new with
              locals := [[("v", 0)]],
              module := { Module.new with code := [opByte Op.LoadLocal, 0] } } := by
  have h := c6_autovivify 0 Compiler.new "v" [] [] rfl rfl rfl
  constructor
  · exact h.1
  · exact h.2 { Compiler.new with locals := [[("v", 0)]] } rfl

/-! ## Instruction-stream lemmas -/

theorem encodeList_cons (i : EInstr) (l : List EInstr) :
    encodeList (i :: l) = i.encode ++ encodeList l := by
  simp [encodeList]

theorem encodeList_append (l₁ l₂ : List EInstr) :
    encodeList (l₁ ++ l₂) = encodeList l₁ ++ encodeList l₂ := by
  simp [encodeList]

theorem encode_i3_len (b x y : Nat) : (EInstr.i3 b x y).encode.length = 3 := rfl

theorem wordSlot_append {instrs : List EInstr} {p : Nat} {P : Nat → Prop}
    (h : WordSlot instrs p P) (δ : List EInstr) : WordSlot (instrs ++ δ) p P := by
  obtain ⟨l₁, l₂, b, x, y, hdec, hP, hp⟩ := h
  exact ⟨l₁, l₂ ++ δ, b, x, y, by rw [hdec]; simp, hP, hp⟩

theorem valSlot_append {instrs : List EInstr} {p addr : Nat}
    (h : ValSlot instrs p addr) (δ : List EInstr) : ValSlot (instrs ++ δ) p addr := by
  obtain ⟨l₁, l₂, hdec, hp⟩ := h
  exact ⟨l₁, l₂ ++ δ, by rw [hdec]; simp, hp⟩

theorem wordSlot_bound {instrs : List EInstr} {p : Nat} {P : Nat → Prop}
    (h : WordSlot instrs p P) : p + 2 ≤ (encodeList instrs).length := by
  obtain ⟨l₁, l₂, b, x, y, hdec, hP, hp⟩ := h
  subst hdec
  rw [encodeList_append, encodeList_cons]
  simp [EInstr.encode]
  omega

theorem wordSlot_at_end {P : Nat → Prop} (instrs : List EInstr) (b x y : Nat)
    (hP : P b) : WordSlot (instrs ++ [EInstr.i3 b x y]) ((encodeList instrs).length + 1) P :=
  ⟨instrs, [], b, x, y, rfl, hP, rfl⟩

theorem list_set_append (A B : List Nat) (k v : Nat) :
    (A ++ B).set (A.length + k) v = A ++ B.set k v := by
  induction A with
  | nil => simp
  | cons a A ih =>
    show (a :: (A ++ B)).set (A.length + 1 + k) v = a :: (A ++ B.set k v)
    rw [show A.length + 1 + k = (A.length + k) + 1 by omega]
    simp [List.set, ih]

theorem encode_patch (l₁ l₂ : List EInstr) (b x y v w : Nat) :
    ((encodeList (l₁ ++ EInstr.i3 b x y :: l₂)).set ((encodeList l₁).length + 1) v).set
        ((encodeList l₁).length + 2) w
      = encodeList (l₁ ++ EInstr.i3 b v w :: l₂) := by
  rw [encodeList_append, encodeList_cons, encodeList_append, encodeList_cons]
  show (((encodeList l₁ ++ ([b, x, y] ++ encodeList l₂)).set ((encodeList l₁).length + 1) v).set
      ((encodeList l₁).length + 2) w) = encodeList l₁ ++ ([b, v, w] ++ encodeList l₂)
  rw [list_set_append _ _ 1 v]
  show ((encodeList l₁ ++ (b :: v :: y :: encodeList l₂)).set ((encodeList l₁).length + 2) w)
      = encodeList l₁ ++ ([b, v, w] ++ encodeList l₂)
  rw [list_set_append _ _ 2 w]
  rfl

/-- Replacing the operand bytes of one three-byte chunk preserves every
`WordSlot` (same position, same opcode byte). -/
theorem wordSlot_replace {l₁ l₂ : List EInstr} {b x y x' y' p : Nat} {P : Nat → Prop}
    (hs : WordSlot (l₁ ++ EInstr.i3 b x y :: l₂) p P) :
    WordSlot (l₁ ++ EInstr.i3 b x' y' :: l₂) p P := by
  obtain ⟨m₁, m₂, b', u, v, hdec, hP, hp⟩ := hs
  rcases List.append_eq_append_iff.mp hdec with ⟨w, hw1, hw2⟩ | ⟨w, hw1, hw2⟩
  · -- m₁ = l₁ ++ w and i3 b x y :: l₂ = w ++ i3 b' u v :: m₂
    cases w with
    | nil =>
      rw [List.nil_append] at hw2
      rw [List.append_nil] at hw1
      injection hw2 with hXY hlm
      injection hXY with hb hx hy
      refine ⟨l₁, l₂, b, x', y', rfl, ?_, ?_⟩
      · rw [hb]; exact hP
      · rw [hp, hw1]
    | cons w0 wr =>
      rw [List.cons_append] at hw2
      injection hw2 with hXW hl₂
      refine ⟨l₁ ++ EInstr.i3 b x' y' :: wr, m₂, b', u, v, ?_, hP, ?_⟩
      · rw [hl₂]; simp
      · rw [hp, hw1, ← hXW]
        simp [encodeList_append, encodeList_cons, EInstr.encode]
  · -- l₁ = m₁ ++ w and i3 b' u v :: m₂ = w ++ i3 b x y :: l₂
    cases w with
    | nil =>
      rw [List.nil_append] at hw2
      rw [List.append_nil] at hw1
      injection hw2 with hYX hml
      injection hYX with hb hx hy
      refine ⟨l₁, l₂, b, x', y', rfl, ?_, ?_⟩
      · rw [← hb]; exact hP
      · rw [hp, hw1]
    | cons w0 wr =>
      rw [List.cons_append] at hw2
      injection hw2 with hYW hm₂
      refine ⟨m₁, wr ++ EInstr.i3 b x' y' :: l₂, b', u, v, ?_, hP, ?_⟩
      · rw [hw1, ← hYW]; simp
      · exact hp

/-- The `ValSlot` analogue: replacing a chunk's operand bytes with the
bytes of `addr` preserves every `ValSlot _ _ addr` (an aligned hit
rewrites the same values; a different chunk is untouched). -/
theorem valSlot_replace {l₁ l₂ : List EInstr} {b x y p addr : Nat}
    (hs : ValSlot (l₁ ++ EInstr.i3 b x y :: l₂) p addr) :
    ValSlot (l₁ ++ EInstr.i3 b (addr % 256) (addr / 256 % 256) :: l₂) p addr := by
  obtain ⟨m₁, m₂, hdec, hp⟩ := hs
  rcases List.append_eq_append_iff.mp hdec with ⟨w, hw1, hw2⟩ | ⟨w, hw1, hw2⟩
  · cases w with
    | nil =>
      rw [List.nil_append] at hw2
      rw [List.append_nil] at hw1
      injection hw2 with hXY hlm
      injection hXY with hb hx hy
      refine ⟨l₁, l₂, ?_, ?_⟩
      · rw [hb]
      · rw [hp, hw1]
    | cons w0 wr =>
      rw [List.cons_append] at hw2
      injection hw2 with hXW hl₂
      refine ⟨l₁ ++ EInstr.i3 b (addr % 256) (addr / 256 % 256) :: wr, m₂, ?_, ?_⟩
      · rw [hl₂]; simp
      · rw [hp, hw1, ← hXW]
        simp [encodeList_append, encodeList_cons, EInstr.encode]
  · cases w with
    | nil =>
      rw [List.nil_append] at hw2
      rw [List.append_nil] at hw1
      injection hw2 with hYX hml
      injection hYX with hb hx hy
      refine ⟨l₁, l₂, ?_, ?_⟩
      · rw [← hb]
      · rw [hp, hw1]
    | cons w0 wr =>
      rw [List.cons_append] at hw2
      injection hw2 with hYW hm₂
      refine ⟨m₁, wr ++ EInstr.i3 b (addr % 256) (addr / 256 % 256) :: l₂, ?_, hp⟩
      rw [hw1, ← hYW]; simp

/-! ## `Good`-preservation lemmas for the compiler's primitives -/

theorem fromByte_opByte : ∀ op : Op, Op.fromByte (opByte op) = op := by
  intro op
  cases op <;> rfl

theorem encodeList_replace_length (l₁ l₂ : List EInstr) (b x y x' y' : Nat) :
    (encodeList (l₁ ++ EInstr.i3 b x' y' :: l₂)).length
      = (encodeList (l₁ ++ EInstr.i3 b x y :: l₂)).length := by
  simp [encodeList_append, encodeList_cons, EInstr.encode]

theorem okStr_mono {n n' : Nat} (h : n ≤ n') (i : EInstr) :
    i.okStr n → i.okStr n' := by
  cases i with
  | i1 b => intro _; trivial
  | i2 b x => intro _; trivial
  | i3 b x y =>
    intro h2 hb
    exact lt_of_lt_of_le (h2 hb) h

/-- `Good` only looks at the code, the string-pool size, the forward
references and the loop stack. -/
theorem good_congr {c c' : Compiler} {instrs : List EInstr} (hg : Good c instrs)
    (hcode : c'.module.code = c.module.code)
    (hstr : c.module.strings.length ≤ c'.module.strings.length)
    (hrefs : c'.forward_refs = c.forward_refs)
    (hloop : c'.loop_stack = c.loop_stack) : Good c' instrs := by
  obtain ⟨h1, h2, h3, h4⟩ := hg
  refine ⟨hcode.trans h1, ?_, ?_, ?_⟩
  · intro i hi
    exact ⟨(h2 i hi).1, okStr_mono hstr i (h2 i hi).2⟩
  · intro r hr
    exact h3 r (hrefs ▸ hr)
  · intro e he
    exact h4 e (hloop ▸ he)

theorem good_emit {c : Compiler} {instrs : List EInstr} {op : Op}
    (hg : Good c instrs) (h1 : op.size = 1) :
    Good (c.emit op) (instrs ++ [EInstr.i1 (opByte op)]) := by
  obtain ⟨hcode, hwf, hrefs, hloop⟩ := hg
  refine ⟨?_, ?_, ?_, ?_⟩
  · show c.module.code ++ [opByte op] = _
    rw [hcode, encodeList_append, encodeList_cons]
    rfl
  · intro i hi
    rcases List.mem_append.mp hi with hi | hi
    · exact hwf i hi
    · rcases List.mem_singleton.mp hi with rfl
      refine ⟨?_, trivial⟩
      show (Op.fromByte (opByte op)).size = 1
      rw [fromByte_opByte]; exact h1
  · intro r hr
    exact wordSlot_append (hrefs r hr) _
  · intro e he
    refine ⟨?_, ?_⟩
    · calc e.1 ≤ (encodeList instrs).length := (hloop e he).1
        _ ≤ (encodeList (instrs ++ [EInstr.i1 (opByte op)])).length := by
            rw [encodeList_append]; simp
    · intro p hp
      exact ⟨wordSlot_append ((hloop e he).2 p hp).1 _, ((hloop e he).2 p hp).2⟩

theorem good_emit_byte {c : Compiler} {instrs : List EInstr} {op : Op} {b : Nat}
    (hg : Good c instrs) (h2 : op.size = 2) :
    Good (c.emit_byte op b) (instrs ++ [EInstr.i2 (opByte op) (b % 256)]) := by
  obtain ⟨hcode, hwf, hrefs, hloop⟩ := hg
  refine ⟨?_, ?_, ?_, ?_⟩
  · show c.module.code ++ [opByte op, b % 256] = _
    rw [hcode, encodeList_append, encodeList_cons]
    rfl
  · intro i hi
    rcases List.mem_append.mp hi with hi | hi
    · exact hwf i hi
    · rcases List.mem_singleton.mp hi with rfl
      refine ⟨?_, trivial⟩
      show (Op.fromByte (opByte op)).size = 2
      rw [fromByte_opByte]; exact h2
  · intro r hr
    exact wordSlot_append (hrefs r hr) _
  · intro e he
    refine ⟨?_, ?_⟩
    · calc e.1 ≤ (encodeList instrs).length := (hloop e he).1
        _ ≤ (encodeList (instrs ++ [EInstr.i2 (opByte op) (b % 256)])).length := by
            rw [encodeList_append]; simp
    · intro p hp
      exact ⟨wordSlot_append ((hloop e he).2 p hp).1 _, ((hloop e he).2 p hp).2⟩

theorem good_emit_word {c : Compiler} {instrs : List EInstr} {op : Op} {w : Nat}
    (hg : Good c instrs) (h3 : op.size = 3)
    (hok : op = Op.PushStr → w % 256 + 256 * (w / 256 % 256) < c.module.strings.length) :
    Good (c.emit_word op w)
      (instrs ++ [EInstr.i3 (opByte op) (w % 256) (w / 256 % 256)]) := by
  obtain ⟨hcode, hwf, hrefs, hloop⟩ := hg
  refine ⟨?_, ?_, ?_, ?_⟩
  · show c.module.code ++ [opByte op, w % 256, w / 256 % 256] = _
    rw [hcode, encodeList_append, encodeList_cons]
    rfl
  · intro i hi
    rcases List.mem_append.mp hi with hi | hi
    · exact hwf i hi
    · rcases List.mem_singleton.mp hi with rfl
      constructor
      · show (Op.fromByte (opByte op)).size = 3
        rw [fromByte_opByte]; exact h3
      · intro hpb
        rw [fromByte_opByte] at hpb
        exact hok hpb
  · intro r hr
    exact wordSlot_append (hrefs r hr) _
  · intro e he
    refine ⟨?_, ?_⟩
    · calc e.1 ≤ (encodeList instrs).length := (hloop e he).1
        _ ≤ (encodeList (instrs ++ [EInstr.i3 (opByte op) (w % 256) (w / 256 % 256)])).length := by
            rw [encodeList_append]; simp
    · intro p hp
      exact ⟨wordSlot_append ((hloop e he).2 p hp).1 _, ((hloop e he).2 p hp).2⟩

/-- Patching the operand of a recorded three-byte chunk (not a
`PushStr`). -/
theorem good_patch {c : Compiler} {l₁ l₂ : List EInstr} {b x y : Nat} (addr : Nat)
    (hg : Good c (l₁ ++ EInstr.i3 b x y :: l₂))
    (hnp : Op.fromByte b ≠ Op.PushStr) :
    Good (c.patch_addr ((encodeList l₁).length + 1) addr)
      (l₁ ++ EInstr.i3 b (addr % 256) (addr / 256 % 256) :: l₂) := by
  obtain ⟨hcode, hwf, hrefs, hloop⟩ := hg
  refine ⟨?_, ?_, ?_, ?_⟩
  · show (c.module.code.set _ _).set _ _ = _
    rw [hcode, show (encodeList l₁).length + 1 + 1 = (encodeList l₁).length + 2 by omega]
    exact encode_patch l₁ l₂ b x y (addr % 256) (addr / 256 % 256)
  · intro i hi
    rcases List.mem_append.mp hi with hi | hi
    · exact hwf i (List.mem_append.mpr (Or.inl hi))
    · rcases List.mem_cons.mp hi with rfl | hi
      · have hold := hwf (EInstr.i3 b x y)
          (List.mem_append.mpr (Or.inr (List.mem_cons_self _ _)))
        exact ⟨hold.1, fun hb => absurd hb hnp⟩
      · exact hwf i (List.mem_append.mpr (Or.inr (List.mem_cons_of_mem _ hi)))
  · intro r hr
    exact wordSlot_replace (hrefs r hr)
  · intro e he
    refine ⟨?_, ?_⟩
    · rw [encodeList_replace_length l₁ l₂ b x y]
      exact (hloop e he).1
    · intro p hp
      exact ⟨wordSlot_replace ((hloop e he).2 p hp).1, ((hloop e he).2 p hp).2⟩

theorem findPos_lt {s : Str} : ∀ {l : List Str} {i : Nat}, findPos s l = some i → i < l.length := by
  intro l
  induction l with
  | nil => intro i h; exact Option.noConfusion h
  | cons a rest ih =>
    intro i h
    unfold findPos at h
    simp only [List.length_cons]
    by_cases ha : a = s
    · rw [if_pos ha] at h
      injection h with h
      omega
    · rw [if_neg ha] at h
      cases hr : findPos s rest with
      | none => rw [hr] at h; exact Option.noConfusion h
      | some j =>
        simp only [hr, Option.map_some', Option.some.injEq] at h
        have := ih hr
        omega

theorem add_string_spec (m : Module) (s : Str) :
    (m.add_string s).2.code = m.code
    ∧ m.strings.length ≤ (m.add_string s).2.strings.length
    ∧ (m.add_string s).1 < 65536
    ∧ (m.add_string s).1 < (m.add_string s).2.strings.length
    ∧ (m.add_string s).2.globals = m.globals
    ∧ (m.add_string s).2.subs = m.subs
    ∧ (m.add_string s).2.entry = m.entry := by
  unfold Module.add_string
  cases hf : findPos s m.strings with
  | some i =>
    have hi := findPos_lt hf
    refine ⟨rfl, le_refl _, ?_, ?_, rfl, rfl, rfl⟩
    · exact Nat.mod_lt _ (by omega)
    · exact Nat.lt_of_le_of_lt (Nat.mod_le i 65536) hi
  | none =>
    refine ⟨rfl, by simp, ?_, ?_, rfl, rfl, rfl⟩
    · exact Nat.mod_lt _ (by omega)
    · simp only [List.length_append, List.length_singleton]
      exact Nat.lt_succ_of_le (Nat.mod_le _ _)

theorem pos_eq_of_lt {c : Compiler} (h : c.module.code.length < 65536) :
    c.pos = c.module.code.length := by
  simp [Compiler.pos, Module.pos, Nat.mod_eq_of_lt h]

theorem pos_le (c : Compiler) : c.pos ≤ c.module.code.length :=
  Nat.mod_le _ _

theorem u16_split {n : Nat} (h : n < 65536) : n % 256 + 256 * (n / 256 % 256) = n := by
  have h1 : n / 256 < 256 := by omega
  rw [Nat.mod_eq_of_lt h1]
  omega

theorem except_bind_ok {ε α β : Type} {x : Except ε α} {f : α → Except ε β} {b : β}
    (h : x >>= f = Except.ok b) : ∃ a, x = Except.ok a ∧ f a = Except.ok b := by
  cases x with
  | error e => exact Except.noConfusion h
  | ok a => exact ⟨a, rfl, h⟩

/-! ## Step-composition toolkit -/

theorem extc_refl (c : Compiler) : ExtC c c :=
  ⟨le_refl _, le_refl _, id⟩

theorem extc_trans {a b c : Compiler} (h1 : ExtC a b) (h2 : ExtC b c) : ExtC a c :=
  ⟨h1.1.trans h2.1, h1.2.1.trans h2.2.1, fun h => h2.2.2 (h1.2.2 h)⟩

theorem ext_extc {c c' : Compiler} (h : Ext c c') : ExtC c c' :=
  ⟨h.1, h.2.1, h.2.2.2⟩

theorem mk_ext {c c' : Compiler} (h : ExtC c c')
    (hl : c'.loop_stack.map Prod.fst = c.loop_stack.map Prod.fst) : Ext c c' :=
  ⟨h.1, h.2.1, hl, h.2.2⟩

theorem ext_refl (c : Compiler) : Ext c c :=
  ⟨le_refl _, le_refl _, rfl, id⟩

theorem ext_trans {a b c : Compiler} (h1 : Ext a b) (h2 : Ext b c) : Ext a c :=
  ⟨h1.1.trans h2.1, h1.2.1.trans h2.2.1, h2.2.2.1.trans h1.2.2.1,
    fun h => h2.2.2.2 (h1.2.2.2 h)⟩

/-- Length monotonicity, pool monotonicity and unchanged forward
references give the bookkeeping facts. -/
theorem extc_mk {c c' : Compiler}
    (hc : c.module.code.length ≤ c'.module.code.length)
    (hs : c.module.strings.length ≤ c'.module.strings.length)
    (hr : c'.forward_refs = c.forward_refs) : ExtC c c' :=
  ⟨hc, hs, fun h r hm => le_trans (h r (hr ▸ hm)) hc⟩

theorem extc_emit (c : Compiler) (op : Op) : ExtC c (c.emit op) :=
  extc_mk (by simp [Compiler.emit, Module.emit]) (le_refl _) rfl

theorem extc_emit_byte (c : Compiler) (op : Op) (b : Nat) : ExtC c (c.emit_byte op b) :=
  extc_mk (by simp [Compiler.emit_byte, Module.emit_byte]) (le_refl _) rfl

theorem extc_emit_word (c : Compiler) (op : Op) (w : Nat) : ExtC c (c.emit_word op w) :=
  extc_mk (by simp [Compiler.emit_word, Module.emit_word]) (le_refl _) rfl

theorem extc_patch (c : Compiler) (p a : Nat) : ExtC c (c.patch_addr p a) :=
  extc_mk (by simp [Compiler.patch_addr, Module.patch_addr]) (le_refl _) rfl

theorem compStep_refl (c : Compiler) : CompStep c c :=
  ⟨ext_refl c, fun instrs hg _ => ⟨[], by simpa using hg⟩⟩

theorem compStep_trans {a b c : Compiler} (h1 : CompStep a b) (h2 : CompStep b c) :
    CompStep a c := by
  refine ⟨ext_trans h1.1 h2.1, fun instrs hg hlt => ?_⟩
  obtain ⟨δ1, hg1⟩ := h1.2 instrs hg (lt_of_le_of_lt h2.1.1 hlt)
  obtain ⟨δ2, hg2⟩ := h2.2 _ hg1 hlt
  exact ⟨δ1 ++ δ2, by rwa [List.append_assoc] at hg2⟩

theorem compStep_emit {c : Compiler} (op : Op) (h1 : op.size = 1) :
    CompStep c (c.emit op) := by
  refine ⟨mk_ext (extc_emit c op) rfl, fun instrs hg _ => ?_⟩
  exact ⟨[EInstr.i1 (opByte op)], good_emit hg h1⟩

theorem compStep_emit_byte {c : Compiler} (op : Op) (b : Nat) (h2 : op.size = 2) :
    CompStep c (c.emit_byte op b) := by
  refine ⟨mk_ext (extc_emit_byte c op b) rfl, fun instrs hg _ => ?_⟩
  exact ⟨[EInstr.i2 (opByte op) (b % 256)], good_emit_byte hg h2⟩

theorem compStep_emit_word {c : Compiler} (op : Op) (w : Nat) (h3 : op.size = 3)
    (hop : op ≠ Op.PushStr) : CompStep c (c.emit_word op w) := by
  refine ⟨mk_ext (extc_emit_word c op w) rfl, fun instrs hg _ => ?_⟩
  exact ⟨[EInstr.i3 (opByte op) (w % 256) (w / 256 % 256)],
    good_emit_word hg h3 (fun h => absurd h hop)⟩

theorem good_push_loop {c : Compiler} {instrs : List EInstr} (hg : Good c instrs) :
    Good { c with loop_stack := (c.pos, []) :: c.loop_stack } instrs := by
  obtain ⟨hcode, hwf, hrefs, hloop⟩ := hg
  refine ⟨hcode, hwf, hrefs, ?_⟩
  intro e he
  rcases List.mem_cons.mp he with rfl | he
  · refine ⟨?_, fun p hp => absurd hp (List.not_mem_nil p)⟩
    show c.pos ≤ _
    calc c.pos ≤ c.module.code.length := pos_le c
      _ = (encodeList instrs).length := by rw [hcode]
  · exact hloop e he

theorem good_pop_loop {c : Compiler} {instrs : List EInstr} {ls : List (Nat × List Nat)}
    (hg : Good c instrs) (hsub : ∀ e ∈ ls, e ∈ c.loop_stack) :
    Good { c with loop_stack := ls } instrs := by
  obtain ⟨hcode, hwf, hrefs, hloop⟩ := hg
  exact ⟨hcode, hwf, hrefs, fun e he => hloop e (hsub e he)⟩

theorem encode_len_pos (i : EInstr) : 0 < i.encode.length := by
  cases i <;> simp [EInstr.encode]

/-- Two decompositions of one instruction stream, with the second split
point at least as deep as the first: the first split's prefix survives. -/
theorem prefix_of_codeLen {instrs δ l₁ l₂ : List EInstr} {ch : EInstr}
    (h : instrs ++ δ = l₁ ++ ch :: l₂)
    (hlen : (encodeList instrs).length ≤ (encodeList l₁).length) :
    ∃ mid, l₁ = instrs ++ mid ∧ δ = mid ++ ch :: l₂ := by
  rcases List.append_eq_append_iff.mp h with ⟨w, hw1, hw2⟩ | ⟨w, hw1, hw2⟩
  · exact ⟨w, hw1, hw2⟩
  · cases w with
    | nil =>
      rw [List.append_nil] at hw1
      rw [List.nil_append] at hw2
      exact ⟨[], by rw [hw1, List.append_nil], hw2.symm⟩
    | cons w0 wr =>
      exfalso
      rw [hw1, encodeList_append, encodeList_cons] at hlen
      have := encode_len_pos w0
      simp only [List.length_append] at hlen
      omega

/-- The final break-patching fold of a loop case: patching a set of
recorded `Jump` operand slots, all lying past a caller prefix, preserves
the invariant, keeps the length, and leaves each patched slot holding
the target address. -/
theorem patch_fold_good :
    ∀ (ps : List Nat) (c : Compiler) (δ instrs : List EInstr) (addr : Nat),
    Good c (instrs ++ δ) →
    (∀ p ∈ ps, JumpSlot (instrs ++ δ) p ∧ (encodeList instrs).length + 1 ≤ p) →
    ∃ δ', Good (ps.foldl (fun c p => c.patch_addr p addr) c) (instrs ++ δ')
      ∧ (encodeList δ').length = (encodeList δ).length
      ∧ (∀ p ∈ ps, ValSlot (instrs ++ δ') p addr)
      ∧ (∀ q, ValSlot (instrs ++ δ) q addr → ValSlot (instrs ++ δ') q addr) := by
  intro ps
  induction ps with
  | nil =>
    intro c δ instrs addr hg _
    exact ⟨δ, hg, rfl, fun p hp => absurd hp (List.not_mem_nil p), fun _ h => h⟩
  | cons p rest ih =>
    intro c δ instrs addr hg hps
    obtain ⟨hsp, hbp⟩ := hps p (List.mem_cons_self _ _)
    obtain ⟨l₁, l₂, b, x, y, hdec, hPb, hp⟩ := hsp
    have hb : b = opByte Op.Jump := hPb
    subst hb
    have hpre : (encodeList instrs).length ≤ (encodeList l₁).length := by omega
    obtain ⟨mid, hmid, hδ⟩ := prefix_of_codeLen hdec hpre
    have hg' : Good c (l₁ ++ EInstr.i3 (opByte Op.Jump) x y :: l₂) := by rwa [← hdec]
    have hgp := good_patch addr hg' (by decide)
    rw [← hp] at hgp
    have hL : l₁ ++ EInstr.i3 (opByte Op.Jump) (addr % 256) (addr / 256 % 256) :: l₂
        = instrs ++ (mid ++ EInstr.i3 (opByte Op.Jump) (addr % 256) (addr / 256 % 256) :: l₂) := by
      rw [hmid, List.append_assoc]
    rw [hL] at hgp
    have hrest : ∀ q ∈ rest,
        JumpSlot (instrs ++ (mid ++ EInstr.i3 (opByte Op.Jump) (addr % 256) (addr / 256 % 256) :: l₂)) q
          ∧ (encodeList instrs).length + 1 ≤ q := by
      intro q hq
      obtain ⟨hsq, hbq⟩ := hps q (List.mem_cons_of_mem _ hq)
      rw [hdec] at hsq
      have := @wordSlot_replace l₁ l₂ (opByte Op.Jump) x y (addr % 256) (addr / 256 % 256) _ _ hsq
      rw [hL] at this
      exact ⟨this, hbq⟩
    obtain ⟨δ', hg2, hlen2, hval2, hpres2⟩ := ih (c.patch_addr p addr) _ instrs addr hgp hrest
    refine ⟨δ', ?_, ?_, ?_, ?_⟩
    · exact hg2
    · rw [hlen2, hδ]
      exact encodeList_replace_length mid l₂ (opByte Op.Jump) x y _ _
    · intro q hq
      rcases List.mem_cons.mp hq with rfl | hq
      · refine hpres2 q ⟨l₁, l₂, ?_, hp⟩
        rw [hL]
      · exact hval2 q hq
    · intro q hvq
      apply hpres2
      rw [hdec] at hvq
      have := valSlot_replace hvq
      rwa [hL] at this

theorem foldl_patch_fields (addr : Nat) :
    ∀ (ps : List Nat) (c : Compiler),
    (ps.foldl (fun c p => c.patch_addr p addr) c).module.code.length = c.module.code.length
    ∧ (ps.foldl (fun c p => c.patch_addr p addr) c).module.strings = c.module.strings
    ∧ (ps.foldl (fun c p => c.patch_addr p addr) c).forward_refs = c.forward_refs
    ∧ (ps.foldl (fun c p => c.patch_addr p addr) c).loop_stack = c.loop_stack
    ∧ (ps.foldl (fun c p => c.patch_addr p addr) c).locals = c.locals := by
  intro ps
  induction ps with
  | nil => intro c; exact ⟨rfl, rfl, rfl, rfl, rfl⟩
  | cons p rest ih =>
    intro c
    have h := ih (c.patch_addr p addr)
    refine ⟨?_, h.2.1, h.2.2.1, h.2.2.2.1, h.2.2.2.2⟩
    rw [show (p :: rest).foldl (fun c p => c.patch_addr p addr) c
        = rest.foldl (fun c p => c.patch_addr p addr) (c.patch_addr p addr) from rfl]
    rw [h.1]
    simp [Compiler.patch_addr, Module.patch_addr]

theorem extc_foldl_patch (ps : List Nat) (c : Compiler) (addr : Nat) :
    ExtC c (ps.foldl (fun c p => c.patch_addr p addr) c) := by
  have h := foldl_patch_fields addr ps c
  exact extc_mk (le_of_eq h.1.symm) (le_of_eq (by rw [h.2.1])) h.2.2.1

/-- Decoding a well-formed instruction stream never trips the `PushStr`
bound check. -/
theorem pushStrOk_of_encode :
    ∀ (l : List EInstr) (n : Nat), (∀ i ∈ l, i.wf ∧ i.okStr n) →
      pushStrOk (encodeList l) n = true := by
  intro l
  induction l with
  | nil =>
    intro n _
    rw [show encodeList [] = ([] : List Nat) from rfl]
    rw [pushStrOk]
  | cons i rest ih =>
    intro n h
    have hi := h i (List.mem_cons_self _ _)
    have hr := ih n (fun j hj => h j (List.mem_cons_of_mem _ hj))
    rw [encodeList_cons]
    cases i with
    | i1 b =>
      have hsz : (Op.fromByte b).size = 1 := hi.1
      show pushStrOk (b :: encodeList rest) n = true
      rw [pushStrOk]
      have hnb : ¬ Op.fromByte b = Op.PushStr := by
        intro heq
        rw [heq] at hsz
        exact absurd hsz (by decide)
      rw [if_neg hnb, hsz]
      simpa using hr
    | i2 b x =>
      have hsz : (Op.fromByte b).size = 2 := hi.1
      show pushStrOk (b :: x :: encodeList rest) n = true
      rw [pushStrOk]
      have hnb : ¬ Op.fromByte b = Op.PushStr := by
        intro heq
        rw [heq] at hsz
        exact absurd hsz (by decide)
      rw [if_neg hnb, hsz]
      simpa using hr
    | i3 b x y =>
      have hsz : (Op.fromByte b).size = 3 := hi.1
      show pushStrOk (b :: x :: y :: encodeList rest) n = true
      rw [pushStrOk, hsz]
      by_cases hb : Op.fromByte b = Op.PushStr
      · rw [if_pos hb]
        have hok : x + 256 * y < n := hi.2 hb
        show (decide ((x :: y :: encodeList rest).getD 0 0
            + 256 * (x :: y :: encodeList rest).getD 1 0 < n)
          && pushStrOk ((x :: y :: encodeList rest).drop 2) n) = true
        rw [show (x :: y :: encodeList rest).getD 0 0 = x from rfl,
            show (x :: y :: encodeList rest).getD 1 0 = y from rfl,
            show (x :: y :: encodeList rest).drop 2 = encodeList rest from rfl]
        rw [decide_eq_true hok, hr]
        rfl
      · rw [if_neg hb]
        show (true && pushStrOk ((x :: y :: encodeList rest).drop 2) n) = true
        rw [show (x :: y :: encodeList rest).drop 2 = encodeList rest from rfl]
        simpa using hr

/-- A state change that leaves the code, the string pool, the forward
references and the loop stack alone (scope pushes/pops, local and
subroutine table updates, global registration) is a trivial step. -/
theorem compStep_congr2 {c c' : Compiler}
    (hcode : c'.module.code = c.module.code)
    (hstr : c'.module.strings = c.module.strings)
    (hr : c'.forward_refs = c.forward_refs)
    (hl : c'.loop_stack = c.loop_stack) : CompStep c c' := by
  refine ⟨⟨le_of_eq (by rw [hcode]), le_of_eq (by rw [hstr]), by rw [hl], ?_⟩,
    fun instrs hg _ => ⟨[], by simpa using good_congr hg hcode (le_of_eq (by rw [hstr])) hr hl⟩⟩
  intro h r hmem
  rw [hcode]
  exact h r (hr ▸ hmem)

theorem insert_local_fields (c : Compiler) (n : Str) (idx : Nat) :
    (c.insert_local n idx).module = c.module
    ∧ (c.insert_local n idx).forward_refs = c.forward_refs
    ∧ (c.insert_local n idx).loop_stack = c.loop_stack
    ∧ (c.insert_local n idx).globals = c.globals
    ∧ (c.insert_local n idx).subs = c.subs := by
  unfold Compiler.insert_local
  cases c.locals <;> exact ⟨rfl, rfl, rfl, rfl, rfl⟩

theorem pass1_fields (l : List Stmt) : ∀ c : Compiler,
    (pass1 l c).module = c.module
    ∧ (pass1 l c).forward_refs = c.forward_refs
    ∧ (pass1 l c).loop_stack = c.loop_stack
    ∧ (pass1 l c).locals = c.locals := by
  induction l with
  | nil => intro c; exact ⟨rfl, rfl, rfl, rfl⟩
  | cons s rest ih => intro c; cases s <;> exact ih _

theorem myfold_fields (vars : List Str) : ∀ c : Compiler,
    (vars.foldl (fun c v => c.insert_local v (c.innermost.length % 256)) c).module = c.module
    ∧ (vars.foldl (fun c v => c.insert_local v (c.innermost.length % 256)) c).forward_refs
        = c.forward_refs
    ∧ (vars.foldl (fun c v => c.insert_local v (c.innermost.length % 256)) c).loop_stack
        = c.loop_stack := by
  induction vars with
  | nil => intro c; exact ⟨rfl, rfl, rfl⟩
  | cons v rest ih =>
    intro c
    have h := ih (c.insert_local v (c.innermost.length % 256))
    have hf := insert_local_fields c v (c.innermost.length % 256)
    exact ⟨h.1.trans hf.1, h.2.1.trans hf.2.1, h.2.2.trans hf.2.2.1⟩

theorem ourfold_fields (vars : List Str) : ∀ c : Compiler,
    (vars.foldl (fun c v =>
        { c with
          globals := ainsert c.globals v (c.globals.length % 65536),
          module := { c.module with globals := c.module.globals ++ [v] } }) c).module.code
      = c.module.code
    ∧ (vars.foldl (fun c v =>
        { c with
          globals := ainsert c.globals v (c.globals.length % 65536),
          module := { c.module with globals := c.module.globals ++ [v] } }) c).module.strings
      = c.module.strings
    ∧ (vars.foldl (fun c v =>
        { c with
          globals := ainsert c.globals v (c.globals.length % 65536),
          module := { c.module with globals := c.module.globals ++ [v] } }) c).forward_refs
      = c.forward_refs
    ∧ (vars.foldl (fun c v =>
        { c with
          globals := ainsert c.globals v (c.globals.length % 65536),
          module := { c.module with globals := c.module.globals ++ [v] } }) c).loop_stack
      = c.loop_stack := by
  induction vars with
  | nil => intro c; exact ⟨rfl, rfl, rfl, rfl⟩
  | cons v rest ih => intro c; exact ih _

theorem registerParams_fields : ∀ (ps : List Str) (i : Nat) (c : Compiler),
    (registerParams ps i c).module = c.module
    ∧ (registerParams ps i c).forward_refs = c.forward_refs
    ∧ (registerParams ps i c).loop_stack = c.loop_stack := by
  intro ps
  induction ps with
  | nil => intro i c; exact ⟨rfl, rfl, rfl⟩
  | cons p rest ih =>
    intro i c
    have h := ih (i + 1) (c.insert_local p (i % 256))
    have hf := insert_local_fields c p (i % 256)
    exact ⟨h.1.trans hf.1, h.2.1.trans hf.2.1, h.2.2.trans hf.2.2.1⟩

theorem compStep_emitMyStores : ∀ (vs : List Str) (t i : Nat) (c : Compiler),
    CompStep c (emitMyStores t vs i c) := by
  intro vs
  induction vs with
  | nil => intro t i c; exact compStep_refl c
  | cons v rest ih =>
    intro t i c
    rw [emitMyStores]
    have s1 : CompStep c (if i < t - 1 then c.emit Op.Dup else c) := by
      by_cases h : i < t - 1
      · rw [if_pos h]
        exact compStep_emit Op.Dup (by decide)
      · rw [if_neg h]
        exact compStep_refl c
    have s2 := compStep_trans s1
      (compStep_emit_word Op.Push (i % 65536) (by decide) (by decide))
    have s3 := compStep_trans s2 (compStep_emit Op.ArrGet (by decide))
    have s4 := compStep_trans s3 (compStep_emit_byte Op.StoreLocal
      ((alookup (((if i < t - 1 then c.emit Op.Dup else c).emit_word Op.Push
        (i % 65536)).emit Op.ArrGet).innermost v).getD 0) (by decide))
    exact compStep_trans s4 (ih t (i + 1) _)

/-! ## Per-case step lemmas for the compiler's mutual functions

Each lemma takes the inductive hypotheses it needs (the step contracts
at the next-smaller fuel) as explicit arguments; `compile_step_all`
below dispatches to them. -/

theorem step_stmt_expr {fuel : Nat} {e : Expr} {c c' : Compiler}
    (ih8 : ∀ e c c', compile_expr fuel e c = .ok c' → CompStep c c')
    (h : compile_stmt (fuel + 1) (.Expr e) c = .ok c') : CompStep c c' := by
  simp only [compile_stmt] at h
  obtain ⟨c₁, h1, h2⟩ := except_bind_ok h
  injection h2 with h2
  subst h2
  exact compStep_trans (ih8 e c c₁ h1) (compStep_emit Op.Pop (by decide))

theorem step_stmt_my {fuel : Nat} {vars : List Str} {init : Option Expr} {c c' : Compiler}
    (ih8 : ∀ e c c', compile_expr fuel e c = .ok c' → CompStep c c')
    (h : compile_stmt (fuel + 1) (.My vars init) c = .ok c') : CompStep c c' := by
  have hfold := myfold_fields vars c
  have s0 : CompStep c (vars.foldl (fun c v => c.insert_local v (c.innermost.length % 256)) c) :=
    compStep_congr2 (by rw [hfold.1]) (by rw [hfold.1]) hfold.2.1 hfold.2.2
  cases init with
  | none =>
    simp only [compile_stmt] at h
    injection h with h
    subst h
    exact s0
  | some ie =>
    simp only [compile_stmt] at h
    by_cases hv : vars.length = 1
    · rw [if_pos hv] at h
      obtain ⟨c₁, h1, h2⟩ := except_bind_ok h
      injection h2 with h2
      subst h2
      exact compStep_trans (compStep_trans s0 (ih8 _ _ _ h1))
        (compStep_emit_byte Op.StoreLocal _ (by decide))
    · rw [if_neg hv] at h
      obtain ⟨c₁, h1, h2⟩ := except_bind_ok h
      injection h2 with h2
      subst h2
      exact compStep_trans (compStep_trans s0 (ih8 _ _ _ h1))
        (compStep_emitMyStores _ _ _ _)

theorem step_stmt_our {fuel : Nat} {vars : List Str} {init : Option Expr} {c c' : Compiler}
    (ih8 : ∀ e c c', compile_expr fuel e c = .ok c' → CompStep c c')
    (h : compile_stmt (fuel + 1) (.Our vars init) c = .ok c') : CompStep c c' := by
  have hfold := ourfold_fields vars c
  have s0 : CompStep c (vars.foldl (fun c v =>
      { c with
        globals := ainsert c.globals v (c.globals.length % 65536),
        module := { c.module with globals := c.module.globals ++ [v] } }) c) :=
    compStep_congr2 hfold.1 hfold.2.1 hfold.2.2.1 hfold.2.2.2
  cases init with
  | none =>
    simp only [compile_stmt] at h
    injection h with h
    subst h
    exact s0
  | some ie =>
    simp only [compile_stmt] at h
    by_cases hv : vars.length = 1
    · rw [if_pos hv] at h
      obtain ⟨c₁, h1, h2⟩ := except_bind_ok h
      injection h2 with h2
      subst h2
      exact compStep_trans (compStep_trans s0 (ih8 _ _ _ h1))
        (compStep_emit_word Op.StoreGlobal _ (by decide) (by decide))
    · rw [if_neg hv] at h
      injection h with h
      subst h
      exact s0

theorem step_stmt_return {fuel : Nat} {e : Option Expr} {c c' : Compiler}
    (ih8 : ∀ e c c', compile_expr fuel e c = .ok c' → CompStep c c')
    (h : compile_stmt (fuel + 1) (.Return e) c = .ok c') : CompStep c c' := by
  cases e with
  | none =>
    simp only [compile_stmt] at h
    injection h with h
    subst h
    exact compStep_emit Op.Return (by decide)
  | some expr =>
    simp only [compile_stmt] at h
    obtain ⟨c₁, h1, h2⟩ := except_bind_ok h
    injection h2 with h2
    subst h2
    exact compStep_trans (ih8 _ _ _ h1) (compStep_emit Op.ReturnVal (by decide))

theorem step_stmt_say {fuel : Nat} {args : List Expr} {c c' : Compiler}
    (ih4 : ∀ l c c', compile_print_args fuel l c = .ok c' → CompStep c c')
    (h : compile_stmt (fuel + 1) (.Say args) c = .ok c') : CompStep c c' := by
  simp only [compile_stmt] at h
  obtain ⟨c₁, h1, h2⟩ := except_bind_ok h
  injection h2 with h2
  subst h2
  exact compStep_trans (ih4 _ _ _ h1) (compStep_emit Op.PrintLn (by decide))

theorem step_stmt_block {fuel : Nat} {stmts : List Stmt} {c c' : Compiler}
    (ih1 : ∀ l c c', compile_stmts fuel l c = .ok c' → CompStep c c')
    (h : compile_stmt (fuel + 1) (.Block stmts) c = .ok c') : CompStep c c' := by
  simp only [compile_stmt] at h
  obtain ⟨c₁, h1, h2⟩ := except_bind_ok h
  injection h2 with h2
  subst h2
  have s0 : CompStep c c.push_scope := compStep_congr2 rfl rfl rfl rfl
  have s2 : CompStep c₁ c₁.pop_scope := compStep_congr2 rfl rfl rfl rfl
  exact compStep_trans (compStep_trans s0 (ih1 _ _ _ h1)) s2

theorem step_stmt_last {fuel : Nat} {c c' : Compiler}
    (h : compile_stmt (fuel + 1) Stmt.Last c = .ok c') : CompStep c c' := by
  simp only [compile_stmt] at h
  cases hls : c.loop_stack with
  | nil =>
    rw [hls] at h
    exact Except.noConfusion h
  | cons e rest =>
    obtain ⟨cont, bj⟩ := e
    rw [hls] at h
    injection h with h
    subst h
    set A : Compiler := { c with loop_stack := (cont, bj ++ [c.pos + 1]) :: rest } with hA
    have hAm : A.module = c.module := rfl
    have hlen3 : (A.emit_word Op.Jump 0).module.code.length
        = c.module.code.length + 3 := by
      simp [Compiler.emit_word, Module.emit_word, hAm]
    refine ⟨⟨by rw [hlen3]; omega, le_refl _, by rw [hls]; rfl, ?_⟩, ?_⟩
    · intro hi r hm
      exact le_trans (hi r hm) (by rw [hlen3]; omega)
    · intro instrs hg hlt
      rw [hlen3] at hlt
      have hclen : c.module.code.length < 65536 := by omega
      have hpos : c.pos = (encodeList instrs).length := by
        rw [pos_eq_of_lt hclen, hg.1]
      obtain ⟨hcode, hwf, hrefs, hloop⟩ := hg
      refine ⟨[EInstr.i3 (opByte Op.Jump) (0 % 256) (0 / 256 % 256)], ?_, ?_, ?_, ?_⟩
      · show c.module.code ++ [opByte Op.Jump, 0 % 256, 0 / 256 % 256] = _
        rw [hcode, encodeList_append, encodeList_cons]
        rfl
      · intro i hi
        rcases List.mem_append.mp hi with hi | hi
        · exact hwf i hi
        · rcases List.mem_singleton.mp hi with rfl
          refine ⟨?_, fun hb => absurd hb (by decide)⟩
          show (Op.fromByte (opByte Op.Jump)).size = 3
          decide
      · intro r hm
        exact wordSlot_append (hrefs r hm) _
      · intro e he
        rcases List.mem_cons.mp he with rfl | he
        · have htop := hloop (cont, bj) (by rw [hls]; exact List.mem_cons_self _ _)
          refine ⟨?_, ?_⟩
          · calc (cont, bj ++ [c.pos + 1]).1 ≤ (encodeList instrs).length := htop.1
              _ ≤ _ := by rw [encodeList_append]; simp
          · intro p hp
            rcases List.mem_append.mp hp with hp | hp
            · exact ⟨wordSlot_append (htop.2 p hp).1 _, (htop.2 p hp).2⟩
            · rcases List.mem_singleton.mp hp with rfl
              refine ⟨?_, ?_⟩
              · rw [hpos]
                exact wordSlot_at_end instrs _ _ _ rfl
              · have h1 : cont ≤ (encodeList instrs).length := htop.1
                have h2 : c.pos = (encodeList instrs).length := hpos
                omega
        · have he' := hloop e (by rw [hls]; exact List.mem_cons_of_mem _ he)
          refine ⟨?_, fun p hp => ⟨wordSlot_append ((he'.2 p hp)).1 _, (he'.2 p hp).2⟩⟩
          calc e.1 ≤ (encodeList instrs).length := he'.1
            _ ≤ _ := by rw [encodeList_append]; simp

theorem step_stmt_next {fuel : Nat} {c c' : Compiler}
    (h : compile_stmt (fuel + 1) Stmt.Next c = .ok c') : CompStep c c' := by
  simp only [compile_stmt] at h
  cases hls : c.loop_stack with
  | nil =>
    rw [hls] at h
    exact Except.noConfusion h
  | cons e rest =>
    obtain ⟨cont, bj⟩ := e
    rw [hls] at h
    injection h with h
    subst h
    exact compStep_emit_word Op.Jump cont (by decide) (by decide)

/-- The `While` case.  Besides the step contract, it also settles C7's
"patched to the loop's end": every break position recorded in the loop
entry by the body holds the loop's one-past-the-end address in the final
code. -/
theorem step_stmt_while {fuel : Nat} {cond : Expr} {body : List Stmt} {c c' : Compiler}
    (ih8 : ∀ e c c', compile_expr fuel e c = .ok c' → CompStep c c')
    (ih1 : ∀ l c c', compile_stmts fuel l c = .ok c' → CompStep c c')
    (h : compile_stmt (fuel + 1) (.While cond body) c = .ok c') :
    CompStep c c'
    ∧ ∀ instrs c₂x c₃x, Good c instrs →
        compile_expr fuel cond { c with loop_stack := (c.pos, []) :: c.loop_stack } = .ok c₂x →
        compile_stmts fuel body (c₂x.emit_word Op.JumpIfNot 0) = .ok c₃x →
        c'.module.code.length < 65536 →
        ∀ cont bj rest, c₃x.loop_stack = (cont, bj) :: rest →
        ∃ L, c'.module.code = encodeList L
          ∧ ∀ p ∈ bj, ValSlot L p c'.module.code.length := by
  simp only [compile_stmt] at h
  obtain ⟨c₂, hcond, h⟩ := except_bind_ok h
  obtain ⟨c₃, hbody, h⟩ := except_bind_ok h
  set A : Compiler := { c with loop_stack := (c.pos, []) :: c.loop_stack } with hA
  set B : Compiler := c₂.emit_word Op.JumpIfNot 0 with hB
  set D : Compiler := c₃.emit_word Op.Jump c.pos with hD
  set E : Compiler := D.patch_addr (c₂.pos + 1) D.pos with hE
  have hextA : Ext A c₂ := (ih8 _ _ _ hcond).1
  have hextB : Ext B c₃ := (ih1 _ _ _ hbody).1
  have hfst : c₃.loop_stack.map Prod.fst = c.pos :: c.loop_stack.map Prod.fst := by
    rw [hextB.2.2.1]
    show c₂.loop_stack.map Prod.fst = _
    rw [hextA.2.2.1]
    rfl
  cases hls : c₃.loop_stack with
  | nil =>
    rw [hls] at hfst
    exact absurd hfst (by simp)
  | cons e rest =>
    obtain ⟨cont, bj⟩ := e
    rw [hls] at hfst
    simp only [List.map_cons] at hfst
    injection hfst with hcont hrest
    rw [show E.loop_stack = c₃.loop_stack from rfl, hls] at h
    injection h with h
    have hBlen : B.module.code.length = c₂.module.code.length + 3 := by
      simp [hB, Compiler.emit_word, Module.emit_word]
    have hDlen : D.module.code.length = c₃.module.code.length + 3 := by
      simp [hD, Compiler.emit_word, Module.emit_word]
    have hElen : E.module.code.length = D.module.code.length := by
      simp [hE, Compiler.patch_addr, Module.patch_addr]
    have hc'len : c'.module.code.length = c₃.module.code.length + 3 := by
      rw [← h, (foldl_patch_fields D.pos bj _).1]
      show E.module.code.length = _
      rw [hElen, hDlen]
    have e1 : c.module.code.length ≤ c₂.module.code.length := hextA.1
    have e2 : c₂.module.code.length + 3 ≤ c₃.module.code.length := by
      rw [← hBlen]
      exact hextB.1
    have s1 : c.module.strings.length ≤ c₂.module.strings.length := hextA.2.1
    have s2 : c₂.module.strings.length ≤ c₃.module.strings.length := hextB.2.1
    have s3 : c'.module.strings = c₃.module.strings := by
      rw [← h, (foldl_patch_fields D.pos bj _).2.1]
      show E.module.strings = _
      simp [hE, hD, Compiler.patch_addr, Module.patch_addr, Compiler.emit_word, Module.emit_word]
    have hmap : c'.loop_stack.map Prod.fst = c.loop_stack.map Prod.fst := by
      rw [← h, (foldl_patch_fields D.pos bj _).2.2.2.1]
      show rest.map Prod.fst = _
      exact hrest
    have hinv : Inv5 c → Inv5 c' := by
      intro hi
      have i2 := hextA.2.2.2 hi
      have i3 := hextB.2.2.2 ((extc_emit_word c₂ Op.JumpIfNot 0).2.2 i2)
      have i4 := (extc_patch D (c₂.pos + 1) D.pos).2.2 ((extc_emit_word c₃ Op.Jump c.pos).2.2 i3)
      have i5 : Inv5 { E with loop_stack := rest } := i4
      have i6 := (extc_foldl_patch bj { E with loop_stack := rest } D.pos).2.2 i5
      rwa [h] at i6
    have core : ∀ instrs, Good c instrs → c'.module.code.length < 65536 →
        ∃ δ', Good c' (instrs ++ δ')
          ∧ ∀ p ∈ bj, ValSlot (instrs ++ δ') p D.pos := by
      intro instrs hg hlt
      have hb : c₃.module.code.length + 3 < 65536 := by rw [← hc'len]; exact hlt
      have hgA : Good A instrs := good_push_loop hg
      obtain ⟨δ₁, hg2⟩ := (ih8 _ _ _ hcond).2 instrs hgA (by omega)
      have hg2' : Good c₂ (instrs ++ δ₁) := hg2
      have hgB := @good_emit_word c₂ (instrs ++ δ₁) Op.JumpIfNot 0 hg2' (by decide)
        (fun hpb => absurd hpb (by decide))
      obtain ⟨δ₂, hg3⟩ := (ih1 _ _ _ hbody).2 _ hgB (by omega)
      have hgD := @good_emit_word c₃ _ Op.Jump c.pos hg3 (by decide)
        (fun hpb => absurd hpb (by decide))
      have hre : ((((instrs ++ δ₁)
            ++ [EInstr.i3 (opByte Op.JumpIfNot) (0 % 256) (0 / 256 % 256)]) ++ δ₂)
            ++ [EInstr.i3 (opByte Op.Jump) (c.pos % 256) (c.pos / 256 % 256)])
          = (instrs ++ δ₁) ++ EInstr.i3 (opByte Op.JumpIfNot) (0 % 256) (0 / 256 % 256)
              :: (δ₂ ++ [EInstr.i3 (opByte Op.Jump) (c.pos % 256) (c.pos / 256 % 256)]) := by
        simp
      rw [hre] at hgD
      have hc2pos : c₂.pos = (encodeList (instrs ++ δ₁)).length := by
        rw [pos_eq_of_lt (by omega), hg2'.1]
      have hgE := good_patch D.pos hgD (by decide)
      rw [← hc2pos] at hgE
      have hgE' : Good { E with loop_stack := rest }
          ((instrs ++ δ₁) ++ EInstr.i3 (opByte Op.JumpIfNot) (D.pos % 256) (D.pos / 256 % 256)
            :: (δ₂ ++ [EInstr.i3 (opByte Op.Jump) (c.pos % 256) (c.pos / 256 % 256)])) := by
        refine good_pop_loop hgE ?_
        intro e he
        show e ∈ E.loop_stack
        rw [show E.loop_stack = c₃.loop_stack from rfl, hls]
        exact List.mem_cons_of_mem _ he
      rw [List.append_assoc] at hgE'
      have hcp : c.pos = (encodeList instrs).length := by
        rw [pos_eq_of_lt (by omega), hg.1]
      have hbrk : ∀ p ∈ bj,
          JumpSlot (instrs ++ (δ₁
            ++ EInstr.i3 (opByte Op.JumpIfNot) (D.pos % 256) (D.pos / 256 % 256)
            :: (δ₂ ++ [EInstr.i3 (opByte Op.Jump) (c.pos % 256) (c.pos / 256 % 256)]))) p
          ∧ (encodeList instrs).length + 1 ≤ p := by
        have htop := hgE.2.2.2 (cont, bj)
          (by rw [show E.loop_stack = c₃.loop_stack from rfl, hls]
              exact List.mem_cons_self _ _)
        intro p hp
        have hslot := (htop.2 p hp).1
        have hbound := (htop.2 p hp).2
        rw [List.append_assoc] at hslot
        exact ⟨hslot, by omega⟩
      obtain ⟨δ', hgF, _, hval, _⟩ := patch_fold_good bj _ _ instrs D.pos hgE' hbrk
      rw [h] at hgF
      exact ⟨δ', hgF, hval⟩
    refine ⟨⟨⟨by omega, by rw [s3]; omega, hmap, hinv⟩,
      fun instrs hg hlt => (core instrs hg hlt).imp (fun δ hδ => hδ.1)⟩, ?_⟩
    intro instrs c₂x c₃x hg hcondx hbodyx hlt contx bjx restx hlsx
    have hc2eq : c₂x = c₂ := by
      have := hcondx.symm.trans hcond
      exact Except.ok.inj this
    subst hc2eq
    have hc3eq : c₃x = c₃ := by
      have := hbodyx.symm.trans hbody
      exact Except.ok.inj this
    subst hc3eq
    rw [hls] at hlsx
    injection hlsx with h1 h2
    injection h1 with hcx hbx
    subst hcx
    subst hbx
    subst h2
    obtain ⟨δ', hgood, hval⟩ := core instrs hg hlt
    refine ⟨instrs ++ δ', hgood.1, ?_⟩
    intro p hp
    have hv := hval p hp
    have hdp : D.pos = c'.module.code.length := by
      show D.module.code.length % 65536 = _
      rw [hDlen, hc'len]
      exact Nat.mod_eq_of_lt (by omega)
    rwa [hdp] at hv

theorem step_stmt_until {fuel : Nat} {cond : Expr} {body : List Stmt} {c c' : Compiler}
    (ih8 : ∀ e c c', compile_expr fuel e c = .ok c' → CompStep c c')
    (ih1 : ∀ l c c', compile_stmts fuel l c = .ok c' → CompStep c c')
    (h : compile_stmt (fuel + 1) (.Until cond body) c = .ok c') :
    CompStep c c' := by
  simp only [compile_stmt] at h
  obtain ⟨c₂, hcond, h⟩ := except_bind_ok h
  obtain ⟨c₃, hbody, h⟩ := except_bind_ok h
  set A : Compiler := { c with loop_stack := (c.pos, []) :: c.loop_stack } with hA
  set B : Compiler := c₂.emit_word Op.JumpIf 0 with hB
  set D : Compiler := c₃.emit_word Op.Jump c.pos with hD
  set E : Compiler := D.patch_addr (c₂.pos + 1) D.pos with hE
  have hextA : Ext A c₂ := (ih8 _ _ _ hcond).1
  have hextB : Ext B c₃ := (ih1 _ _ _ hbody).1
  have hfst : c₃.loop_stack.map Prod.fst = c.pos :: c.loop_stack.map Prod.fst := by
    rw [hextB.2.2.1]
    show c₂.loop_stack.map Prod.fst = _
    rw [hextA.2.2.1]
    rfl
  cases hls : c₃.loop_stack with
  | nil =>
    rw [hls] at hfst
    exact absurd hfst (by simp)
  | cons e rest =>
    obtain ⟨cont, bj⟩ := e
    rw [hls] at hfst
    simp only [List.map_cons] at hfst
    injection hfst with hcont hrest
    rw [show E.loop_stack = c₃.loop_stack from rfl, hls] at h
    injection h with h
    have hBlen : B.module.code.length = c₂.module.code.length + 3 := by
      simp [hB, Compiler.emit_word, Module.emit_word]
    have hDlen : D.module.code.length = c₃.module.code.length + 3 := by
      simp [hD, Compiler.emit_word, Module.emit_word]
    have hElen : E.module.code.length = D.module.code.length := by
      simp [hE, Compiler.patch_addr, Module.patch_addr]
    have hc'len : c'.module.code.length = c₃.module.code.length + 3 := by
      rw [← h, (foldl_patch_fields D.pos bj _).1]
      show E.module.code.length = _
      rw [hElen, hDlen]
    have e1 : c.module.code.length ≤ c₂.module.code.length := hextA.1
    have e2 : c₂.module.code.length + 3 ≤ c₃.module.code.length := by
      rw [← hBlen]
      exact hextB.1
    have s1 : c.module.strings.length ≤ c₂.module.strings.length := hextA.2.1
    have s2 : c₂.module.strings.length ≤ c₃.module.strings.length := hextB.2.1
    have s3 : c'.module.strings = c₃.module.strings := by
      rw [← h, (foldl_patch_fields D.pos bj _).2.1]
      show E.module.strings = _
      simp [hE, hD, Compiler.patch_addr, Module.patch_addr, Compiler.emit_word, Module.emit_word]
    have hmap : c'.loop_stack.map Prod.fst = c.loop_stack.map Prod.fst := by
      rw [← h, (foldl_patch_fields D.pos bj _).2.2.2.1]
      show rest.map Prod.fst = _
      exact hrest
    have hinv : Inv5 c → Inv5 c' := by
      intro hi
      have i2 := hextA.2.2.2 hi
      have i3 := hextB.2.2.2 ((extc_emit_word c₂ Op.JumpIf 0).2.2 i2)
      have i4 := (extc_patch D (c₂.pos + 1) D.pos).2.2 ((extc_emit_word c₃ Op.Jump c.pos).2.2 i3)
      have i5 : Inv5 { E with loop_stack := rest } := i4
      have i6 := (extc_foldl_patch bj { E with loop_stack := rest } D.pos).2.2 i5
      rwa [h] at i6
    refine ⟨⟨by omega, by rw [s3]; omega, hmap, hinv⟩, ?_⟩
    intro instrs hg hlt
    have hb : c₃.module.code.length + 3 < 65536 := by rw [← hc'len]; exact hlt
    have hgA : Good A instrs := good_push_loop hg
    obtain ⟨δ₁, hg2⟩ := (ih8 _ _ _ hcond).2 instrs hgA (by omega)
    have hg2' : Good c₂ (instrs ++ δ₁) := hg2
    have hgB := @good_emit_word c₂ (instrs ++ δ₁) Op.JumpIf 0 hg2' (by decide)
      (fun hpb => absurd hpb (by decide))
    obtain ⟨δ₂, hg3⟩ := (ih1 _ _ _ hbody).2 _ hgB (by omega)
    have hgD := @good_emit_word c₃ _ Op.Jump c.pos hg3 (by decide)
      (fun hpb => absurd hpb (by decide))
    have hre : ((((instrs ++ δ₁)
          ++ [EInstr.i3 (opByte Op.JumpIf) (0 % 256) (0 / 256 % 256)]) ++ δ₂)
          ++ [EInstr.i3 (opByte Op.Jump) (c.pos % 256) (c.pos / 256 % 256)])
        = (instrs ++ δ₁) ++ EInstr.i3 (opByte Op.JumpIf) (0 % 256) (0 / 256 % 256)
            :: (δ₂ ++ [EInstr.i3 (opByte Op.Jump) (c.pos % 256) (c.pos / 256 % 256)]) := by
      simp
    rw [hre] at hgD
    have hc2pos : c₂.pos = (encodeList (instrs ++ δ₁)).length := by
      rw [pos_eq_of_lt (by omega), hg2'.1]
    have hgE := good_patch D.pos hgD (by decide)
    rw [← hc2pos] at hgE
    have hgE' : Good { E with loop_stack := rest }
        ((instrs ++ δ₁) ++ EInstr.i3 (opByte Op.JumpIf) (D.pos % 256) (D.pos / 256 % 256)
          :: (δ₂ ++ [EInstr.i3 (opByte Op.Jump) (c.pos % 256) (c.pos / 256 % 256)])) := by
      refine good_pop_loop hgE ?_
      intro e he
      show e ∈ E.loop_stack
      rw [show E.loop_stack = c₃.loop_stack from rfl, hls]
      exact List.mem_cons_of_mem _ he
    rw [List.append_assoc] at hgE'
    have hcp : c.pos = (encodeList instrs).length := by
      rw [pos_eq_of_lt (by omega), hg.1]
    have hbrk : ∀ p ∈ bj,
        JumpSlot (instrs ++ (δ₁
          ++ EInstr.i3 (opByte Op.JumpIf) (D.pos % 256) (D.pos / 256 % 256)
          :: (δ₂ ++ [EInstr.i3 (opByte Op.Jump) (c.pos % 256) (c.pos / 256 % 256)]))) p
        ∧ (encodeList instrs).length + 1 ≤ p := by
      have htop := hgE.2.2.2 (cont, bj)
        (by rw [show E.loop_stack = c₃.loop_stack from rfl, hls]
            exact List.mem_cons_self _ _)
      intro p hp
      have hslot := (htop.2 p hp).1
      have hbound := (htop.2 p hp).2
      rw [List.append_assoc] at hslot
      exact ⟨hslot, by omega⟩
    obtain ⟨δ', hgF, _, _, _⟩ := patch_fold_good bj _ _ instrs D.pos hgE' hbrk
    rw [h] at hgF
    exact ⟨δ', hgF⟩

theorem step_stmt_for {fuel : Nat} {init : Option Stmt} {cond step : Option Expr}
    {body : List Stmt} {c c' : Compiler}
    (ih2 : ∀ s c c', compile_stmt fuel s c = .ok c' → CompStep c c')
    (ih8 : ∀ e c c', compile_expr fuel e c = .ok c' → CompStep c c')
    (ih1 : ∀ l c c', compile_stmts fuel l c = .ok c' → CompStep c c')
    (h : compile_stmt (fuel + 1) (.For init cond step body) c = .ok c') :
    CompStep c c' := by
  simp only [compile_stmt] at h
  cases init with
  | some s =>
    obtain ⟨c₁, hinit, h⟩ := except_bind_ok h
    have s0 : CompStep c c₁ :=
      compStep_trans (compStep_congr2 rfl rfl rfl rfl : CompStep c c.push_scope)
        (ih2 _ _ _ hinit)
    cases cond with
    | some ce =>
        obtain ⟨c₂, hc2, h⟩ := except_bind_ok h
        obtain ⟨y1, hy1, h⟩ := except_bind_ok h
        have hy1' : ((some (c₂.pos + 1), c₂.emit_word Op.JumpIfNot 0)
            : Option Nat × Compiler) = y1 := Except.ok.inj hy1
        subst hy1'
        obtain ⟨c₃, hbody0, h⟩ := except_bind_ok h
        have hbody' : compile_stmts fuel body (c₂.emit_word Op.JumpIfNot 0) = .ok c₃ := hbody0
        cases step with
        | some se =>
          obtain ⟨c₄, hc4, h⟩ := except_bind_ok h
          obtain ⟨y2, hy2, h⟩ := except_bind_ok h
          have hy2' : c₄.emit Op.Pop = y2 := Except.ok.inj hy2
          subst hy2'
          have sstep : CompStep c₃ (c₄.emit Op.Pop) :=
            compStep_trans (ih8 _ _ _ hc4) (compStep_emit Op.Pop (by decide))
          have hextA : Ext { c₁ with loop_stack := (c₁.pos, []) :: c₁.loop_stack } c₃ :=
            ext_trans (ih8 _ _ _ hc2).1
              (ext_trans (mk_ext (extc_emit_word c₂ Op.JumpIfNot 0) rfl) (ih1 _ _ _ hbody').1)
          have hext5 : Ext { c₁ with loop_stack := (c₁.pos, []) :: c₁.loop_stack } (c₄.emit Op.Pop) :=
            ext_trans hextA sstep.1
          have hfst : (c₄.emit Op.Pop).loop_stack.map Prod.fst = c₁.pos :: c₁.loop_stack.map Prod.fst := by
            rw [hext5.2.2.1]
            rfl
          have e0 : c.module.code.length ≤ c₁.module.code.length := s0.1.1
          have eA : c₁.module.code.length ≤ c₂.module.code.length := (ih8 _ _ _ hc2).1.1
          have e2 : c₂.module.code.length + 3 ≤ c₃.module.code.length := by
            have hx1 : (c₂.emit_word Op.JumpIfNot 0).module.code.length
                = c₂.module.code.length + 3 := by
              simp [Compiler.emit_word, Module.emit_word]
            have hx2 := (ih1 _ _ _ hbody').1.1
            omega
          have e3 : c₃.module.code.length ≤ (c₄.emit Op.Pop).module.code.length := sstep.1.1
          have st0 : c.module.strings.length ≤ c₁.module.strings.length := s0.1.2.1
          have stA : c₁.module.strings.length ≤ c₂.module.strings.length := (ih8 _ _ _ hc2).1.2.1
          have st2 : c₂.module.strings.length ≤ c₃.module.strings.length := (ih1 _ _ _ hbody').1.2.1
          have st3 : c₃.module.strings.length ≤ (c₄.emit Op.Pop).module.strings.length := sstep.1.2.1
          split at h
          next x cont bj rest heq =>
            injection h with h
            have hls : (c₄.emit Op.Pop).loop_stack = (cont, bj) :: rest := heq
            rw [hls] at hfst
            simp only [List.map_cons] at hfst
            injection hfst with hcont hrest
            set D : Compiler := (c₄.emit Op.Pop).emit_word Op.Jump c₁.pos with hD
            set E : Compiler := D.patch_addr (c₂.pos + 1) D.pos with hE
            have hDlen : D.module.code.length = (c₄.emit Op.Pop).module.code.length + 3 := by
              simp [hD, Compiler.emit_word, Module.emit_word]
            have hc'len : c'.module.code.length = (c₄.emit Op.Pop).module.code.length + 3 := by
              rw [← h]
              show (List.foldl (fun (cc : Compiler) (p : Nat) => cc.patch_addr p D.pos)
                { E with loop_stack := rest } bj).module.code.length = _
              rw [(foldl_patch_fields D.pos bj _).1]
              show E.module.code.length = _
              rw [hE]
              show (D.patch_addr _ _).module.code.length = _
              simp [Compiler.patch_addr, Module.patch_addr, hDlen]
            have s5 : c'.module.strings = (c₄.emit Op.Pop).module.strings := by
              rw [← h]
              show (List.foldl (fun (cc : Compiler) (p : Nat) => cc.patch_addr p D.pos)
                { E with loop_stack := rest } bj).module.strings = _
              rw [(foldl_patch_fields D.pos bj _).2.1]
              show E.module.strings = _
              rw [hE, hD]
              simp [Compiler.patch_addr, Module.patch_addr, Compiler.emit_word, Module.emit_word]
            have hmap : c'.loop_stack.map Prod.fst = c.loop_stack.map Prod.fst := by
              rw [← h]
              show (List.foldl (fun (cc : Compiler) (p : Nat) => cc.patch_addr p D.pos)
                { E with loop_stack := rest } bj).loop_stack.map Prod.fst = _
              rw [(foldl_patch_fields D.pos bj _).2.2.2.1]
              show rest.map Prod.fst = _
              rw [hrest]
              exact s0.1.2.2.1
            have hinv : Inv5 c → Inv5 c' := by
              intro hi
              have i1 := s0.1.2.2.2 hi
              have i2 : Inv5 ({ c₁ with loop_stack := (c₁.pos, []) :: c₁.loop_stack } : Compiler) := i1
              have i3 : Inv5 c₂ := (ih8 _ _ _ hc2).1.2.2.2 i2
              have i4 : Inv5 c₃ :=
                (ih1 _ _ _ hbody').1.2.2.2 ((extc_emit_word c₂ Op.JumpIfNot 0).2.2 i3)
              have i5 : Inv5 (c₄.emit Op.Pop) := sstep.1.2.2.2 i4
              have i6 : Inv5 D := (extc_emit_word (c₄.emit Op.Pop) Op.Jump c₁.pos).2.2 i5
              have i7 : Inv5 E := (extc_patch D (c₂.pos + 1) D.pos).2.2 i6
              have i8 : Inv5 ({ E with loop_stack := rest } : Compiler) := i7
              have i9 := (extc_foldl_patch bj { E with loop_stack := rest } D.pos).2.2 i8
              have i10 : Inv5 (List.foldl (fun (cc : Compiler) (p : Nat) => cc.patch_addr p D.pos)
                  { E with loop_stack := rest } bj).pop_scope := i9
              rw [← h]
              exact i10
            refine ⟨⟨by omega, by rw [s5]; omega, hmap, hinv⟩, ?_⟩
            intro instrs hg hlt
            have hb : (c₄.emit Op.Pop).module.code.length + 3 < 65536 := by rw [← hc'len]; exact hlt
            obtain ⟨δ₀, hg1⟩ := s0.2 instrs hg (by omega)
            have hgA : Good { c₁ with loop_stack := (c₁.pos, []) :: c₁.loop_stack } (instrs ++ δ₀) :=
              good_push_loop hg1
            have hc1pos : c₁.pos = (encodeList (instrs ++ δ₀)).length := by
              rw [pos_eq_of_lt (by omega), hg1.1]
            obtain ⟨δ₁, hg2⟩ := (ih8 _ _ _ hc2).2 _ hgA (by omega)
            have hg2' : Good c₂ ((instrs ++ δ₀) ++ δ₁) := hg2
            have hgB := @good_emit_word c₂ ((instrs ++ δ₀) ++ δ₁) Op.JumpIfNot 0 hg2' (by decide)
              (fun hpb => absurd hpb (by decide))
            obtain ⟨δ₂, hg3⟩ := (ih1 _ _ _ hbody').2 _ hgB (by omega)
            obtain ⟨δ₃, hg4⟩ := sstep.2 _ hg3 (by omega)
            have hgD := @good_emit_word (c₄.emit Op.Pop) _ Op.Jump c₁.pos hg4 (by decide)
              (fun hpb => absurd hpb (by decide))
            have hre : (((((instrs ++ δ₀) ++ δ₁)
                  ++ [EInstr.i3 (opByte Op.JumpIfNot) (0 % 256) (0 / 256 % 256)]) ++ δ₂) ++ δ₃)
                  ++ [EInstr.i3 (opByte Op.Jump) (c₁.pos % 256) (c₁.pos / 256 % 256)]
                = ((instrs ++ δ₀) ++ δ₁)
                  ++ EInstr.i3 (opByte Op.JumpIfNot) (0 % 256) (0 / 256 % 256)
                    :: ((δ₂ ++ δ₃)
                      ++ [EInstr.i3 (opByte Op.Jump) (c₁.pos % 256) (c₁.pos / 256 % 256)]) := by
              simp
            rw [hre] at hgD
            have hc2pos : c₂.pos = (encodeList ((instrs ++ δ₀) ++ δ₁)).length := by
              rw [pos_eq_of_lt (by omega), hg2'.1]
            have hgE0 := good_patch D.pos hgD (by decide)
            rw [← hc2pos] at hgE0
            have hx : ((instrs ++ δ₀) ++ δ₁)
                ++ EInstr.i3 (opByte Op.JumpIfNot) (D.pos % 256) (D.pos / 256 % 256)
                  :: ((δ₂ ++ δ₃) ++ [EInstr.i3 (opByte Op.Jump) (c₁.pos % 256) (c₁.pos / 256 % 256)])
                = instrs ++ ((δ₀ ++ δ₁)
                  ++ EInstr.i3 (opByte Op.JumpIfNot) (D.pos % 256) (D.pos / 256 % 256)
                    :: ((δ₂ ++ δ₃)
                      ++ [EInstr.i3 (opByte Op.Jump) (c₁.pos % 256) (c₁.pos / 256 % 256)])) := by
              simp
            have hpop := @good_pop_loop _ _ rest hgE0 (by
              intro e he
              show e ∈ (c₄.emit Op.Pop).loop_stack
              rw [hls]
              exact List.mem_cons_of_mem _ he)
            rw [hx] at hpop
            have hbrk : ∀ p ∈ bj,
                JumpSlot (instrs ++ ((δ₀ ++ δ₁)
                  ++ EInstr.i3 (opByte Op.JumpIfNot) (D.pos % 256) (D.pos / 256 % 256)
                    :: ((δ₂ ++ δ₃)
                      ++ [EInstr.i3 (opByte Op.Jump) (c₁.pos % 256) (c₁.pos / 256 % 256)]))) p
                ∧ (encodeList instrs).length + 1 ≤ p := by
              have htop := hgE0.2.2.2 (cont, bj) (by
                show (cont, bj) ∈ (c₄.emit Op.Pop).loop_stack
                rw [hls]
                exact List.mem_cons_self _ _)
              intro p hp
              have hslot := (htop.2 p hp).1
              have hbound : cont + 1 ≤ p := (htop.2 p hp).2
              rw [hx] at hslot
              refine ⟨hslot, ?_⟩
              have hb2 : (encodeList instrs).length ≤ (encodeList (instrs ++ δ₀)).length := by
                rw [encodeList_append]
                simp
              omega
            obtain ⟨δ', hgF, _, _, _⟩ := patch_fold_good bj _ _ instrs D.pos hpop hbrk
            have hgF' : Good (List.foldl (fun (cc : Compiler) (p : Nat) => cc.patch_addr p D.pos)
                { E with loop_stack := rest } bj).pop_scope (instrs ++ δ') :=
              good_congr hgF rfl (le_refl _) rfl rfl
            rw [← h]
            exact ⟨δ', hgF'⟩
          next x heq =>
            exfalso
            have hnil : (c₄.emit Op.Pop).loop_stack = [] := heq
            rw [hnil] at hfst
            exact absurd hfst (by simp)
        | none =>
          obtain ⟨y2, hy2, h⟩ := except_bind_ok h
          have hy2' : c₃ = y2 := Except.ok.inj hy2
          subst hy2'
          have sstep : CompStep c₃ c₃ := compStep_refl c₃
          have hextA : Ext { c₁ with loop_stack := (c₁.pos, []) :: c₁.loop_stack } c₃ :=
            ext_trans (ih8 _ _ _ hc2).1
              (ext_trans (mk_ext (extc_emit_word c₂ Op.JumpIfNot 0) rfl) (ih1 _ _ _ hbody').1)
          have hext5 : Ext { c₁ with loop_stack := (c₁.pos, []) :: c₁.loop_stack } c₃ :=
            ext_trans hextA sstep.1
          have hfst : c₃.loop_stack.map Prod.fst = c₁.pos :: c₁.loop_stack.map Prod.fst := by
            rw [hext5.2.2.1]
            rfl
          have e0 : c.module.code.length ≤ c₁.module.code.length := s0.1.1
          have eA : c₁.module.code.length ≤ c₂.module.code.length := (ih8 _ _ _ hc2).1.1
          have e2 : c₂.module.code.length + 3 ≤ c₃.module.code.length := by
            have hx1 : (c₂.emit_word Op.JumpIfNot 0).module.code.length
                = c₂.module.code.length + 3 := by
              simp [Compiler.emit_word, Module.emit_word]
            have hx2 := (ih1 _ _ _ hbody').1.1
            omega
          have e3 : c₃.module.code.length ≤ c₃.module.code.length := sstep.1.1
          have st0 : c.module.strings.length ≤ c₁.module.strings.length := s0.1.2.1
          have stA : c₁.module.strings.length ≤ c₂.module.strings.length := (ih8 _ _ _ hc2).1.2.1
          have st2 : c₂.module.strings.length ≤ c₃.module.strings.length := (ih1 _ _ _ hbody').1.2.1
          have st3 : c₃.module.strings.length ≤ c₃.module.strings.length := sstep.1.2.1
          split at h
          next x cont bj rest heq =>
            injection h with h
            have hls : c₃.loop_stack = (cont, bj) :: rest := heq
            rw [hls] at hfst
            simp only [List.map_cons] at hfst
            injection hfst with hcont hrest
            set D : Compiler := c₃.emit_word Op.Jump c₁.pos with hD
            set E : Compiler := D.patch_addr (c₂.pos + 1) D.pos with hE
            have hDlen : D.module.code.length = c₃.module.code.length + 3 := by
              simp [hD, Compiler.emit_word, Module.emit_word]
            have hc'len : c'.module.code.length = c₃.module.code.length + 3 := by
              rw [← h]
              show (List.foldl (fun (cc : Compiler) (p : Nat) => cc.patch_addr p D.pos)
                { E with loop_stack := rest } bj).module.code.length = _
              rw [(foldl_patch_fields D.pos bj _).1]
              show E.module.code.length = _
              rw [hE]
              show (D.patch_addr _ _).module.code.length = _
              simp [Compiler.patch_addr, Module.patch_addr, hDlen]
            have s5 : c'.module.strings = c₃.module.strings := by
              rw [← h]
              show (List.foldl (fun (cc : Compiler) (p : Nat) => cc.patch_addr p D.pos)
                { E with loop_stack := rest } bj).module.strings = _
              rw [(foldl_patch_fields D.pos bj _).2.1]
              show E.module.strings = _
              rw [hE, hD]
              simp [Compiler.patch_addr, Module.patch_addr, Compiler.emit_word, Module.emit_word]
            have hmap : c'.loop_stack.map Prod.fst = c.loop_stack.map Prod.fst := by
              rw [← h]
              show (List.foldl (fun (cc : Compiler) (p : Nat) => cc.patch_addr p D.pos)
                { E with loop_stack := rest } bj).loop_stack.map Prod.fst = _
              rw [(foldl_patch_fields D.pos bj _).2.2.2.1]
              show rest.map Prod.fst = _
              rw [hrest]
              exact s0.1.2.2.1
            have hinv : Inv5 c → Inv5 c' := by
              intro hi
              have i1 := s0.1.2.2.2 hi
              have i2 : Inv5 ({ c₁ with loop_stack := (c₁.pos, []) :: c₁.loop_stack } : Compiler) := i1
              have i3 : Inv5 c₂ := (ih8 _ _ _ hc2).1.2.2.2 i2
              have i4 : Inv5 c₃ :=
                (ih1 _ _ _ hbody').1.2.2.2 ((extc_emit_word c₂ Op.JumpIfNot 0).2.2 i3)
              have i5 : Inv5 c₃ := sstep.1.2.2.2 i4
              have i6 : Inv5 D := (extc_emit_word c₃ Op.Jump c₁.pos).2.2 i5
              have i7 : Inv5 E := (extc_patch D (c₂.pos + 1) D.pos).2.2 i6
              have i8 : Inv5 ({ E with loop_stack := rest } : Compiler) := i7
              have i9 := (extc_foldl_patch bj { E with loop_stack := rest } D.pos).2.2 i8
              have i10 : Inv5 (List.foldl (fun (cc : Compiler) (p : Nat) => cc.patch_addr p D.pos)
                  { E with loop_stack := rest } bj).pop_scope := i9
              rw [← h]
              exact i10
            refine ⟨⟨by omega, by rw [s5]; omega, hmap, hinv⟩, ?_⟩
            intro instrs hg hlt
            have hb : c₃.module.code.length + 3 < 65536 := by rw [← hc'len]; exact hlt
            obtain ⟨δ₀, hg1⟩ := s0.2 instrs hg (by omega)
            have hgA : Good { c₁ with loop_stack := (c₁.pos, []) :: c₁.loop_stack } (instrs ++ δ₀) :=
              good_push_loop hg1
            have hc1pos : c₁.pos = (encodeList (instrs ++ δ₀)).length := by
              rw [pos_eq_of_lt (by omega), hg1.1]
            obtain ⟨δ₁, hg2⟩ := (ih8 _ _ _ hc2).2 _ hgA (by omega)
            have hg2' : Good c₂ ((instrs ++ δ₀) ++ δ₁) := hg2
            have hgB := @good_emit_word c₂ ((instrs ++ δ₀) ++ δ₁) Op.JumpIfNot 0 hg2' (by decide)
              (fun hpb => absurd hpb (by decide))
            obtain ⟨δ₂, hg3⟩ := (ih1 _ _ _ hbody').2 _ hgB (by omega)
            obtain ⟨δ₃, hg4⟩ := sstep.2 _ hg3 (by omega)
            have hgD := @good_emit_word c₃ _ Op.Jump c₁.pos hg4 (by decide)
              (fun hpb => absurd hpb (by decide))
            have hre : (((((instrs ++ δ₀) ++ δ₁)
                  ++ [EInstr.i3 (opByte Op.JumpIfNot) (0 % 256) (0 / 256 % 256)]) ++ δ₂) ++ δ₃)
                  ++ [EInstr.i3 (opByte Op.Jump) (c₁.pos % 256) (c₁.pos / 256 % 256)]
                = ((instrs ++ δ₀) ++ δ₁)
                  ++ EInstr.i3 (opByte Op.JumpIfNot) (0 % 256) (0 / 256 % 256)
                    :: ((δ₂ ++ δ₃)
                      ++ [EInstr.i3 (opByte Op.Jump) (c₁.pos % 256) (c₁.pos / 256 % 256)]) := by
              simp
            rw [hre] at hgD
            have hc2pos : c₂.pos = (encodeList ((instrs ++ δ₀) ++ δ₁)).length := by
              rw [pos_eq_of_lt (by omega), hg2'.1]
            have hgE0 := good_patch D.pos hgD (by decide)
            rw [← hc2pos] at hgE0
            have hx : ((instrs ++ δ₀) ++ δ₁)
                ++ EInstr.i3 (opByte Op.JumpIfNot) (D.pos % 256) (D.pos / 256 % 256)
                  :: ((δ₂ ++ δ₃) ++ [EInstr.i3 (opByte Op.Jump) (c₁.pos % 256) (c₁.pos / 256 % 256)])
                = instrs ++ ((δ₀ ++ δ₁)
                  ++ EInstr.i3 (opByte Op.JumpIfNot) (D.pos % 256) (D.pos / 256 % 256)
                    :: ((δ₂ ++ δ₃)
                      ++ [EInstr.i3 (opByte Op.Jump) (c₁.pos % 256) (c₁.pos / 256 % 256)])) := by
              simp
            have hpop := @good_pop_loop _ _ rest hgE0 (by
              intro e he
              show e ∈ c₃.loop_stack
              rw [hls]
              exact List.mem_cons_of_mem _ he)
            rw [hx] at hpop
            have hbrk : ∀ p ∈ bj,
                JumpSlot (instrs ++ ((δ₀ ++ δ₁)
                  ++ EInstr.i3 (opByte Op.JumpIfNot) (D.pos % 256) (D.pos / 256 % 256)
                    :: ((δ₂ ++ δ₃)
                      ++ [EInstr.i3 (opByte Op.Jump) (c₁.pos % 256) (c₁.pos / 256 % 256)]))) p
                ∧ (encodeList instrs).length + 1 ≤ p := by
              have htop := hgE0.2.2.2 (cont, bj) (by
                show (cont, bj) ∈ c₃.loop_stack
                rw [hls]
                exact List.mem_cons_self _ _)
              intro p hp
              have hslot := (htop.2 p hp).1
              have hbound : cont + 1 ≤ p := (htop.2 p hp).2
              rw [hx] at hslot
              refine ⟨hslot, ?_⟩
              have hb2 : (encodeList instrs).length ≤ (encodeList (instrs ++ δ₀)).length := by
                rw [encodeList_append]
                simp
              omega
            obtain ⟨δ', hgF, _, _, _⟩ := patch_fold_good bj _ _ instrs D.pos hpop hbrk
            have hgF' : Good (List.foldl (fun (cc : Compiler) (p : Nat) => cc.patch_addr p D.pos)
                { E with loop_stack := rest } bj).pop_scope (instrs ++ δ') :=
              good_congr hgF rfl (le_refl _) rfl rfl
            rw [← h]
            exact ⟨δ', hgF'⟩
          next x heq =>
            exfalso
            have hnil : c₃.loop_stack = [] := heq
            rw [hnil] at hfst
            exact absurd hfst (by simp)
    | none =>
        obtain ⟨y1, hy1, h⟩ := except_bind_ok h
        have hy1' : ((none, { c₁ with loop_stack := (c₁.pos, []) :: c₁.loop_stack })
            : Option Nat × Compiler) = y1 := Except.ok.inj hy1
        subst hy1'
        obtain ⟨c₃, hbody0, h⟩ := except_bind_ok h
        have hbody' : compile_stmts fuel body
            { c₁ with loop_stack := (c₁.pos, []) :: c₁.loop_stack } = .ok c₃ := hbody0
        cases step with
        | some se =>
          obtain ⟨c₄, hc4, h⟩ := except_bind_ok h
          obtain ⟨y2, hy2, h⟩ := except_bind_ok h
          have hy2' : c₄.emit Op.Pop = y2 := Except.ok.inj hy2
          subst hy2'
          have sstep : CompStep c₃ (c₄.emit Op.Pop) :=
            compStep_trans (ih8 _ _ _ hc4) (compStep_emit Op.Pop (by decide))
          have hextA : Ext { c₁ with loop_stack := (c₁.pos, []) :: c₁.loop_stack } c₃ :=
            (ih1 _ _ _ hbody').1
          have hext5 : Ext { c₁ with loop_stack := (c₁.pos, []) :: c₁.loop_stack } (c₄.emit Op.Pop) :=
            ext_trans hextA sstep.1
          have hfst : (c₄.emit Op.Pop).loop_stack.map Prod.fst = c₁.pos :: c₁.loop_stack.map Prod.fst := by
            rw [hext5.2.2.1]
            rfl
          have e0 : c.module.code.length ≤ c₁.module.code.length := s0.1.1
          have eA : c₁.module.code.length ≤ c₃.module.code.length := hextA.1
          have e3 : c₃.module.code.length ≤ (c₄.emit Op.Pop).module.code.length := sstep.1.1
          have st0 : c.module.strings.length ≤ c₁.module.strings.length := s0.1.2.1
          have stA : c₁.module.strings.length ≤ c₃.module.strings.length := hextA.2.1
          have st3 : c₃.module.strings.length ≤ (c₄.emit Op.Pop).module.strings.length := sstep.1.2.1
          split at h
          next x cont bj rest heq =>
            injection h with h
            have hls : (c₄.emit Op.Pop).loop_stack = (cont, bj) :: rest := heq
            rw [hls] at hfst
            simp only [List.map_cons] at hfst
            injection hfst with hcont hrest
            set D : Compiler := (c₄.emit Op.Pop).emit_word Op.Jump c₁.pos with hD
            have hDlen : D.module.code.length = (c₄.emit Op.Pop).module.code.length + 3 := by
              simp [hD, Compiler.emit_word, Module.emit_word]
            have hc'len : c'.module.code.length = (c₄.emit Op.Pop).module.code.length + 3 := by
              rw [← h]
              show (List.foldl (fun (cc : Compiler) (p : Nat) => cc.patch_addr p D.pos)
                { D with loop_stack := rest } bj).module.code.length = _
              rw [(foldl_patch_fields D.pos bj _).1]
              show D.module.code.length = _
              exact hDlen
            have s5 : c'.module.strings = (c₄.emit Op.Pop).module.strings := by
              rw [← h]
              show (List.foldl (fun (cc : Compiler) (p : Nat) => cc.patch_addr p D.pos)
                { D with loop_stack := rest } bj).module.strings = _
              rw [(foldl_patch_fields D.pos bj _).2.1]
              show D.module.strings = _
              rw [hD]
              simp [Compiler.emit_word, Module.emit_word]
            have hmap : c'.loop_stack.map Prod.fst = c.loop_stack.map Prod.fst := by
              rw [← h]
              show (List.foldl (fun (cc : Compiler) (p : Nat) => cc.patch_addr p D.pos)
                { D with loop_stack := rest } bj).loop_stack.map Prod.fst = _
              rw [(foldl_patch_fields D.pos bj _).2.2.2.1]
              show rest.map Prod.fst = _
              rw [hrest]
              exact s0.1.2.2.1
            have hinv : Inv5 c → Inv5 c' := by
              intro hi
              have i1 := s0.1.2.2.2 hi
              have i2 : Inv5 ({ c₁ with loop_stack := (c₁.pos, []) :: c₁.loop_stack } : Compiler) := i1
              have i4 : Inv5 c₃ := (ih1 _ _ _ hbody').1.2.2.2 i2
              have i5 : Inv5 (c₄.emit Op.Pop) := sstep.1.2.2.2 i4
              have i6 : Inv5 D := (extc_emit_word (c₄.emit Op.Pop) Op.Jump c₁.pos).2.2 i5
              have i8 : Inv5 ({ D with loop_stack := rest } : Compiler) := i6
              have i9 := (extc_foldl_patch bj { D with loop_stack := rest } D.pos).2.2 i8
              have i10 : Inv5 (List.foldl (fun (cc : Compiler) (p : Nat) => cc.patch_addr p D.pos)
                  { D with loop_stack := rest } bj).pop_scope := i9
              rw [← h]
              exact i10
            refine ⟨⟨by omega, by rw [s5]; omega, hmap, hinv⟩, ?_⟩
            intro instrs hg hlt
            have hb : (c₄.emit Op.Pop).module.code.length + 3 < 65536 := by rw [← hc'len]; exact hlt
            obtain ⟨δ₀, hg1⟩ := s0.2 instrs hg (by omega)
            have hgA : Good { c₁ with loop_stack := (c₁.pos, []) :: c₁.loop_stack } (instrs ++ δ₀) :=
              good_push_loop hg1
            have hc1pos : c₁.pos = (encodeList (instrs ++ δ₀)).length := by
              rw [pos_eq_of_lt (by omega), hg1.1]
            obtain ⟨δ₂, hg3⟩ := (ih1 _ _ _ hbody').2 _ hgA (by omega)
            obtain ⟨δ₃, hg4⟩ := sstep.2 _ hg3 (by omega)
            have hgD := @good_emit_word (c₄.emit Op.Pop) _ Op.Jump c₁.pos hg4 (by decide)
              (fun hpb => absurd hpb (by decide))
            have hx : (((instrs ++ δ₀) ++ δ₂) ++ δ₃)
                ++ [EInstr.i3 (opByte Op.Jump) (c₁.pos % 256) (c₁.pos / 256 % 256)]
                = instrs ++ ((δ₀ ++ δ₂ ++ δ₃)
                  ++ [EInstr.i3 (opByte Op.Jump) (c₁.pos % 256) (c₁.pos / 256 % 256)]) := by
              simp
            rw [hx] at hgD
            have hpop := @good_pop_loop _ _ rest hgD (by
              intro e he
              show e ∈ (c₄.emit Op.Pop).loop_stack
              rw [hls]
              exact List.mem_cons_of_mem _ he)
            have hbrk : ∀ p ∈ bj,
                JumpSlot (instrs ++ ((δ₀ ++ δ₂ ++ δ₃)
                  ++ [EInstr.i3 (opByte Op.Jump) (c₁.pos % 256) (c₁.pos / 256 % 256)])) p
                ∧ (encodeList instrs).length + 1 ≤ p := by
              have htop := hgD.2.2.2 (cont, bj) (by
                show (cont, bj) ∈ (c₄.emit Op.Pop).loop_stack
                rw [hls]
                exact List.mem_cons_self _ _)
              intro p hp
              have hslot := (htop.2 p hp).1
              have hbound : cont + 1 ≤ p := (htop.2 p hp).2
              refine ⟨hslot, ?_⟩
              have hb2 : (encodeList instrs).length ≤ (encodeList (instrs ++ δ₀)).length := by
                rw [encodeList_append]
                simp
              omega
            obtain ⟨δ', hgF, _, _, _⟩ := patch_fold_good bj _ _ instrs D.pos hpop hbrk
            have hgF' : Good (List.foldl (fun (cc : Compiler) (p : Nat) => cc.patch_addr p D.pos)
                { D with loop_stack := rest } bj).pop_scope (instrs ++ δ') :=
              good_congr hgF rfl (le_refl _) rfl rfl
            rw [← h]
            exact ⟨δ', hgF'⟩
          next x heq =>
            exfalso
            have hnil : (c₄.emit Op.Pop).loop_stack = [] := heq
            rw [hnil] at hfst
            exact absurd hfst (by simp)
        | none =>
          obtain ⟨y2, hy2, h⟩ := except_bind_ok h
          have hy2' : c₃ = y2 := Except.ok.inj hy2
          subst hy2'
          have sstep : CompStep c₃ c₃ := compStep_refl c₃
          have hextA : Ext { c₁ with loop_stack := (c₁.pos, []) :: c₁.loop_stack } c₃ :=
            (ih1 _ _ _ hbody').1
          have hext5 : Ext { c₁ with loop_stack := (c₁.pos, []) :: c₁.loop_stack } c₃ :=
            ext_trans hextA sstep.1
          have hfst : c₃.loop_stack.map Prod.fst = c₁.pos :: c₁.loop_stack.map Prod.fst := by
            rw [hext5.2.2.1]
            rfl
          have e0 : c.module.code.length ≤ c₁.module.code.length := s0.1.1
          have eA : c₁.module.code.length ≤ c₃.module.code.length := hextA.1
          have e3 : c₃.module.code.length ≤ c₃.module.code.length := sstep.1.1
          have st0 : c.module.strings.length ≤ c₁.module.strings.length := s0.1.2.1
          have stA : c₁.module.strings.length ≤ c₃.module.strings.length := hextA.2.1
          have st3 : c₃.module.strings.length ≤ c₃.module.strings.length := sstep.1.2.1
          split at h
          next x cont bj rest heq =>
            injection h with h
            have hls : c₃.loop_stack = (cont, bj) :: rest := heq
            rw [hls] at hfst
            simp only [List.map_cons] at hfst
            injection hfst with hcont hrest
            set D : Compiler := c₃.emit_word Op.Jump c₁.pos with hD
            have hDlen : D.module.code.length = c₃.module.code.length + 3 := by
              simp [hD, Compiler.emit_word, Module.emit_word]
            have hc'len : c'.module.code.length = c₃.module.code.length + 3 := by
              rw [← h]
              show (List.foldl (fun (cc : Compiler) (p : Nat) => cc.patch_addr p D.pos)
                { D with loop_stack := rest } bj).module.code.length = _
              rw [(foldl_patch_fields D.pos bj _).1]
              show D.module.code.length = _
              exact hDlen
            have s5 : c'.module.strings = c₃.module.strings := by
              rw [← h]
              show (List.foldl (fun (cc : Compiler) (p : Nat) => cc.patch_addr p D.pos)
                { D with loop_stack := rest } bj).module.strings = _
              rw [(foldl_patch_fields D.pos bj _).2.1]
              show D.module.strings = _
              rw [hD]
              simp [Compiler.emit_word, Module.emit_word]
            have hmap : c'.loop_stack.map Prod.fst = c.loop_stack.map Prod.fst := by
              rw [← h]
              show (List.foldl (fun (cc : Compiler) (p : Nat) => cc.patch_addr p D.pos)
                { D with loop_stack := rest } bj).loop_stack.map Prod.fst = _
              rw [(foldl_patch_fields D.pos bj _).2.2.2.1]
              show rest.map Prod.fst = _
              rw [hrest]
              exact s0.1.2.2.1
            have hinv : Inv5 c → Inv5 c' := by
              intro hi
              have i1 := s0.1.2.2.2 hi
              have i2 : Inv5 ({ c₁ with loop_stack := (c₁.pos, []) :: c₁.loop_stack } : Compiler) := i1
              have i4 : Inv5 c₃ := (ih1 _ _ _ hbody').1.2.2.2 i2
              have i5 : Inv5 c₃ := sstep.1.2.2.2 i4
              have i6 : Inv5 D := (extc_emit_word c₃ Op.Jump c₁.pos).2.2 i5
              have i8 : Inv5 ({ D with loop_stack := rest } : Compiler) := i6
              have i9 := (extc_foldl_patch bj { D with loop_stack := rest } D.pos).2.2 i8
              have i10 : Inv5 (List.foldl (fun (cc : Compiler) (p : Nat) => cc.patch_addr p D.pos)
                  { D with loop_stack := rest } bj).pop_scope := i9
              rw [← h]
              exact i10
            refine ⟨⟨by omega, by rw [s5]; omega, hmap, hinv⟩, ?_⟩
            intro instrs hg hlt
            have hb : c₃.module.code.length + 3 < 65536 := by rw [← hc'len]; exact hlt
            obtain ⟨δ₀, hg1⟩ := s0.2 instrs hg (by omega)
            have hgA : Good { c₁ with loop_stack := (c₁.pos, []) :: c₁.loop_stack } (instrs ++ δ₀) :=
              good_push_loop hg1
            have hc1pos : c₁.pos = (encodeList (instrs ++ δ₀)).length := by
              rw [pos_eq_of_lt (by omega), hg1.1]
            obtain ⟨δ₂, hg3⟩ := (ih1 _ _ _ hbody').2 _ hgA (by omega)
            obtain ⟨δ₃, hg4⟩ := sstep.2 _ hg3 (by omega)
            have hgD := @good_emit_word c₃ _ Op.Jump c₁.pos hg4 (by decide)
              (fun hpb => absurd hpb (by decide))
            have hx : (((instrs ++ δ₀) ++ δ₂) ++ δ₃)
                ++ [EInstr.i3 (opByte Op.Jump) (c₁.pos % 256) (c₁.pos / 256 % 256)]
                = instrs ++ ((δ₀ ++ δ₂ ++ δ₃)
                  ++ [EInstr.i3 (opByte Op.Jump) (c₁.pos % 256) (c₁.pos / 256 % 256)]) := by
              simp
            rw [hx] at hgD
            have hpop := @good_pop_loop _ _ rest hgD (by
              intro e he
              show e ∈ c₃.loop_stack
              rw [hls]
              exact List.mem_cons_of_mem _ he)
            have hbrk : ∀ p ∈ bj,
                JumpSlot (instrs ++ ((δ₀ ++ δ₂ ++ δ₃)
                  ++ [EInstr.i3 (opByte Op.Jump) (c₁.pos % 256) (c₁.pos / 256 % 256)])) p
                ∧ (encodeList instrs).length + 1 ≤ p := by
              have htop := hgD.2.2.2 (cont, bj) (by
                show (cont, bj) ∈ c₃.loop_stack
                rw [hls]
                exact List.mem_cons_self _ _)
              intro p hp
              have hslot := (htop.2 p hp).1
              have hbound : cont + 1 ≤ p := (htop.2 p hp).2
              refine ⟨hslot, ?_⟩
              have hb2 : (encodeList instrs).length ≤ (encodeList (instrs ++ δ₀)).length := by
                rw [encodeList_append]
                simp
              omega
            obtain ⟨δ', hgF, _, _, _⟩ := patch_fold_good bj _ _ instrs D.pos hpop hbrk
            have hgF' : Good (List.foldl (fun (cc : Compiler) (p : Nat) => cc.patch_addr p D.pos)
                { D with loop_stack := rest } bj).pop_scope (instrs ++ δ') :=
              good_congr hgF rfl (le_refl _) rfl rfl
            rw [← h]
            exact ⟨δ', hgF'⟩
          next x heq =>
            exfalso
            have hnil : c₃.loop_stack = [] := heq
            rw [hnil] at hfst
            exact absurd hfst (by simp)
  | none =>
    obtain ⟨c₁, hinit, h⟩ := except_bind_ok h
    have hps : c.push_scope = c₁ := Except.ok.inj hinit
    have s0 : CompStep c c₁ :=
      hps ▸ (compStep_congr2 rfl rfl rfl rfl : CompStep c c.push_scope)
    cases cond with
    | some ce =>
        obtain ⟨c₂, hc2, h⟩ := except_bind_ok h
        obtain ⟨y1, hy1, h⟩ := except_bind_ok h
        have hy1' : ((some (c₂.pos + 1), c₂.emit_word Op.JumpIfNot 0)
            : Option Nat × Compiler) = y1 := Except.ok.inj hy1
        subst hy1'
        obtain ⟨c₃, hbody0, h⟩ := except_bind_ok h
        have hbody' : compile_stmts fuel body (c₂.emit_word Op.JumpIfNot 0) = .ok c₃ := hbody0
        cases step with
        | some se =>
          obtain ⟨c₄, hc4, h⟩ := except_bind_ok h
          obtain ⟨y2, hy2, h⟩ := except_bind_ok h
          have hy2' : c₄.emit Op.Pop = y2 := Except.ok.inj hy2
          subst hy2'
          have sstep : CompStep c₃ (c₄.emit Op.Pop) :=
            compStep_trans (ih8 _ _ _ hc4) (compStep_emit Op.Pop (by decide))
          have hextA : Ext { c₁ with loop_stack := (c₁.pos, []) :: c₁.loop_stack } c₃ :=
            ext_trans (ih8 _ _ _ hc2).1
              (ext_trans (mk_ext (extc_emit_word c₂ Op.JumpIfNot 0) rfl) (ih1 _ _ _ hbody').1)
          have hext5 : Ext { c₁ with loop_stack := (c₁.pos, []) :: c₁.loop_stack } (c₄.emit Op.Pop) :=
            ext_trans hextA sstep.1
          have hfst : (c₄.emit Op.Pop).loop_stack.map Prod.fst = c₁.pos :: c₁.loop_stack.map Prod.fst := by
            rw [hext5.2.2.1]
            rfl
          have e0 : c.module.code.length ≤ c₁.module.code.length := s0.1.1
          have eA : c₁.module.code.length ≤ c₂.module.code.length := (ih8 _ _ _ hc2).1.1
          have e2 : c₂.module.code.length + 3 ≤ c₃.module.code.length := by
            have hx1 : (c₂.emit_word Op.JumpIfNot 0).module.code.length
                = c₂.module.code.length + 3 := by
              simp [Compiler.emit_word, Module.emit_word]
            have hx2 := (ih1 _ _ _ hbody').1.1
            omega
          have e3 : c₃.module.code.length ≤ (c₄.emit Op.Pop).module.code.length := sstep.1.1
          have st0 : c.module.strings.length ≤ c₁.module.strings.length := s0.1.2.1
          have stA : c₁.module.strings.length ≤ c₂.module.strings.length := (ih8 _ _ _ hc2).1.2.1
          have st2 : c₂.module.strings.length ≤ c₃.module.strings.length := (ih1 _ _ _ hbody').1.2.1
          have st3 : c₃.module.strings.length ≤ (c₄.emit Op.Pop).module.strings.length := sstep.1.2.1
          split at h
          next x cont bj rest heq =>
            injection h with h
            have hls : (c₄.emit Op.Pop).loop_stack = (cont, bj) :: rest := heq
            rw [hls] at hfst
            simp only [List.map_cons] at hfst
            injection hfst with hcont hrest
            set D : Compiler := (c₄.emit Op.Pop).emit_word Op.Jump c₁.pos with hD
            set E : Compiler := D.patch_addr (c₂.pos + 1) D.pos with hE
            have hDlen : D.module.code.length = (c₄.emit Op.Pop).module.code.length + 3 := by
              simp [hD, Compiler.emit_word, Module.emit_word]
            have hc'len : c'.module.code.length = (c₄.emit Op.Pop).module.code.length + 3 := by
              rw [← h]
              show (List.foldl (fun (cc : Compiler) (p : Nat) => cc.patch_addr p D.pos)
                { E with loop_stack := rest } bj).module.code.length = _
              rw [(foldl_patch_fields D.pos bj _).1]
              show E.module.code.length = _
              rw [hE]
              show (D.patch_addr _ _).module.code.length = _
              simp [Compiler.patch_addr, Module.patch_addr, hDlen]
            have s5 : c'.module.strings = (c₄.emit Op.Pop).module.strings := by
              rw [← h]
              show (List.foldl (fun (cc : Compiler) (p : Nat) => cc.patch_addr p D.pos)
                { E with loop_stack := rest } bj).module.strings = _
              rw [(foldl_patch_fields D.pos bj _).2.1]
              show E.module.strings = _
              rw [hE, hD]
              simp [Compiler.patch_addr, Module.patch_addr, Compiler.emit_word, Module.emit_word]
            have hmap : c'.loop_stack.map Prod.fst = c.loop_stack.map Prod.fst := by
              rw [← h]
              show (List.foldl (fun (cc : Compiler) (p : Nat) => cc.patch_addr p D.pos)
                { E with loop_stack := rest } bj).loop_stack.map Prod.fst = _
              rw [(foldl_patch_fields D.pos bj _).2.2.2.1]
              show rest.map Prod.fst = _
              rw [hrest]
              exact s0.1.2.2.1
            have hinv : Inv5 c → Inv5 c' := by
              intro hi
              have i1 := s0.1.2.2.2 hi
              have i2 : Inv5 ({ c₁ with loop_stack := (c₁.pos, []) :: c₁.loop_stack } : Compiler) := i1
              have i3 : Inv5 c₂ := (ih8 _ _ _ hc2).1.2.2.2 i2
              have i4 : Inv5 c₃ :=
                (ih1 _ _ _ hbody').1.2.2.2 ((extc_emit_word c₂ Op.JumpIfNot 0).2.2 i3)
              have i5 : Inv5 (c₄.emit Op.Pop) := sstep.1.2.2.2 i4
              have i6 : Inv5 D := (extc_emit_word (c₄.emit Op.Pop) Op.Jump c₁.pos).2.2 i5
              have i7 : Inv5 E := (extc_patch D (c₂.pos + 1) D.pos).2.2 i6
              have i8 : Inv5 ({ E with loop_stack := rest } : Compiler) := i7
              have i9 := (extc_foldl_patch bj { E with loop_stack := rest } D.pos).2.2 i8
              have i10 : Inv5 (List.foldl (fun (cc : Compiler) (p : Nat) => cc.patch_addr p D.pos)
                  { E with loop_stack := rest } bj).pop_scope := i9
              rw [← h]
              exact i10
            refine ⟨⟨by omega, by rw [s5]; omega, hmap, hinv⟩, ?_⟩
            intro instrs hg hlt
            have hb : (c₄.emit Op.Pop).module.code.length + 3 < 65536 := by rw [← hc'len]; exact hlt
            obtain ⟨δ₀, hg1⟩ := s0.2 instrs hg (by omega)
            have hgA : Good { c₁ with loop_stack := (c₁.pos, []) :: c₁.loop_stack } (instrs ++ δ₀) :=
              good_push_loop hg1
            have hc1pos : c₁.pos = (encodeList (instrs ++ δ₀)).length := by
              rw [pos_eq_of_lt (by omega), hg1.1]
            obtain ⟨δ₁, hg2⟩ := (ih8 _ _ _ hc2).2 _ hgA (by omega)
            have hg2' : Good c₂ ((instrs ++ δ₀) ++ δ₁) := hg2
            have hgB := @good_emit_word c₂ ((instrs ++ δ₀) ++ δ₁) Op.JumpIfNot 0 hg2' (by decide)
              (fun hpb => absurd hpb (by decide))
            obtain ⟨δ₂, hg3⟩ := (ih1 _ _ _ hbody').2 _ hgB (by omega)
            obtain ⟨δ₃, hg4⟩ := sstep.2 _ hg3 (by omega)
            have hgD := @good_emit_word (c₄.emit Op.Pop) _ Op.Jump c₁.pos hg4 (by decide)
              (fun hpb => absurd hpb (by decide))
            have hre : (((((instrs ++ δ₀) ++ δ₁)
                  ++ [EInstr.i3 (opByte Op.JumpIfNot) (0 % 256) (0 / 256 % 256)]) ++ δ₂) ++ δ₃)
                  ++ [EInstr.i3 (opByte Op.Jump) (c₁.pos % 256) (c₁.pos / 256 % 256)]
                = ((instrs ++ δ₀) ++ δ₁)
                  ++ EInstr.i3 (opByte Op.JumpIfNot) (0 % 256) (0 / 256 % 256)
                    :: ((δ₂ ++ δ₃)
                      ++ [EInstr.i3 (opByte Op.Jump) (c₁.pos % 256) (c₁.pos / 256 % 256)]) := by
              simp
            rw [hre] at hgD
            have hc2pos : c₂.pos = (encodeList ((instrs ++ δ₀) ++ δ₁)).length := by
              rw [pos_eq_of_lt (by omega), hg2'.1]
            have hgE0 := good_patch D.pos hgD (by decide)
            rw [← hc2pos] at hgE0
            have hx : ((instrs ++ δ₀) ++ δ₁)
                ++ EInstr.i3 (opByte Op.JumpIfNot) (D.pos % 256) (D.pos / 256 % 256)
                  :: ((δ₂ ++ δ₃) ++ [EInstr.i3 (opByte Op.Jump) (c₁.pos % 256) (c₁.pos / 256 % 256)])
                = instrs ++ ((δ₀ ++ δ₁)
                  ++ EInstr.i3 (opByte Op.JumpIfNot) (D.pos % 256) (D.pos / 256 % 256)
                    :: ((δ₂ ++ δ₃)
                      ++ [EInstr.i3 (opByte Op.Jump) (c₁.pos % 256) (c₁.pos / 256 % 256)])) := by
              simp
            have hpop := @good_pop_loop _ _ rest hgE0 (by
              intro e he
              show e ∈ (c₄.emit Op.Pop).loop_stack
              rw [hls]
              exact List.mem_cons_of_mem _ he)
            rw [hx] at hpop
            have hbrk : ∀ p ∈ bj,
                JumpSlot (instrs ++ ((δ₀ ++ δ₁)
                  ++ EInstr.i3 (opByte Op.JumpIfNot) (D.pos % 256) (D.pos / 256 % 256)
                    :: ((δ₂ ++ δ₃)
                      ++ [EInstr.i3 (opByte Op.Jump) (c₁.pos % 256) (c₁.pos / 256 % 256)]))) p
                ∧ (encodeList instrs).length + 1 ≤ p := by
              have htop := hgE0.2.2.2 (cont, bj) (by
                show (cont, bj) ∈ (c₄.emit Op.Pop).loop_stack
                rw [hls]
                exact List.mem_cons_self _ _)
              intro p hp
              have hslot := (htop.2 p hp).1
              have hbound : cont + 1 ≤ p := (htop.2 p hp).2
              rw [hx] at hslot
              refine ⟨hslot, ?_⟩
              have hb2 : (encodeList instrs).length ≤ (encodeList (instrs ++ δ₀)).length := by
                rw [encodeList_append]
                simp
              omega
            obtain ⟨δ', hgF, _, _, _⟩ := patch_fold_good bj _ _ instrs D.pos hpop hbrk
            have hgF' : Good (List.foldl (fun (cc : Compiler) (p : Nat) => cc.patch_addr p D.pos)
                { E with loop_stack := rest } bj).pop_scope (instrs ++ δ') :=
              good_congr hgF rfl (le_refl _) rfl rfl
            rw [← h]
            exact ⟨δ', hgF'⟩
          next x heq =>
            exfalso
            have hnil : (c₄.emit Op.Pop).loop_stack = [] := heq
            rw [hnil] at hfst
            exact absurd hfst (by simp)
        | none =>
          obtain ⟨y2, hy2, h⟩ := except_bind_ok h
          have hy2' : c₃ = y2 := Except.ok.inj hy2
          subst hy2'
          have sstep : CompStep c₃ c₃ := compStep_refl c₃
          have hextA : Ext { c₁ with loop_stack := (c₁.pos, []) :: c₁.loop_stack } c₃ :=
            ext_trans (ih8 _ _ _ hc2).1
              (ext_trans (mk_ext (extc_emit_word c₂ Op.JumpIfNot 0) rfl) (ih1 _ _ _ hbody').1)
          have hext5 : Ext { c₁ with loop_stack := (c₁.pos, []) :: c₁.loop_stack } c₃ :=
            ext_trans hextA sstep.1
          have hfst : c₃.loop_stack.map Prod.fst = c₁.pos :: c₁.loop_stack.map Prod.fst := by
            rw [hext5.2.2.1]
            rfl
          have e0 : c.module.code.length ≤ c₁.module.code.length := s0.1.1
          have eA : c₁.module.code.length ≤ c₂.module.code.length := (ih8 _ _ _ hc2).1.1
          have e2 : c₂.module.code.length + 3 ≤ c₃.module.code.length := by
            have hx1 : (c₂.emit_word Op.JumpIfNot 0).module.code.length
                = c₂.module.code.length + 3 := by
              simp [Compiler.emit_word, Module.emit_word]
            have hx2 := (ih1 _ _ _ hbody').1.1
            omega
          have e3 : c₃.module.code.length ≤ c₃.module.code.length := sstep.1.1
          have st0 : c.module.strings.length ≤ c₁.module.strings.length := s0.1.2.1
          have stA : c₁.module.strings.length ≤ c₂.module.strings.length := (ih8 _ _ _ hc2).1.2.1
          have st2 : c₂.module.strings.length ≤ c₃.module.strings.length := (ih1 _ _ _ hbody').1.2.1
          have st3 : c₃.module.strings.length ≤ c₃.module.strings.length := sstep.1.2.1
          split at h
          next x cont bj rest heq =>
            injection h with h
            have hls : c₃.loop_stack = (cont, bj) :: rest := heq
            rw [hls] at hfst
            simp only [List.map_cons] at hfst
            injection hfst with hcont hrest
            set D : Compiler := c₃.emit_word Op.Jump c₁.pos with hD
            set E : Compiler := D.patch_addr (c₂.pos + 1) D.pos with hE
            have hDlen : D.module.code.length = c₃.module.code.length + 3 := by
              simp [hD, Compiler.emit_word, Module.emit_word]
            have hc'len : c'.module.code.length = c₃.module.code.length + 3 := by
              rw [← h]
              show (List.foldl (fun (cc : Compiler) (p : Nat) => cc.patch_addr p D.pos)
                { E with loop_stack := rest } bj).module.code.length = _
              rw [(foldl_patch_fields D.pos bj _).1]
              show E.module.code.length = _
              rw [hE]
              show (D.patch_addr _ _).module.code.length = _
              simp [Compiler.patch_addr, Module.patch_addr, hDlen]
            have s5 : c'.module.strings = c₃.module.strings := by
              rw [← h]
              show (List.foldl (fun (cc : Compiler) (p : Nat) => cc.patch_addr p D.pos)
                { E with loop_stack := rest } bj).module.strings = _
              rw [(foldl_patch_fields D.pos bj _).2.1]
              show E.module.strings = _
              rw [hE, hD]
              simp [Compiler.patch_addr, Module.patch_addr, Compiler.emit_word, Module.emit_word]
            have hmap : c'.loop_stack.map Prod.fst = c.loop_stack.map Prod.fst := by
              rw [← h]
              show (List.foldl (fun (cc : Compiler) (p : Nat) => cc.patch_addr p D.pos)
                { E with loop_stack := rest } bj).loop_stack.map Prod.fst = _
              rw [(foldl_patch_fields D.pos bj _).2.2.2.1]
              show rest.map Prod.fst = _
              rw [hrest]
              exact s0.1.2.2.1
            have hinv : Inv5 c → Inv5 c' := by
              intro hi
              have i1 := s0.1.2.2.2 hi
              have i2 : Inv5 ({ c₁ with loop_stack := (c₁.pos, []) :: c₁.loop_stack } : Compiler) := i1
              have i3 : Inv5 c₂ := (ih8 _ _ _ hc2).1.2.2.2 i2
              have i4 : Inv5 c₃ :=
                (ih1 _ _ _ hbody').1.2.2.2 ((extc_emit_word c₂ Op.JumpIfNot 0).2.2 i3)
              have i5 : Inv5 c₃ := sstep.1.2.2.2 i4
              have i6 : Inv5 D := (extc_emit_word c₃ Op.Jump c₁.pos).2.2 i5
              have i7 : Inv5 E := (extc_patch D (c₂.pos + 1) D.pos).2.2 i6
              have i8 : Inv5 ({ E with loop_stack := rest } : Compiler) := i7
              have i9 := (extc_foldl_patch bj { E with loop_stack := rest } D.pos).2.2 i8
              have i10 : Inv5 (List.foldl (fun (cc : Compiler) (p : Nat) => cc.patch_addr p D.pos)
                  { E with loop_stack := rest } bj).pop_scope := i9
              rw [← h]
              exact i10
            refine ⟨⟨by omega, by rw [s5]; omega, hmap, hinv⟩, ?_⟩
            intro instrs hg hlt
            have hb : c₃.module.code.length + 3 < 65536 := by rw [← hc'len]; exact hlt
            obtain ⟨δ₀, hg1⟩ := s0.2 instrs hg (by omega)
            have hgA : Good { c₁ with loop_stack := (c₁.pos, []) :: c₁.loop_stack } (instrs ++ δ₀) :=
              good_push_loop hg1
            have hc1pos : c₁.pos = (encodeList (instrs ++ δ₀)).length := by
              rw [pos_eq_of_lt (by omega), hg1.1]
            obtain ⟨δ₁, hg2⟩ := (ih8 _ _ _ hc2).2 _ hgA (by omega)
            have hg2' : Good c₂ ((instrs ++ δ₀) ++ δ₁) := hg2
            have hgB := @good_emit_word c₂ ((instrs ++ δ₀) ++ δ₁) Op.JumpIfNot 0 hg2' (by decide)
              (fun hpb => absurd hpb (by decide))
            obtain ⟨δ₂, hg3⟩ := (ih1 _ _ _ hbody').2 _ hgB (by omega)
            obtain ⟨δ₃, hg4⟩ := sstep.2 _ hg3 (by omega)
            have hgD := @good_emit_word c₃ _ Op.Jump c₁.pos hg4 (by decide)
              (fun hpb => absurd hpb (by decide))
            have hre : (((((instrs ++ δ₀) ++ δ₁)
                  ++ [EInstr.i3 (opByte Op.JumpIfNot) (0 % 256) (0 / 256 % 256)]) ++ δ₂) ++ δ₃)
                  ++ [EInstr.i3 (opByte Op.Jump) (c₁.pos % 256) (c₁.pos / 256 % 256)]
                = ((instrs ++ δ₀) ++ δ₁)
                  ++ EInstr.i3 (opByte Op.JumpIfNot) (0 % 256) (0 / 256 % 256)
                    :: ((δ₂ ++ δ₃)
                      ++ [EInstr.i3 (opByte Op.Jump) (c₁.pos % 256) (c₁.pos / 256 % 256)]) := by
              simp
            rw [hre] at hgD
            have hc2pos : c₂.pos = (encodeList ((instrs ++ δ₀) ++ δ₁)).length := by
              rw [pos_eq_of_lt (by omega), hg2'.1]
            have hgE0 := good_patch D.pos hgD (by decide)
            rw [← hc2pos] at hgE0
            have hx : ((instrs ++ δ₀) ++ δ₁)
                ++ EInstr.i3 (opByte Op.JumpIfNot) (D.pos % 256) (D.pos / 256 % 256)
                  :: ((δ₂ ++ δ₃) ++ [EInstr.i3 (opByte Op.Jump) (c₁.pos % 256) (c₁.pos / 256 % 256)])
                = instrs ++ ((δ₀ ++ δ₁)
                  ++ EInstr.i3 (opByte Op.JumpIfNot) (D.pos % 256) (D.pos / 256 % 256)
                    :: ((δ₂ ++ δ₃)
                      ++ [EInstr.i3 (opByte Op.Jump) (c₁.pos % 256) (c₁.pos / 256 % 256)])) := by
              simp
            have hpop := @good_pop_loop _ _ rest hgE0 (by
              intro e he
              show e ∈ c₃.loop_stack
              rw [hls]
              exact List.mem_cons_of_mem _ he)
            rw [hx] at hpop
            have hbrk : ∀ p ∈ bj,
                JumpSlot (instrs ++ ((δ₀ ++ δ₁)
                  ++ EInstr.i3 (opByte Op.JumpIfNot) (D.pos % 256) (D.pos / 256 % 256)
                    :: ((δ₂ ++ δ₃)
                      ++ [EInstr.i3 (opByte Op.Jump) (c₁.pos % 256) (c₁.pos / 256 % 256)]))) p
                ∧ (encodeList instrs).length + 1 ≤ p := by
              have htop := hgE0.2.2.2 (cont, bj) (by
                show (cont, bj) ∈ c₃.loop_stack
                rw [hls]
                exact List.mem_cons_self _ _)
              intro p hp
              have hslot := (htop.2 p hp).1
              have hbound : cont + 1 ≤ p := (htop.2 p hp).2
              rw [hx] at hslot
              refine ⟨hslot, ?_⟩
              have hb2 : (encodeList instrs).length ≤ (encodeList (instrs ++ δ₀)).length := by
                rw [encodeList_append]
                simp
              omega
            obtain ⟨δ', hgF, _, _, _⟩ := patch_fold_good bj _ _ instrs D.pos hpop hbrk
            have hgF' : Good (List.foldl (fun (cc : Compiler) (p : Nat) => cc.patch_addr p D.pos)
                { E with loop_stack := rest } bj).pop_scope (instrs ++ δ') :=
              good_congr hgF rfl (le_refl _) rfl rfl
            rw [← h]
            exact ⟨δ', hgF'⟩
          next x heq =>
            exfalso
            have hnil : c₃.loop_stack = [] := heq
            rw [hnil] at hfst
            exact absurd hfst (by simp)
    | none =>
        obtain ⟨y1, hy1, h⟩ := except_bind_ok h
        have hy1' : ((none, { c₁ with loop_stack := (c₁.pos, []) :: c₁.loop_stack })
            : Option Nat × Compiler) = y1 := Except.ok.inj hy1
        subst hy1'
        obtain ⟨c₃, hbody0, h⟩ := except_bind_ok h
        have hbody' : compile_stmts fuel body
            { c₁ with loop_stack := (c₁.pos, []) :: c₁.loop_stack } = .ok c₃ := hbody0
        cases step with
        | some se =>
          obtain ⟨c₄, hc4, h⟩ := except_bind_ok h
          obtain ⟨y2, hy2, h⟩ := except_bind_ok h
          have hy2' : c₄.emit Op.Pop = y2 := Except.ok.inj hy2
          subst hy2'
          have sstep : CompStep c₃ (c₄.emit Op.Pop) :=
            compStep_trans (ih8 _ _ _ hc4) (compStep_emit Op.Pop (by decide))
          have hextA : Ext { c₁ with loop_stack := (c₁.pos, []) :: c₁.loop_stack } c₃ :=
            (ih1 _ _ _ hbody').1
          have hext5 : Ext { c₁ with loop_stack := (c₁.pos, []) :: c₁.loop_stack } (c₄.emit Op.Pop) :=
            ext_trans hextA sstep.1
          have hfst : (c₄.emit Op.Pop).loop_stack.map Prod.fst = c₁.pos :: c₁.loop_stack.map Prod.fst := by
            rw [hext5.2.2.1]
            rfl
          have e0 : c.module.code.length ≤ c₁.module.code.length := s0.1.1
          have eA : c₁.module.code.length ≤ c₃.module.code.length := hextA.1
          have e3 : c₃.module.code.length ≤ (c₄.emit Op.Pop).module.code.length := sstep.1.1
          have st0 : c.module.strings.length ≤ c₁.module.strings.length := s0.1.2.1
          have stA : c₁.module.strings.length ≤ c₃.module.strings.length := hextA.2.1
          have st3 : c₃.module.strings.length ≤ (c₄.emit Op.Pop).module.strings.length := sstep.1.2.1
          split at h
          next x cont bj rest heq =>
            injection h with h
            have hls : (c₄.emit Op.Pop).loop_stack = (cont, bj) :: rest := heq
            rw [hls] at hfst
            simp only [List.map_cons] at hfst
            injection hfst with hcont hrest
            set D : Compiler := (c₄.emit Op.Pop).emit_word Op.Jump c₁.pos with hD
            have hDlen : D.module.code.length = (c₄.emit Op.Pop).module.code.length + 3 := by
              simp [hD, Compiler.emit_word, Module.emit_word]
            have hc'len : c'.module.code.length = (c₄.emit Op.Pop).module.code.length + 3 := by
              rw [← h]
              show (List.foldl (fun (cc : Compiler) (p : Nat) => cc.patch_addr p D.pos)
                { D with loop_stack := rest } bj).module.code.length = _
              rw [(foldl_patch_fields D.pos bj _).1]
              show D.module.code.length = _
              exact hDlen
            have s5 : c'.module.strings = (c₄.emit Op.Pop).module.strings := by
              rw [← h]
              show (List.foldl (fun (cc : Compiler) (p : Nat) => cc.patch_addr p D.pos)
                { D with loop_stack := rest } bj).module.strings = _
              rw [(foldl_patch_fields D.pos bj _).2.1]
              show D.module.strings = _
              rw [hD]
              simp [Compiler.emit_word, Module.emit_word]
            have hmap : c'.loop_stack.map Prod.fst = c.loop_stack.map Prod.fst := by
              rw [← h]
              show (List.foldl (fun (cc : Compiler) (p : Nat) => cc.patch_addr p D.pos)
                { D with loop_stack := rest } bj).loop_stack.map Prod.fst = _
              rw [(foldl_patch_fields D.pos bj _).2.2.2.1]
              show rest.map Prod.fst = _
              rw [hrest]
              exact s0.1.2.2.1
            have hinv : Inv5 c → Inv5 c' := by
              intro hi
              have i1 := s0.1.2.2.2 hi
              have i2 : Inv5 ({ c₁ with loop_stack := (c₁.pos, []) :: c₁.loop_stack } : Compiler) := i1
              have i4 : Inv5 c₃ := (ih1 _ _ _ hbody').1.2.2.2 i2
              have i5 : Inv5 (c₄.emit Op.Pop) := sstep.1.2.2.2 i4
              have i6 : Inv5 D := (extc_emit_word (c₄.emit Op.Pop) Op.Jump c₁.pos).2.2 i5
              have i8 : Inv5 ({ D with loop_stack := rest } : Compiler) := i6
              have i9 := (extc_foldl_patch bj { D with loop_stack := rest } D.pos).2.2 i8
              have i10 : Inv5 (List.foldl (fun (cc : Compiler) (p : Nat) => cc.patch_addr p D.pos)
                  { D with loop_stack := rest } bj).pop_scope := i9
              rw [← h]
              exact i10
            refine ⟨⟨by omega, by rw [s5]; omega, hmap, hinv⟩, ?_⟩
            intro instrs hg hlt
            have hb : (c₄.emit Op.Pop).module.code.length + 3 < 65536 := by rw [← hc'len]; exact hlt
            obtain ⟨δ₀, hg1⟩ := s0.2 instrs hg (by omega)
            have hgA : Good { c₁ with loop_stack := (c₁.pos, []) :: c₁.loop_stack } (instrs ++ δ₀) :=
              good_push_loop hg1
            have hc1pos : c₁.pos = (encodeList (instrs ++ δ₀)).length := by
              rw [pos_eq_of_lt (by omega), hg1.1]
            obtain ⟨δ₂, hg3⟩ := (ih1 _ _ _ hbody').2 _ hgA (by omega)
            obtain ⟨δ₃, hg4⟩ := sstep.2 _ hg3 (by omega)
            have hgD := @good_emit_word (c₄.emit Op.Pop) _ Op.Jump c₁.pos hg4 (by decide)
              (fun hpb => absurd hpb (by decide))
            have hx : (((instrs ++ δ₀) ++ δ₂) ++ δ₃)
                ++ [EInstr.i3 (opByte Op.Jump) (c₁.pos % 256) (c₁.pos / 256 % 256)]
                = instrs ++ ((δ₀ ++ δ₂ ++ δ₃)
                  ++ [EInstr.i3 (opByte Op.Jump) (c₁.pos % 256) (c₁.pos / 256 % 256)]) := by
              simp
            rw [hx] at hgD
            have hpop := @good_pop_loop _ _ rest hgD (by
              intro e he
              show e ∈ (c₄.emit Op.Pop).loop_stack
              rw [hls]
              exact List.mem_cons_of_mem _ he)
            have hbrk : ∀ p ∈ bj,
                JumpSlot (instrs ++ ((δ₀ ++ δ₂ ++ δ₃)
                  ++ [EInstr.i3 (opByte Op.Jump) (c₁.pos % 256) (c₁.pos / 256 % 256)])) p
                ∧ (encodeList instrs).length + 1 ≤ p := by
              have htop := hgD.2.2.2 (cont, bj) (by
                show (cont, bj) ∈ (c₄.emit Op.Pop).loop_stack
                rw [hls]
                exact List.mem_cons_self _ _)
              intro p hp
              have hslot := (htop.2 p hp).1
              have hbound : cont + 1 ≤ p := (htop.2 p hp).2
              refine ⟨hslot, ?_⟩
              have hb2 : (encodeList instrs).length ≤ (encodeList (instrs ++ δ₀)).length := by
                rw [encodeList_append]
                simp
              omega
            obtain ⟨δ', hgF, _, _, _⟩ := patch_fold_good bj _ _ instrs D.pos hpop hbrk
            have hgF' : Good (List.foldl (fun (cc : Compiler) (p : Nat) => cc.patch_addr p D.pos)
                { D with loop_stack := rest } bj).pop_scope (instrs ++ δ') :=
              good_congr hgF rfl (le_refl _) rfl rfl
            rw [← h]
            exact ⟨δ', hgF'⟩
          next x heq =>
            exfalso
            have hnil : (c₄.emit Op.Pop).loop_stack = [] := heq
            rw [hnil] at hfst
            exact absurd hfst (by simp)
        | none =>
          obtain ⟨y2, hy2, h⟩ := except_bind_ok h
          have hy2' : c₃ = y2 := Except.ok.inj hy2
          subst hy2'
          have sstep : CompStep c₃ c₃ := compStep_refl c₃
          have hextA : Ext { c₁ with loop_stack := (c₁.pos, []) :: c₁.loop_stack } c₃ :=
            (ih1 _ _ _ hbody').1
          have hext5 : Ext { c₁ with loop_stack := (c₁.pos, []) :: c₁.loop_stack } c₃ :=
            ext_trans hextA sstep.1
          have hfst : c₃.loop_stack.map Prod.fst = c₁.pos :: c₁.loop_stack.map Prod.fst := by
            rw [hext5.2.2.1]
            rfl
          have e0 : c.module.code.length ≤ c₁.module.code.length := s0.1.1
          have eA : c₁.module.code.length ≤ c₃.module.code.length := hextA.1
          have e3 : c₃.module.code.length ≤ c₃.module.code.length := sstep.1.1
          have st0 : c.module.strings.length ≤ c₁.module.strings.length := s0.1.2.1
          have stA : c₁.module.strings.length ≤ c₃.module.strings.length := hextA.2.1
          have st3 : c₃.module.strings.length ≤ c₃.module.strings.length := sstep.1.2.1
          split at h
          next x cont bj rest heq =>
            injection h with h
            have hls : c₃.loop_stack = (cont, bj) :: rest := heq
            rw [hls] at hfst
            simp only [List.map_cons] at hfst
            injection hfst with hcont hrest
            set D : Compiler := c₃.emit_word Op.Jump c₁.pos with hD
            have hDlen : D.module.code.length = c₃.module.code.length + 3 := by
              simp [hD, Compiler.emit_word, Module.emit_word]
            have hc'len : c'.module.code.length = c₃.module.code.length + 3 := by
              rw [← h]
              show (List.foldl (fun (cc : Compiler) (p : Nat) => cc.patch_addr p D.pos)
                { D with loop_stack := rest } bj).module.code.length = _
              rw [(foldl_patch_fields D.pos bj _).1]
              show D.module.code.length = _
              exact hDlen
            have s5 : c'.module.strings = c₃.module.strings := by
              rw [← h]
              show (List.foldl (fun (cc : Compiler) (p : Nat) => cc.patch_addr p D.pos)
                { D with loop_stack := rest } bj).module.strings = _
              rw [(foldl_patch_fields D.pos bj _).2.1]
              show D.module.strings = _
              rw [hD]
              simp [Compiler.emit_word, Module.emit_word]
            have hmap : c'.loop_stack.map Prod.fst = c.loop_stack.map Prod.fst := by
              rw [← h]
              show (List.foldl (fun (cc : Compiler) (p : Nat) => cc.patch_addr p D.pos)
                { D with loop_stack := rest } bj).loop_stack.map Prod.fst = _
              rw [(foldl_patch_fields D.pos bj _).2.2.2.1]
              show rest.map Prod.fst = _
              rw [hrest]
              exact s0.1.2.2.1
            have hinv : Inv5 c → Inv5 c' := by
              intro hi
              have i1 := s0.1.2.2.2 hi
              have i2 : Inv5 ({ c₁ with loop_stack := (c₁.pos, []) :: c₁.loop_stack } : Compiler) := i1
              have i4 : Inv5 c₃ := (ih1 _ _ _ hbody').1.2.2.2 i2
              have i5 : Inv5 c₃ := sstep.1.2.2.2 i4
              have i6 : Inv5 D := (extc_emit_word c₃ Op.Jump c₁.pos).2.2 i5
              have i8 : Inv5 ({ D with loop_stack := rest } : Compiler) := i6
              have i9 := (extc_foldl_patch bj { D with loop_stack := rest } D.pos).2.2 i8
              have i10 : Inv5 (List.foldl (fun (cc : Compiler) (p : Nat) => cc.patch_addr p D.pos)
                  { D with loop_stack := rest } bj).pop_scope := i9
              rw [← h]
              exact i10
            refine ⟨⟨by omega, by rw [s5]; omega, hmap, hinv⟩, ?_⟩
            intro instrs hg hlt
            have hb : c₃.module.code.length + 3 < 65536 := by rw [← hc'len]; exact hlt
            obtain ⟨δ₀, hg1⟩ := s0.2 instrs hg (by omega)
            have hgA : Good { c₁ with loop_stack := (c₁.pos, []) :: c₁.loop_stack } (instrs ++ δ₀) :=
              good_push_loop hg1
            have hc1pos : c₁.pos = (encodeList (instrs ++ δ₀)).length := by
              rw [pos_eq_of_lt (by omega), hg1.1]
            obtain ⟨δ₂, hg3⟩ := (ih1 _ _ _ hbody').2 _ hgA (by omega)
            obtain ⟨δ₃, hg4⟩ := sstep.2 _ hg3 (by omega)
            have hgD := @good_emit_word c₃ _ Op.Jump c₁.pos hg4 (by decide)
              (fun hpb => absurd hpb (by decide))
            have hx : (((instrs ++ δ₀) ++ δ₂) ++ δ₃)
                ++ [EInstr.i3 (opByte Op.Jump) (c₁.pos % 256) (c₁.pos / 256 % 256)]
                = instrs ++ ((δ₀ ++ δ₂ ++ δ₃)
                  ++ [EInstr.i3 (opByte Op.Jump) (c₁.pos % 256) (c₁.pos / 256 % 256)]) := by
              simp
            rw [hx] at hgD
            have hpop := @good_pop_loop _ _ rest hgD (by
              intro e he
              show e ∈ c₃.loop_stack
              rw [hls]
              exact List.mem_cons_of_mem _ he)
            have hbrk : ∀ p ∈ bj,
                JumpSlot (instrs ++ ((δ₀ ++ δ₂ ++ δ₃)
                  ++ [EInstr.i3 (opByte Op.Jump) (c₁.pos % 256) (c₁.pos / 256 % 256)])) p
                ∧ (encodeList instrs).length + 1 ≤ p := by
              have htop := hgD.2.2.2 (cont, bj) (by
                show (cont, bj) ∈ c₃.loop_stack
                rw [hls]
                exact List.mem_cons_self _ _)
              intro p hp
              have hslot := (htop.2 p hp).1
              have hbound : cont + 1 ≤ p := (htop.2 p hp).2
              refine ⟨hslot, ?_⟩
              have hb2 : (encodeList instrs).length ≤ (encodeList (instrs ++ δ₀)).length := by
                rw [encodeList_append]
                simp
              omega
            obtain ⟨δ', hgF, _, _, _⟩ := patch_fold_good bj _ _ instrs D.pos hpop hbrk
            have hgF' : Good (List.foldl (fun (cc : Compiler) (p : Nat) => cc.patch_addr p D.pos)
                { D with loop_stack := rest } bj).pop_scope (instrs ++ δ') :=
              good_congr hgF rfl (le_refl _) rfl rfl
            rw [← h]
            exact ⟨δ', hgF'⟩
          next x heq =>
            exfalso
            have hnil : c₃.loop_stack = [] := heq
            rw [hnil] at hfst
            exact absurd hfst (by simp)

set_option maxHeartbeats 1000000 in
theorem step_stmt_foreach {fuel : Nat} {var : Str} {list : Expr} {body : List Stmt}
    {c c' : Compiler}
    (ih8 : ∀ e c c', compile_expr fuel e c = .ok c' → CompStep c c')
    (ih1 : ∀ l c c', compile_stmts fuel l c = .ok c' → CompStep c c')
    (h : compile_stmt (fuel + 1) (.Foreach var list body) c = .ok c') :
    CompStep c c' := by
  simp only [compile_stmt] at h
  obtain ⟨c₁, hlist, h⟩ := except_bind_ok h
  obtain ⟨c₃, hbody, h⟩ := except_bind_ok h
  set C2 : Compiler := c₁.emit_word Op.Push 0 with hC2
  set A : Compiler := { C2 with loop_stack := (C2.pos, []) :: C2.loop_stack } with hA
  set B1 : Compiler := (((A.emit Op.Over).emit Op.ArrLen).emit Op.Over).emit Op.CmpLt with hB1
  set B2 : Compiler := B1.emit_word Op.JumpIfNot 0 with hB2
  set B4 : Compiler :=
    (((B2.emit Op.Over).emit Op.Over).emit Op.ArrGet).emit_byte Op.StoreLocal 0 with hB4
  set D2 : Compiler := (c₃.emit Op.Inc).emit_word Op.Jump C2.pos with hD2
  have hlist' : compile_expr fuel list ((c.push_scope).insert_local var 0) = .ok c₁ := hlist
  have hbody' : compile_stmts fuel body B4 = .ok c₃ := hbody
  have hext1 : Ext ((c.push_scope).insert_local var 0) c₁ := (ih8 _ _ _ hlist').1
  have hextB : Ext B4 c₃ := (ih1 _ _ _ hbody').1
  have hfst : c₃.loop_stack.map Prod.fst = C2.pos :: c.loop_stack.map Prod.fst := by
    rw [hextB.2.2.1]
    show A.loop_stack.map Prod.fst = _
    rw [hA]
    show C2.pos :: C2.loop_stack.map Prod.fst = _
    rw [show C2.loop_stack = c₁.loop_stack from rfl, hext1.2.2.1]
    rfl
  have hlen1 : C2.module.code.length = c₁.module.code.length + 3 := by
    simp [hC2, Compiler.emit_word, Module.emit_word]
  have hlenB4 : B4.module.code.length = C2.module.code.length + 12 := by
    simp [hB4, hB2, hB1, Compiler.emit_word, Module.emit_word, Compiler.emit, Module.emit,
      Compiler.emit_byte, Module.emit_byte, hA]
  have hlenD2 : D2.module.code.length = c₃.module.code.length + 4 := by
    simp [hD2, Compiler.emit_word, Module.emit_word, Compiler.emit, Module.emit]
  have e1 : c.module.code.length ≤ c₁.module.code.length := hext1.1
  have e2 : B4.module.code.length ≤ c₃.module.code.length := hextB.1
  have st1 : c.module.strings.length ≤ c₁.module.strings.length := hext1.2.1
  have st2 : c₁.module.strings.length ≤ c₃.module.strings.length := by
    have hx : B4.module.strings.length ≤ c₃.module.strings.length := hextB.2.1
    have hy : B4.module.strings = c₁.module.strings := by
      simp [hB4, hB2, hB1, Compiler.emit_word, Module.emit_word, Compiler.emit, Module.emit,
        Compiler.emit_byte, Module.emit_byte, hA, hC2]
    rw [hy] at hx
    exact hx
  split at h
  next x cont bj rest heq =>
    injection h with h
    have hls : c₃.loop_stack = (cont, bj) :: rest := heq
    rw [hls] at hfst
    simp only [List.map_cons] at hfst
    injection hfst with hcont hrest
    have hc'len : c'.module.code.length = c₃.module.code.length + 6 := by
      rw [← h]
      show (List.foldl (fun (cc : Compiler) (p : Nat) => cc.patch_addr p D2.pos)
        { ((D2.patch_addr (B1.pos + 1) D2.pos).emit Op.Pop).emit Op.Pop with
            loop_stack := rest } bj).module.code.length = _
      rw [(foldl_patch_fields D2.pos bj _).1]
      show (((D2.patch_addr (B1.pos + 1) D2.pos).emit Op.Pop).emit Op.Pop).module.code.length = _
      simp [Compiler.emit, Module.emit, Compiler.patch_addr, Module.patch_addr, hlenD2]
    have s5 : c'.module.strings = c₃.module.strings := by
      rw [← h]
      show (List.foldl (fun (cc : Compiler) (p : Nat) => cc.patch_addr p D2.pos)
        { ((D2.patch_addr (B1.pos + 1) D2.pos).emit Op.Pop).emit Op.Pop with
            loop_stack := rest } bj).module.strings = _
      rw [(foldl_patch_fields D2.pos bj _).2.1]
      show (((D2.patch_addr (B1.pos + 1) D2.pos).emit Op.Pop).emit Op.Pop).module.strings = _
      simp [Compiler.emit, Module.emit, Compiler.patch_addr, Module.patch_addr, hD2,
        Compiler.emit_word, Module.emit_word]
    have hmap : c'.loop_stack.map Prod.fst = c.loop_stack.map Prod.fst := by
      rw [← h]
      show (List.foldl (fun (cc : Compiler) (p : Nat) => cc.patch_addr p D2.pos)
        { ((D2.patch_addr (B1.pos + 1) D2.pos).emit Op.Pop).emit Op.Pop with
            loop_stack := rest } bj).loop_stack.map Prod.fst = _
      rw [(foldl_patch_fields D2.pos bj _).2.2.2.1]
      show rest.map Prod.fst = _
      exact hrest
    have hinv : Inv5 c → Inv5 c' := by
      intro hi
      have i0 : Inv5 ((c.push_scope).insert_local var 0) := by
        intro r hm
        show r.2 + 2 ≤ c.module.code.length
        exact hi r hm
      have i1 := hext1.2.2.2 i0
      have i2 : Inv5 A := (extc_emit_word c₁ Op.Push 0).2.2 i1
      have i3 : Inv5 B4 := by
        intro r hm
        have := i2 r hm
        show r.2 + 2 ≤ B4.module.code.length
        have hAl : A.module.code.length = C2.module.code.length := rfl
        omega
      have i4 := hextB.2.2.2 i3
      have i5 : Inv5 D2 := by
        intro r hm
        have := i4 r hm
        show r.2 + 2 ≤ D2.module.code.length
        omega
      have i6 : Inv5 ({ ((D2.patch_addr (B1.pos + 1) D2.pos).emit Op.Pop).emit Op.Pop with
          loop_stack := rest } : Compiler) := by
        intro r hm
        have := i5 r hm
        show r.2 + 2 ≤ (((D2.patch_addr (B1.pos + 1) D2.pos).emit Op.Pop).emit
          Op.Pop).module.code.length
        simp [Compiler.emit, Module.emit, Compiler.patch_addr, Module.patch_addr]
        omega
      have i7 := (extc_foldl_patch bj _ D2.pos).2.2 i6
      have i8 : Inv5 (List.foldl (fun (cc : Compiler) (p : Nat) => cc.patch_addr p D2.pos)
          { ((D2.patch_addr (B1.pos + 1) D2.pos).emit Op.Pop).emit Op.Pop with
              loop_stack := rest } bj).pop_scope := i7
      rw [← h]
      exact i8
    refine ⟨⟨by omega, by rw [s5]; omega, hmap, hinv⟩, ?_⟩
    intro instrs hg hlt
    have hb : c₃.module.code.length + 6 < 65536 := by rw [← hc'len]; exact hlt
    have hgP : Good ((c.push_scope).insert_local var 0) instrs :=
      good_congr hg rfl (le_refl _) rfl rfl
    obtain ⟨δ₁, hg1⟩ := (ih8 _ _ _ hlist').2 instrs hgP (by omega)
    have hg1' : Good c₁ (instrs ++ δ₁) := hg1
    have hgC2 : Good C2 ((instrs ++ δ₁)
        ++ [EInstr.i3 (opByte Op.Push) (0 % 256) (0 / 256 % 256)]) :=
      @good_emit_word c₁ (instrs ++ δ₁) Op.Push 0 hg1' (by decide)
        (fun hpb => absurd hpb (by decide))
    have hgA : Good A ((instrs ++ δ₁)
        ++ [EInstr.i3 (opByte Op.Push) (0 % 256) (0 / 256 % 256)]) := good_push_loop hgC2
    have hgB1 := good_emit (good_emit (good_emit (good_emit hgA (by decide : Op.Over.size = 1))
      (by decide : Op.ArrLen.size = 1)) (by decide : Op.Over.size = 1))
      (by decide : Op.CmpLt.size = 1)
    have hgB2 := @good_emit_word B1 _ Op.JumpIfNot 0 hgB1 (by decide)
      (fun hpb => absurd hpb (by decide))
    have hgB4 := @good_emit_byte (((B2.emit Op.Over).emit Op.Over).emit Op.ArrGet) _
      Op.StoreLocal 0 (good_emit (good_emit (good_emit hgB2
        (by decide : Op.Over.size = 1)) (by decide : Op.Over.size = 1))
        (by decide : Op.ArrGet.size = 1)) (by decide : Op.StoreLocal.size = 2)
    obtain ⟨δ₂, hg3⟩ := (ih1 _ _ _ hbody').2 _ hgB4 (by omega)
    have hgD2 := @good_emit_word (c₃.emit Op.Inc) _ Op.Jump C2.pos
      (good_emit hg3 (by decide : Op.Inc.size = 1)) (by decide)
      (fun hpb => absurd hpb (by decide))
    -- name the stream up to the JumpIfNot operand chunk
    have hre : (((((((((((((instrs ++ δ₁)
          ++ [EInstr.i3 (opByte Op.Push) (0 % 256) (0 / 256 % 256)])
          ++ [EInstr.i1 (opByte Op.Over)]) ++ [EInstr.i1 (opByte Op.ArrLen)])
          ++ [EInstr.i1 (opByte Op.Over)]) ++ [EInstr.i1 (opByte Op.CmpLt)])
          ++ [EInstr.i3 (opByte Op.JumpIfNot) (0 % 256) (0 / 256 % 256)])
          ++ [EInstr.i1 (opByte Op.Over)]) ++ [EInstr.i1 (opByte Op.Over)])
          ++ [EInstr.i1 (opByte Op.ArrGet)])
          ++ [EInstr.i2 (opByte Op.StoreLocal) (0 % 256)]) ++ δ₂)
          ++ [EInstr.i1 (opByte Op.Inc)])
          ++ [EInstr.i3 (opByte Op.Jump) (C2.pos % 256) (C2.pos / 256 % 256)]
        = ((((((instrs ++ δ₁)
          ++ [EInstr.i3 (opByte Op.Push) (0 % 256) (0 / 256 % 256)])
          ++ [EInstr.i1 (opByte Op.Over)]) ++ [EInstr.i1 (opByte Op.ArrLen)])
          ++ [EInstr.i1 (opByte Op.Over)]) ++ [EInstr.i1 (opByte Op.CmpLt)])
          ++ EInstr.i3 (opByte Op.JumpIfNot) (0 % 256) (0 / 256 % 256)
            :: (([EInstr.i1 (opByte Op.Over)] ++ [EInstr.i1 (opByte Op.Over)]
              ++ [EInstr.i1 (opByte Op.ArrGet)]
              ++ [EInstr.i2 (opByte Op.StoreLocal) (0 % 256)] ++ δ₂
              ++ [EInstr.i1 (opByte Op.Inc)])
              ++ [EInstr.i3 (opByte Op.Jump) (C2.pos % 256) (C2.pos / 256 % 256)]) := by
      simp
    rw [hre] at hgD2
    have hB1pos : B1.pos = (encodeList ((((((instrs ++ δ₁)
        ++ [EInstr.i3 (opByte Op.Push) (0 % 256) (0 / 256 % 256)])
        ++ [EInstr.i1 (opByte Op.Over)]) ++ [EInstr.i1 (opByte Op.ArrLen)])
        ++ [EInstr.i1 (opByte Op.Over)]) ++ [EInstr.i1 (opByte Op.CmpLt)])).length := by
      rw [pos_eq_of_lt (by
        show B1.module.code.length < 65536
        have hx : B1.module.code.length = C2.module.code.length + 4 := by
          simp [hB1, Compiler.emit, Module.emit, hA]
        omega), hgB1.1]
    have hgE := good_patch D2.pos hgD2 (by decide)
    rw [← hB1pos] at hgE
    have hgF := good_emit (good_emit hgE (by decide : Op.Pop.size = 1))
      (by decide : Op.Pop.size = 1)
    have hx : ((((((((instrs ++ δ₁)
          ++ [EInstr.i3 (opByte Op.Push) (0 % 256) (0 / 256 % 256)])
          ++ [EInstr.i1 (opByte Op.Over)]) ++ [EInstr.i1 (opByte Op.ArrLen)])
          ++ [EInstr.i1 (opByte Op.Over)]) ++ [EInstr.i1 (opByte Op.CmpLt)])
          ++ EInstr.i3 (opByte Op.JumpIfNot) (D2.pos % 256) (D2.pos / 256 % 256)
            :: (([EInstr.i1 (opByte Op.Over)] ++ [EInstr.i1 (opByte Op.Over)]
              ++ [EInstr.i1 (opByte Op.ArrGet)]
              ++ [EInstr.i2 (opByte Op.StoreLocal) (0 % 256)] ++ δ₂
              ++ [EInstr.i1 (opByte Op.Inc)])
              ++ [EInstr.i3 (opByte Op.Jump) (C2.pos % 256) (C2.pos / 256 % 256)]))
          ++ [EInstr.i1 (opByte Op.Pop)]) ++ [EInstr.i1 (opByte Op.Pop)]
        = instrs ++ (δ₁
          ++ [EInstr.i3 (opByte Op.Push) (0 % 256) (0 / 256 % 256)]
          ++ [EInstr.i1 (opByte Op.Over)] ++ [EInstr.i1 (opByte Op.ArrLen)]
          ++ [EInstr.i1 (opByte Op.Over)] ++ [EInstr.i1 (opByte Op.CmpLt)]
          ++ EInstr.i3 (opByte Op.JumpIfNot) (D2.pos % 256) (D2.pos / 256 % 256)
            :: (([EInstr.i1 (opByte Op.Over)] ++ [EInstr.i1 (opByte Op.Over)]
              ++ [EInstr.i1 (opByte Op.ArrGet)]
              ++ [EInstr.i2 (opByte Op.StoreLocal) (0 % 256)] ++ δ₂
              ++ [EInstr.i1 (opByte Op.Inc)])
              ++ [EInstr.i3 (opByte Op.Jump) (C2.pos % 256) (C2.pos / 256 % 256)]
              ++ [EInstr.i1 (opByte Op.Pop)] ++ [EInstr.i1 (opByte Op.Pop)])) := by
      simp
    rw [hx] at hgF
    have hpop := @good_pop_loop _ _ rest hgF (by
      intro e he
      show e ∈ c₃.loop_stack
      rw [hls]
      exact List.mem_cons_of_mem _ he)
    have hC2pos : C2.pos = (encodeList ((instrs ++ δ₁)
        ++ [EInstr.i3 (opByte Op.Push) (0 % 256) (0 / 256 % 256)])).length := by
      rw [pos_eq_of_lt (by omega), hgC2.1]
    have hbrk : ∀ p ∈ bj,
        JumpSlot (instrs ++ (δ₁
          ++ [EInstr.i3 (opByte Op.Push) (0 % 256) (0 / 256 % 256)]
          ++ [EInstr.i1 (opByte Op.Over)] ++ [EInstr.i1 (opByte Op.ArrLen)]
          ++ [EInstr.i1 (opByte Op.Over)] ++ [EInstr.i1 (opByte Op.CmpLt)]
          ++ EInstr.i3 (opByte Op.JumpIfNot) (D2.pos % 256) (D2.pos / 256 % 256)
            :: (([EInstr.i1 (opByte Op.Over)] ++ [EInstr.i1 (opByte Op.Over)]
              ++ [EInstr.i1 (opByte Op.ArrGet)]
              ++ [EInstr.i2 (opByte Op.StoreLocal) (0 % 256)] ++ δ₂
              ++ [EInstr.i1 (opByte Op.Inc)])
              ++ [EInstr.i3 (opByte Op.Jump) (C2.pos % 256) (C2.pos / 256 % 256)]
              ++ [EInstr.i1 (opByte Op.Pop)] ++ [EInstr.i1 (opByte Op.Pop)]))) p
        ∧ (encodeList instrs).length + 1 ≤ p := by
      have htop := hgF.2.2.2 (cont, bj) (by
        show (cont, bj) ∈ c₃.loop_stack
        rw [hls]
        exact List.mem_cons_self _ _)
      intro p hp
      have hslot := (htop.2 p hp).1
      have hbound : cont + 1 ≤ p := (htop.2 p hp).2
      refine ⟨hslot, ?_⟩
      have hb2 : (encodeList instrs).length
          ≤ (encodeList ((instrs ++ δ₁)
            ++ [EInstr.i3 (opByte Op.Push) (0 % 256) (0 / 256 % 256)])).length := by
        rw [encodeList_append, encodeList_append]
        simp
      omega
    obtain ⟨δ', hgG, _, _, _⟩ := patch_fold_good bj _ _ instrs D2.pos hpop hbrk
    have hgG' : Good (List.foldl (fun (cc : Compiler) (p : Nat) => cc.patch_addr p D2.pos)
        { ((D2.patch_addr (B1.pos + 1) D2.pos).emit Op.Pop).emit Op.Pop with
            loop_stack := rest } bj).pop_scope (instrs ++ δ') :=
      good_congr hgG rfl (le_refl _) rfl rfl
    rw [← h]
    exact ⟨δ', hgG'⟩
  next x heq =>
    exfalso
    have hnil : c₃.loop_stack = [] := heq
    rw [hnil] at hfst
    exact absurd hfst (by simp)

theorem step_elsifs {fuel : Nat} {bs : List (Expr × List Stmt)} {ej : List Nat}
    {c : Compiler} {r : List Nat × Compiler}
    (ih8 : ∀ e c c', compile_expr fuel e c = .ok c' → CompStep c c')
    (ih1 : ∀ l c c', compile_stmts fuel l c = .ok c' → CompStep c c')
    (ih3 : ∀ bs ej c r, compile_elsifs fuel bs ej c = .ok r → CompStepE ej c r)
    (h : compile_elsifs (fuel + 1) bs ej c = .ok r) : CompStepE ej c r := by
  cases bs with
  | nil =>
    simp only [compile_elsifs] at h
    have hr : (ej, c) = r := Except.ok.inj h
    subst hr
    refine ⟨ext_refl c, fun instrs n hg hn hslots hlt => ⟨[], by simpa using hg, ?_⟩⟩
    intro p hp
    have := hslots p hp
    rw [List.append_nil]
    exact this
  | cons b rest =>
    obtain ⟨ec, eb⟩ := b
    simp only [compile_elsifs] at h
    obtain ⟨c₂, hc2, h⟩ := except_bind_ok h
    obtain ⟨c₃, hb3, h⟩ := except_bind_ok h
    have hb3' : compile_stmts fuel eb (c₂.emit_word Op.JumpIfNot 0) = .ok c₃ := hb3
    set D : Compiler := c₃.emit_word Op.Jump 0 with hD
    set E : Compiler := D.patch_addr (c₂.pos + 1) D.pos with hE
    have htail : CompStepE (ej ++ [c₃.pos + 1]) E r := ih3 _ _ _ _ h
    have hBlen : (c₂.emit_word Op.JumpIfNot 0).module.code.length
        = c₂.module.code.length + 3 := by
      simp [Compiler.emit_word, Module.emit_word]
    have hDlen : D.module.code.length = c₃.module.code.length + 3 := by
      simp [hD, Compiler.emit_word, Module.emit_word]
    have hElen : E.module.code.length = D.module.code.length := by
      simp [hE, Compiler.patch_addr, Module.patch_addr]
    have hEstr : E.module.strings = c₃.module.strings := by
      simp [hE, hD, Compiler.patch_addr, Module.patch_addr, Compiler.emit_word, Module.emit_word]
    have e1 : c.module.code.length ≤ c₂.module.code.length := (ih8 _ _ _ hc2).1.1
    have e2 : c₂.module.code.length + 3 ≤ c₃.module.code.length := by
      have := (ih1 _ _ _ hb3').1.1
      omega
    have e3 : E.module.code.length ≤ r.2.module.code.length := htail.1.1
    have st1 : c.module.strings.length ≤ c₂.module.strings.length := (ih8 _ _ _ hc2).1.2.1
    have st2 : c₂.module.strings.length ≤ c₃.module.strings.length := (ih1 _ _ _ hb3').1.2.1
    refine ⟨?_, ?_⟩
    · refine ext_trans (ih8 _ _ _ hc2).1 (ext_trans
        (mk_ext (extc_emit_word c₂ Op.JumpIfNot 0) rfl) (ext_trans (ih1 _ _ _ hb3').1
          (ext_trans (mk_ext (extc_trans (extc_emit_word c₃ Op.Jump 0)
            (extc_patch D (c₂.pos + 1) D.pos)) rfl) htail.1)))
    · intro instrs n hg hn hslots hlt
      have hblt : c₃.module.code.length + 3 < 65536 := by
        have := htail.1.1
        omega
      obtain ⟨δ₁, hg2⟩ := (ih8 _ _ _ hc2).2 instrs hg (by omega)
      have hg2' : Good c₂ (instrs ++ δ₁) := hg2
      have hgB := @good_emit_word c₂ (instrs ++ δ₁) Op.JumpIfNot 0 hg2' (by decide)
        (fun hpb => absurd hpb (by decide))
      obtain ⟨δ₂, hg3⟩ := (ih1 _ _ _ hb3').2 _ hgB (by omega)
      have hgD := @good_emit_word c₃ _ Op.Jump 0 hg3 (by decide)
        (fun hpb => absurd hpb (by decide))
      have hre : ((((instrs ++ δ₁)
            ++ [EInstr.i3 (opByte Op.JumpIfNot) (0 % 256) (0 / 256 % 256)]) ++ δ₂)
            ++ [EInstr.i3 (opByte Op.Jump) (0 % 256) (0 / 256 % 256)])
          = (instrs ++ δ₁) ++ EInstr.i3 (opByte Op.JumpIfNot) (0 % 256) (0 / 256 % 256)
              :: (δ₂ ++ [EInstr.i3 (opByte Op.Jump) (0 % 256) (0 / 256 % 256)]) := by
        simp
      rw [hre] at hgD
      have hc2pos : c₂.pos = (encodeList (instrs ++ δ₁)).length := by
        rw [pos_eq_of_lt (by omega), hg2'.1]
      have hgE := good_patch D.pos hgD (by decide)
      rw [← hc2pos] at hgE
      have hc3pos : c₃.pos = (encodeList ((instrs ++ δ₁)
          ++ EInstr.i3 (opByte Op.JumpIfNot) (D.pos % 256) (D.pos / 256 % 256) :: δ₂)).length := by
        rw [pos_eq_of_lt (by omega), hg3.1]
        simp [encodeList_append, encodeList_cons, EInstr.encode]
      have htailslots : ∀ p ∈ ej ++ [c₃.pos + 1],
          JumpSlot ((instrs ++ δ₁)
            ++ EInstr.i3 (opByte Op.JumpIfNot) (D.pos % 256) (D.pos / 256 % 256)
              :: (δ₂ ++ [EInstr.i3 (opByte Op.Jump) (0 % 256) (0 / 256 % 256)])) p
            ∧ n + 1 ≤ p := by
        intro p hp
        rcases List.mem_append.mp hp with hp | hp
        · have hs := hslots p hp
          refine ⟨?_, hs.2⟩
          have := wordSlot_append hs.1 (δ₁
            ++ EInstr.i3 (opByte Op.JumpIfNot) (D.pos % 256) (D.pos / 256 % 256)
              :: (δ₂ ++ [EInstr.i3 (opByte Op.Jump) (0 % 256) (0 / 256 % 256)]))
          rwa [show instrs ++ (δ₁
            ++ EInstr.i3 (opByte Op.JumpIfNot) (D.pos % 256) (D.pos / 256 % 256)
              :: (δ₂ ++ [EInstr.i3 (opByte Op.Jump) (0 % 256) (0 / 256 % 256)]))
            = (instrs ++ δ₁)
              ++ EInstr.i3 (opByte Op.JumpIfNot) (D.pos % 256) (D.pos / 256 % 256)
                :: (δ₂ ++ [EInstr.i3 (opByte Op.Jump) (0 % 256) (0 / 256 % 256)]) from by
            simp] at this
        · rcases List.mem_singleton.mp hp with rfl
          constructor
          · refine ⟨(instrs ++ δ₁)
              ++ EInstr.i3 (opByte Op.JumpIfNot) (D.pos % 256) (D.pos / 256 % 256) :: δ₂,
              [], opByte Op.Jump, 0 % 256, 0 / 256 % 256, ?_, rfl, ?_⟩
            · simp
            · rw [hc3pos]
          · have hni : n ≤ (encodeList (instrs ++ δ₁)).length := by
              rw [encodeList_append]
              simp only [List.length_append]
              omega
            have hlm : (encodeList (instrs ++ δ₁)).length
                ≤ (encodeList ((instrs ++ δ₁)
                  ++ EInstr.i3 (opByte Op.JumpIfNot) (D.pos % 256) (D.pos / 256 % 256)
                    :: δ₂)).length := by
              simp only [encodeList_append, encodeList_cons, EInstr.encode,
                List.length_append, List.length_cons, List.length_nil]
              omega
            omega
      obtain ⟨δ₃, hgR, hout⟩ := htail.2 _ n hgE (by
        have hx : (encodeList instrs).length
            ≤ (encodeList ((instrs ++ δ₁)
              ++ EInstr.i3 (opByte Op.JumpIfNot) (D.pos % 256) (D.pos / 256 % 256)
                :: (δ₂ ++ [EInstr.i3 (opByte Op.Jump) (0 % 256) (0 / 256 % 256)]))).length := by
          simp only [encodeList_append, encodeList_cons, EInstr.encode,
            List.length_append, List.length_cons, List.length_nil]
          omega
        omega) htailslots hlt
      refine ⟨δ₁ ++ EInstr.i3 (opByte Op.JumpIfNot) (D.pos % 256) (D.pos / 256 % 256)
        :: (δ₂ ++ [EInstr.i3 (opByte Op.Jump) (0 % 256) (0 / 256 % 256)]) ++ δ₃, ?_, ?_⟩
      · rwa [show ((instrs ++ δ₁)
            ++ EInstr.i3 (opByte Op.JumpIfNot) (D.pos % 256) (D.pos / 256 % 256)
              :: (δ₂ ++ [EInstr.i3 (opByte Op.Jump) (0 % 256) (0 / 256 % 256)])) ++ δ₃
          = instrs ++ (δ₁ ++ EInstr.i3 (opByte Op.JumpIfNot) (D.pos % 256) (D.pos / 256 % 256)
              :: (δ₂ ++ [EInstr.i3 (opByte Op.Jump) (0 % 256) (0 / 256 % 256)]) ++ δ₃) from by
          simp] at hgR
      · intro p hp
        have := hout p hp
        rwa [show ((instrs ++ δ₁)
            ++ EInstr.i3 (opByte Op.JumpIfNot) (D.pos % 256) (D.pos / 256 % 256)
              :: (δ₂ ++ [EInstr.i3 (opByte Op.Jump) (0 % 256) (0 / 256 % 256)])) ++ δ₃
          = instrs ++ (δ₁ ++ EInstr.i3 (opByte Op.JumpIfNot) (D.pos % 256) (D.pos / 256 % 256)
              :: (δ₂ ++ [EInstr.i3 (opByte Op.Jump) (0 % 256) (0 / 256 % 256)]) ++ δ₃) from by
          simp] at this

theorem step_stmt_if {fuel : Nat} {cond : Expr} {then_block : List Stmt}
    {elsif_blocks : List (Expr × List Stmt)} {else_block : Option (List Stmt)} {c c' : Compiler}
    (ih8 : ∀ e c c', compile_expr fuel e c = .ok c' → CompStep c c')
    (ih1 : ∀ l c c', compile_stmts fuel l c = .ok c' → CompStep c c')
    (ih3 : ∀ bs ej c r, compile_elsifs fuel bs ej c = .ok r → CompStepE ej c r)
    (h : compile_stmt (fuel + 1) (.If cond then_block elsif_blocks else_block) c = .ok c') :
    CompStep c c' := by
  simp only [compile_stmt] at h
  obtain ⟨c₁, hc1, h⟩ := except_bind_ok h
  obtain ⟨c₃, hthen, h⟩ := except_bind_ok h
  have hthen' : compile_stmts fuel then_block (c₁.emit_word Op.JumpIfNot 0) = .ok c₃ := hthen
  by_cases hbe : (!elsif_blocks.isEmpty || else_block.isSome) = true
  · rw [if_pos hbe] at h
    obtain ⟨r6, h6, h⟩ := except_bind_ok h
    obtain ⟨ej₁, c₆⟩ := r6
    have h6' : compile_elsifs fuel elsif_blocks [c₃.pos + 1]
        ((c₃.emit_word Op.Jump 0).patch_addr (c₁.pos + 1) (c₃.emit_word Op.Jump 0).pos)
      = .ok (ej₁, c₆) := h6
    cases else_block with
    | some eb =>
      obtain ⟨c₇, helse0, h⟩ := except_bind_ok h
      have helse : compile_stmts fuel eb c₆ = .ok c₇ := helse0
      injection h with h
      have selse : CompStep c₆ c₇ := ih1 _ _ _ helse
      have hE6 : CompStepE [c₃.pos + 1]
          ((c₃.emit_word Op.Jump 0).patch_addr (c₁.pos + 1) (c₃.emit_word Op.Jump 0).pos)
          (ej₁, c₆) := ih3 _ _ _ _ h6'
      have hC4len : ((c₃.emit_word Op.Jump 0).patch_addr (c₁.pos + 1)
          (c₃.emit_word Op.Jump 0).pos).module.code.length = c₃.module.code.length + 3 := by
        simp [Compiler.emit_word, Module.emit_word, Compiler.patch_addr, Module.patch_addr]
      have hC4str : ((c₃.emit_word Op.Jump 0).patch_addr (c₁.pos + 1)
          (c₃.emit_word Op.Jump 0).pos).module.strings = c₃.module.strings := by
        simp [Compiler.emit_word, Module.emit_word, Compiler.patch_addr, Module.patch_addr]
      have e1 : c.module.code.length ≤ c₁.module.code.length := (ih8 _ _ _ hc1).1.1
      have e2 : c₁.module.code.length + 3 ≤ c₃.module.code.length := by
        have hx : (c₁.emit_word Op.JumpIfNot 0).module.code.length
            = c₁.module.code.length + 3 := by
          simp [Compiler.emit_word, Module.emit_word]
        have := (ih1 _ _ _ hthen').1.1
        omega
      have e3 : c₃.module.code.length + 3 ≤ c₆.module.code.length := by
        have hy : ((c₃.emit_word Op.Jump 0).patch_addr (c₁.pos + 1)
            (c₃.emit_word Op.Jump 0).pos).module.code.length ≤ c₆.module.code.length :=
          hE6.1.1
        omega
      have e4 : c₆.module.code.length ≤ c₇.module.code.length := selse.1.1
      have hc'len : c'.module.code.length = c₇.module.code.length := by
        rw [← h]
        show (List.foldl (fun (cc : Compiler) (p : Nat) => cc.patch_addr p c₇.pos)
          c₇ ej₁).module.code.length = _
        exact (foldl_patch_fields c₇.pos ej₁ c₇).1
      have s5 : c'.module.strings = c₇.module.strings := by
        rw [← h]
        show (List.foldl (fun (cc : Compiler) (p : Nat) => cc.patch_addr p c₇.pos)
          c₇ ej₁).module.strings = _
        exact (foldl_patch_fields c₇.pos ej₁ c₇).2.1
      have hm1 : c₁.loop_stack.map Prod.fst = c.loop_stack.map Prod.fst :=
        (ih8 _ _ _ hc1).1.2.2.1
      have hm2 : c₃.loop_stack.map Prod.fst = c₁.loop_stack.map Prod.fst :=
        (ih1 _ _ _ hthen').1.2.2.1
      have hm3 : c₆.loop_stack.map Prod.fst = c₃.loop_stack.map Prod.fst := hE6.1.2.2.1
      have hm4 : c₇.loop_stack.map Prod.fst = c₆.loop_stack.map Prod.fst := selse.1.2.2.1
      have hmap : c'.loop_stack.map Prod.fst = c.loop_stack.map Prod.fst := by
        rw [← h]
        show (List.foldl (fun (cc : Compiler) (p : Nat) => cc.patch_addr p c₇.pos)
          c₇ ej₁).loop_stack.map Prod.fst = _
        rw [(foldl_patch_fields c₇.pos ej₁ c₇).2.2.2.1, hm4, hm3, hm2, hm1]
      have hinv : Inv5 c → Inv5 c' := by
        intro hi
        have i1 := (ih8 _ _ _ hc1).1.2.2.2 hi
        have i2 := (ih1 _ _ _ hthen').1.2.2.2 ((extc_emit_word c₁ Op.JumpIfNot 0).2.2 i1)
        have i3 : Inv5 ((c₃.emit_word Op.Jump 0).patch_addr (c₁.pos + 1)
            (c₃.emit_word Op.Jump 0).pos) :=
          (extc_patch _ _ _).2.2 ((extc_emit_word c₃ Op.Jump 0).2.2 i2)
        have i4 : Inv5 c₆ := hE6.1.2.2.2 i3
        have i5 : Inv5 c₇ := selse.1.2.2.2 i4
        have i6 := (extc_foldl_patch ej₁ c₇ c₇.pos).2.2 i5
        rw [← h]
        exact i6
      have hstr : c.module.strings.length ≤ c₇.module.strings.length := by
        have st1 : c.module.strings.length ≤ c₁.module.strings.length := (ih8 _ _ _ hc1).1.2.1
        have st2 : c₁.module.strings.length ≤ c₃.module.strings.length :=
          (ih1 _ _ _ hthen').1.2.1
        have st3 : c₃.module.strings.length ≤ c₆.module.strings.length := by
          have hz := hE6.1.2.1
          rw [hC4str] at hz
          exact hz
        have st4 : c₆.module.strings.length ≤ c₇.module.strings.length := selse.1.2.1
        omega
      refine ⟨⟨by omega, by rw [s5]; exact hstr, hmap, hinv⟩, ?_⟩
      intro instrs hg hlt
      have hblt : c₇.module.code.length < 65536 := by rw [← hc'len]; exact hlt
      obtain ⟨δ₁, hg1⟩ := (ih8 _ _ _ hc1).2 instrs hg (by omega)
      have hg1' : Good c₁ (instrs ++ δ₁) := hg1
      have hgB := @good_emit_word c₁ (instrs ++ δ₁) Op.JumpIfNot 0 hg1' (by decide)
        (fun hpb => absurd hpb (by decide))
      obtain ⟨δ₂, hg3⟩ := (ih1 _ _ _ hthen').2 _ hgB (by omega)
      have hgC4 := @good_emit_word c₃ _ Op.Jump 0 hg3 (by decide)
        (fun hpb => absurd hpb (by decide))
      have hre : ((((instrs ++ δ₁)
            ++ [EInstr.i3 (opByte Op.JumpIfNot) (0 % 256) (0 / 256 % 256)]) ++ δ₂)
            ++ [EInstr.i3 (opByte Op.Jump) (0 % 256) (0 / 256 % 256)])
          = (instrs ++ δ₁) ++ EInstr.i3 (opByte Op.JumpIfNot) (0 % 256) (0 / 256 % 256)
              :: (δ₂ ++ [EInstr.i3 (opByte Op.Jump) (0 % 256) (0 / 256 % 256)]) := by
        simp
      rw [hre] at hgC4
      have hc1pos : c₁.pos = (encodeList (instrs ++ δ₁)).length := by
        rw [pos_eq_of_lt (by omega), hg1'.1]
      have hgE := good_patch (c₃.emit_word Op.Jump 0).pos hgC4 (by decide)
      rw [← hc1pos] at hgE
      have hc3pos : c₃.pos = (encodeList ((instrs ++ δ₁)
          ++ EInstr.i3 (opByte Op.JumpIfNot)
            ((c₃.emit_word Op.Jump 0).pos % 256) ((c₃.emit_word Op.Jump 0).pos / 256 % 256)
            :: δ₂)).length := by
        rw [pos_eq_of_lt (by omega), hg3.1]
        simp [encodeList_append, encodeList_cons, EInstr.encode]
      obtain ⟨δ₃, hg6, houts⟩ := hE6.2 _ (encodeList instrs).length hgE (by
        simp only [encodeList_append, encodeList_cons, EInstr.encode,
          List.length_append, List.length_cons, List.length_nil]
        omega) (by
        intro p hp
        rcases List.mem_singleton.mp hp with rfl
        refine ⟨⟨(instrs ++ δ₁)
          ++ EInstr.i3 (opByte Op.JumpIfNot)
            ((c₃.emit_word Op.Jump 0).pos % 256) ((c₃.emit_word Op.Jump 0).pos / 256 % 256)
            :: δ₂,
          [], opByte Op.Jump, 0 % 256, 0 / 256 % 256, by simp, rfl, by rw [hc3pos]⟩, ?_⟩
        have hx : (encodeList instrs).length ≤ (encodeList (instrs ++ δ₁)).length := by
          rw [encodeList_append]
          simp
        have hlm : (encodeList (instrs ++ δ₁)).length
            ≤ (encodeList ((instrs ++ δ₁)
              ++ EInstr.i3 (opByte Op.JumpIfNot)
                ((c₃.emit_word Op.Jump 0).pos % 256) ((c₃.emit_word Op.Jump 0).pos / 256 % 256)
                :: δ₂)).length := by
          simp only [encodeList_append, encodeList_cons, EInstr.encode,
            List.length_append, List.length_cons, List.length_nil]
          omega
        omega) (by omega : c₆.module.code.length < 65536)
      obtain ⟨δ₄, hg7⟩ := selse.2 _ hg6 (by omega)
      have hgL : Good c₇ (instrs ++ (δ₁
          ++ EInstr.i3 (opByte Op.JumpIfNot)
            ((c₃.emit_word Op.Jump 0).pos % 256) ((c₃.emit_word Op.Jump 0).pos / 256 % 256)
            :: (δ₂ ++ [EInstr.i3 (opByte Op.Jump) (0 % 256) (0 / 256 % 256)]) ++ δ₃ ++ δ₄)) := by
        rwa [show (((instrs ++ δ₁)
            ++ EInstr.i3 (opByte Op.JumpIfNot)
              ((c₃.emit_word Op.Jump 0).pos % 256) ((c₃.emit_word Op.Jump 0).pos / 256 % 256)
              :: (δ₂ ++ [EInstr.i3 (opByte Op.Jump) (0 % 256) (0 / 256 % 256)])) ++ δ₃) ++ δ₄
          = instrs ++ (δ₁
            ++ EInstr.i3 (opByte Op.JumpIfNot)
              ((c₃.emit_word Op.Jump 0).pos % 256) ((c₃.emit_word Op.Jump 0).pos / 256 % 256)
              :: (δ₂ ++ [EInstr.i3 (opByte Op.Jump) (0 % 256) (0 / 256 % 256)]) ++ δ₃ ++ δ₄)
          from by simp] at hg7
      have hbrk : ∀ p ∈ ej₁,
          JumpSlot (instrs ++ (δ₁
            ++ EInstr.i3 (opByte Op.JumpIfNot)
              ((c₃.emit_word Op.Jump 0).pos % 256) ((c₃.emit_word Op.Jump 0).pos / 256 % 256)
              :: (δ₂ ++ [EInstr.i3 (opByte Op.Jump) (0 % 256) (0 / 256 % 256)]) ++ δ₃ ++ δ₄)) p
          ∧ (encodeList instrs).length + 1 ≤ p := by
        intro p hp
        obtain ⟨hs, hb⟩ := houts p hp
        refine ⟨?_, hb⟩
        have := wordSlot_append hs δ₄
        rwa [show (((instrs ++ δ₁)
            ++ EInstr.i3 (opByte Op.JumpIfNot)
              ((c₃.emit_word Op.Jump 0).pos % 256) ((c₃.emit_word Op.Jump 0).pos / 256 % 256)
              :: (δ₂ ++ [EInstr.i3 (opByte Op.Jump) (0 % 256) (0 / 256 % 256)])) ++ δ₃) ++ δ₄
          = instrs ++ (δ₁
            ++ EInstr.i3 (opByte Op.JumpIfNot)
              ((c₃.emit_word Op.Jump 0).pos % 256) ((c₃.emit_word Op.Jump 0).pos / 256 % 256)
              :: (δ₂ ++ [EInstr.i3 (opByte Op.Jump) (0 % 256) (0 / 256 % 256)]) ++ δ₃ ++ δ₄)
          from by simp] at this
      obtain ⟨δ', hgF, _, _, _⟩ := patch_fold_good ej₁ _ _ instrs c₇.pos hgL hbrk
      rw [← h]
      exact ⟨δ', hgF⟩
    | none =>
      obtain ⟨c₇, helse0, h⟩ := except_bind_ok h
      have heq7 : c₆ = c₇ := Except.ok.inj helse0
      subst heq7
      injection h with h
      have selse : CompStep c₆ c₆ := compStep_refl c₆
      have hE6 : CompStepE [c₃.pos + 1]
          ((c₃.emit_word Op.Jump 0).patch_addr (c₁.pos + 1) (c₃.emit_word Op.Jump 0).pos)
          (ej₁, c₆) := ih3 _ _ _ _ h6'
      have hC4len : ((c₃.emit_word Op.Jump 0).patch_addr (c₁.pos + 1)
          (c₃.emit_word Op.Jump 0).pos).module.code.length = c₃.module.code.length + 3 := by
        simp [Compiler.emit_word, Module.emit_word, Compiler.patch_addr, Module.patch_addr]
      have hC4str : ((c₃.emit_word Op.Jump 0).patch_addr (c₁.pos + 1)
          (c₃.emit_word Op.Jump 0).pos).module.strings = c₃.module.strings := by
        simp [Compiler.emit_word, Module.emit_word, Compiler.patch_addr, Module.patch_addr]
      have e1 : c.module.code.length ≤ c₁.module.code.length := (ih8 _ _ _ hc1).1.1
      have e2 : c₁.module.code.length + 3 ≤ c₃.module.code.length := by
        have hx : (c₁.emit_word Op.JumpIfNot 0).module.code.length
            = c₁.module.code.length + 3 := by
          simp [Compiler.emit_word, Module.emit_word]
        have := (ih1 _ _ _ hthen').1.1
        omega
      have e3 : c₃.module.code.length + 3 ≤ c₆.module.code.length := by
        have hy : ((c₃.emit_word Op.Jump 0).patch_addr (c₁.pos + 1)
            (c₃.emit_word Op.Jump 0).pos).module.code.length ≤ c₆.module.code.length :=
          hE6.1.1
        omega
      have e4 : c₆.module.code.length ≤ c₆.module.code.length := selse.1.1
      have hc'len : c'.module.code.length = c₆.module.code.length := by
        rw [← h]
        show (List.foldl (fun (cc : Compiler) (p : Nat) => cc.patch_addr p c₆.pos)
          c₆ ej₁).module.code.length = _
        exact (foldl_patch_fields c₆.pos ej₁ c₆).1
      have s5 : c'.module.strings = c₆.module.strings := by
        rw [← h]
        show (List.foldl (fun (cc : Compiler) (p : Nat) => cc.patch_addr p c₆.pos)
          c₆ ej₁).module.strings = _
        exact (foldl_patch_fields c₆.pos ej₁ c₆).2.1
      have hm1 : c₁.loop_stack.map Prod.fst = c.loop_stack.map Prod.fst :=
        (ih8 _ _ _ hc1).1.2.2.1
      have hm2 : c₃.loop_stack.map Prod.fst = c₁.loop_stack.map Prod.fst :=
        (ih1 _ _ _ hthen').1.2.2.1
      have hm3 : c₆.loop_stack.map Prod.fst = c₃.loop_stack.map Prod.fst := hE6.1.2.2.1
      have hm4 : c₆.loop_stack.map Prod.fst = c₆.loop_stack.map Prod.fst := selse.1.2.2.1
      have hmap : c'.loop_stack.map Prod.fst = c.loop_stack.map Prod.fst := by
        rw [← h]
        show (List.foldl (fun (cc : Compiler) (p : Nat) => cc.patch_addr p c₆.pos)
          c₆ ej₁).loop_stack.map Prod.fst = _
        rw [(foldl_patch_fields c₆.pos ej₁ c₆).2.2.2.1, hm4, hm3, hm2, hm1]
      have hinv : Inv5 c → Inv5 c' := by
        intro hi
        have i1 := (ih8 _ _ _ hc1).1.2.2.2 hi
        have i2 := (ih1 _ _ _ hthen').1.2.2.2 ((extc_emit_word c₁ Op.JumpIfNot 0).2.2 i1)
        have i3 : Inv5 ((c₃.emit_word Op.Jump 0).patch_addr (c₁.pos + 1)
            (c₃.emit_word Op.Jump 0).pos) :=
          (extc_patch _ _ _).2.2 ((extc_emit_word c₃ Op.Jump 0).2.2 i2)
        have i4 : Inv5 c₆ := hE6.1.2.2.2 i3
        have i5 : Inv5 c₆ := selse.1.2.2.2 i4
        have i6 := (extc_foldl_patch ej₁ c₆ c₆.pos).2.2 i5
        rw [← h]
        exact i6
      have hstr : c.module.strings.length ≤ c₆.module.strings.length := by
        have st1 : c.module.strings.length ≤ c₁.module.strings.length := (ih8 _ _ _ hc1).1.2.1
        have st2 : c₁.module.strings.length ≤ c₃.module.strings.length :=
          (ih1 _ _ _ hthen').1.2.1
        have st3 : c₃.module.strings.length ≤ c₆.module.strings.length := by
          have hz := hE6.1.2.1
          rw [hC4str] at hz
          exact hz
        have st4 : c₆.module.strings.length ≤ c₆.module.strings.length := selse.1.2.1
        omega
      refine ⟨⟨by omega, by rw [s5]; exact hstr, hmap, hinv⟩, ?_⟩
      intro instrs hg hlt
      have hblt : c₆.module.code.length < 65536 := by rw [← hc'len]; exact hlt
      obtain ⟨δ₁, hg1⟩ := (ih8 _ _ _ hc1).2 instrs hg (by omega)
      have hg1' : Good c₁ (instrs ++ δ₁) := hg1
      have hgB := @good_emit_word c₁ (instrs ++ δ₁) Op.JumpIfNot 0 hg1' (by decide)
        (fun hpb => absurd hpb (by decide))
      obtain ⟨δ₂, hg3⟩ := (ih1 _ _ _ hthen').2 _ hgB (by omega)
      have hgC4 := @good_emit_word c₃ _ Op.Jump 0 hg3 (by decide)
        (fun hpb => absurd hpb (by decide))
      have hre : ((((instrs ++ δ₁)
            ++ [EInstr.i3 (opByte Op.JumpIfNot) (0 % 256) (0 / 256 % 256)]) ++ δ₂)
            ++ [EInstr.i3 (opByte Op.Jump) (0 % 256) (0 / 256 % 256)])
          = (instrs ++ δ₁) ++ EInstr.i3 (opByte Op.JumpIfNot) (0 % 256) (0 / 256 % 256)
              :: (δ₂ ++ [EInstr.i3 (opByte Op.Jump) (0 % 256) (0 / 256 % 256)]) := by
        simp
      rw [hre] at hgC4
      have hc1pos : c₁.pos = (encodeList (instrs ++ δ₁)).length := by
        rw [pos_eq_of_lt (by omega), hg1'.1]
      have hgE := good_patch (c₃.emit_word Op.Jump 0).pos hgC4 (by decide)
      rw [← hc1pos] at hgE
      have hc3pos : c₃.pos = (encodeList ((instrs ++ δ₁)
          ++ EInstr.i3 (opByte Op.JumpIfNot)
            ((c₃.emit_word Op.Jump 0).pos % 256) ((c₃.emit_word Op.Jump 0).pos / 256 % 256)
            :: δ₂)).length := by
        rw [pos_eq_of_lt (by omega), hg3.1]
        simp [encodeList_append, encodeList_cons, EInstr.encode]
      obtain ⟨δ₃, hg6, houts⟩ := hE6.2 _ (encodeList instrs).length hgE (by
        simp only [encodeList_append, encodeList_cons, EInstr.encode,
          List.length_append, List.length_cons, List.length_nil]
        omega) (by
        intro p hp
        rcases List.mem_singleton.mp hp with rfl
        refine ⟨⟨(instrs ++ δ₁)
          ++ EInstr.i3 (opByte Op.JumpIfNot)
            ((c₃.emit_word Op.Jump 0).pos % 256) ((c₃.emit_word Op.Jump 0).pos / 256 % 256)
            :: δ₂,
          [], opByte Op.Jump, 0 % 256, 0 / 256 % 256, by simp, rfl, by rw [hc3pos]⟩, ?_⟩
        have hx : (encodeList instrs).length ≤ (encodeList (instrs ++ δ₁)).length := by
          rw [encodeList_append]
          simp
        have hlm : (encodeList (instrs ++ δ₁)).length
            ≤ (encodeList ((instrs ++ δ₁)
              ++ EInstr.i3 (opByte Op.JumpIfNot)
                ((c₃.emit_word Op.Jump 0).pos % 256) ((c₃.emit_word Op.Jump 0).pos / 256 % 256)
                :: δ₂)).length := by
          simp only [encodeList_append, encodeList_cons, EInstr.encode,
            List.length_append, List.length_cons, List.length_nil]
          omega
        omega) (by omega : c₆.module.code.length < 65536)
      obtain ⟨δ₄, hg7⟩ := selse.2 _ hg6 (by omega)
      have hgL : Good c₆ (instrs ++ (δ₁
          ++ EInstr.i3 (opByte Op.JumpIfNot)
            ((c₃.emit_word Op.Jump 0).pos % 256) ((c₃.emit_word Op.Jump 0).pos / 256 % 256)
            :: (δ₂ ++ [EInstr.i3 (opByte Op.Jump) (0 % 256) (0 / 256 % 256)]) ++ δ₃ ++ δ₄)) := by
        rwa [show (((instrs ++ δ₁)
            ++ EInstr.i3 (opByte Op.JumpIfNot)
              ((c₃.emit_word Op.Jump 0).pos % 256) ((c₃.emit_word Op.Jump 0).pos / 256 % 256)
              :: (δ₂ ++ [EInstr.i3 (opByte Op.Jump) (0 % 256) (0 / 256 % 256)])) ++ δ₃) ++ δ₄
          = instrs ++ (δ₁
            ++ EInstr.i3 (opByte Op.JumpIfNot)
              ((c₃.emit_word Op.Jump 0).pos % 256) ((c₃.emit_word Op.Jump 0).pos / 256 % 256)
              :: (δ₂ ++ [EInstr.i3 (opByte Op.Jump) (0 % 256) (0 / 256 % 256)]) ++ δ₃ ++ δ₄)
          from by simp] at hg7
      have hbrk : ∀ p ∈ ej₁,
          JumpSlot (instrs ++ (δ₁
            ++ EInstr.i3 (opByte Op.JumpIfNot)
              ((c₃.emit_word Op.Jump 0).pos % 256) ((c₃.emit_word Op.Jump 0).pos / 256 % 256)
              :: (δ₂ ++ [EInstr.i3 (opByte Op.Jump) (0 % 256) (0 / 256 % 256)]) ++ δ₃ ++ δ₄)) p
          ∧ (encodeList instrs).length + 1 ≤ p := by
        intro p hp
        obtain ⟨hs, hb⟩ := houts p hp
        refine ⟨?_, hb⟩
        have := wordSlot_append hs δ₄
        rwa [show (((instrs ++ δ₁)
            ++ EInstr.i3 (opByte Op.JumpIfNot)
              ((c₃.emit_word Op.Jump 0).pos % 256) ((c₃.emit_word Op.Jump 0).pos / 256 % 256)
              :: (δ₂ ++ [EInstr.i3 (opByte Op.Jump) (0 % 256) (0 / 256 % 256)])) ++ δ₃) ++ δ₄
          = instrs ++ (δ₁
            ++ EInstr.i3 (opByte Op.JumpIfNot)
              ((c₃.emit_word Op.Jump 0).pos % 256) ((c₃.emit_word Op.Jump 0).pos / 256 % 256)
              :: (δ₂ ++ [EInstr.i3 (opByte Op.Jump) (0 % 256) (0 / 256 % 256)]) ++ δ₃ ++ δ₄)
          from by simp] at this
      obtain ⟨δ', hgF, _, _, _⟩ := patch_fold_good ej₁ _ _ instrs c₆.pos hgL hbrk
      rw [← h]
      exact ⟨δ', hgF⟩
  · rw [if_neg hbe] at h
    have hels : elsif_blocks = [] := by
      cases elsif_blocks with
      | nil => rfl
      | cons a l => simp at hbe
    have hnone : else_block = none := by
      cases else_block with
      | none => rfl
      | some b => simp at hbe
    subst hels
    subst hnone
    obtain ⟨r6, h6, h⟩ := except_bind_ok h
    obtain ⟨ej₁, c₆⟩ := r6
    have h6' : compile_elsifs fuel [] []
        (c₃.patch_addr (c₁.pos + 1) c₃.pos) = .ok (ej₁, c₆) := h6
    obtain ⟨c₇, helse0, h⟩ := except_bind_ok h
    have heq7 : c₆ = c₇ := Except.ok.inj helse0
    subst heq7
    injection h with h
    have hE6 : CompStepE [] (c₃.patch_addr (c₁.pos + 1) c₃.pos) (ej₁, c₆) := ih3 _ _ _ _ h6'
    have hC4len : (c₃.patch_addr (c₁.pos + 1) c₃.pos).module.code.length
        = c₃.module.code.length := by
      simp [Compiler.patch_addr, Module.patch_addr]
    have hC4str : (c₃.patch_addr (c₁.pos + 1) c₃.pos).module.strings = c₃.module.strings := rfl
    have e1 : c.module.code.length ≤ c₁.module.code.length := (ih8 _ _ _ hc1).1.1
    have e2 : c₁.module.code.length + 3 ≤ c₃.module.code.length := by
      have hx : (c₁.emit_word Op.JumpIfNot 0).module.code.length
          = c₁.module.code.length + 3 := by
        simp [Compiler.emit_word, Module.emit_word]
      have := (ih1 _ _ _ hthen').1.1
      omega
    have e3 : c₃.module.code.length ≤ c₆.module.code.length := by
      have hy : (c₃.patch_addr (c₁.pos + 1) c₃.pos).module.code.length
          ≤ c₆.module.code.length := hE6.1.1
      omega
    have hc'len : c'.module.code.length = c₆.module.code.length := by
      rw [← h]
      show (List.foldl (fun (cc : Compiler) (p : Nat) => cc.patch_addr p c₆.pos)
        c₆ ej₁).module.code.length = _
      exact (foldl_patch_fields c₆.pos ej₁ c₆).1
    have s5 : c'.module.strings = c₆.module.strings := by
      rw [← h]
      show (List.foldl (fun (cc : Compiler) (p : Nat) => cc.patch_addr p c₆.pos)
        c₆ ej₁).module.strings = _
      exact (foldl_patch_fields c₆.pos ej₁ c₆).2.1
    have hm1 : c₁.loop_stack.map Prod.fst = c.loop_stack.map Prod.fst :=
      (ih8 _ _ _ hc1).1.2.2.1
    have hm2 : c₃.loop_stack.map Prod.fst = c₁.loop_stack.map Prod.fst :=
      (ih1 _ _ _ hthen').1.2.2.1
    have hm3 : c₆.loop_stack.map Prod.fst = c₃.loop_stack.map Prod.fst := hE6.1.2.2.1
    have hmap : c'.loop_stack.map Prod.fst = c.loop_stack.map Prod.fst := by
      rw [← h]
      show (List.foldl (fun (cc : Compiler) (p : Nat) => cc.patch_addr p c₆.pos)
        c₆ ej₁).loop_stack.map Prod.fst = _
      rw [(foldl_patch_fields c₆.pos ej₁ c₆).2.2.2.1, hm3, hm2, hm1]
    have hinv : Inv5 c → Inv5 c' := by
      intro hi
      have i1 := (ih8 _ _ _ hc1).1.2.2.2 hi
      have i2 := (ih1 _ _ _ hthen').1.2.2.2 ((extc_emit_word c₁ Op.JumpIfNot 0).2.2 i1)
      have i3 : Inv5 (c₃.patch_addr (c₁.pos + 1) c₃.pos) := (extc_patch _ _ _).2.2 i2
      have i4 : Inv5 c₆ := hE6.1.2.2.2 i3
      have i6 := (extc_foldl_patch ej₁ c₆ c₆.pos).2.2 i4
      rw [← h]
      exact i6
    have hstr : c.module.strings.length ≤ c₆.module.strings.length := by
      have st1 : c.module.strings.length ≤ c₁.module.strings.length := (ih8 _ _ _ hc1).1.2.1
      have st2 : c₁.module.strings.length ≤ c₃.module.strings.length :=
        (ih1 _ _ _ hthen').1.2.1
      have st3 : c₃.module.strings.length ≤ c₆.module.strings.length := by
        have hz := hE6.1.2.1
        rw [hC4str] at hz
        exact hz
      omega
    refine ⟨⟨by omega, by rw [s5]; exact hstr, hmap, hinv⟩, ?_⟩
    intro instrs hg hlt
    have hblt : c₆.module.code.length < 65536 := by rw [← hc'len]; exact hlt
    obtain ⟨δ₁, hg1⟩ := (ih8 _ _ _ hc1).2 instrs hg (by omega)
    have hg1' : Good c₁ (instrs ++ δ₁) := hg1
    have hgB := @good_emit_word c₁ (instrs ++ δ₁) Op.JumpIfNot 0 hg1' (by decide)
      (fun hpb => absurd hpb (by decide))
    obtain ⟨δ₂, hg3⟩ := (ih1 _ _ _ hthen').2 _ hgB (by omega)
    have hre : (((instrs ++ δ₁)
          ++ [EInstr.i3 (opByte Op.JumpIfNot) (0 % 256) (0 / 256 % 256)]) ++ δ₂)
        = (instrs ++ δ₁) ++ EInstr.i3 (opByte Op.JumpIfNot) (0 % 256) (0 / 256 % 256) :: δ₂ := by
      simp
    rw [hre] at hg3
    have hc1pos : c₁.pos = (encodeList (instrs ++ δ₁)).length := by
      rw [pos_eq_of_lt (by omega), hg1'.1]
    have hgE := good_patch c₃.pos hg3 (by decide)
    rw [← hc1pos] at hgE
    obtain ⟨δ₃, hg6, houts⟩ := hE6.2 _ (encodeList instrs).length hgE (by
      simp only [encodeList_append, encodeList_cons, EInstr.encode,
        List.length_append, List.length_cons, List.length_nil]
      omega) (fun p hp => absurd hp (List.not_mem_nil p))
      (by omega : c₆.module.code.length < 65536)
    have hgL : Good c₆ (instrs ++ (δ₁
        ++ EInstr.i3 (opByte Op.JumpIfNot) (c₃.pos % 256) (c₃.pos / 256 % 256) :: δ₂ ++ δ₃)) := by
      rwa [show ((instrs ++ δ₁)
          ++ EInstr.i3 (opByte Op.JumpIfNot) (c₃.pos % 256) (c₃.pos / 256 % 256) :: δ₂) ++ δ₃
        = instrs ++ (δ₁
          ++ EInstr.i3 (opByte Op.JumpIfNot) (c₃.pos % 256) (c₃.pos / 256 % 256) :: δ₂ ++ δ₃)
        from by simp] at hg6
    have hbrk : ∀ p ∈ ej₁,
        JumpSlot (instrs ++ (δ₁
          ++ EInstr.i3 (opByte Op.JumpIfNot) (c₃.pos % 256) (c₃.pos / 256 % 256) :: δ₂ ++ δ₃)) p
        ∧ (encodeList instrs).length + 1 ≤ p := by
      intro p hp
      obtain ⟨hs, hb⟩ := houts p hp
      refine ⟨?_, hb⟩
      rwa [show ((instrs ++ δ₁)
          ++ EInstr.i3 (opByte Op.JumpIfNot) (c₃.pos % 256) (c₃.pos / 256 % 256) :: δ₂) ++ δ₃
        = instrs ++ (δ₁
          ++ EInstr.i3 (opByte Op.JumpIfNot) (c₃.pos % 256) (c₃.pos / 256 % 256) :: δ₂ ++ δ₃)
        from by simp] at hs
    obtain ⟨δ', hgF, _, _, _⟩ := patch_fold_good ej₁ _ _ instrs c₆.pos hgL hbrk
    rw [← h]
    exact ⟨δ', hgF⟩

theorem step_stmt_unless {fuel : Nat} {cond : Expr} {then_block : List Stmt}
    {else_block : Option (List Stmt)} {c c' : Compiler}
    (ih8 : ∀ e c c', compile_expr fuel e c = .ok c' → CompStep c c')
    (ih1 : ∀ l c c', compile_stmts fuel l c = .ok c' → CompStep c c')
    (h : compile_stmt (fuel + 1) (.Unless cond then_block else_block) c = .ok c') :
    CompStep c c' := by
  simp only [compile_stmt] at h
  obtain ⟨c₁, hc1, h⟩ := except_bind_ok h
  obtain ⟨c₃, hthen, h⟩ := except_bind_ok h
  have hthen' : compile_stmts fuel then_block (c₁.emit_word Op.JumpIf 0) = .ok c₃ := hthen
  have e1 : c.module.code.length ≤ c₁.module.code.length := (ih8 _ _ _ hc1).1.1
  have e2 : c₁.module.code.length + 3 ≤ c₃.module.code.length := by
    have hx : (c₁.emit_word Op.JumpIf 0).module.code.length = c₁.module.code.length + 3 := by
      simp [Compiler.emit_word, Module.emit_word]
    have := (ih1 _ _ _ hthen').1.1
    omega
  have st1 : c.module.strings.length ≤ c₁.module.strings.length := (ih8 _ _ _ hc1).1.2.1
  have st2 : c₁.module.strings.length ≤ c₃.module.strings.length := (ih1 _ _ _ hthen').1.2.1
  have hm1 : c₁.loop_stack.map Prod.fst = c.loop_stack.map Prod.fst := (ih8 _ _ _ hc1).1.2.2.1
  have hm2 : c₃.loop_stack.map Prod.fst = c₁.loop_stack.map Prod.fst :=
    (ih1 _ _ _ hthen').1.2.2.1
  cases else_block with
  | none =>
    injection h with h
    subst h
    refine ⟨⟨?_, ?_, ?_, ?_⟩, ?_⟩
    · show c.module.code.length ≤ (c₃.patch_addr (c₁.pos + 1) c₃.pos).module.code.length
      have : (c₃.patch_addr (c₁.pos + 1) c₃.pos).module.code.length
          = c₃.module.code.length := by
        simp [Compiler.patch_addr, Module.patch_addr]
      omega
    · show c.module.strings.length ≤ (c₃.patch_addr (c₁.pos + 1) c₃.pos).module.strings.length
      have hps : (c₃.patch_addr (c₁.pos + 1) c₃.pos).module.strings = c₃.module.strings := rfl
      rw [hps]
      omega
    · show c₃.loop_stack.map Prod.fst = c.loop_stack.map Prod.fst
      rw [hm2, hm1]
    · intro hi
      have i1 := (ih8 _ _ _ hc1).1.2.2.2 hi
      have i2 := (ih1 _ _ _ hthen').1.2.2.2 ((extc_emit_word c₁ Op.JumpIf 0).2.2 i1)
      exact (extc_patch c₃ (c₁.pos + 1) c₃.pos).2.2 i2
    · intro instrs hg hlt
      have hlt3 : c₃.module.code.length < 65536 := by
        have : (c₃.patch_addr (c₁.pos + 1) c₃.pos).module.code.length
            = c₃.module.code.length := by
          simp [Compiler.patch_addr, Module.patch_addr]
        omega
      obtain ⟨δ₁, hg1⟩ := (ih8 _ _ _ hc1).2 instrs hg (by omega)
      have hg1' : Good c₁ (instrs ++ δ₁) := hg1
      have hgB := @good_emit_word c₁ (instrs ++ δ₁) Op.JumpIf 0 hg1' (by decide)
        (fun hpb => absurd hpb (by decide))
      obtain ⟨δ₂, hg3⟩ := (ih1 _ _ _ hthen').2 _ hgB (by omega)
      have hre : (((instrs ++ δ₁)
            ++ [EInstr.i3 (opByte Op.JumpIf) (0 % 256) (0 / 256 % 256)]) ++ δ₂)
          = (instrs ++ δ₁) ++ EInstr.i3 (opByte Op.JumpIf) (0 % 256) (0 / 256 % 256) :: δ₂ := by
        simp
      rw [hre] at hg3
      have hc1pos : c₁.pos = (encodeList (instrs ++ δ₁)).length := by
        rw [pos_eq_of_lt (by omega), hg1'.1]
      have hgE := good_patch c₃.pos hg3 (by decide)
      rw [← hc1pos] at hgE
      refine ⟨δ₁ ++ EInstr.i3 (opByte Op.JumpIf) (c₃.pos % 256) (c₃.pos / 256 % 256) :: δ₂, ?_⟩
      rwa [show (instrs ++ δ₁)
          ++ EInstr.i3 (opByte Op.JumpIf) (c₃.pos % 256) (c₃.pos / 256 % 256) :: δ₂
        = instrs ++ (δ₁
          ++ EInstr.i3 (opByte Op.JumpIf) (c₃.pos % 256) (c₃.pos / 256 % 256) :: δ₂)
        from by simp] at hgE
  | some eb =>
    obtain ⟨c₄, helse, h⟩ := except_bind_ok h
    have helse' : compile_stmts fuel eb
        ((c₃.emit_word Op.Jump 0).patch_addr (c₁.pos + 1) (c₃.emit_word Op.Jump 0).pos)
      = .ok c₄ := helse
    injection h with h
    subst h
    have hElen : ((c₃.emit_word Op.Jump 0).patch_addr (c₁.pos + 1)
        (c₃.emit_word Op.Jump 0).pos).module.code.length = c₃.module.code.length + 3 := by
      simp [Compiler.emit_word, Module.emit_word, Compiler.patch_addr, Module.patch_addr]
    have hEstr : ((c₃.emit_word Op.Jump 0).patch_addr (c₁.pos + 1)
        (c₃.emit_word Op.Jump 0).pos).module.strings = c₃.module.strings := by
      simp [Compiler.emit_word, Module.emit_word, Compiler.patch_addr, Module.patch_addr]
    have e3 : c₃.module.code.length + 3 ≤ c₄.module.code.length := by
      have := (ih1 _ _ _ helse').1.1
      omega
    have st3 : c₃.module.strings.length ≤ c₄.module.strings.length := by
      have := (ih1 _ _ _ helse').1.2.1
      rw [hEstr] at this
      exact this
    have hm3 : c₄.loop_stack.map Prod.fst = c₃.loop_stack.map Prod.fst :=
      (ih1 _ _ _ helse').1.2.2.1
    have hfinlen : (c₄.patch_addr (c₃.pos + 1) c₄.pos).module.code.length
        = c₄.module.code.length := by
      simp [Compiler.patch_addr, Module.patch_addr]
    refine ⟨⟨?_, ?_, ?_, ?_⟩, ?_⟩
    · show c.module.code.length ≤ (c₄.patch_addr (c₃.pos + 1) c₄.pos).module.code.length
      omega
    · show c.module.strings.length
        ≤ (c₄.patch_addr (c₃.pos + 1) c₄.pos).module.strings.length
      have hps : (c₄.patch_addr (c₃.pos + 1) c₄.pos).module.strings = c₄.module.strings := rfl
      rw [hps]
      omega
    · show c₄.loop_stack.map Prod.fst = c.loop_stack.map Prod.fst
      rw [hm3, hm2, hm1]
    · intro hi
      have i1 := (ih8 _ _ _ hc1).1.2.2.2 hi
      have i2 := (ih1 _ _ _ hthen').1.2.2.2 ((extc_emit_word c₁ Op.JumpIf 0).2.2 i1)
      have i3 := (extc_patch (c₃.emit_word Op.Jump 0) (c₁.pos + 1)
        (c₃.emit_word Op.Jump 0).pos).2.2 ((extc_emit_word c₃ Op.Jump 0).2.2 i2)
      have i4 := (ih1 _ _ _ helse').1.2.2.2 i3
      exact (extc_patch c₄ (c₃.pos + 1) c₄.pos).2.2 i4
    · intro instrs hg hlt
      have hlt4 : c₄.module.code.length < 65536 := by omega
      obtain ⟨δ₁, hg1⟩ := (ih8 _ _ _ hc1).2 instrs hg (by omega)
      have hg1' : Good c₁ (instrs ++ δ₁) := hg1
      have hgB := @good_emit_word c₁ (instrs ++ δ₁) Op.JumpIf 0 hg1' (by decide)
        (fun hpb => absurd hpb (by decide))
      obtain ⟨δ₂, hg3⟩ := (ih1 _ _ _ hthen').2 _ hgB (by omega)
      have hgD := @good_emit_word c₃ _ Op.Jump 0 hg3 (by decide)
        (fun hpb => absurd hpb (by decide))
      have hre : ((((instrs ++ δ₁)
            ++ [EInstr.i3 (opByte Op.JumpIf) (0 % 256) (0 / 256 % 256)]) ++ δ₂)
            ++ [EInstr.i3 (opByte Op.Jump) (0 % 256) (0 / 256 % 256)])
          = (instrs ++ δ₁) ++ EInstr.i3 (opByte Op.JumpIf) (0 % 256) (0 / 256 % 256)
              :: (δ₂ ++ [EInstr.i3 (opByte Op.Jump) (0 % 256) (0 / 256 % 256)]) := by
        simp
      rw [hre] at hgD
      have hc1pos : c₁.pos = (encodeList (instrs ++ δ₁)).length := by
        rw [pos_eq_of_lt (by omega), hg1'.1]
      have hgE := good_patch (c₃.emit_word Op.Jump 0).pos hgD (by decide)
      rw [← hc1pos] at hgE
      obtain ⟨δ₃, hg4⟩ := (ih1 _ _ _ helse').2 _ hgE (by omega)
      have hc3pos : c₃.pos = (encodeList ((instrs ++ δ₁)
          ++ EInstr.i3 (opByte Op.JumpIf)
            ((c₃.emit_word Op.Jump 0).pos % 256) ((c₃.emit_word Op.Jump 0).pos / 256 % 256)
            :: δ₂)).length := by
        rw [pos_eq_of_lt (by omega), hg3.1]
        simp [encodeList_append, encodeList_cons, EInstr.encode]
      have hsh : (((instrs ++ δ₁)
            ++ EInstr.i3 (opByte Op.JumpIf)
              ((c₃.emit_word Op.Jump 0).pos % 256) ((c₃.emit_word Op.Jump 0).pos / 256 % 256)
              :: (δ₂ ++ [EInstr.i3 (opByte Op.Jump) (0 % 256) (0 / 256 % 256)])) ++ δ₃)
          = ((instrs ++ δ₁)
            ++ EInstr.i3 (opByte Op.JumpIf)
              ((c₃.emit_word Op.Jump 0).pos % 256) ((c₃.emit_word Op.Jump 0).pos / 256 % 256)
              :: δ₂)
            ++ EInstr.i3 (opByte Op.Jump) (0 % 256) (0 / 256 % 256) :: δ₃ := by
        simp
      rw [hsh] at hg4
      have hgF := good_patch c₄.pos hg4 (by decide)
      rw [show ((encodeList ((instrs ++ δ₁)
          ++ EInstr.i3 (opByte Op.JumpIf)
            ((c₃.emit_word Op.Jump 0).pos % 256) ((c₃.emit_word Op.Jump 0).pos / 256 % 256)
            :: δ₂)).length + 1) = c₃.pos + 1 from by rw [hc3pos]] at hgF
      refine ⟨δ₁ ++ EInstr.i3 (opByte Op.JumpIf)
          ((c₃.emit_word Op.Jump 0).pos % 256) ((c₃.emit_word Op.Jump 0).pos / 256 % 256)
          :: δ₂ ++ EInstr.i3 (opByte Op.Jump) (c₄.pos % 256) (c₄.pos / 256 % 256) :: δ₃, ?_⟩
      rwa [show (((instrs ++ δ₁)
          ++ EInstr.i3 (opByte Op.JumpIf)
            ((c₃.emit_word Op.Jump 0).pos % 256) ((c₃.emit_word Op.Jump 0).pos / 256 % 256)
            :: δ₂)
          ++ EInstr.i3 (opByte Op.Jump) (c₄.pos % 256) (c₄.pos / 256 % 256) :: δ₃)
        = instrs ++ (δ₁ ++ EInstr.i3 (opByte Op.JumpIf)
            ((c₃.emit_word Op.Jump 0).pos % 256) ((c₃.emit_word Op.Jump 0).pos / 256 % 256)
            :: δ₂ ++ EInstr.i3 (opByte Op.Jump) (c₄.pos % 256) (c₄.pos / 256 % 256) :: δ₃)
        from by simp] at hgF

theorem step_stmt_sub {fuel : Nat} {name : Str} {params : List Str} {body : List Stmt}
    {c c' : Compiler}
    (ih1 : ∀ l c c', compile_stmts fuel l c = .ok c' → CompStep c c')
    (h : compile_stmt (fuel + 1) (.Sub name params body) c = .ok c') : CompStep c c' := by
  simp only [compile_stmt] at h
  obtain ⟨c₄, hbody, h⟩ := except_bind_ok h
  have hbody' : compile_stmts fuel body
      (registerParams params 0
        (({ c.emit_word Op.Jump 0 with
            subs := ainsert (c.emit_word Op.Jump 0).subs name
              ((c.emit_word Op.Jump 0).pos, params.length % 256) }).push_scope.emit_byte
          Op.EnterFrame params.length)) = .ok c₄ := hbody
  injection h with h
  subst h
  have hRfields := registerParams_fields params 0
    (({ c.emit_word Op.Jump 0 with
        subs := ainsert (c.emit_word Op.Jump 0).subs name
          ((c.emit_word Op.Jump 0).pos, params.length % 256) }).push_scope.emit_byte
      Op.EnterFrame params.length)
  have hRlen : (registerParams params 0
      (({ c.emit_word Op.Jump 0 with
          subs := ainsert (c.emit_word Op.Jump 0).subs name
            ((c.emit_word Op.Jump 0).pos, params.length % 256) }).push_scope.emit_byte
        Op.EnterFrame params.length)).module.code.length = c.module.code.length + 5 := by
    rw [hRfields.1]
    show ((c.module.code ++ [opByte Op.Jump, 0 % 256, 0 / 256 % 256])
        ++ [opByte Op.EnterFrame, params.length % 256]).length = c.module.code.length + 5
    simp
  have hRstr : (registerParams params 0
      (({ c.emit_word Op.Jump 0 with
          subs := ainsert (c.emit_word Op.Jump 0).subs name
            ((c.emit_word Op.Jump 0).pos, params.length % 256) }).push_scope.emit_byte
        Op.EnterFrame params.length)).module.strings = c.module.strings := by
    rw [hRfields.1]
    rfl
  have hRrefs : (registerParams params 0
      (({ c.emit_word Op.Jump 0 with
          subs := ainsert (c.emit_word Op.Jump 0).subs name
            ((c.emit_word Op.Jump 0).pos, params.length % 256) }).push_scope.emit_byte
        Op.EnterFrame params.length)).forward_refs = c.forward_refs := by
    rw [hRfields.2.1]
    rfl
  have hRloop : (registerParams params 0
      (({ c.emit_word Op.Jump 0 with
          subs := ainsert (c.emit_word Op.Jump 0).subs name
            ((c.emit_word Op.Jump 0).pos, params.length % 256) }).push_scope.emit_byte
        Op.EnterFrame params.length)).loop_stack = c.loop_stack := by
    rw [hRfields.2.2]
    rfl
  have e4 : c.module.code.length + 5 ≤ c₄.module.code.length := by
    have := (ih1 _ _ _ hbody').1.1
    omega
  have st4 : c.module.strings.length ≤ c₄.module.strings.length := by
    have := (ih1 _ _ _ hbody').1.2.1
    rw [hRstr] at this
    exact this
  have hm4 : c₄.loop_stack.map Prod.fst = c.loop_stack.map Prod.fst := by
    have := (ih1 _ _ _ hbody').1.2.2.1
    rw [hRloop] at this
    exact this
  have hfin : ((((c₄.emit Op.LeaveFrame).emit Op.Return).pop_scope).patch_addr
      (c.pos + 1) (((c₄.emit Op.LeaveFrame).emit Op.Return).pop_scope).pos).module.code.length
      = c₄.module.code.length + 2 := by
    simp [Compiler.patch_addr, Module.patch_addr, Compiler.emit, Module.emit,
      Compiler.pop_scope]
  refine ⟨⟨by omega, ?_, ?_, ?_⟩, ?_⟩
  · show c.module.strings.length ≤ (((((c₄.emit Op.LeaveFrame).emit
      Op.Return).pop_scope).patch_addr (c.pos + 1)
      (((c₄.emit Op.LeaveFrame).emit Op.Return).pop_scope).pos)).module.strings.length
    have : (((((c₄.emit Op.LeaveFrame).emit Op.Return).pop_scope).patch_addr (c.pos + 1)
        (((c₄.emit Op.LeaveFrame).emit Op.Return).pop_scope).pos)).module.strings
        = c₄.module.strings := by
      simp [Compiler.patch_addr, Module.patch_addr, Compiler.emit, Module.emit,
        Compiler.pop_scope]
    rw [this]
    exact st4
  · show c₄.loop_stack.map Prod.fst = c.loop_stack.map Prod.fst
    exact hm4
  · intro hi
    have i0 : Inv5 (registerParams params 0
        (({ c.emit_word Op.Jump 0 with
            subs := ainsert (c.emit_word Op.Jump 0).subs name
              ((c.emit_word Op.Jump 0).pos, params.length % 256) }).push_scope.emit_byte
          Op.EnterFrame params.length)) := by
      intro r hm
      rw [hRrefs] at hm
      have := hi r hm
      rw [hRlen]
      omega
    have i4 := (ih1 _ _ _ hbody').1.2.2.2 i0
    intro r hm
    have hx : ((((c₄.emit Op.LeaveFrame).emit Op.Return).pop_scope).patch_addr
        (c.pos + 1) (((c₄.emit Op.LeaveFrame).emit Op.Return).pop_scope).pos).forward_refs
        = c₄.forward_refs := rfl
    rw [hx] at hm
    have := i4 r hm
    rw [hfin]
    omega
  · intro instrs hg hlt
    have hlt4 : c₄.module.code.length < 65536 := by omega
    have hcpos : c.pos = (encodeList instrs).length := by
      rw [pos_eq_of_lt (by omega), hg.1]
    have hgB := @good_emit_word c instrs Op.Jump 0 hg (by decide)
      (fun hpb => absurd hpb (by decide))
    have hgR : Good (registerParams params 0
        (({ c.emit_word Op.Jump 0 with
            subs := ainsert (c.emit_word Op.Jump 0).subs name
              ((c.emit_word Op.Jump 0).pos, params.length % 256) }).push_scope.emit_byte
          Op.EnterFrame params.length))
        ((instrs ++ [EInstr.i3 (opByte Op.Jump) (0 % 256) (0 / 256 % 256)])
          ++ [EInstr.i2 (opByte Op.EnterFrame) (params.length % 256)]) := by
      have hmid := @good_emit_byte
        (({ c.emit_word Op.Jump 0 with
            subs := ainsert (c.emit_word Op.Jump 0).subs name
              ((c.emit_word Op.Jump 0).pos, params.length % 256) }).push_scope)
        (instrs ++ [EInstr.i3 (opByte Op.Jump) (0 % 256) (0 / 256 % 256)])
        Op.EnterFrame params.length
        (good_congr hgB rfl (le_refl _) rfl rfl) (by decide)
      exact good_congr hmid (by rw [hRfields.1]) (le_of_eq (by rw [hRfields.1]))
        hRfields.2.1 hRfields.2.2
    obtain ⟨δ, hg4⟩ := (ih1 _ _ _ hbody').2 _ hgR (by omega)
    have hgD := good_emit (good_emit hg4 (by decide : Op.LeaveFrame.size = 1))
      (by decide : Op.Return.size = 1)
    have hgP : Good (((c₄.emit Op.LeaveFrame).emit Op.Return).pop_scope)
        (instrs ++ EInstr.i3 (opByte Op.Jump) (0 % 256) (0 / 256 % 256)
          :: ([EInstr.i2 (opByte Op.EnterFrame) (params.length % 256)] ++ δ
            ++ [EInstr.i1 (opByte Op.LeaveFrame)] ++ [EInstr.i1 (opByte Op.Return)])) := by
      have := good_congr hgD rfl (le_refl _) rfl rfl
      rwa [show ((((instrs ++ [EInstr.i3 (opByte Op.Jump) (0 % 256) (0 / 256 % 256)])
          ++ [EInstr.i2 (opByte Op.EnterFrame) (params.length % 256)]) ++ δ)
          ++ [EInstr.i1 (opByte Op.LeaveFrame)]) ++ [EInstr.i1 (opByte Op.Return)]
        = instrs ++ EInstr.i3 (opByte Op.Jump) (0 % 256) (0 / 256 % 256)
          :: ([EInstr.i2 (opByte Op.EnterFrame) (params.length % 256)] ++ δ
            ++ [EInstr.i1 (opByte Op.LeaveFrame)] ++ [EInstr.i1 (opByte Op.Return)])
        from by simp] at this
    have hgF := @good_patch _ instrs _ _ _ _
      (((c₄.emit Op.LeaveFrame).emit Op.Return).pop_scope).pos hgP (by decide)
    rw [← hcpos] at hgF
    exact ⟨_, hgF⟩

theorem binOpOpcode_size : ∀ (b : BinOp) (o : Op), binOpOpcode b = some o → o.size = 1 := by
  intro b o h
  cases b <;> first
    | exact Option.noConfusion h
    | (simp only [binOpOpcode, Option.some.injEq] at h; rw [← h]; decide)

theorem opAssignOpcode_size : ∀ (b : BinOp) (o : Op), opAssignOpcode b = some o → o.size = 1 := by
  intro b o h
  cases b <;> first
    | exact Option.noConfusion h
    | (simp only [opAssignOpcode, Option.some.injEq] at h; rw [← h]; decide)

/-- String interning followed by the `PushStr` emission: the invariant
survives because the interned index is in range. -/
theorem compStep_pushstr (c : Compiler) (s : Str) {idx : Nat} {m : Module}
    (hadd : c.module.add_string s = (idx, m)) :
    CompStep c (({ c with module := m }).emit_word Op.PushStr idx) := by
  have hsp := add_string_spec c.module s
  rw [hadd] at hsp
  have h1 : m.code = c.module.code := hsp.1
  have h2 : c.module.strings.length ≤ m.strings.length := hsp.2.1
  have h3 : idx < 65536 := hsp.2.2.1
  have h4 : idx < m.strings.length := hsp.2.2.2.1
  have s0 : CompStep c { c with module := m } := by
    refine ⟨⟨le_of_eq (by rw [h1]), h2, rfl, ?_⟩,
      fun instrs hg _ =>
        ⟨[], by simpa using @good_congr c { c with module := m } instrs hg h1 h2 rfl rfl⟩⟩
    intro hi r hm
    show r.2 + 2 ≤ m.code.length
    rw [h1]
    exact hi r hm
  refine compStep_trans s0 ⟨mk_ext (extc_emit_word _ Op.PushStr idx) rfl,
    fun instrs hg _ => ?_⟩
  refine ⟨[EInstr.i3 (opByte Op.PushStr) (idx % 256) (idx / 256 % 256)],
    good_emit_word hg (by decide) ?_⟩
  intro _
  show idx % 256 + 256 * (idx / 256 % 256) < m.strings.length
  rw [u16_split h3]
  exact h4

theorem step_expr_call {fuel : Nat} {name : Str} {args : List Expr} {c c' : Compiler}
    (ih5 : ∀ l c c', compile_args fuel l c = .ok c' → CompStep c c')
    (h : compile_expr (fuel + 1) (.Call name args) c = .ok c') : CompStep c c' := by
  simp only [compile_expr] at h
  obtain ⟨c₁, hargs, h⟩ := except_bind_ok h
  cases hsub : alookup c₁.subs name with
  | some v =>
    rw [hsub] at h
    obtain ⟨addr, np⟩ := v
    injection h with h
    subst h
    exact compStep_trans (ih5 _ _ _ hargs)
      (compStep_emit_word Op.Call addr (by decide) (by decide))
  | none =>
    rw [hsub] at h
    injection h with h
    subst h
    set A : Compiler := { c₁ with forward_refs := c₁.forward_refs ++ [(name, c₁.pos + 1)] }
      with hA
    have hAm : A.module = c₁.module := rfl
    have hlen3 : (A.emit_word Op.Call 0).module.code.length
        = c₁.module.code.length + 3 := by
      simp [Compiler.emit_word, Module.emit_word, hAm]
    refine compStep_trans (ih5 _ _ _ hargs)
      ⟨⟨by rw [hlen3]; omega, le_refl _, rfl, ?_⟩, ?_⟩
    · intro hi r hm
      rw [hlen3]
      rcases List.mem_append.mp hm with hm | hm
      · have := hi r hm
        omega
      · rcases List.mem_singleton.mp hm with rfl
        show c₁.pos + 1 + 2 ≤ _
        have := pos_le c₁
        omega
    · intro instrs hg hlt
      rw [hlen3] at hlt
      have hpos : c₁.pos = (encodeList instrs).length := by
        rw [pos_eq_of_lt (by omega), hg.1]
      obtain ⟨hcode, hwf, hrefs, hloop⟩ := hg
      refine ⟨[EInstr.i3 (opByte Op.Call) (0 % 256) (0 / 256 % 256)], ?_, ?_, ?_, ?_⟩
      · show c₁.module.code ++ [opByte Op.Call, 0 % 256, 0 / 256 % 256] = _
        rw [hcode, encodeList_append, encodeList_cons]
        rfl
      · intro i hi
        rcases List.mem_append.mp hi with hi | hi
        · exact hwf i hi
        · rcases List.mem_singleton.mp hi with rfl
          refine ⟨?_, fun hb => absurd hb (by decide)⟩
          show (Op.fromByte (opByte Op.Call)).size = 3
          decide
      · intro r hm
        rcases List.mem_append.mp hm with hm | hm
        · exact wordSlot_append (hrefs r hm) _
        · rcases List.mem_singleton.mp hm with rfl
          show CallSlot _ (c₁.pos + 1)
          rw [hpos]
          exact wordSlot_at_end instrs _ _ _ rfl
      · intro e he
        refine ⟨?_, fun p hp =>
          ⟨wordSlot_append ((hloop e he).2 p hp).1 _, ((hloop e he).2 p hp).2⟩⟩
        calc e.1 ≤ (encodeList instrs).length := (hloop e he).1
          _ ≤ _ := by rw [encodeList_append]; simp

theorem step_expr_ternary {fuel : Nat} {cond te ee : Expr} {c c' : Compiler}
    (ih8 : ∀ e c c', compile_expr fuel e c = .ok c' → CompStep c c')
    (h : compile_expr (fuel + 1) (.Ternary cond te ee) c = .ok c') : CompStep c c' := by
  simp only [compile_expr] at h
  obtain ⟨c₁, hc1, h⟩ := except_bind_ok h
  obtain ⟨c₃, hthen, h⟩ := except_bind_ok h
  have hthen' : compile_expr fuel te (c₁.emit_word Op.JumpIfNot 0) = .ok c₃ := hthen
  obtain ⟨c₄, helse, h⟩ := except_bind_ok h
  have helse' : compile_expr fuel ee
      ((c₃.emit_word Op.Jump 0).patch_addr (c₁.pos + 1) (c₃.emit_word Op.Jump 0).pos)
    = .ok c₄ := helse
  injection h with h
  subst h
  have e1 : c.module.code.length ≤ c₁.module.code.length := (ih8 _ _ _ hc1).1.1
  have e2 : c₁.module.code.length + 3 ≤ c₃.module.code.length := by
    have hx : (c₁.emit_word Op.JumpIfNot 0).module.code.length
        = c₁.module.code.length + 3 := by
      simp [Compiler.emit_word, Module.emit_word]
    have := (ih8 _ _ _ hthen').1.1
    omega
  have hElen : ((c₃.emit_word Op.Jump 0).patch_addr (c₁.pos + 1)
      (c₃.emit_word Op.Jump 0).pos).module.code.length = c₃.module.code.length + 3 := by
    simp [Compiler.emit_word, Module.emit_word, Compiler.patch_addr, Module.patch_addr]
  have hEstr : ((c₃.emit_word Op.Jump 0).patch_addr (c₁.pos + 1)
      (c₃.emit_word Op.Jump 0).pos).module.strings = c₃.module.strings := by
    simp [Compiler.emit_word, Module.emit_word, Compiler.patch_addr, Module.patch_addr]
  have e3 : c₃.module.code.length + 3 ≤ c₄.module.code.length := by
    have := (ih8 _ _ _ helse').1.1
    omega
  have st1 : c.module.strings.length ≤ c₁.module.strings.length := (ih8 _ _ _ hc1).1.2.1
  have st2 : c₁.module.strings.length ≤ c₃.module.strings.length := (ih8 _ _ _ hthen').1.2.1
  have st3 : c₃.module.strings.length ≤ c₄.module.strings.length := by
    have := (ih8 _ _ _ helse').1.2.1
    rw [hEstr] at this
    exact this
  have hm1 : c₁.loop_stack.map Prod.fst = c.loop_stack.map Prod.fst := (ih8 _ _ _ hc1).1.2.2.1
  have hm2 : c₃.loop_stack.map Prod.fst = c₁.loop_stack.map Prod.fst :=
    (ih8 _ _ _ hthen').1.2.2.1
  have hm3 : c₄.loop_stack.map Prod.fst = c₃.loop_stack.map Prod.fst :=
    (ih8 _ _ _ helse').1.2.2.1
  have hfinlen : (c₄.patch_addr (c₃.pos + 1) c₄.pos).module.code.length
      = c₄.module.code.length := by
    simp [Compiler.patch_addr, Module.patch_addr]
  refine ⟨⟨?_, ?_, ?_, ?_⟩, ?_⟩
  · show c.module.code.length ≤ (c₄.patch_addr (c₃.pos + 1) c₄.pos).module.code.length
    omega
  · show c.module.strings.length ≤ (c₄.patch_addr (c₃.pos + 1) c₄.pos).module.strings.length
    have hps : (c₄.patch_addr (c₃.pos + 1) c₄.pos).module.strings = c₄.module.strings := rfl
    rw [hps]
    omega
  · show c₄.loop_stack.map Prod.fst = c.loop_stack.map Prod.fst
    rw [hm3, hm2, hm1]
  · intro hi
    have i1 := (ih8 _ _ _ hc1).1.2.2.2 hi
    have i2 := (ih8 _ _ _ hthen').1.2.2.2 ((extc_emit_word c₁ Op.JumpIfNot 0).2.2 i1)
    have i3 := (extc_patch (c₃.emit_word Op.Jump 0) (c₁.pos + 1)
      (c₃.emit_word Op.Jump 0).pos).2.2 ((extc_emit_word c₃ Op.Jump 0).2.2 i2)
    have i4 := (ih8 _ _ _ helse').1.2.2.2 i3
    exact (extc_patch c₄ (c₃.pos + 1) c₄.pos).2.2 i4
  · intro instrs hg hlt
    have hlt4 : c₄.module.code.length < 65536 := by omega
    obtain ⟨δ₁, hg1⟩ := (ih8 _ _ _ hc1).2 instrs hg (by omega)
    have hg1' : Good c₁ (instrs ++ δ₁) := hg1
    have hgB := @good_emit_word c₁ (instrs ++ δ₁) Op.JumpIfNot 0 hg1' (by decide)
      (fun hpb => absurd hpb (by decide))
    obtain ⟨δ₂, hg3⟩ := (ih8 _ _ _ hthen').2 _ hgB (by omega)
    have hgD := @good_emit_word c₃ _ Op.Jump 0 hg3 (by decide)
      (fun hpb => absurd hpb (by decide))
    have hre : ((((instrs ++ δ₁)
          ++ [EInstr.i3 (opByte Op.JumpIfNot) (0 % 256) (0 / 256 % 256)]) ++ δ₂)
          ++ [EInstr.i3 (opByte Op.Jump) (0 % 256) (0 / 256 % 256)])
        = (instrs ++ δ₁) ++ EInstr.i3 (opByte Op.JumpIfNot) (0 % 256) (0 / 256 % 256)
            :: (δ₂ ++ [EInstr.i3 (opByte Op.Jump) (0 % 256) (0 / 256 % 256)]) := by
      simp
    rw [hre] at hgD
    have hc1pos : c₁.pos = (encodeList (instrs ++ δ₁)).length := by
      rw [pos_eq_of_lt (by omega), hg1'.1]
    have hgE := good_patch (c₃.emit_word Op.Jump 0).pos hgD (by decide)
    rw [← hc1pos] at hgE
    obtain ⟨δ₃, hg4⟩ := (ih8 _ _ _ helse').2 _ hgE (by omega)
    have hc3pos : c₃.pos = (encodeList ((instrs ++ δ₁)
        ++ EInstr.i3 (opByte Op.JumpIfNot)
          ((c₃.emit_word Op.Jump 0).pos % 256) ((c₃.emit_word Op.Jump 0).pos / 256 % 256)
          :: δ₂)).length := by
      rw [pos_eq_of_lt (by omega), hg3.1]
      simp [encodeList_append, encodeList_cons, EInstr.encode]
    have hsh : (((instrs ++ δ₁)
          ++ EInstr.i3 (opByte Op.JumpIfNot)
            ((c₃.emit_word Op.Jump 0).pos % 256) ((c₃.emit_word Op.Jump 0).pos / 256 % 256)
            :: (δ₂ ++ [EInstr.i3 (opByte Op.Jump) (0 % 256) (0 / 256 % 256)])) ++ δ₃)
        = ((instrs ++ δ₁)
          ++ EInstr.i3 (opByte Op.JumpIfNot)
            ((c₃.emit_word Op.Jump 0).pos % 256) ((c₃.emit_word Op.Jump 0).pos / 256 % 256)
            :: δ₂)
          ++ EInstr.i3 (opByte Op.Jump) (0 % 256) (0 / 256 % 256) :: δ₃ := by
      simp
    rw [hsh] at hg4
    have hgF := good_patch c₄.pos hg4 (by decide)
    rw [show ((encodeList ((instrs ++ δ₁)
        ++ EInstr.i3 (opByte Op.JumpIfNot)
          ((c₃.emit_word Op.Jump 0).pos % 256) ((c₃.emit_word Op.Jump 0).pos / 256 % 256)
          :: δ₂)).length + 1) = c₃.pos + 1 from by rw [hc3pos]] at hgF
    refine ⟨δ₁ ++ EInstr.i3 (opByte Op.JumpIfNot)
        ((c₃.emit_word Op.Jump 0).pos % 256) ((c₃.emit_word Op.Jump 0).pos / 256 % 256)
        :: δ₂ ++ EInstr.i3 (opByte Op.Jump) (c₄.pos % 256) (c₄.pos / 256 % 256) :: δ₃, ?_⟩
    rwa [show (((instrs ++ δ₁)
        ++ EInstr.i3 (opByte Op.JumpIfNot)
          ((c₃.emit_word Op.Jump 0).pos % 256) ((c₃.emit_word Op.Jump 0).pos / 256 % 256)
          :: δ₂)
        ++ EInstr.i3 (opByte Op.Jump) (c₄.pos % 256) (c₄.pos / 256 % 256) :: δ₃)
      = instrs ++ (δ₁ ++ EInstr.i3 (opByte Op.JumpIfNot)
          ((c₃.emit_word Op.Jump 0).pos % 256) ((c₃.emit_word Op.Jump 0).pos / 256 % 256)
          :: δ₂ ++ EInstr.i3 (opByte Op.Jump) (c₄.pos % 256) (c₄.pos / 256 % 256) :: δ₃)
      from by simp] at hgF

/-- Master dispatch: every function of the compiler's mutual block satisfies
the `CompStep` contract, by induction on the fuel. -/
theorem compile_step_all : ∀ fuel : Nat,
    (∀ l c c', compile_stmts fuel l c = .ok c' → CompStep c c')
    ∧ (∀ s c c', compile_stmt fuel s c = .ok c' → CompStep c c')
    ∧ (∀ bs ej c r, compile_elsifs fuel bs ej c = .ok r → CompStepE ej c r)
    ∧ (∀ l c c', compile_print_args fuel l c = .ok c' → CompStep c c')
    ∧ (∀ l c c', compile_args fuel l c = .ok c' → CompStep c c')
    ∧ (∀ l i c c', compile_list_items fuel l i c = .ok c' → CompStep c c')
    ∧ (∀ l c c', compile_hash_items fuel l c = .ok c' → CompStep c c')
    ∧ (∀ e c c', compile_expr fuel e c = .ok c' → CompStep c c')
    ∧ (∀ e c c', compile_assign_expr fuel e c = .ok c' → CompStep c c') := by
  intro fuel
  induction fuel with
  | zero =>
    refine ⟨fun l c c' h => ?_, fun s c c' h => ?_, fun bs ej c r h => ?_,
      fun l c c' h => ?_, fun l c c' h => ?_, fun l i c c' h => ?_,
      fun l c c' h => ?_, fun e c c' h => ?_, fun e c c' h => ?_⟩
    · simp only [compile_stmts] at h
      exact Except.noConfusion h
    · simp only [compile_stmt] at h
      exact Except.noConfusion h
    · simp only [compile_elsifs] at h
      exact Except.noConfusion h
    · simp only [compile_print_args] at h
      exact Except.noConfusion h
    · simp only [compile_args] at h
      exact Except.noConfusion h
    · simp only [compile_list_items] at h
      exact Except.noConfusion h
    · simp only [compile_hash_items] at h
      exact Except.noConfusion h
    · simp only [compile_expr] at h
      exact Except.noConfusion h
    · simp only [compile_assign_expr] at h
      exact Except.noConfusion h
  | succ fuel ih =>
    obtain ⟨ih1, ih2, ih3, ih4, ih5, ih6, ih7, ih8, ih9⟩ := ih
    refine ⟨fun l c c' h => ?_, fun s c c' h => ?_, fun bs ej c r h => ?_,
      fun l c c' h => ?_, fun l c c' h => ?_, fun l i c c' h => ?_,
      fun l c c' h => ?_, fun e c c' h => ?_, fun e c c' h => ?_⟩
    · -- compile_stmts
      cases l with
      | nil =>
        simp only [compile_stmts] at h
        injection h with h
        subst h
        exact compStep_refl c
      | cons s rest =>
        simp only [compile_stmts] at h
        obtain ⟨c₁, h1, h2⟩ := except_bind_ok h
        exact compStep_trans (ih2 _ _ _ h1) (ih1 _ _ _ h2)
    · -- compile_stmt
      cases s with
      | Expr e => exact step_stmt_expr ih8 h
      | My vars init => exact step_stmt_my ih8 h
      | Our vars init => exact step_stmt_our ih8 h
      | If cond tb eb ob => exact step_stmt_if ih8 ih1 ih3 h
      | Unless cond tb ob => exact step_stmt_unless ih8 ih1 h
      | While cond body => exact (step_stmt_while ih8 ih1 h).1
      | Until cond body => exact step_stmt_until ih8 ih1 h
      | For i0 cnd st body => exact step_stmt_for ih2 ih8 ih1 h
      | Foreach v lst body => exact step_stmt_foreach ih8 ih1 h
      | Last => exact step_stmt_last h
      | Next => exact step_stmt_next h
      | Return e => exact step_stmt_return ih8 h
      | Sub n ps body => exact step_stmt_sub ih1 h
      | Print args =>
        simp only [compile_stmt] at h
        exact ih4 _ _ _ h
      | Say args => exact step_stmt_say ih4 h
      | Block stmts => exact step_stmt_block ih1 h
      | Use m =>
        simp only [compile_stmt] at h
        injection h with h
        subst h
        exact compStep_refl c
      | Package p =>
        simp only [compile_stmt] at h
        injection h with h
        subst h
        exact compStep_refl c
    · -- compile_elsifs
      exact step_elsifs ih8 ih1 ih3 h
    · -- compile_print_args
      cases l with
      | nil =>
        simp only [compile_print_args] at h
        injection h with h
        subst h
        exact compStep_refl c
      | cons e rest =>
        simp only [compile_print_args] at h
        obtain ⟨c₁, h1, h2⟩ := except_bind_ok h
        exact compStep_trans (compStep_trans (ih8 _ _ _ h1)
          (compStep_emit Op.Print (by decide))) (ih4 _ _ _ h2)
    · -- compile_args
      cases l with
      | nil =>
        simp only [compile_args] at h
        injection h with h
        subst h
        exact compStep_refl c
      | cons e rest =>
        simp only [compile_args] at h
        obtain ⟨c₁, h1, h2⟩ := except_bind_ok h
        exact compStep_trans (ih8 _ _ _ h1) (ih5 _ _ _ h2)
    · -- compile_list_items
      cases l with
      | nil =>
        simp only [compile_list_items] at h
        injection h with h
        subst h
        exact compStep_refl c
      | cons item rest =>
        simp only [compile_list_items] at h
        obtain ⟨c₁, h1, h2⟩ := except_bind_ok h
        exact compStep_trans (compStep_trans (compStep_trans (compStep_trans
          (compStep_emit Op.Dup (by decide))
          (compStep_emit_word Op.Push (i % 65536) (by decide) (by decide)))
          (ih8 _ _ _ h1))
          (compStep_emit Op.ArrSet (by decide)))
          (ih6 _ _ _ _ h2)
    · -- compile_hash_items
      cases l with
      | nil =>
        simp only [compile_hash_items] at h
        injection h with h
        subst h
        exact compStep_refl c
      | cons kv rest =>
        obtain ⟨k, v⟩ := kv
        simp only [compile_hash_items] at h
        obtain ⟨c₁, h1, h⟩ := except_bind_ok h
        obtain ⟨c₂, h2, h3⟩ := except_bind_ok h
        exact compStep_trans (compStep_trans (compStep_trans (compStep_trans
          (compStep_emit Op.Dup (by decide)) (ih8 _ _ _ h1)) (ih8 _ _ _ h2))
          (compStep_emit Op.HashSet (by decide))) (ih7 _ _ _ h3)
    · -- compile_expr
      cases e with
      | Integer n =>
        simp only [compile_expr] at h
        injection h with h
        subst h
        exact compStep_emit_word Op.Push (toU16 n) (by decide) (by decide)
      | Float text =>
        simp only [compile_expr] at h
        injection h with h
        subst h
        exact compStep_emit_word Op.Push (floatTruncU16 text) (by decide) (by decide)
      | String s =>
        simp only [compile_expr] at h
        rcases hadd : c.module.add_string s with ⟨idx, m⟩
        rw [hadd] at h
        injection h with h
        subst h
        exact compStep_pushstr c s hadd
      | ScalarVar name =>
        simp only [compile_expr] at h
        cases hfl : c.find_local name with
        | some idx =>
          rw [hfl] at h
          injection h with h
          subst h
          exact compStep_emit_byte Op.LoadLocal idx (by decide)
        | none =>
          rw [hfl] at h
          cases hgl : alookup c.globals name with
          | some idx =>
            rw [hgl] at h
            injection h with h
            subst h
            exact compStep_emit_word Op.LoadGlobal idx (by decide) (by decide)
          | none =>
            rw [hgl] at h
            exact Except.noConfusion h
      | ArrayVar name =>
        simp only [compile_expr] at h
        cases hfl : c.find_local name with
        | some idx =>
          rw [hfl] at h
          injection h with h
          subst h
          exact compStep_emit_byte Op.LoadLocal idx (by decide)
        | none =>
          rw [hfl] at h
          cases hgl : alookup c.globals name with
          | some idx =>
            rw [hgl] at h
            injection h with h
            subst h
            exact compStep_emit_word Op.LoadGlobal idx (by decide) (by decide)
          | none =>
            rw [hgl] at h
            exact Except.noConfusion h
      | HashVar name =>
        simp only [compile_expr] at h
        cases hfl : c.find_local name with
        | some idx =>
          rw [hfl] at h
          injection h with h
          subst h
          exact compStep_emit_byte Op.LoadLocal idx (by decide)
        | none =>
          rw [hfl] at h
          cases hgl : alookup c.globals name with
          | some idx =>
            rw [hgl] at h
            injection h with h
            subst h
            exact compStep_emit_word Op.LoadGlobal idx (by decide) (by decide)
          | none =>
            rw [hgl] at h
            exact Except.noConfusion h
      | ArrayIndex arr idx =>
        simp only [compile_expr] at h
        obtain ⟨c₁, h1, h⟩ := except_bind_ok h
        obtain ⟨c₂, h2, h3⟩ := except_bind_ok h
        injection h3 with h3
        subst h3
        exact compStep_trans (compStep_trans (ih8 _ _ _ h1) (ih8 _ _ _ h2))
          (compStep_emit Op.ArrGet (by decide))
      | HashIndex hsh key =>
        simp only [compile_expr] at h
        obtain ⟨c₁, h1, h⟩ := except_bind_ok h
        obtain ⟨c₂, h2, h3⟩ := except_bind_ok h
        injection h3 with h3
        subst h3
        exact compStep_trans (compStep_trans (ih8 _ _ _ h1) (ih8 _ _ _ h2))
          (compStep_emit Op.HashGet (by decide))
      | BinOp left op right =>
        simp only [compile_expr] at h
        obtain ⟨c₁, h1, h⟩ := except_bind_ok h
        obtain ⟨c₂, h2, h3⟩ := except_bind_ok h
        cases hop : binOpOpcode op with
        | some opcode =>
          rw [hop] at h3
          injection h3 with h3
          subst h3
          exact compStep_trans (compStep_trans (ih8 _ _ _ h1) (ih8 _ _ _ h2))
            (compStep_emit opcode (binOpOpcode_size op opcode hop))
        | none =>
          rw [hop] at h3
          exact Except.noConfusion h3
      | UnaryOp op e =>
        simp only [compile_expr] at h
        obtain ⟨c₁, h1, h2⟩ := except_bind_ok h
        cases op with
        | Neg =>
          injection h2 with h2
          subst h2
          exact compStep_trans (ih8 _ _ _ h1) (compStep_emit Op.Neg (by decide))
        | Not =>
          injection h2 with h2
          subst h2
          exact compStep_trans (ih8 _ _ _ h1) (compStep_emit Op.Not (by decide))
        | BitNot =>
          injection h2 with h2
          subst h2
          exact compStep_trans (ih8 _ _ _ h1) (compStep_emit Op.BitNot (by decide))
        | Ref => exact Except.noConfusion h2
      | PreIncrement e =>
        simp only [compile_expr] at h
        obtain ⟨c₁, h1, h2⟩ := except_bind_ok h
        exact compStep_trans (compStep_trans (compStep_trans (compStep_trans
          (compStep_emit Op.Dup (by decide)) (ih8 _ _ _ h1))
          (compStep_emit Op.Inc (by decide))) (compStep_emit Op.Dup (by decide)))
          (ih9 _ _ _ h2)
      | PreDecrement e =>
        simp only [compile_expr] at h
        obtain ⟨c₁, h1, h2⟩ := except_bind_ok h
        exact compStep_trans (compStep_trans (compStep_trans (compStep_trans
          (compStep_emit Op.Dup (by decide)) (ih8 _ _ _ h1))
          (compStep_emit Op.Dec (by decide))) (compStep_emit Op.Dup (by decide)))
          (ih9 _ _ _ h2)
      | PostIncrement e =>
        simp only [compile_expr] at h
        obtain ⟨c₁, h1, h2⟩ := except_bind_ok h
        exact compStep_trans (compStep_trans (compStep_trans
          (ih8 _ _ _ h1) (compStep_emit Op.Dup (by decide)))
          (compStep_emit Op.Inc (by decide))) (ih9 _ _ _ h2)
      | PostDecrement e =>
        simp only [compile_expr] at h
        obtain ⟨c₁, h1, h2⟩ := except_bind_ok h
        exact compStep_trans (compStep_trans (compStep_trans
          (ih8 _ _ _ h1) (compStep_emit Op.Dup (by decide)))
          (compStep_emit Op.Dec (by decide))) (ih9 _ _ _ h2)
      | Assign target value =>
        simp only [compile_expr] at h
        obtain ⟨c₁, h1, h2⟩ := except_bind_ok h
        exact compStep_trans (compStep_trans (ih8 _ _ _ h1)
          (compStep_emit Op.Dup (by decide))) (ih9 _ _ _ h2)
      | OpAssign target op value =>
        simp only [compile_expr] at h
        obtain ⟨c₁, h1, h⟩ := except_bind_ok h
        obtain ⟨c₂, h2, h3⟩ := except_bind_ok h
        cases hop : opAssignOpcode op with
        | some opcode =>
          rw [hop] at h3
          exact compStep_trans (compStep_trans (compStep_trans (compStep_trans
            (ih8 _ _ _ h1) (ih8 _ _ _ h2))
            (compStep_emit opcode (opAssignOpcode_size op opcode hop)))
            (compStep_emit Op.Dup (by decide))) (ih9 _ _ _ h3)
        | none =>
          rw [hop] at h3
          exact Except.noConfusion h3
      | Call name args => exact step_expr_call ih5 h
      | MethodCall obj m args =>
        simp only [compile_expr] at h
        obtain ⟨c₁, h1, h⟩ := except_bind_ok h
        obtain ⟨c₂, h2, h3⟩ := except_bind_ok h
        exact Except.noConfusion h3
      | List items =>
        simp only [compile_expr] at h
        exact compStep_trans
          (compStep_emit_byte Op.NewArray items.length (by decide)) (ih6 _ _ _ _ h)
      | Hash pairs =>
        simp only [compile_expr] at h
        exact compStep_trans (compStep_emit Op.NewHash (by decide)) (ih7 _ _ _ h)
      | Ternary cnd te ee => exact step_expr_ternary ih8 h
      | Range lo hi =>
        simp only [compile_expr] at h
        exact Except.noConfusion h
      | Match e pat fl =>
        simp only [compile_expr] at h
        obtain ⟨c₁, h1, h2⟩ := except_bind_ok h
        rcases hadd : c₁.module.add_string pat with ⟨idx, m⟩
        rw [hadd] at h2
        injection h2 with h2
        subst h2
        exact compStep_trans (compStep_trans (ih8 _ _ _ h1)
          (compStep_pushstr c₁ pat hadd)) (compStep_emit Op.Match (by decide))
      | NotMatch e pat fl =>
        simp only [compile_expr] at h
        obtain ⟨c₁, h1, h2⟩ := except_bind_ok h
        rcases hadd : c₁.module.add_string pat with ⟨idx, m⟩
        rw [hadd] at h2
        injection h2 with h2
        subst h2
        exact compStep_trans (compStep_trans (compStep_trans (ih8 _ _ _ h1)
          (compStep_pushstr c₁ pat hadd)) (compStep_emit Op.Match (by decide)))
          (compStep_emit Op.Not (by decide))
      | Ref e =>
        simp only [compile_expr] at h
        exact Except.noConfusion h
      | Deref e =>
        simp only [compile_expr] at h
        exact Except.noConfusion h
    · -- compile_assign_expr
      cases e with
      | ScalarVar name =>
        simp only [compile_assign_expr] at h
        cases hfl : c.find_local name with
        | some idx =>
          rw [hfl] at h
          injection h with h
          subst h
          exact compStep_emit_byte Op.StoreLocal idx (by decide)
        | none =>
          rw [hfl] at h
          cases hgl : alookup c.globals name with
          | some idx =>
            rw [hgl] at h
            injection h with h
            subst h
            exact compStep_emit_word Op.StoreGlobal idx (by decide) (by decide)
          | none =>
            rw [hgl] at h
            injection h with h
            subst h
            have hf := insert_local_fields c name (c.innermost.length % 256)
            exact compStep_trans
              (compStep_congr2 (by rw [hf.1]) (by rw [hf.1]) hf.2.1 hf.2.2.1)
              (compStep_emit_byte Op.StoreLocal (c.innermost.length % 256) (by decide))
      | ArrayIndex arr idx =>
        simp only [compile_assign_expr] at h
        obtain ⟨c₁, h1, h⟩ := except_bind_ok h
        obtain ⟨c₂, h2, h3⟩ := except_bind_ok h
        injection h3 with h3
        subst h3
        exact compStep_trans (compStep_trans (ih8 _ _ _ h1) (ih8 _ _ _ h2))
          (compStep_emit Op.ArrSet (by decide))
      | HashIndex hsh key =>
        simp only [compile_assign_expr] at h
        obtain ⟨c₁, h1, h⟩ := except_bind_ok h
        obtain ⟨c₂, h2, h3⟩ := except_bind_ok h
        injection h3 with h3
        subst h3
        exact compStep_trans (compStep_trans (ih8 _ _ _ h1) (ih8 _ _ _ h2))
          (compStep_emit Op.HashSet (by decide))
      | Integer n => simp only [compile_assign_expr] at h; exact Except.noConfusion h
      | Float text => simp only [compile_assign_expr] at h; exact Except.noConfusion h
      | String s => simp only [compile_assign_expr] at h; exact Except.noConfusion h
      | ArrayVar name => simp only [compile_assign_expr] at h; exact Except.noConfusion h
      | HashVar name => simp only [compile_assign_expr] at h; exact Except.noConfusion h
      | BinOp l0 op r0 => simp only [compile_assign_expr] at h; exact Except.noConfusion h
      | UnaryOp op e0 => simp only [compile_assign_expr] at h; exact Except.noConfusion h
      | PreIncrement e0 => simp only [compile_assign_expr] at h; exact Except.noConfusion h
      | PreDecrement e0 => simp only [compile_assign_expr] at h; exact Except.noConfusion h
      | PostIncrement e0 => simp only [compile_assign_expr] at h; exact Except.noConfusion h
      | PostDecrement e0 => simp only [compile_assign_expr] at h; exact Except.noConfusion h
      | Assign t0 v0 => simp only [compile_assign_expr] at h; exact Except.noConfusion h
      | OpAssign t0 op v0 => simp only [compile_assign_expr] at h; exact Except.noConfusion h
      | Call n0 a0 => simp only [compile_assign_expr] at h; exact Except.noConfusion h
      | MethodCall o0 m0 a0 => simp only [compile_assign_expr] at h; exact Except.noConfusion h
      | List items => simp only [compile_assign_expr] at h; exact Except.noConfusion h
      | Hash pairs => simp only [compile_assign_expr] at h; exact Except.noConfusion h
      | Ternary c0 t0 e0 => simp only [compile_assign_expr] at h; exact Except.noConfusion h
      | Range lo hi => simp only [compile_assign_expr] at h; exact Except.noConfusion h
      | Match e0 p0 f0 => simp only [compile_assign_expr] at h; exact Except.noConfusion h
      | NotMatch e0 p0 f0 => simp only [compile_assign_expr] at h; exact Except.noConfusion h
      | Ref e0 => simp only [compile_assign_expr] at h; exact Except.noConfusion h
      | Deref e0 => simp only [compile_assign_expr] at h; exact Except.noConfusion h

/-! ## Finalisation: the patch loop at the end of `Compiler::compile` -/

theorem patch_refs_len : ∀ (rs : List (Str × Nat)) (c c' : Compiler),
    patch_forward_refs rs c = .ok c' →
    c'.module.code.length = c.module.code.length
      ∧ c'.module.strings = c.module.strings := by
  intro rs
  induction rs with
  | nil =>
    intro c c' h
    rw [patch_forward_refs] at h
    injection h with h
    subst h
    exact ⟨rfl, rfl⟩
  | cons r rest ih =>
    intro c c' h
    obtain ⟨name, p⟩ := r
    rw [patch_forward_refs] at h
    cases hs : alookup c.subs name with
    | some v =>
      obtain ⟨addr, np⟩ := v
      rw [hs] at h
      have hr := ih _ _ h
      refine ⟨?_, hr.2⟩
      rw [hr.1]
      show ((c.module.code.set p _).set (p + 1) _).length = _
      simp [List.length_set]
    | none =>
      rw [hs] at h
      exact Except.noConfusion h

theorem ends_replace {l₁ l₂ l₀ : List EInstr} {b x y n : Nat} (x' y' : Nat)
    (h : l₁ ++ EInstr.i3 b x y :: l₂ = l₀ ++ [EInstr.i1 n]) :
    ∃ l₀', l₁ ++ EInstr.i3 b x' y' :: l₂ = l₀' ++ [EInstr.i1 n] := by
  rcases List.eq_nil_or_concat l₂ with rfl | ⟨l₂', e, rfl⟩
  · exfalso
    have h1 : (l₁ ++ [EInstr.i3 b x y]).getLast? = some (EInstr.i3 b x y) :=
      List.getLast?_concat _
    rw [h, List.getLast?_concat] at h1
    exact EInstr.noConfusion (Option.some.inj h1)
  · rw [List.concat_eq_append] at h ⊢
    have h1 : ((l₁ ++ EInstr.i3 b x y :: l₂') ++ [e]).getLast? = some e :=
      List.getLast?_concat _
    rw [show (l₁ ++ EInstr.i3 b x y :: l₂') ++ [e] = l₁ ++ EInstr.i3 b x y :: (l₂' ++ [e])
      from by simp] at h1
    rw [h, List.getLast?_concat] at h1
    have he : e = EInstr.i1 n := (Option.some.inj h1).symm
    exact ⟨l₁ ++ EInstr.i3 b x' y' :: l₂', by rw [he]; simp⟩

/-- The forward-reference patch loop preserves `Good` (each patch lands in a
`Call` operand slot) and keeps a trailing one-byte instruction in place. -/
theorem patch_refs_good : ∀ (rs : List (Str × Nat)) (c : Compiler) (instrs : List EInstr)
    (c' : Compiler),
    patch_forward_refs rs c = .ok c' →
    Good c instrs →
    (∀ r ∈ rs, CallSlot instrs r.2) →
    ∃ instrs', Good c' instrs'
      ∧ ∀ l₀ n, instrs = l₀ ++ [EInstr.i1 n] → ∃ l₀', instrs' = l₀' ++ [EInstr.i1 n] := by
  intro rs
  induction rs with
  | nil =>
    intro c instrs c' h hg _
    rw [patch_forward_refs] at h
    injection h with h
    subst h
    exact ⟨instrs, hg, fun l₀ n hl => ⟨l₀, hl⟩⟩
  | cons r rest ih =>
    intro c instrs c' h hg hcs
    obtain ⟨name, p⟩ := r
    rw [patch_forward_refs] at h
    cases hs : alookup c.subs name with
    | some v =>
      obtain ⟨addr, np⟩ := v
      rw [hs] at h
      obtain ⟨l₁, l₂, b, x, y, hdec, hb, hp⟩ := hcs (name, p) (List.mem_cons_self _ _)
      have hg2 := @good_patch c l₁ l₂ b x y addr
        (by rw [← hdec]; exact hg) (by rw [hb, fromByte_opByte]; decide)
      have hp' : p = (encodeList l₁).length + 1 := hp
      have hgp : Good (c.patch_addr p addr)
          (l₁ ++ EInstr.i3 b (addr % 256) (addr / 256 % 256) :: l₂) := by
        rw [hp']; exact hg2
      have hrest : ∀ r ∈ rest,
          CallSlot (l₁ ++ EInstr.i3 b (addr % 256) (addr / 256 % 256) :: l₂) r.2 := by
        intro r hr
        have hone := hcs r (List.mem_cons_of_mem _ hr)
        rw [hdec] at hone
        exact wordSlot_replace hone
      obtain ⟨instrs', hgood', hends'⟩ := ih _ _ _ h hgp hrest
      refine ⟨instrs', hgood', ?_⟩
      intro l₀ n hl
      obtain ⟨l₀', hrep⟩ := ends_replace (addr % 256) (addr / 256 % 256) (hdec.symm.trans hl)
      exact hends' l₀' n hrep
    | none =>
      rw [hs] at h
      exact Except.noConfusion h

/-- The invariant holds of the initial state: pass 1 only seeds `subs`. -/
theorem good_pass1 (stmts : List Stmt) : Good (pass1 stmts Compiler.new) [] := by
  have hf := pass1_fields stmts Compiler.new
  refine ⟨by rw [hf.1]; rfl, fun i hi => absurd hi (List.not_mem_nil i),
    fun r hr => ?_, fun e he => ?_⟩
  · rw [hf.2.1] at hr
    exact absurd hr (List.not_mem_nil r)
  · rw [hf.2.2.1] at he
    exact absurd he (List.not_mem_nil e)

/-- Every successfully compiled module (within the 16-bit code space) is a
well-formed instruction stream whose `PushStr` operands index the string
pool and which ends in the one-byte `Halt` instruction. -/
theorem compile_good {fuel : Nat} {prog : Program} {m : Module}
    (h : compile fuel prog = .ok m) (hlt : m.code.length < 65536) :
    ∃ instrs, m.code = encodeList instrs
      ∧ (∀ i ∈ instrs, i.wf ∧ i.okStr m.strings.length)
      ∧ ∃ l₀, instrs = l₀ ++ [EInstr.i1 (opByte Op.Halt)] := by
  unfold compile at h
  obtain ⟨c₁, h1, h⟩ := except_bind_ok h
  obtain ⟨c₃, h3, h⟩ := except_bind_ok h
  injection h with h
  subst h
  have hlen := patch_refs_len _ _ _ h3
  have hlt3 : c₃.module.code.length < 65536 := hlt
  have hc2eq : (c₁.emit Op.Halt).module.code.length = c₁.module.code.length + 1 := by
    show (c₁.module.code ++ [opByte Op.Halt]).length = _
    simp
  have hc1lt : c₁.module.code.length < 65536 := by
    have := hlen.1
    omega
  obtain ⟨δ, hg1⟩ := ((compile_step_all fuel).1 _ _ _ h1).2 [] (good_pass1 _) hc1lt
  have hg1' : Good c₁ δ := by simpa using hg1
  have hg2 : Good (c₁.emit Op.Halt) (δ ++ [EInstr.i1 (opByte Op.Halt)]) :=
    good_emit hg1' (by decide)
  obtain ⟨instrs', hgood', hends'⟩ := patch_refs_good _ _ _ _ h3 hg2 hg2.2.2.1
  exact ⟨instrs', hgood'.1, hgood'.2.1, hends' δ (opByte Op.Halt) rfl⟩

/-! ## String-pool lemmas for C4 -/

theorem findPos_get? {s : Str} : ∀ {l : List Str} {i : Nat},
    findPos s l = some i → l.get? i = some s := by
  intro l
  induction l with
  | nil => intro i h; exact Option.noConfusion h
  | cons a rest ih =>
    intro i h
    unfold findPos at h
    by_cases ha : a = s
    · rw [if_pos ha] at h
      injection h with h
      subst h
      simp [ha]
    · rw [if_neg ha] at h
      cases hr : findPos s rest with
      | none => rw [hr] at h; exact Option.noConfusion h
      | some j =>
        simp only [hr, Option.map_some', Option.some.injEq] at h
        subst h
        exact ih hr

theorem findPos_none {s : Str} : ∀ {l : List Str}, findPos s l = none → s ∉ l := by
  intro l
  induction l with
  | nil => intro _; exact List.not_mem_nil s
  | cons a rest ih =>
    intro h hmem
    unfold findPos at h
    by_cases ha : a = s
    · rw [if_pos ha] at h; exact Option.noConfusion h
    · rcases List.mem_cons.mp hmem with rfl | hm
      · exact ha rfl
      · cases hr : findPos s rest with
        | none => exact ih hr hm
        | some j => rw [hr, if_neg ha] at h; exact Option.noConfusion h

theorem findPos_of_mem {s : Str} : ∀ {l : List Str}, s ∈ l → ∃ i, findPos s l = some i := by
  intro l
  induction l with
  | nil => intro h; exact absurd h (List.not_mem_nil s)
  | cons a rest ih =>
    intro h
    unfold findPos
    by_cases ha : a = s
    · exact ⟨0, by rw [if_pos ha]⟩
    · rcases List.mem_cons.mp h with rfl | hm
      · exact absurd rfl ha
      · obtain ⟨i, hi⟩ := ih hm
        exact ⟨i + 1, by rw [if_neg ha, hi]; rfl⟩

theorem add_string_nodup (m : Module) (s : Str) (hnd : m.strings.Nodup) :
    (m.add_string s).2.strings.Nodup := by
  unfold Module.add_string
  cases hf : findPos s m.strings with
  | some i => exact hnd
  | none =>
    have hs := findPos_none hf
    show (m.strings ++ [s]).Nodup
    simp [List.nodup_append, hnd, hs]

/-- C4: `Module::add_string` keeps the string pool duplicate-free: interning
a string already in the pool returns the index of its existing occurrence
and leaves the pool unchanged; interning a new string appends it (and, while
the pool is within the `u16` index space, returns its position); and in
every successfully compiled module whose code fits the 16-bit address space,
the decode walk finds every `PushStr` operand strictly below the string-pool
size. -/
theorem c4_string_pool :
    (∀ (m : Module) (s : Str), m.strings.Nodup → (m.add_string s).2.strings.Nodup)
    ∧ (∀ (m : Module) (s : Str), s ∈ m.strings →
        (m.add_string s).2 = m
        ∧ (m.strings.length ≤ 65536 → m.strings.get? (m.add_string s).1 = some s))
    ∧ (∀ (m : Module) (s : Str), s ∉ m.strings →
        (m.add_string s).2.strings = m.strings ++ [s]
        ∧ (m.strings.length < 65536 → (m.add_string s).1 = m.strings.length))
    ∧ (∀ (fuel : Nat) (prog : Program) (m : Module),
        compile fuel prog = .ok m → m.code.length < 65536 →
        pushStrOk m.code m.strings.length = true) := by
  refine ⟨add_string_nodup, ?_, ?_, ?_⟩
  · intro m s hmem
    obtain ⟨i, hi⟩ := findPos_of_mem hmem
    have hilt := findPos_lt hi
    unfold Module.add_string
    rw [hi]
    refine ⟨rfl, fun hle => ?_⟩
    show m.strings.get? (i % 65536) = some s
    rw [Nat.mod_eq_of_lt (by omega)]
    exact findPos_get? hi
  · intro m s hmem
    cases hf : findPos s m.strings with
    | some i => exact absurd (List.get?_mem (findPos_get? hf)) hmem
    | none =>
      unfold Module.add_string
      rw [hf]
      exact ⟨rfl, fun hlt => Nat.mod_eq_of_lt hlt⟩
  · intro fuel prog m h hlt
    obtain ⟨instrs, hcode, hok, _⟩ := compile_good h hlt
    rw [hcode]
    exact pushStrOk_of_encode instrs _ hok

/-- Concrete instance discharging C4's hypotheses: interning into an empty
pool, re-interning into a one-string pool, and the decode walk of the
compiled empty program. -/
theorem c4_witness :
    (Module.new.add_string "a").2.strings.Nodup
    ∧ ((({ Module.new with strings := ["a"] } : Module).add_string "a").2
          = { Module.new with strings := ["a"] }
        ∧ (["a"] : List Str).get?
            ((({ Module.new with strings := ["a"] } : Module).add_string "a").1) = some "a")
    ∧ ((Module.new.add_string "a").2.strings = [] ++ ["a"]
        ∧ (Module.new.add_string "a").1 = 0)
    ∧ pushStrOk
        ({ strings := [], globals := [], subs := [], code := [240], entry := 0 } : Module).code
        ({ strings := [], globals := [], subs := [], code := [240], entry := 0 } :
          Module).strings.length = true := by
  refine ⟨c4_string_pool.1 Module.new "a" (by decide), ?_, ?_, ?_⟩
  · have h := c4_string_pool.2.1 { Module.new with strings := ["a"] } "a" (by decide)
    exact ⟨h.1, h.2 (by decide)⟩
  · have h := c4_string_pool.2.2.1 Module.new "a" (by decide)
    exact ⟨h.1, h.2 (by decide)⟩
  · exact c4_string_pool.2.2.2 1 { statements := [] }
      { strings := [], globals := [], subs := [], code := [240], entry := 0 } rfl (by decide)

/-- C5: for every program on which compilation succeeds (and whose code
fits the 16-bit address space the `pos()` casts presuppose), the final byte
of the returned module's code is the `Halt` opcode `0xF0`: the finalisation
patch loop only rewrites `Call` operand slots, which lie strictly inside
earlier instructions, so it never overwrites the trailing `Halt`. -/
theorem c5_halt_last {fuel : Nat} {prog : Program} {m : Module}
    (h : compile fuel prog = .ok m) (hlt : m.code.length < 65536) :
    m.code.getLast? = some (opByte Op.Halt) ∧ opByte Op.Halt = 240 := by
  obtain ⟨instrs, hcode, _, l₀, hends⟩ := compile_good h hlt
  refine ⟨?_, rfl⟩
  rw [hcode, hends, encodeList_append]
  rw [show encodeList [EInstr.i1 (opByte Op.Halt)] = [opByte Op.Halt] from rfl]
  exact List.getLast?_concat _

/-- Concrete instance discharging C5's hypotheses: the empty program
compiles to a module whose one byte of code is `Halt`. -/
theorem c5_witness :
    ({ strings := [], globals := [], subs := [], code := [240], entry := 0 } :
        Module).code.getLast? = some (opByte Op.Halt)
      ∧ opByte Op.Halt = 240 :=
  @c5_halt_last 1 { statements := [] }
    { strings := [], globals := [], subs := [], code := [240], entry := 0 } rfl (by decide)

/-- C7: compiling `last` or `next` returns an error exactly when the loop
stack is empty; with a loop entry `(cont, brks) :: rest` on the stack,
`last` records its operand position and emits `Jump 0` while `next` emits
`Jump cont` to the recorded continue target, with no error; and for a
`while` loop compiled from a state satisfying the invariant, every break
position the body recorded in the loop entry holds, in the finished loop's
code, the loop's one-past-the-end address (the `last` jumps are patched to
the loop's end). -/
theorem c7_last_next : ∀ (fuel : Nat) (c : Compiler),
    ((∃ msg, compile_stmt (fuel + 1) Stmt.Last c = .error msg) ↔ c.loop_stack = [])
    ∧ ((∃ msg, compile_stmt (fuel + 1) Stmt.Next c = .error msg) ↔ c.loop_stack = [])
    ∧ (∀ cont brks rest, c.loop_stack = (cont, brks) :: rest →
        compile_stmt (fuel + 1) Stmt.Last c
            = .ok (({ c with
                loop_stack := (cont, brks ++ [c.pos + 1]) :: rest }).emit_word Op.Jump 0)
          ∧ compile_stmt (fuel + 1) Stmt.Next c = .ok (c.emit_word Op.Jump cont))
    ∧ (∀ (cond : Expr) (body : List Stmt) (c' c₂ c₃ : Compiler)
          (instrs : List EInstr) (cont : Nat) (bj : List Nat) (rest : List (Nat × List Nat)),
        compile_stmt (fuel + 1) (.While cond body) c = .ok c' →
        Good c instrs →
        compile_expr fuel cond { c with loop_stack := (c.pos, []) :: c.loop_stack } = .ok c₂ →
        compile_stmts fuel body (c₂.emit_word Op.JumpIfNot 0) = .ok c₃ →
        c'.module.code.length < 65536 →
        c₃.loop_stack = (cont, bj) :: rest →
        ∃ L, c'.module.code = encodeList L
          ∧ ∀ p ∈ bj, ValSlot L p c'.module.code.length) := by
  intro fuel c
  obtain ⟨ih1, ih2, ih3, ih4, ih5, ih6, ih7, ih8, ih9⟩ := compile_step_all fuel
  refine ⟨⟨?_, ?_⟩, ⟨?_, ?_⟩, ?_, ?_⟩
  · rintro ⟨msg, hmsg⟩
    cases hls : c.loop_stack with
    | nil => rfl
    | cons e rest =>
      obtain ⟨cont, bj⟩ := e
      simp only [compile_stmt] at hmsg
      rw [hls] at hmsg
      exact Except.noConfusion hmsg
  · intro hls
    refine ⟨"'last' outside of loop", ?_⟩
    simp only [compile_stmt]
    rw [hls]
  · rintro ⟨msg, hmsg⟩
    cases hls : c.loop_stack with
    | nil => rfl
    | cons e rest =>
      obtain ⟨cont, bj⟩ := e
      simp only [compile_stmt] at hmsg
      rw [hls] at hmsg
      exact Except.noConfusion hmsg
  · intro hls
    refine ⟨"'next' outside of loop", ?_⟩
    simp only [compile_stmt]
    rw [hls]
  · intro cont brks rest hls
    constructor
    · simp only [compile_stmt]
      rw [hls]
    · simp only [compile_stmt]
      rw [hls]
  · intro cond body c' c₂x c₃x instrs cont bj rest hw hg hc2 hc3 hlt hstack
    exact (step_stmt_while ih8 ih1 hw).2 instrs c₂x c₃x hg hc2 hc3 hlt cont bj rest hstack

/-- Concrete instance discharging C7's hypotheses: `last` from the empty
loop stack errors; from a one-entry stack, `last` and `next` emit their
jumps; and for `while (1) { last; }` the recorded break position 7 holds
the loop's end address in the finished code. -/
theorem c7_witness :
    ((∃ msg, compile_stmt 9 Stmt.Last Compiler.new = .error msg)
        ↔ Compiler.new.loop_stack = [])
    ∧ compile_stmt 9 Stmt.Last { Compiler.new with loop_stack := [(0, [])] }
        = .ok (({ Compiler.new with loop_stack := [(0, [1])] }).emit_word Op.Jump 0)
    ∧ compile_stmt 9 Stmt.Next { Compiler.new with loop_stack := [(0, [])] }
        = .ok (({ Compiler.new with loop_stack := [(0, [])] }).emit_word Op.Jump 0)
    ∧ ∃ L, [1, 1, 0, 98, 12, 0, 96, 12, 0, 96, 0, 0] = encodeList L
        ∧ ∀ p ∈ [7], ValSlot L p 12 := by
  refine ⟨(c7_last_next 8 Compiler.new).1, ?_, ?_, ?_⟩
  · exact ((c7_last_next 8 _).2.2.1 0 [] [] rfl).1
  · exact ((c7_last_next 8 _).2.2.1 0 [] [] rfl).2
  · exact (c7_last_next 8 Compiler.new).2.2.2 (Expr.Integer 1) [Stmt.Last] _ _ _ [] 0 [7] []
      rfl (good_pass1 []) rfl rfl (by decide) rfl

end MicroPerl
